import Mathlib

/-! # chemsim: molecular graph, UFF atom typing, force field and optimizer

A shallow embedding of the `chemsim` engine (`molecule.cpp`, `element_data.cpp`,
`uff_typing.cpp`, `uff_energy.cpp`, `optimizer.cpp`).

* Atom indices and loop counters are natural numbers; atomic numbers and bond
  orders are integers, as in the source.
* `double` arithmetic is kept abstract: the numeric carrier `F` only has to
  provide the operations the source uses (class `Arith`); no algebraic law is
  assumed, so every statement about evaluation order holds for IEEE doubles as
  well as for the reals.
* Loops that only `push_back` are written with `List.flatMap`, `List.map` and
  `List.filter` in the iteration order of the source; loops that accumulate are
  folds.
* A C++ exception is an `Except String` result.
* The UFF parameter table is not among the sources: `get_uff_params` and
  `has_uff_type` are parameters of the functions that call them.
* A method that mutates its object takes the state before the call and returns
  the state after it; the progress callback of the optimizer is an observer
  whose invocations are recorded in order.
* Statements about derivatives, and the concrete optimizer runs, use the real
  interpretation `instArithReal`.
-/

namespace chemsim

/-! ## Data model (`molecule.h`) -/

/-- Three doubles, the `Eigen::Vector3d` of the source. -/
structure Vec3 (F : Type) where
  x : F
  y : F
  z : F

/-- An atom: atomic number, symbol as parsed, position in angstroms. -/
structure Atom (F : Type) where
  atomic_number : Int
  symbol : String
  position : Vec3 F

/-- A bond: two atom indices and an order (1 single, 2 double, 3 triple, 4 aromatic). -/
structure Bond where
  atom_i : Nat
  atom_j : Nat
  order : Int
  deriving DecidableEq, Repr

/-- The molecular graph: parallel sequences of atoms and bonds. -/
structure Molecule (F : Type) where
  atoms : List (Atom F)
  bonds : List Bond

namespace Molecule

variable {F : Type}

/-- Model of `Atom()` of the source: atomic number 0, empty symbol, zero position. -/
def default_atom [Inhabited F] : Atom F := ⟨0, "", ⟨default, default, default⟩⟩

def num_atoms (mol : Molecule F) : Nat := mol.atoms.length

def num_bonds (mol : Molecule F) : Nat := mol.bonds.length

/-- Model of `mol.atom(i)`; an out-of-range read (undefined in the source) yields `Atom()`. -/
def atom [Inhabited F] (mol : Molecule F) (i : Nat) : Atom F := mol.atoms.getD i default_atom

def add_atom (mol : Molecule F) (a : Atom F) : Molecule F := { mol with atoms := mol.atoms ++ [a] }

def add_bond (mol : Molecule F) (b : Bond) : Molecule F := { mol with bonds := mol.bonds ++ [b] }

/-- One step of the loop of `adjacency_list`: both endpoints learn of each other.
A write outside `adj` (undefined in the source) changes nothing. -/
def adjacency_step (adj : List (List Nat)) (b : Bond) : List (List Nat) :=
  (adj.modify (fun l => l ++ [b.atom_j]) b.atom_i).modify (fun l => l ++ [b.atom_i]) b.atom_j

/-- Model of `Molecule::adjacency_list`. -/
def adjacency_list (mol : Molecule F) : List (List Nat) :=
  mol.bonds.foldl adjacency_step (List.replicate mol.atoms.length [])

/-- Model of `Molecule::degree`: the number of bonds that mention the atom. -/
def degree (mol : Molecule F) (atom_idx : Nat) : Nat :=
  mol.bonds.foldl
    (fun count b => if b.atom_i = atom_idx ∨ b.atom_j = atom_idx then count + 1 else count) 0

/-- Model of `Molecule::bonded_to`. -/
def bonded_to (mol : Molecule F) (atom_idx : Nat) : List Nat :=
  mol.bonds.foldl
    (fun neighbors b =>
      if b.atom_i = atom_idx then neighbors ++ [b.atom_j]
      else if b.atom_j = atom_idx then neighbors ++ [b.atom_i]
      else neighbors) []

/-- Model of `Molecule::bond_order_between`: the order of the first matching bond, else 0. -/
def bond_order_between (mol : Molecule F) (i j : Nat) : Int :=
  match mol.bonds.find? (fun b => (b.atom_i == i && b.atom_j == j) || (b.atom_i == j && b.atom_j == i)) with
  | some b => b.order
  | none => 0

end Molecule

/-! ## Arithmetic on `double` -/

/-- The operations on `double` that the engine uses: the four operations, the
comparisons, decimal literals, the conversion of an `int`, `M_PI` and the
`<cmath>` functions. No law is assumed of them. -/
class Arith (F : Type) extends Add F, Sub F, Mul F, Div F, Neg F, LT F, LE F, OfScientific F where
  ofInt : Int → F
  pi : F
  sqrt : F → F
  log : F → F
  cos : F → F
  sin : F → F
  acos : F → F
  abs : F → F
  decLt : DecidableRel (fun a b : F => a < b)
  decLe : DecidableRel (fun a b : F => a ≤ b)

instance Arith.instDecLt {F : Type} [Arith F] : DecidableRel (fun a b : F => a < b) := Arith.decLt

instance Arith.instDecLe {F : Type} [Arith F] : DecidableRel (fun a b : F => a ≤ b) := Arith.decLe

section numeric

variable {F : Type} [Arith F]

/-- Model of `std::min(a, b)`: `b` when `b < a`, else `a`. -/
def fmin (a b : F) : F := if b < a then b else a

/-- Model of `std::max(a, b)`: `b` when `a < b`, else `a`. -/
def fmax (a b : F) : F := if a < b then b else a

namespace Vec3

def add (a b : Vec3 F) : Vec3 F := ⟨a.x + b.x, a.y + b.y, a.z + b.z⟩

def sub (a b : Vec3 F) : Vec3 F := ⟨a.x - b.x, a.y - b.y, a.z - b.z⟩

def neg (a : Vec3 F) : Vec3 F := ⟨-a.x, -a.y, -a.z⟩

/-- Scalar times vector. -/
def smul (s : F) (a : Vec3 F) : Vec3 F := ⟨s * a.x, s * a.y, s * a.z⟩

/-- Vector divided by a scalar. -/
def sdiv (a : Vec3 F) (s : F) : Vec3 F := ⟨a.x / s, a.y / s, a.z / s⟩

def dot (a b : Vec3 F) : F := a.x * b.x + a.y * b.y + a.z * b.z

def cross (a b : Vec3 F) : Vec3 F :=
  ⟨a.y * b.z - a.z * b.y, a.z * b.x - a.x * b.z, a.x * b.y - a.y * b.x⟩

def squaredNorm (a : Vec3 F) : F := a.x * a.x + a.y * a.y + a.z * a.z

def norm (a : Vec3 F) : F := Arith.sqrt (squaredNorm a)

end Vec3

end numeric

/-! ## Element table (`element_data.cpp`) -/

/-- A row of the periodic table (the display colour is left out). -/
structure ElementInfo (F : Type) where
  atomic_number : Int
  symbol : String
  name : String
  mass : F
  covalent_radius : F
  vdw_radius : F

section element_data

variable {F : Type} [Arith F]

/-- Model of `ELEMENT_TABLE`: row `z` describes the element of atomic number `z`; row 0 is a placeholder. -/
def ELEMENT_TABLE : List (ElementInfo F) :=
  [
    ⟨0, "X", "Dummy", 0.000, 0.00, 0.00⟩, ⟨1, "H", "Hydrogen", 1.008, 0.31, 1.20⟩,
    ⟨2, "He", "Helium", 4.003, 0.28, 1.40⟩, ⟨3, "Li", "Lithium", 6.941, 1.28, 1.82⟩,
    ⟨4, "Be", "Beryllium", 9.012, 0.96, 1.53⟩, ⟨5, "B", "Boron", 10.811, 0.84, 1.92⟩,
    ⟨6, "C", "Carbon", 12.011, 0.76, 1.70⟩, ⟨7, "N", "Nitrogen", 14.007, 0.71, 1.55⟩,
    ⟨8, "O", "Oxygen", 15.999, 0.66, 1.52⟩, ⟨9, "F", "Fluorine", 18.998, 0.57, 1.47⟩,
    ⟨10, "Ne", "Neon", 20.180, 0.58, 1.54⟩, ⟨11, "Na", "Sodium", 22.990, 1.66, 2.27⟩,
    ⟨12, "Mg", "Magnesium", 24.305, 1.41, 1.73⟩, ⟨13, "Al", "Aluminum", 26.982, 1.21, 1.84⟩,
    ⟨14, "Si", "Silicon", 28.086, 1.11, 2.10⟩, ⟨15, "P", "Phosphorus", 30.974, 1.07, 1.80⟩,
    ⟨16, "S", "Sulfur", 32.065, 1.05, 1.80⟩, ⟨17, "Cl", "Chlorine", 35.453, 1.02, 1.75⟩,
    ⟨18, "Ar", "Argon", 39.948, 1.06, 1.88⟩, ⟨19, "K", "Potassium", 39.098, 2.03, 2.75⟩,
    ⟨20, "Ca", "Calcium", 40.078, 1.76, 2.31⟩, ⟨21, "Sc", "Scandium", 44.956, 1.70, 2.11⟩,
    ⟨22, "Ti", "Titanium", 47.867, 1.60, 1.87⟩, ⟨23, "V", "Vanadium", 50.942, 1.53, 1.79⟩,
    ⟨24, "Cr", "Chromium", 51.996, 1.39, 1.89⟩, ⟨25, "Mn", "Manganese", 54.938, 1.39, 1.97⟩,
    ⟨26, "Fe", "Iron", 55.845, 1.32, 1.94⟩, ⟨27, "Co", "Cobalt", 58.933, 1.26, 1.92⟩,
    ⟨28, "Ni", "Nickel", 58.693, 1.24, 1.63⟩, ⟨29, "Cu", "Copper", 63.546, 1.32, 1.40⟩,
    ⟨30, "Zn", "Zinc", 65.380, 1.22, 1.39⟩, ⟨31, "Ga", "Gallium", 69.723, 1.22, 1.87⟩,
    ⟨32, "Ge", "Germanium", 72.640, 1.20, 2.11⟩, ⟨33, "As", "Arsenic", 74.922, 1.19, 1.85⟩,
    ⟨34, "Se", "Selenium", 78.960, 1.20, 1.90⟩, ⟨35, "Br", "Bromine", 79.904, 1.20, 1.85⟩,
    ⟨36, "Kr", "Krypton", 83.798, 1.16, 2.02⟩, ⟨37, "Rb", "Rubidium", 85.468, 2.20, 3.03⟩,
    ⟨38, "Sr", "Strontium", 87.620, 1.95, 2.49⟩, ⟨39, "Y", "Yttrium", 88.906, 1.90, 2.19⟩,
    ⟨40, "Zr", "Zirconium", 91.224, 1.75, 1.86⟩, ⟨41, "Nb", "Niobium", 92.906, 1.64, 2.07⟩,
    ⟨42, "Mo", "Molybdenum", 95.960, 1.54, 2.09⟩, ⟨43, "Tc", "Technetium", 98.000, 1.47, 2.09⟩,
    ⟨44, "Ru", "Ruthenium", 101.070, 1.46, 2.07⟩, ⟨45, "Rh", "Rhodium", 102.906, 1.42, 1.95⟩,
    ⟨46, "Pd", "Palladium", 106.420, 1.39, 2.02⟩, ⟨47, "Ag", "Silver", 107.868, 1.45, 1.72⟩,
    ⟨48, "Cd", "Cadmium", 112.411, 1.44, 1.58⟩, ⟨49, "In", "Indium", 114.818, 1.42, 1.93⟩,
    ⟨50, "Sn", "Tin", 118.710, 1.39, 2.17⟩, ⟨51, "Sb", "Antimony", 121.760, 1.39, 2.06⟩,
    ⟨52, "Te", "Tellurium", 127.600, 1.38, 2.06⟩, ⟨53, "I", "Iodine", 126.905, 1.39, 1.98⟩,
    ⟨54, "Xe", "Xenon", 131.293, 1.40, 2.16⟩]

/-- Model of `NUM_ELEMENTS`, the number of rows of the table. -/
def NUM_ELEMENTS : Nat := 55

/-- Model of `element_by_number`: the row of index `atomic_number`, or an out-of-range error. -/
def element_by_number (atomic_number : Int) : Except String (ElementInfo F) :=
  if atomic_number < 0 ∨ atomic_number ≥ (NUM_ELEMENTS : Int) then
    .error ("Atomic number " ++ toString atomic_number ++ " out of range")
  else
    .ok ((ELEMENT_TABLE (F := F)).getD atomic_number.toNat ⟨0, "X", "Dummy", 0.000, 0.00, 0.00⟩)

end element_data

/-! ## Bond perception (`Molecule::perceive_bonds`) -/

section perceive

variable {F : Type} [Arith F] [Inhabited F]

/-- The body of the inner loop of `perceive_bonds` for the pair `i < j`: the
bond list after this iteration, or the out-of-range error of the radius lookup. -/
def perceive_step (mol : Molecule F) (tolerance : F) (i : Nat) (bonds : List Bond) (j : Nat) :
    Except String (List Bond) := do
  let dist := ((mol.atom i).position.sub (mol.atom j).position).norm
  let ri := (← element_by_number (F := F) (mol.atom i).atomic_number).covalent_radius
  let rj := (← element_by_number (F := F) (mol.atom j).atomic_number).covalent_radius
  let max_bond := ri + rj + tolerance
  let min_bond : F := 0.4
  if min_bond ≤ dist ∧ dist ≤ max_bond then pure (bonds ++ [⟨i, j, 1⟩]) else pure bonds

/-- Model of `Molecule::perceive_bonds`: the bond list is emptied and refilled from the
pairs `i < j` in loop order. -/
def Molecule.perceive_bonds (mol : Molecule F) (tolerance : F) : Except String (Molecule F) := do
  let n := mol.num_atoms
  let bonds ← (List.range n).foldlM
    (fun bonds i => (List.range' (i + 1) (n - (i + 1))).foldlM (perceive_step mol tolerance i) bonds)
    []
  pure { mol with bonds := bonds }

end perceive

/-! ## UFF atom typing (`uff_typing.cpp`) -/

section typing

variable {F : Type} [Inhabited F]

/-- The aromaticity scan shared by the C, N and O cases: some bonded neighbour
is a carbon of degree 3. -/
def aromatic_scan (mol : Molecule F) (i : Nat) : Bool :=
  (mol.bonded_to i).any (fun n => (mol.atom n).atomic_number == 6 && mol.degree n == 3)

/-- The body of the loop of `assign_uff_types` for atom `i`; `has_uff_type` is the
lookup of the UFF parameter table. -/
def uff_type_of (has_uff_type : String → Bool) (mol : Molecule F) (i : Nat) : Except String String :=
  let atom := mol.atom i
  let deg := mol.degree i
  match atom.atomic_number with
  | 1 => .ok "H_"
  | 2 => .ok "He4+4"
  | 3 => .ok "Li"
  | 4 => .ok "Be3+2"
  | 5 => if deg ≤ 2 then .ok "B_2" else .ok "B_3"
  | 6 =>
    if deg ≤ 1 then .ok "C_1"
    else if deg = 2 then .ok "C_2"
    else if deg = 3 then (if aromatic_scan mol i then .ok "C_R" else .ok "C_2")
    else .ok "C_3"
  | 7 =>
    if deg ≤ 1 then .ok "N_1"
    else if deg = 2 then .ok "N_2"
    else if deg = 3 then (if aromatic_scan mol i then .ok "N_R" else .ok "N_3")
    else .ok "N_3"
  | 8 =>
    if deg ≤ 1 then .ok "O_2"
    else if deg = 2 then (if aromatic_scan mol i then .ok "O_R" else .ok "O_3")
    else .ok "O_3"
  | 9 => .ok "F_"
  | 10 => .ok "Ne4+4"
  | 11 => .ok "Na"
  | 12 => .ok "Mg3+2"
  | 13 => .ok "Al3"
  | 14 => .ok "Si3"
  | 15 => if deg ≤ 3 then .ok "P_3+3" else .ok "P_3+5"
  | 16 =>
    if deg ≤ 2 then .ok "S_3+2"
    else if deg ≤ 4 then .ok "S_3+4"
    else .ok "S_3+6"
  | 17 => .ok "Cl"
  | 18 => .ok "Ar4+4"
  | 19 => .ok "K_"
  | 20 => .ok "Ca6+2"
  | 26 => .ok "Fe3+2"
  | 27 => .ok "Co6+3"
  | 28 => .ok "Ni4+2"
  | 29 => .ok "Cu3+1"
  | 30 => .ok "Zn3+2"
  | 35 => .ok "Br"
  | 53 => .ok "I_"
  | _ =>
    if has_uff_type (atom.symbol ++ "_3") then .ok (atom.symbol ++ "_3")
    else if has_uff_type (atom.symbol ++ "_") then .ok (atom.symbol ++ "_")
    else if has_uff_type atom.symbol then .ok atom.symbol
    else .error ("No UFF type for element: " ++ atom.symbol ++
      " (Z=" ++ toString atom.atomic_number ++ ")")

/-- Model of `assign_uff_types`: one label per atom, in atom order; the first atom without
a label aborts the call. -/
def assign_uff_types (has_uff_type : String → Bool) (mol : Molecule F) : Except String (List String) :=
  (List.range mol.num_atoms).mapM (uff_type_of has_uff_type mol)

end typing

/-! ## Evaluator precompute (`UFFForceField::setup`) -/

/-- An angle `i - j - k`, `j` central. -/
structure AngleInfo where
  i : Nat
  j : Nat
  k : Nat
  deriving DecidableEq, Repr

/-- A dihedral `i - j - k - l`. -/
structure TorsionInfo where
  i : Nat
  j : Nat
  k : Nat
  l : Nat
  deriving DecidableEq, Repr

/-- The private state of `UFFForceField`. -/
structure UFFForceField where
  atom_types_ : List String
  angles_ : List AngleInfo
  torsions_ : List TorsionInfo
  nonbonded_pairs_ : List (Nat × Nat)
  deriving DecidableEq, Repr

section setup

variable {F : Type}

/-- The angle loop of `setup`: per centre `j`, every pair of positions `a < b`
of its adjacency row. -/
def build_angles (mol : Molecule F) : List AngleInfo :=
  let adj := mol.adjacency_list
  (List.range mol.num_atoms).flatMap fun j =>
    let neighbors := adj.getD j []
    (List.range neighbors.length).flatMap fun a =>
      (List.range' (a + 1) (neighbors.length - (a + 1))).map fun b =>
        ⟨neighbors.getD a 0, j, neighbors.getD b 0⟩

/-- The torsion loop of `setup`: per stored bond `j - k`, every `i` next to `j`
other than `k` and every `l` next to `k` other than `j` and `i`. -/
def build_torsions (mol : Molecule F) : List TorsionInfo :=
  let adj := mol.adjacency_list
  mol.bonds.flatMap fun bond =>
    let j := bond.atom_i
    let k := bond.atom_j
    let nbrs_j := adj.getD j []
    let nbrs_k := adj.getD k []
    nbrs_j.flatMap fun i =>
      if i = k then []
      else nbrs_k.flatMap fun l =>
        if l = j ∨ l = i then [] else [⟨i, j, k, l⟩]

/-- The `excluded` set of `setup`, as the sequence of its insertions: the
ordered endpoints of every bond, then of every angle. -/
def build_excluded (mol : Molecule F) (angles : List AngleInfo) : List (Nat × Nat) :=
  mol.bonds.map (fun bond => (min bond.atom_i bond.atom_j, max bond.atom_i bond.atom_j)) ++
    angles.map (fun angle => (min angle.i angle.k, max angle.i angle.k))

/-- The nonbonded loop of `setup`: every `i < j` not found in `excluded`. -/
def build_nonbonded (n : Nat) (excluded : List (Nat × Nat)) : List (Nat × Nat) :=
  (List.range n).flatMap fun i =>
    ((List.range' (i + 1) (n - (i + 1))).filter fun j => decide ((i, j) ∉ excluded)).map
      fun j => (i, j)

/-- Model of `UFFForceField::setup`. -/
def setup [Inhabited F] (has_uff_type : String → Bool) (mol : Molecule F) : Except String UFFForceField := do
  let atom_types ← assign_uff_types has_uff_type mol
  let angles := build_angles mol
  let torsions := build_torsions mol
  let excluded := build_excluded mol angles
  pure ⟨atom_types, angles, torsions, build_nonbonded mol.num_atoms excluded⟩

end setup

/-! ## UFF parameters (`uff_params.h`) -/

/-- A row of the UFF parameter table. -/
structure UFFAtomType (F : Type) where
  label : String
  r1 : F
  theta0 : F
  x1 : F
  D1 : F
  zeta : F
  Z1 : F
  Vi : F
  Uj : F
  Xi : F
  hard : F
  radius : F

/-! ## Energy and gradient (`uff_energy.cpp`)

The parameter table is not part of the sources at hand: `get_uff_params` is a
parameter of every function that reads it. -/

set_option linter.unusedVariables false

section energy

variable {F : Type} [Arith F] [Inhabited F]

/-- Model of `DEG2RAD = M_PI / 180.0`. -/
def DEG2RAD : F := Arith.pi / 180.0

/-- Model of `RAD2DEG = 180.0 / M_PI`. -/
def RAD2DEG : F := 180.0 / Arith.pi

/-- Model of `atom_types_[i]`; an out-of-range read (undefined in the source) yields the empty label. -/
def UFFForceField.atom_type (ff : UFFForceField) (i : Nat) : String := ff.atom_types_.getD i ""

/-- Model of `mol.bond(b)`; an out-of-range read (undefined in the source) yields `Bond()`. -/
def Molecule.bond (mol : Molecule F) (b : Nat) : Bond := mol.bonds.getD b ⟨0, 0, 1⟩

/-- Model of `UFFForceField::uff_bond_length`. -/
def uff_bond_length (get_uff_params : String → UFFAtomType F) (ff : UFFForceField)
    (bond_idx : Nat) (mol : Molecule F) : F :=
  let bond := mol.bond bond_idx
  let pi := get_uff_params (ff.atom_type bond.atom_i)
  let pj := get_uff_params (ff.atom_type bond.atom_j)
  let r_BO := -0.1332 * (pi.r1 + pj.r1) * Arith.log (Arith.ofInt bond.order)
  let chi_diff := Arith.sqrt pi.Xi - Arith.sqrt pj.Xi
  let r_EN := pi.r1 * pj.r1 * chi_diff * chi_diff / (pi.Xi * pi.r1 + pj.Xi * pj.r1)
  pi.r1 + pj.r1 + r_BO - r_EN

/-- Model of `UFFForceField::uff_bond_force_constant`. -/
def uff_bond_force_constant (get_uff_params : String → UFFAtomType F) (ff : UFFForceField)
    (bond_idx : Nat) (mol : Molecule F) : F :=
  let bond := mol.bond bond_idx
  let pi := get_uff_params (ff.atom_type bond.atom_i)
  let pj := get_uff_params (ff.atom_type bond.atom_j)
  let r0 := uff_bond_length get_uff_params ff bond_idx mol
  664.12 * pi.Z1 * pj.Z1 / (r0 * r0 * r0)

/-- Model of `grad.segment<3>(3*i) += v`. -/
def segment_add (grad : List F) (i : Nat) (v : Vec3 F) : List F :=
  ((grad.modify (fun g => g + v.x) (3 * i)).modify (fun g => g + v.y) (3 * i + 1)).modify
    (fun g => g + v.z) (3 * i + 2)

/-- Model of `grad.segment<3>(3*i) -= v`. -/
def segment_sub (grad : List F) (i : Nat) (v : Vec3 F) : List F :=
  ((grad.modify (fun g => g - v.x) (3 * i)).modify (fun g => g - v.y) (3 * i + 1)).modify
    (fun g => g - v.z) (3 * i + 2)

/-- The body of the loop of `UFFForceField::bond_stretch_energy`. -/
def bond_stretch_energy_step (get_uff_params : String → UFFAtomType F) (ff : UFFForceField)
    (mol : Molecule F) (E : F) (b : Nat) : F :=
  let bond := mol.bond b
  let r := ((mol.atom bond.atom_i).position.sub (mol.atom bond.atom_j).position).norm
  let r0 := uff_bond_length get_uff_params ff b mol
  let k := uff_bond_force_constant get_uff_params ff b mol
  let dr := r - r0
  E + 0.5 * k * dr * dr

/-- Model of `UFFForceField::bond_stretch_energy`. -/
def bond_stretch_energy (get_uff_params : String → UFFAtomType F) (ff : UFFForceField)
    (mol : Molecule F) : F :=
  (List.range mol.num_bonds).foldl (bond_stretch_energy_step get_uff_params ff mol) 0.0

/-- The body of the loop of `UFFForceField::bond_stretch_gradient`. -/
def bond_stretch_gradient_step (get_uff_params : String → UFFAtomType F) (ff : UFFForceField)
    (mol : Molecule F) (grad : List F) (b : Nat) : List F :=
  let bond := mol.bond b
  let i := bond.atom_i
  let j := bond.atom_j
  let rij := (mol.atom i).position.sub (mol.atom j).position
  let r := rij.norm
  if r < 1e-10 then grad
  else
    let r0 := uff_bond_length get_uff_params ff b mol
    let k := uff_bond_force_constant get_uff_params ff b mol
    let dE := (Vec3.smul (k * (r - r0)) rij).sdiv r
    segment_sub (segment_add grad i dE) j dE

/-- Model of `UFFForceField::bond_stretch_gradient`. -/
def bond_stretch_gradient (get_uff_params : String → UFFAtomType F) (ff : UFFForceField)
    (mol : Molecule F) (grad : List F) : List F :=
  (List.range mol.num_bonds).foldl (bond_stretch_gradient_step get_uff_params ff mol) grad

/-- The body of the loop of `UFFForceField::angle_bend_energy`. -/
def angle_bend_energy_step (get_uff_params : String → UFFAtomType F) (ff : UFFForceField)
    (mol : Molecule F) (E : F) (angle : AngleInfo) : F :=
  let i := angle.i
  let j := angle.j
  let k := angle.k
  let rji := (mol.atom i).position.sub (mol.atom j).position
  let rjk := (mol.atom k).position.sub (mol.atom j).position
  let dji := rji.norm
  let djk := rjk.norm
  if dji < 1e-10 ∨ djk < 1e-10 then E
  else
    let cos_theta := rji.dot rjk / (dji * djk)
    let cos_theta := fmax (-1.0) (fmin 1.0 cos_theta)
    let theta := Arith.acos cos_theta
    let pj := get_uff_params (ff.atom_type j)
    let theta0 := pj.theta0 * DEG2RAD
    let pi := get_uff_params (ff.atom_type i)
    let pk := get_uff_params (ff.atom_type k)
    let r_ij := pi.r1 + pj.r1
    let r_jk := pj.r1 + pk.r1
    let beta := 664.12 / (r_ij * r_jk)
    let Z_i := pi.Z1
    let Z_k := pk.Z1
    let K := beta * Z_i * Z_k / (r_ij * r_jk * r_ij * r_jk * r_jk)
    let K := 664.12 / (r_ij * r_jk) * Z_i * Z_k / (r_ij * r_jk * r_ij * r_jk * r_jk)
    let r_ik_sq := r_ij * r_ij + r_jk * r_jk - 2.0 * r_ij * r_jk * Arith.cos theta0
    let r_ik := Arith.sqrt (fmax r_ik_sq 0.01)
    let r_ik5 := r_ik * r_ik * r_ik * r_ik * r_ik
    let K := 664.12 * Z_i * Z_k / r_ik5
    let K := K * (r_ij * r_jk)
    let cos_theta0 := Arith.cos theta0
    let K := K * (3.0 * r_ij * r_jk * (1.0 - cos_theta0 * cos_theta0) - r_ik_sq * cos_theta0)
    if Arith.abs K < 1e-10 then E
    else
      let sin_theta0 := Arith.sin theta0
      if Arith.abs (theta0 - Arith.pi) < 0.01 then
        E + K * (1.0 + cos_theta)
      else if Arith.abs (theta0 - 2.0 * Arith.pi / 3.0) < 0.01 then
        let C2 := 1.0 / (4.0 * sin_theta0 * sin_theta0)
        let C1 := -4.0 * C2 * cos_theta0
        let C0 := C2 * (2.0 * cos_theta0 * cos_theta0 + 1.0)
        E + K * (C0 + C1 * cos_theta + C2 * Arith.cos (2.0 * theta))
      else
        let C2 := 1.0 / (4.0 * sin_theta0 * sin_theta0)
        let C1 := -4.0 * C2 * cos_theta0
        let C0 := C2 * (2.0 * cos_theta0 * cos_theta0 + 1.0)
        E + K * (C0 + C1 * cos_theta + C2 * Arith.cos (2.0 * theta))

/-- Model of `UFFForceField::angle_bend_energy`. -/
def angle_bend_energy (get_uff_params : String → UFFAtomType F) (ff : UFFForceField)
    (mol : Molecule F) : F :=
  ff.angles_.foldl (angle_bend_energy_step get_uff_params ff mol) 0.0

/-- The body of the loop of `UFFForceField::angle_bend_gradient`. -/
def angle_bend_gradient_step (get_uff_params : String → UFFAtomType F) (ff : UFFForceField)
    (mol : Molecule F) (grad : List F) (angle : AngleInfo) : List F :=
  let i := angle.i
  let j := angle.j
  let k := angle.k
  let rji := (mol.atom i).position.sub (mol.atom j).position
  let rjk := (mol.atom k).position.sub (mol.atom j).position
  let dji := rji.norm
  let djk := rjk.norm
  if dji < 1e-10 ∨ djk < 1e-10 then grad
  else
    let cos_theta := rji.dot rjk / (dji * djk)
    let cos_theta := fmax (-1.0) (fmin 1.0 cos_theta)
    let theta := Arith.acos cos_theta
    let sin_theta := Arith.sin theta
    let sin_theta := if Arith.abs sin_theta < 1e-10 then 1e-10 else sin_theta
    let pj := get_uff_params (ff.atom_type j)
    let pi := get_uff_params (ff.atom_type i)
    let pk := get_uff_params (ff.atom_type k)
    let theta0 := pj.theta0 * DEG2RAD
    let cos_theta0 := Arith.cos theta0
    let sin_theta0 := Arith.sin theta0
    let r_ij := pi.r1 + pj.r1
    let r_jk := pj.r1 + pk.r1
    let r_ik_sq := r_ij * r_ij + r_jk * r_jk - 2.0 * r_ij * r_jk * cos_theta0
    let r_ik := Arith.sqrt (fmax r_ik_sq 0.01)
    let r_ik5 := r_ik * r_ik * r_ik * r_ik * r_ik
    let K := 664.12 * pi.Z1 * pk.Z1 / r_ik5
    let K := K * (r_ij * r_jk)
    let K := K * (3.0 * r_ij * r_jk * (1.0 - cos_theta0 * cos_theta0) - r_ik_sq * cos_theta0)
    if Arith.abs K < 1e-10 then grad
    else
      let dE_dtheta :=
        if Arith.abs (theta0 - Arith.pi) < 0.01 then -K * sin_theta
        else
          let C2 := 1.0 / (4.0 * sin_theta0 * sin_theta0)
          let C1 := -4.0 * C2 * cos_theta0
          K * (-C1 * sin_theta - 2.0 * C2 * Arith.sin (2.0 * theta))
      let uji := rji.sdiv dji
      let ujk := rjk.sdiv djk
      let dthetadri := ((ujk.sub (Vec3.smul cos_theta uji)).neg).sdiv (dji * sin_theta)
      let dthetadrk := ((uji.sub (Vec3.smul cos_theta ujk)).neg).sdiv (djk * sin_theta)
      let dthetadrj := dthetadri.neg.sub dthetadrk
      segment_add (segment_add (segment_add grad i (Vec3.smul dE_dtheta dthetadri))
        j (Vec3.smul dE_dtheta dthetadrj)) k (Vec3.smul dE_dtheta dthetadrk)

/-- Model of `UFFForceField::angle_bend_gradient`. -/
def angle_bend_gradient (get_uff_params : String → UFFAtomType F) (ff : UFFForceField)
    (mol : Molecule F) (grad : List F) : List F :=
  ff.angles_.foldl (angle_bend_gradient_step get_uff_params ff mol) grad

/-- Model of `compute_dihedral`: the signed dihedral of four points, 0 on a degenerate plane. -/
def compute_dihedral (p1 p2 p3 p4 : Vec3 F) : F :=
  let b1 := p2.sub p1
  let b2 := p3.sub p2
  let b3 := p4.sub p3
  let n1 := b1.cross b2
  let n2 := b2.cross b3
  let n1_norm := n1.norm
  let n2_norm := n2.norm
  if n1_norm < 1e-10 ∨ n2_norm < 1e-10 then 0.0
  else
    let n1 := n1.sdiv n1_norm
    let n2 := n2.sdiv n2_norm
    let cos_phi := n1.dot n2
    let cos_phi := fmax (-1.0) (fmin 1.0 cos_phi)
    let phi := Arith.acos cos_phi
    if n1.dot b3 < 0.0 then -phi else phi

/-- The body of the loop of `UFFForceField::torsion_energy`. -/
def torsion_energy_step (get_uff_params : String → UFFAtomType F) (ff : UFFForceField)
    (mol : Molecule F) (E : F) (tor : TorsionInfo) : F :=
  let phi := compute_dihedral (mol.atom tor.i).position (mol.atom tor.j).position
    (mol.atom tor.k).position (mol.atom tor.l).position
  let pj := get_uff_params (ff.atom_type tor.j)
  let pk := get_uff_params (ff.atom_type tor.k)
  let j_sp3 := decide (Arith.abs (pj.theta0 - 109.47) < (5.0 : F))
  let k_sp3 := decide (Arith.abs (pk.theta0 - 109.47) < (5.0 : F))
  let j_sp2 := decide (Arith.abs (pj.theta0 - 120.0) < (5.0 : F)) ||
    decide (Arith.abs (pj.theta0 - 111.2) < (5.0 : F))
  let k_sp2 := decide (Arith.abs (pk.theta0 - 120.0) < (5.0 : F)) ||
    decide (Arith.abs (pk.theta0 - 111.2) < (5.0 : F))
  let (n, phi0, V) : Int × F × F :=
    if j_sp3 && k_sp3 then (3, Arith.pi, Arith.sqrt (Arith.abs (pj.Vi * pk.Vi)))
    else if j_sp2 && k_sp2 then (2, Arith.pi, 5.0 * Arith.sqrt (Arith.abs (pj.Uj * pk.Uj)))
    else if (j_sp3 && k_sp2) || (j_sp2 && k_sp3) then (6, 0.0, 1.0)
    else (3, Arith.pi, 0.5)
  if V < 1e-10 then E
  else E + 0.5 * V * (1.0 - Arith.cos (Arith.ofInt n * phi0) * Arith.cos (Arith.ofInt n * phi))

/-- Model of `UFFForceField::torsion_energy`. -/
def torsion_energy (get_uff_params : String → UFFAtomType F) (ff : UFFForceField)
    (mol : Molecule F) : F :=
  ff.torsions_.foldl (torsion_energy_step get_uff_params ff mol) 0.0

/-- The body of the loop of `UFFForceField::torsion_gradient`. -/
def torsion_gradient_step (get_uff_params : String → UFFAtomType F) (ff : UFFForceField)
    (mol : Molecule F) (grad : List F) (tor : TorsionInfo) : List F :=
  let p1 := (mol.atom tor.i).position
  let p2 := (mol.atom tor.j).position
  let p3 := (mol.atom tor.k).position
  let p4 := (mol.atom tor.l).position
  let b1 := p2.sub p1
  let b2 := p3.sub p2
  let b3 := p4.sub p3
  let n1 := b1.cross b2
  let n2 := b2.cross b3
  let n1_sq := n1.squaredNorm
  let n2_sq := n2.squaredNorm
  if n1_sq < 1e-20 ∨ n2_sq < 1e-20 then grad
  else
    let b2_norm := b2.norm
    if b2_norm < 1e-10 then grad
    else
      let phi := compute_dihedral p1 p2 p3 p4
      let pj := get_uff_params (ff.atom_type tor.j)
      let pk := get_uff_params (ff.atom_type tor.k)
      let j_sp3 := decide (Arith.abs (pj.theta0 - 109.47) < (5.0 : F))
      let k_sp3 := decide (Arith.abs (pk.theta0 - 109.47) < (5.0 : F))
      let j_sp2 := decide (Arith.abs (pj.theta0 - 120.0) < (5.0 : F)) ||
        decide (Arith.abs (pj.theta0 - 111.2) < (5.0 : F))
      let k_sp2 := decide (Arith.abs (pk.theta0 - 120.0) < (5.0 : F)) ||
        decide (Arith.abs (pk.theta0 - 111.2) < (5.0 : F))
      let (n, phi0, V) : Int × F × F :=
        if j_sp3 && k_sp3 then (3, Arith.pi, Arith.sqrt (Arith.abs (pj.Vi * pk.Vi)))
        else if j_sp2 && k_sp2 then (2, Arith.pi, 5.0 * Arith.sqrt (Arith.abs (pj.Uj * pk.Uj)))
        else if (j_sp3 && k_sp2) || (j_sp2 && k_sp3) then (6, 0.0, 1.0)
        else (3, Arith.pi, 0.5)
      if V < 1e-10 then grad
      else
        let dE_dphi := 0.5 * V * Arith.ofInt n * Arith.cos (Arith.ofInt n * phi0) *
          Arith.sin (Arith.ofInt n * phi)
        let dphi_dp1 := Vec3.smul (-(b2_norm / n1_sq)) n1
        let dphi_dp4 := Vec3.smul (b2_norm / n2_sq) n2
        let dot_b1_b2 := b1.dot b2 / (b2_norm * b2_norm)
        let dot_b3_b2 := b3.dot b2 / (b2_norm * b2_norm)
        let dphi_dp2 := (Vec3.smul (dot_b1_b2 - 1.0) dphi_dp1).sub (Vec3.smul dot_b3_b2 dphi_dp4)
        let dphi_dp3 := (Vec3.smul (dot_b3_b2 - 1.0) dphi_dp4).sub (Vec3.smul dot_b1_b2 dphi_dp1)
        segment_add (segment_add (segment_add (segment_add grad tor.i
          (Vec3.smul dE_dphi dphi_dp1)) tor.j (Vec3.smul dE_dphi dphi_dp2))
          tor.k (Vec3.smul dE_dphi dphi_dp3)) tor.l (Vec3.smul dE_dphi dphi_dp4)

/-- Model of `UFFForceField::torsion_gradient`. -/
def torsion_gradient (get_uff_params : String → UFFAtomType F) (ff : UFFForceField)
    (mol : Molecule F) (grad : List F) : List F :=
  ff.torsions_.foldl (torsion_gradient_step get_uff_params ff mol) grad

/-- The body of the loop of `UFFForceField::vdw_energy`. -/
def vdw_energy_step (get_uff_params : String → UFFAtomType F) (ff : UFFForceField)
    (mol : Molecule F) (E : F) (pair : Nat × Nat) : F :=
  let i := pair.1
  let j := pair.2
  let pi := get_uff_params (ff.atom_type i)
  let pj := get_uff_params (ff.atom_type j)
  let x_ij := Arith.sqrt (pi.x1 * pj.x1)
  let D_ij := Arith.sqrt (pi.D1 * pj.D1)
  let r := ((mol.atom i).position.sub (mol.atom j).position).norm
  if r < 1e-10 then E
  else
    let x := x_ij / r
    let x6 := x * x * x * x * x * x
    let x12 := x6 * x6
    E + D_ij * (x12 - 2.0 * x6)

/-- Model of `UFFForceField::vdw_energy`. -/
def vdw_energy (get_uff_params : String → UFFAtomType F) (ff : UFFForceField)
    (mol : Molecule F) : F :=
  ff.nonbonded_pairs_.foldl (vdw_energy_step get_uff_params ff mol) 0.0

/-- The body of the loop of `UFFForceField::vdw_gradient`. -/
def vdw_gradient_step (get_uff_params : String → UFFAtomType F) (ff : UFFForceField)
    (mol : Molecule F) (grad : List F) (pair : Nat × Nat) : List F :=
  let i := pair.1
  let j := pair.2
  let pi := get_uff_params (ff.atom_type i)
  let pj := get_uff_params (ff.atom_type j)
  let x_ij := Arith.sqrt (pi.x1 * pj.x1)
  let D_ij := Arith.sqrt (pi.D1 * pj.D1)
  let rij := (mol.atom i).position.sub (mol.atom j).position
  let r := rij.norm
  if r < 1e-10 then grad
  else
    let x := x_ij / r
    let x6 := x * x * x * x * x * x
    let x12 := x6 * x6
    let dE_dr := D_ij * 12.0 * (-x12 + x6) / r
    let dE := (Vec3.smul dE_dr rij).sdiv r
    segment_sub (segment_add grad i dE) j dE

/-- Model of `UFFForceField::vdw_gradient`. -/
def vdw_gradient (get_uff_params : String → UFFAtomType F) (ff : UFFForceField)
    (mol : Molecule F) (grad : List F) : List F :=
  ff.nonbonded_pairs_.foldl (vdw_gradient_step get_uff_params ff mol) grad

/-- Model of `UFFForceField::calculate_energy`. -/
def calculate_energy (get_uff_params : String → UFFAtomType F) (ff : UFFForceField)
    (mol : Molecule F) : F :=
  bond_stretch_energy get_uff_params ff mol + angle_bend_energy get_uff_params ff mol +
    torsion_energy get_uff_params ff mol + vdw_energy get_uff_params ff mol

/-- Model of `UFFForceField::calculate_gradient`. -/
def calculate_gradient (get_uff_params : String → UFFAtomType F) (ff : UFFForceField)
    (mol : Molecule F) : List F :=
  let n := mol.num_atoms * 3
  let grad : List F := List.replicate n 0.0
  let grad := bond_stretch_gradient get_uff_params ff mol grad
  let grad := angle_bend_gradient get_uff_params ff mol grad
  let grad := torsion_gradient get_uff_params ff mol grad
  vdw_gradient get_uff_params ff mol grad

/-- The record returned by `calculate_energy_components`. -/
structure EnergyComponents (F : Type) where
  bond_stretch : F
  angle_bend : F
  torsion : F
  vdw : F
  total : F

/-- Model of `UFFForceField::calculate_energy_components`. -/
def calculate_energy_components (get_uff_params : String → UFFAtomType F) (ff : UFFForceField)
    (mol : Molecule F) : EnergyComponents F :=
  let bond_stretch := bond_stretch_energy get_uff_params ff mol
  let angle_bend := angle_bend_energy get_uff_params ff mol
  let torsion := torsion_energy get_uff_params ff mol
  let vdw := vdw_energy get_uff_params ff mol
  { bond_stretch := bond_stretch, angle_bend := angle_bend, torsion := torsion, vdw := vdw,
    total := bond_stretch + angle_bend + torsion + vdw }

end energy

/-! ## Force-field vocabulary of the statements -/

section force_field_vocabulary

variable {F : Type} [Arith F]

/-- The angle force constant `K` of a triple of parameter rows (end, centre,
end), as the last three assignments to `K` in the angle routines compute it. -/
def angle_force_constant (pi pj pk : UFFAtomType F) : F :=
  let theta0 := pj.theta0 * DEG2RAD
  let cos_theta0 := Arith.cos theta0
  let r_ij := pi.r1 + pj.r1
  let r_jk := pj.r1 + pk.r1
  let r_ik_sq := r_ij * r_ij + r_jk * r_jk - 2.0 * r_ij * r_jk * cos_theta0
  let r_ik := Arith.sqrt (fmax r_ik_sq 0.01)
  let r_ik5 := r_ik * r_ik * r_ik * r_ik * r_ik
  let K := 664.12 * pi.Z1 * pk.Z1 / r_ik5
  let K := K * (r_ij * r_jk)
  K * (3.0 * r_ij * r_jk * (1.0 - cos_theta0 * cos_theta0) - r_ik_sq * cos_theta0)

/-- The cosine of the angle at `pj` between the legs to `pi` and `pk`, clamped
to `[-1, 1]`, as the angle routines compute it. -/
def clamped_cos_angle (pi pj pk : Vec3 F) : F :=
  let rji := pi.sub pj
  let rjk := pk.sub pj
  fmax (-1.0) (fmin 1.0 (rji.dot rjk / (rji.norm * rjk.norm)))

/-- The periodicity, phase and barrier `(n, phi0, V)` that the torsion routines
select from the parameter rows of the two central atoms. -/
def torsion_choice (pj pk : UFFAtomType F) : Int × F × F :=
  let j_sp3 := decide (Arith.abs (pj.theta0 - 109.47) < (5.0 : F))
  let k_sp3 := decide (Arith.abs (pk.theta0 - 109.47) < (5.0 : F))
  let j_sp2 := decide (Arith.abs (pj.theta0 - 120.0) < (5.0 : F)) ||
    decide (Arith.abs (pj.theta0 - 111.2) < (5.0 : F))
  let k_sp2 := decide (Arith.abs (pk.theta0 - 120.0) < (5.0 : F)) ||
    decide (Arith.abs (pk.theta0 - 111.2) < (5.0 : F))
  if j_sp3 && k_sp3 then (3, Arith.pi, Arith.sqrt (Arith.abs (pj.Vi * pk.Vi)))
  else if j_sp2 && k_sp2 then (2, Arith.pi, 5.0 * Arith.sqrt (Arith.abs (pj.Uj * pk.Uj)))
  else if (j_sp3 && k_sp2) || (j_sp2 && k_sp3) then (6, 0.0, 1.0)
  else (3, Arith.pi, 0.5)

end force_field_vocabulary

/-! ## Graph vocabulary of the statements -/

section vocabulary

variable {F : Type}

/-- Atoms `i` and `n` are joined by a stored bond (in either orientation). -/
def Bonded (mol : Molecule F) (i n : Nat) : Prop :=
  ∃ b ∈ mol.bonds, (b.atom_i = i ∧ b.atom_j = n) ∨ (b.atom_i = n ∧ b.atom_j = i)

/-- The adjacency row of atom `j` read directly off the bond sequence. -/
def neighbor_row (bonds : List Bond) (j : Nat) : List Nat :=
  bonds.flatMap fun b =>
    (if b.atom_i = j then [b.atom_j] else []) ++ (if b.atom_j = j then [b.atom_i] else [])

/-- Every bond has two valid endpoints. -/
def ValidBonds (mol : Molecule F) : Prop :=
  ∀ b ∈ mol.bonds, b.atom_i < mol.num_atoms ∧ b.atom_j < mol.num_atoms

/-- No bond joins an atom to itself. -/
def NoSelfBond (mol : Molecule F) : Prop :=
  ∀ b ∈ mol.bonds, b.atom_i ≠ b.atom_j

/-- No two stored bonds join the same unordered pair of atoms. -/
def NoDuplicateBond (mol : Molecule F) : Prop :=
  mol.bonds.Pairwise fun b c =>
    ¬ ((b.atom_i = c.atom_i ∧ b.atom_j = c.atom_j) ∨ (b.atom_i = c.atom_j ∧ b.atom_j = c.atom_i))

/-- All ordered pairs of a list taken in list order: first component earlier. -/
def ordered_pairs {α : Type} : List α → List (α × α)
  | [] => []
  | x :: xs => xs.map (fun y => (x, y)) ++ ordered_pairs xs

end vocabulary

section perceive_vocabulary

variable {F : Type} [Arith F] [Inhabited F]

/-- The covalent radius the element table gives for an atomic number. -/
def covalent_radius (z : Int) : F :=
  ((ELEMENT_TABLE (F := F)).getD z.toNat ⟨0, "X", "Dummy", 0.000, 0.00, 0.00⟩).covalent_radius

/-- The Euclidean distance of atoms `i` and `j`, as `perceive_bonds` computes it. -/
def distance (mol : Molecule F) (i j : Nat) : F :=
  ((mol.atom i).position.sub (mol.atom j).position).norm

/-- The perception predicate: `0.4 ≤ d(i, j) ≤ r_i + r_j + tolerance`. -/
def within_bond_range (mol : Molecule F) (tolerance : F) (i j : Nat) : Prop :=
  (0.4 : F) ≤ distance mol i j ∧
    distance mol i j ≤
      covalent_radius (mol.atom i).atomic_number + covalent_radius (mol.atom j).atomic_number +
        tolerance

instance within_bond_range_decidable (mol : Molecule F) (tolerance : F) (i j : Nat) :
    Decidable (within_bond_range mol tolerance i j) := by
  unfold within_bond_range
  exact inferInstance

/-- Every atomic number of the molecule is a row index of the element table. -/
def AtomsInTable (mol : Molecule F) : Prop :=
  ∀ a ∈ mol.atoms, 0 ≤ a.atomic_number ∧ a.atomic_number < 55

end perceive_vocabulary

/-! ## The real-number interpretation of the arithmetic -/

/-- Exact arithmetic: the operations of `double` read as the real operations
they approximate. -/
noncomputable instance instArithReal : Arith ℝ where
  ofInt := fun n => (n : ℝ)
  pi := Real.pi
  sqrt := Real.sqrt
  log := Real.log
  cos := Real.cos
  sin := Real.sin
  acos := Real.arccos
  abs := fun x => |x|
  decLt := inferInstance
  decLe := inferInstance

/-- Hydrogen peroxide H-O-O-H with unit bond lengths and a dihedral of 90 degrees;
the second coordinate of the first oxygen is displaced by `t`. -/
noncomputable def peroxide (t : ℝ) : Molecule ℝ :=
  { atoms := [⟨1, "H", ⟨-3/5, -4/5, 0⟩⟩, ⟨8, "O", ⟨0, t, 0⟩⟩, ⟨8, "O", ⟨1, 0, 0⟩⟩,
      ⟨1, "H", ⟨8/5, 0, 4/5⟩⟩],
    bonds := [⟨0, 1, 1⟩, ⟨1, 2, 1⟩, ⟨2, 3, 1⟩] }

/-- The evaluator state that `setup` computes for `peroxide`. -/
def peroxide_ff : UFFForceField :=
  { atom_types_ := ["H_", "O_3", "O_3", "H_"],
    angles_ := [⟨0, 1, 2⟩, ⟨1, 2, 3⟩],
    torsions_ := [⟨0, 1, 2, 3⟩],
    nonbonded_pairs_ := [(0, 3)] }

/-- The value of `dE_dtheta` of `angle_bend_gradient` for force constant `K`,
natural angle `th0` (radians) and cosine `x0` of the current angle, over the reals. -/
noncomputable def angle_dE_dtheta (K th0 x0 : ℝ) : ℝ :=
  if |th0 - Real.pi| < 0.01 then -K * Real.sin (Real.arccos x0)
  else
    K * (-(-4.0 * (1.0 / (4.0 * Real.sin th0 * Real.sin th0)) * Real.cos th0) *
        Real.sin (Real.arccos x0) -
      2.0 * (1.0 / (4.0 * Real.sin th0 * Real.sin th0)) * Real.sin (2.0 * Real.arccos x0))

/-- A parameter table holding the rows of the published UFF parameter set for
the labels "O_3" and "H_" (the latter stands in for every other label). -/
noncomputable def sample_uff_params : String → UFFAtomType ℝ := fun label =>
  if label = "O_3" then
    ⟨"O_3", 0.658, 104.51, 3.5, 0.06, 14.085, 2.3, 0.018, 2.0, 8.741, 6.682, 0.684⟩
  else ⟨"H_", 0.354, 180.0, 2.886, 0.044, 12.0, 0.712, 0.0, 0.0, 4.528, 6.9452, 0.371⟩

/-! ## Concrete molecules -/

/-- Ethene: two carbons, four hydrogens; only the bond graph matters for typing. -/
def ethene : Molecule ℚ :=
  { atoms := [⟨6, "C", ⟨0, 0, 0⟩⟩, ⟨6, "C", ⟨1.33, 0, 0⟩⟩, ⟨1, "H", ⟨-0.5, 0.9, 0⟩⟩,
      ⟨1, "H", ⟨-0.5, -0.9, 0⟩⟩, ⟨1, "H", ⟨1.83, 0.9, 0⟩⟩, ⟨1, "H", ⟨1.83, -0.9, 0⟩⟩],
    bonds := [⟨0, 1, 1⟩, ⟨0, 2, 1⟩, ⟨0, 3, 1⟩, ⟨1, 4, 1⟩, ⟨1, 5, 1⟩] }

/-- The evaluator state that `setup` computes for `ethene`. -/
def ethene_ff : UFFForceField :=
  { atom_types_ := ["C_R", "C_R", "H_", "H_", "H_", "H_"],
    angles_ := [⟨1, 0, 2⟩, ⟨1, 0, 3⟩, ⟨2, 0, 3⟩, ⟨0, 1, 4⟩, ⟨0, 1, 5⟩, ⟨4, 1, 5⟩],
    torsions_ := [⟨2, 0, 1, 4⟩, ⟨2, 0, 1, 5⟩, ⟨3, 0, 1, 4⟩, ⟨3, 0, 1, 5⟩],
    nonbonded_pairs_ := [(2, 4), (2, 5), (3, 4), (3, 5)] }

/-- Formamide-like fragment: O=C(-N)(-H) with two hydrogens on N and a water next to it. -/
def formamide_water : Molecule ℚ :=
  { atoms := [⟨8, "O", ⟨0, 0, 0⟩⟩, ⟨6, "C", ⟨1.2, 0, 0⟩⟩, ⟨7, "N", ⟨1.9, 1.1, 0⟩⟩,
      ⟨1, "H", ⟨1.8, -0.9, 0⟩⟩, ⟨1, "H", ⟨1.4, 2.0, 0⟩⟩, ⟨1, "H", ⟨2.9, 1.1, 0⟩⟩,
      ⟨8, "O", ⟨5, 0, 0⟩⟩, ⟨1, "H", ⟨5.9, 0.3, 0⟩⟩, ⟨1, "H", ⟨4.7, 0.9, 0⟩⟩],
    bonds := [⟨0, 1, 2⟩, ⟨1, 2, 1⟩, ⟨1, 3, 1⟩, ⟨2, 4, 1⟩, ⟨2, 5, 1⟩, ⟨6, 7, 1⟩, ⟨6, 8, 1⟩] }

/-- A graph with one atom of each degree-ruled main-group element: B bonded to
H, F, Cl; P bonded to Br; S bonded to I. -/
def main_group_sample : Molecule ℚ :=
  { atoms := [⟨1, "H", ⟨0, 0, 0⟩⟩, ⟨9, "F", ⟨1, 0, 0⟩⟩, ⟨17, "Cl", ⟨2, 0, 0⟩⟩,
      ⟨35, "Br", ⟨3, 0, 0⟩⟩, ⟨53, "I", ⟨4, 0, 0⟩⟩, ⟨5, "B", ⟨5, 0, 0⟩⟩,
      ⟨15, "P", ⟨6, 0, 0⟩⟩, ⟨16, "S", ⟨7, 0, 0⟩⟩],
    bonds := [⟨5, 0, 1⟩, ⟨5, 1, 1⟩, ⟨5, 2, 1⟩, ⟨6, 3, 1⟩, ⟨7, 4, 1⟩] }

/-- Isolated atoms of the elements with a fixed label, no bonds. -/
def fixed_label_sample : Molecule ℚ :=
  { atoms := [⟨3, "Li", ⟨0, 0, 0⟩⟩, ⟨11, "Na", ⟨5, 0, 0⟩⟩, ⟨19, "K", ⟨10, 0, 0⟩⟩,
      ⟨2, "He", ⟨15, 0, 0⟩⟩, ⟨10, "Ne", ⟨20, 0, 0⟩⟩, ⟨18, "Ar", ⟨25, 0, 0⟩⟩,
      ⟨4, "Be", ⟨30, 0, 0⟩⟩, ⟨12, "Mg", ⟨35, 0, 0⟩⟩, ⟨20, "Ca", ⟨40, 0, 0⟩⟩,
      ⟨13, "Al", ⟨45, 0, 0⟩⟩, ⟨14, "Si", ⟨50, 0, 0⟩⟩, ⟨26, "Fe", ⟨55, 0, 0⟩⟩,
      ⟨27, "Co", ⟨60, 0, 0⟩⟩, ⟨28, "Ni", ⟨65, 0, 0⟩⟩, ⟨29, "Cu", ⟨70, 0, 0⟩⟩,
      ⟨30, "Zn", ⟨75, 0, 0⟩⟩],
    bonds := [] }

/-- A single potassium atom. -/
def potassium_atom : Molecule ℚ :=
  { atoms := [⟨19, "K", ⟨0, 0, 0⟩⟩], bonds := [] }

/-- The parameter table lookup that knows no label at all. -/
def no_uff_type : String → Bool := fun _ => false

/-! ## Vocabulary of the typer and the evaluator as an object -/

section typing_vocabulary

variable {F : Type}

/-- The atomic numbers that have a `case` of their own in the switch of
`assign_uff_types`: 1 to 20, 26 to 30, 35 and 53. -/
def has_dedicated_rule (z : Int) : Bool :=
  (decide (1 ≤ z) && decide (z ≤ 20)) || (decide (26 ≤ z) && decide (z ≤ 30)) ||
    decide (z = 35) || decide (z = 53)

/-- The fallback in the words of the specification: the first of "<Sym>_3",
"<Sym>_", "<Sym>" that the parameter table contains, if any. -/
def fallback_label (has_uff_type : String → Bool) (symbol : String) : Option String :=
  [symbol ++ "_3", symbol ++ "_", symbol].find? has_uff_type

/-- The message of the exception thrown for an atom that gets no label. -/
def unknown_type_error (a : Atom F) : String :=
  "No UFF type for element: " ++ a.symbol ++ " (Z=" ++ toString a.atomic_number ++ ")"

end typing_vocabulary

/-! ## The evaluator as an object with state -/

section setup_method

variable {F : Type} [Inhabited F]

/-- Model of `UFFForceField::setup` as a method: `self` is the state of the
evaluator before the call; the result is the exception, if one leaves the call,
and the state after it. The molecule is a `const` reference and is not written.
The only statement that can throw is the call of `assign_uff_types`, whose
result is assigned to `atom_types_` only when it returns. -/
def UFFForceField.setup (self : UFFForceField) (has_uff_type : String → Bool)
    (mol : Molecule F) : Except String Unit × UFFForceField :=
  match assign_uff_types has_uff_type mol with
  | .error e => (.error e, self)
  | .ok types =>
    let s1 : UFFForceField := { self with atom_types_ := types }
    let s2 : UFFForceField := { s1 with angles_ := build_angles mol }
    let s3 : UFFForceField := { s2 with torsions_ := build_torsions mol }
    let excluded := build_excluded mol s3.angles_
    let s4 : UFFForceField :=
      { s3 with nonbonded_pairs_ := build_nonbonded mol.num_atoms excluded }
    (.ok (), s4)

/-- Model of the accessor `atom_types()`. -/
def UFFForceField.atom_types (self : UFFForceField) : List String := self.atom_types_

end setup_method

/-- A parameter table lookup that holds the two labels of water, "O_3" and "H_". -/
def water_labels : String → Bool := fun s => s == "O_3" || s == "H_"

/-- One atom of atomic number 37 whose symbol string reads "O". -/
def rubidium_named_O : Molecule ℚ := { atoms := [⟨37, "O", ⟨0, 0, 0⟩⟩], bonds := [] }

/-- One atom of atomic number 37 with its own symbol, at another place. -/
def rubidium_atom : Molecule ℚ := { atoms := [⟨37, "Rb", ⟨1, 2, 3⟩⟩], bonds := [] }

/-- An evaluator state left over from an earlier molecule. -/
def stale_ff : UFFForceField :=
  { atom_types_ := ["H_", "H_"], angles_ := [], torsions_ := [], nonbonded_pairs_ := [(0, 1)] }

/-! ## Optimizer (`optimizer.h`, `optimizer.cpp`)

The progress callback is an observer: the model records the sequence of the
records it is invoked with. Vectors of `Eigen` are sequences of doubles. -/

/-- A progress record. -/
structure OptProgress (F : Type) where
  iteration : Int
  energy : F
  grad_norm : F
  positions : List F

/-- The record returned by the optimizer. -/
structure OptResult (F : Type) where
  converged : Bool
  iterations : Int
  final_energy : F
  final_grad_norm : F
  trajectory : List (OptProgress F)

/-- The settings record. -/
structure OptSettings (F : Type) where
  max_iterations : Int
  grad_tolerance : F
  energy_tolerance : F
  method : String
  store_trajectory : Bool

section positions

variable {F : Type} [Inhabited F]

/-- Model of `Molecule::get_positions`: atom-major, xyz-minor. -/
def Molecule.get_positions (mol : Molecule F) : List F :=
  mol.atoms.flatMap fun a => [a.position.x, a.position.y, a.position.z]

/-- The loop of `Molecule::set_positions`: atom `i` takes entries `3i`, `3i+1`, `3i+2`. -/
def Molecule.write_positions (mol : Molecule F) (positions : List F) : Molecule F :=
  { mol with
    atoms := mol.atoms.enum.map fun p =>
      { p.2 with
        position := ⟨positions.getD (3 * p.1) default, positions.getD (3 * p.1 + 1) default,
          positions.getD (3 * p.1 + 2) default⟩ } }

/-- Model of `Molecule::set_positions`: fails when the size is not `3N`. -/
def Molecule.set_positions (mol : Molecule F) (positions : List F) :
    Except String (Molecule F) :=
  if positions.length ≠ 3 * mol.atoms.length then .error "Position vector size mismatch"
  else .ok (mol.write_positions positions)

end positions

section optimizer

variable {F : Type} [Arith F] [Inhabited F]

/-- Model of `Eigen`'s `squaredNorm()`: the sum of the squares of the entries. The
order of the reduction is the library's; left to right from zero here. -/
def vec_squared_norm (v : List F) : F := v.foldl (fun s x => s + x * x) 0.0

/-- Model of `Eigen`'s `norm()`. -/
def vec_norm (v : List F) : F := Arith.sqrt (vec_squared_norm v)

/-- Model of `Eigen`'s `normalize()`: divide by the norm unless the squared norm
is not positive. -/
def vec_normalized (v : List F) : List F :=
  let z := vec_squared_norm v
  if (0.0 : F) < z then v.map (fun x => x / Arith.sqrt z) else v

/-- Model of `ff.calculate_gradient(mol).norm() / std::sqrt(mol.num_atoms())`. -/
def grad_rms (get_uff_params : String → UFFAtomType F) (ff : UFFForceField)
    (mol : Molecule F) : F :=
  vec_norm (calculate_gradient get_uff_params ff mol) / Arith.sqrt (Arith.ofInt mol.num_atoms)

/-- The trial step of the line search: `positions[i] + alpha * direction[i]`. -/
def trial_positions (positions direction : List F) (alpha : F) : List F :=
  (List.range positions.length).map fun i =>
    positions.getD i default + alpha * direction.getD i default

/-- The step after a failed line search: `positions[i] - 1e-4 * grad[i]`. -/
def tiny_positions (positions grad : List F) : List F :=
  (List.range positions.length).map fun i =>
    positions.getD i default - 1e-4 * grad.getD i default

/-- The variables of `steepest_descent` that live across iterations: the
molecule (mutated in place), `prev_energy` and `step_size`. -/
structure SDState (F : Type) where
  mol : Molecule F
  prev_energy : F
  step_size : F

/-- The loop `for (int ls = 0; ls < 20; ++ls)` of `steepest_descent`, from trial
`ls` on, with `fuel` trials left. -/
def line_search (get_uff_params : String → UFFAtomType F) (ff : UFFForceField)
    (positions direction grad : List F) :
    Nat → Nat → F → SDState F → Except String (SDState F)
  | 0, _, _, s => .ok s
  | fuel + 1, ls, alpha, s =>
    match s.mol.set_positions (trial_positions positions direction alpha) with
    | .error e => .error e
    | .ok mol =>
      let trial_energy := calculate_energy get_uff_params ff mol
      if trial_energy < s.prev_energy then
        .ok ⟨mol, trial_energy, fmin (alpha * 1.2) 0.5⟩
      else
        let alpha := alpha * 0.5
        if ls = 19 then
          match mol.set_positions positions with
          | .error e => .error e
          | .ok mol =>
            match mol.set_positions (tiny_positions positions grad) with
            | .error e => .error e
            | .ok mol =>
              line_search get_uff_params ff positions direction grad fuel (ls + 1) alpha
                ⟨mol, calculate_energy get_uff_params ff mol, 0.001⟩
        else
          line_search get_uff_params ff positions direction grad fuel (ls + 1) alpha
            ⟨mol, s.prev_energy, s.step_size⟩

/-- The backtracking line search of one iteration, for the gradient `grad`
computed at the head of the iteration. -/
def backtracking (get_uff_params : String → UFFAtomType F) (ff : UFFForceField)
    (grad : List F) (s : SDState F) : Except String (SDState F) :=
  let direction := vec_normalized (grad.map fun g => -g)
  let alpha := s.step_size
  let positions := s.mol.get_positions
  line_search get_uff_params ff positions direction grad 20 0 alpha s

/-- Model of `result.trajectory.back()`; on an empty trajectory (undefined in the
source) a zero record. -/
def trajectory_back (trajectory : List (OptProgress F)) : OptProgress F :=
  trajectory.getLastD ⟨0, default, default, []⟩

/-- What a run leaves behind: the result record, the molecule as mutated, and
the records the callback was invoked with, in order. -/
structure OptOutcome (F : Type) where
  result : OptResult F
  mol : Molecule F
  callbacks : List (OptProgress F)

/-- The loop `for (int iter = 0; iter < settings.max_iterations; ++iter)` of
`steepest_descent` from iteration `iter` on, with `fuel` iterations left, and
the statements after it. -/
def sd_loop (get_uff_params : String → UFFAtomType F) (ff : UFFForceField)
    (settings : OptSettings F) (callback : Bool) :
    Nat → Nat → SDState F → List (OptProgress F) → List (OptProgress F) →
      Except String (OptOutcome F)
  | 0, _, s, trajectory, callbacks =>
    .ok ⟨{ converged := false, iterations := settings.max_iterations,
           final_energy := s.prev_energy,
           final_grad_norm := grad_rms get_uff_params ff s.mol,
           trajectory := trajectory }, s.mol, callbacks⟩
  | fuel + 1, iter, s, trajectory, callbacks =>
    let grad := calculate_gradient get_uff_params ff s.mol
    let grad_norm := vec_norm grad / Arith.sqrt (Arith.ofInt s.mol.num_atoms)
    let prog : OptProgress F :=
      { iteration := iter, energy := s.prev_energy, grad_norm := grad_norm,
        positions := if settings.store_trajectory then s.mol.get_positions else [] }
    let trajectory := trajectory ++ [prog]
    let callbacks := if callback then callbacks ++ [prog] else callbacks
    if grad_norm < settings.grad_tolerance then
      .ok ⟨{ converged := true, iterations := iter, final_energy := s.prev_energy,
             final_grad_norm := grad_norm, trajectory := trajectory }, s.mol, callbacks⟩
    else
      match backtracking get_uff_params ff grad s with
      | .error e => .error e
      | .ok s2 =>
        let energy_change := Arith.abs (s2.prev_energy - (trajectory_back trajectory).energy)
        if 0 < iter ∧ energy_change < settings.energy_tolerance then
          .ok ⟨{ converged := true, iterations := iter, final_energy := s2.prev_energy,
                 final_grad_norm := grad_norm, trajectory := trajectory }, s2.mol, callbacks⟩
        else
          sd_loop get_uff_params ff settings callback fuel (iter + 1) s2 trajectory callbacks

/-- Model of `steepest_descent`; `callback` tells whether a callback was passed. -/
def steepest_descent (get_uff_params : String → UFFAtomType F) (ff : UFFForceField)
    (settings : OptSettings F) (callback : Bool) (mol : Molecule F) :
    Except String (OptOutcome F) :=
  sd_loop get_uff_params ff settings callback settings.max_iterations.toNat 0
    ⟨mol, calculate_energy get_uff_params ff mol, 0.01⟩ [] []

/-- The state of `UFFObjective`: the molecule it refers to, `iter_`,
`trajectory_`, and the records its callback was invoked with. -/
structure UFFObjective (F : Type) where
  mol_ : Molecule F
  iter_ : Int
  trajectory_ : List (OptProgress F)
  callbacks : List (OptProgress F)

/-- Model of the constructor of `UFFObjective`. -/
def UFFObjective.init (mol : Molecule F) : UFFObjective F := ⟨mol, 0, [], []⟩

/-- Model of `UFFObjective::operator()`: the energy and gradient returned (or the
exception of `set_positions`), and the state after the call. -/
def UFFObjective.call (get_uff_params : String → UFFAtomType F) (ff : UFFForceField)
    (settings : OptSettings F) (callback : Bool) (self : UFFObjective F) (x : List F) :
    Except String (F × List F) × UFFObjective F :=
  match self.mol_.set_positions x with
  | .error e => (.error e, self)
  | .ok mol =>
    let energy := calculate_energy get_uff_params ff mol
    let grad := calculate_gradient get_uff_params ff mol
    let self1 : UFFObjective F := { self with mol_ := mol }
    let self2 : UFFObjective F :=
      if callback ∨ settings.store_trajectory = true then
        let prog : OptProgress F :=
          { iteration := self1.iter_, energy := energy,
            grad_norm := vec_norm grad / Arith.sqrt (Arith.ofInt mol.num_atoms),
            positions := if settings.store_trajectory then x else [] }
        { self1 with
          trajectory_ := self1.trajectory_ ++ [prog],
          callbacks := if callback then self1.callbacks ++ [prog] else self1.callbacks }
      else self1
    (.ok (energy, grad), { self2 with iter_ := self2.iter_ + 1 })

/-- The state of the objective after the solver has called it on the candidate
vectors `xs`, in order; a call that throws ends the sequence. -/
def UFFObjective.calls (get_uff_params : String → UFFAtomType F) (ff : UFFForceField)
    (settings : OptSettings F) (callback : Bool) :
    UFFObjective F → List (List F) → UFFObjective F
  | self, [] => self
  | self, x :: xs =>
    match UFFObjective.call get_uff_params ff settings callback self x with
    | (.error _, self2) => self2
    | (.ok _, self2) => UFFObjective.calls get_uff_params ff settings callback self2 xs

end optimizer

/-! ## Vocabulary of the optimizer statements -/

section optimizer_vocabulary

variable {F : Type} [Arith F] [Inhabited F]

/-- The step length of trial `ls` of a line search: `step_size` after `ls`
executions of `alpha *= 0.5`. -/
def trial_alpha (step_size : F) : Nat → F
  | 0 => step_size
  | ls + 1 => trial_alpha step_size ls * 0.5

/-- The molecule at trial `ls` of the line search that starts in state `s`. -/
def trial_mol (get_uff_params : String → UFFAtomType F) (ff : UFFForceField)
    (s : SDState F) (ls : Nat) : Molecule F :=
  s.mol.write_positions
    (trial_positions s.mol.get_positions
      (vec_normalized ((calculate_gradient get_uff_params ff s.mol).map fun g => -g))
      (trial_alpha s.step_size ls))

/-- Trial `ls` passes the test `trial_energy < prev_energy`. -/
def trial_accepted (get_uff_params : String → UFFAtomType F) (ff : UFFForceField)
    (s : SDState F) (ls : Nat) : Prop :=
  calculate_energy get_uff_params ff (trial_mol get_uff_params ff s ls) < s.prev_energy

instance trial_accepted_decidable (get_uff_params : String → UFFAtomType F)
    (ff : UFFForceField) (s : SDState F) (ls : Nat) :
    Decidable (trial_accepted get_uff_params ff s ls) := by
  unfold trial_accepted
  exact inferInstance

/-- The state in which the line search leaves through `break` at trial `ls`. -/
def accepted_state (get_uff_params : String → UFFAtomType F) (ff : UFFForceField)
    (s : SDState F) (ls : Nat) : SDState F :=
  ⟨trial_mol get_uff_params ff s ls,
    calculate_energy get_uff_params ff (trial_mol get_uff_params ff s ls),
    fmin (trial_alpha s.step_size ls * 1.2) 0.5⟩

/-- The state after a line search whose 20 trials all failed. -/
def tiny_state (get_uff_params : String → UFFAtomType F) (ff : UFFForceField)
    (s : SDState F) : SDState F :=
  ⟨s.mol.write_positions
      (tiny_positions s.mol.get_positions (calculate_gradient get_uff_params ff s.mol)),
    calculate_energy get_uff_params ff
      (s.mol.write_positions
        (tiny_positions s.mol.get_positions (calculate_gradient get_uff_params ff s.mol))),
    0.001⟩

/-- The first of the trials `0 .. 19` that passes the test, if any. -/
def first_accepted (get_uff_params : String → UFFAtomType F) (ff : UFFForceField)
    (s : SDState F) : Option Nat :=
  (List.range' 0 20).find? fun ls => decide (trial_accepted get_uff_params ff s ls)

/-- The state after the line search of an iteration that starts in state `s`
(see `backtracking_eq`). -/
def sd_next (get_uff_params : String → UFFAtomType F) (ff : UFFForceField)
    (s : SDState F) : SDState F :=
  match first_accepted get_uff_params ff s with
  | some ls => accepted_state get_uff_params ff s ls
  | none => tiny_state get_uff_params ff s

/-- The state at the head of iteration `k` of a run on `mol` that has not
returned before. -/
def sd_state (get_uff_params : String → UFFAtomType F) (ff : UFFForceField)
    (mol : Molecule F) : Nat → SDState F
  | 0 => ⟨mol, calculate_energy get_uff_params ff mol, 0.01⟩
  | k + 1 => sd_next get_uff_params ff (sd_state get_uff_params ff mol k)

/-- The progress record of iteration `k` when it starts in state `s`. -/
def sd_record (get_uff_params : String → UFFAtomType F) (ff : UFFForceField)
    (settings : OptSettings F) (s : SDState F) (k : Nat) : OptProgress F :=
  { iteration := k, energy := s.prev_energy, grad_norm := grad_rms get_uff_params ff s.mol,
    positions := if settings.store_trajectory then s.mol.get_positions else [] }

end optimizer_vocabulary

section optimizer_exits

variable {F : Type} [Arith F] [Inhabited F]

/-- The three ways in which the loop of `steepest_descent`, entered at iteration
`iter` with `fuel` iterations left and states `st 0, st 1, ...` at the heads of
its iterations, can end after reporting `n` records: the gradient test of its
iteration `m`, the energy test of its iteration `m`, or the end of the loop. -/
def sd_exit (get_uff_params : String → UFFAtomType F) (ff : UFFForceField)
    (settings : OptSettings F) (st : Nat → SDState F) (iter fuel n : Nat)
    (out : OptOutcome F) : Prop :=
  (∃ m, n = m + 1 ∧ m < fuel ∧
    grad_rms get_uff_params ff (st m).mol < settings.grad_tolerance ∧
    out.result.converged = true ∧ out.result.iterations = ((iter + m : Nat) : Int) ∧
    out.result.final_energy = (st m).prev_energy ∧
    out.result.final_grad_norm = grad_rms get_uff_params ff (st m).mol ∧
    out.mol = (st m).mol) ∨
  (∃ m, n = m + 1 ∧ m < fuel ∧ 0 < iter + m ∧
    ¬ grad_rms get_uff_params ff (st m).mol < settings.grad_tolerance ∧
    Arith.abs ((st (m + 1)).prev_energy - (st m).prev_energy) < settings.energy_tolerance ∧
    out.result.converged = true ∧ out.result.iterations = ((iter + m : Nat) : Int) ∧
    out.result.final_energy = (st (m + 1)).prev_energy ∧
    out.result.final_grad_norm = grad_rms get_uff_params ff (st m).mol ∧
    out.mol = (st (m + 1)).mol) ∨
  (n = fuel ∧ out.result.converged = false ∧
    out.result.iterations = settings.max_iterations ∧
    out.result.final_energy = (st fuel).prev_energy ∧
    out.result.final_grad_norm = grad_rms get_uff_params ff (st fuel).mol ∧
    out.mol = (st fuel).mol)

/-- What every call of the objective closure preserves: records are numbered by
their position, the callback saw exactly the records kept, and `iter_` counts
the records when records are kept at all. -/
def objective_invariant (settings : OptSettings F) (cb : Bool) (self : UFFObjective F) : Prop :=
  (∀ k r, self.trajectory_.get? k = some r → r.iteration = (k : Int)) ∧
  self.callbacks = (if cb then self.trajectory_ else []) ∧
  ((cb = true ∨ settings.store_trajectory = true) →
    self.iter_ = (self.trajectory_.length : Int))

end optimizer_exits

/-! ## Concrete runs of the optimizer -/

/-- Dihydrogen on the x axis, the atoms at `u` and `v`, one bond. -/
noncomputable def dihydrogen (u v : ℝ) : Molecule ℝ :=
  { atoms := [⟨1, "H", ⟨u, 0, 0⟩⟩, ⟨1, "H", ⟨v, 0, 0⟩⟩], bonds := [⟨0, 1, 1⟩] }

/-- The evaluator state that `setup` computes for `dihydrogen`. -/
def dihydrogen_ff : UFFForceField :=
  { atom_types_ := ["H_", "H_"], angles_ := [], torsions_ := [], nonbonded_pairs_ := [] }

/-- The natural length of the H-H bond under `sample_uff_params`. -/
noncomputable def dihydrogen_r0 : ℝ := 0.708

/-- The force constant of the H-H bond under `sample_uff_params`. -/
noncomputable def dihydrogen_k : ℝ := 664.12 * 0.712 * 0.712 / (0.708 * 0.708 * 0.708)

/-- Settings of the steepest-descent test of the repository, with an energy
tolerance of 0.5 kcal/mol. -/
noncomputable def coarse_settings : OptSettings ℝ :=
  { max_iterations := 200, grad_tolerance := 1e-3, energy_tolerance := 0.5,
    method := "steepest_descent", store_trajectory := true }

/-- The default settings of `OptSettings`, with the steepest-descent method. -/
noncomputable def default_sd_settings : OptSettings ℝ :=
  { max_iterations := 500, grad_tolerance := 1e-4, energy_tolerance := 1e-8,
    method := "steepest_descent", store_trajectory := true }

/-- A single helium atom. -/
noncomputable def helium_atom : Molecule ℝ :=
  { atoms := [⟨2, "He", ⟨0, 0, 0⟩⟩], bonds := [] }

/-- The evaluator state that `setup` computes for `helium_atom`. -/
def helium_ff : UFFForceField :=
  { atom_types_ := ["He4+4"], angles_ := [], torsions_ := [], nonbonded_pairs_ := [] }

/-- Dihydrogen stretched to 0.758 angstrom, the start of the sample run. -/
noncomputable def dihydrogen_start : Molecule ℝ := dihydrogen 0 0.758

/-- The geometry after the first accepted step of the sample run (step 0.01). -/
noncomputable def dihydrogen_first : Molecule ℝ :=
  dihydrogen (0 + 0.01 * (√2 / 2)) (0.758 - 0.01 * (√2 / 2))

/-- The geometry after the second accepted step of the sample run (step 0.012). -/
noncomputable def dihydrogen_second : Molecule ℝ :=
  dihydrogen (0 + 0.01 * (√2 / 2) + 0.012 * (√2 / 2)) (0.758 - 0.01 * (√2 / 2) - 0.012 * (√2 / 2))

/-! ## The molecular graph as an object with state -/

section molecule_methods

variable {F : Type} [Inhabited F]

/-- Model of a call of `Molecule::set_positions` on the object `self`: the
exception, if one leaves the call, and the object after the call. The size
test is the first statement, so a throwing call has written nothing. -/
def Molecule.set_positions_call (self : Molecule F) (positions : List F) :
    Except String Unit × Molecule F :=
  if positions.length ≠ 3 * self.atoms.length then
    (.error "Position vector size mismatch", self)
  else (.ok (), self.write_positions positions)

end molecule_methods

section perceive_method

variable {F : Type} [Arith F] [Inhabited F]

/-- One pass of the inner loop body of `perceive_bonds` on the pair of the bonds
stored so far and the exception in flight, if any: once an exception is in
flight nothing more is executed. -/
def perceive_call_step (mol : Molecule F) (tolerance : F) (i : Nat)
    (st : List Bond × Option String) (j : Nat) : List Bond × Option String :=
  match st.2 with
  | some _ => st
  | none =>
    match perceive_step mol tolerance i st.1 j with
    | .ok bonds => (bonds, none)
    | .error e => (st.1, some e)

/-- Model of a call of `Molecule::perceive_bonds` on the object `self`: the
exception, if one leaves the call, and the object after the call, which then
holds the bonds stored before the throwing lookup. -/
def Molecule.perceive_bonds_call (self : Molecule F) (tolerance : F) :
    Except String Unit × Molecule F :=
  let n := self.num_atoms
  let st := (List.range n).foldl
    (fun st i => (List.range' (i + 1) (n - (i + 1))).foldl
      (perceive_call_step self tolerance i) st)
    (([] : List Bond), (none : Option String))
  (match st.2 with
    | some e => .error e
    | none => .ok (),
   { self with bonds := st.1 })

end perceive_method

/-! ## Text input and output of the C++ library

A stream is the sequence of characters not yet read. The conversions between
text and `double` are parameters of the parsers and of the writer. -/

/-- The newline character. -/
def newline : Char := Char.ofNat 10

/-- Model of `std::getline(stream, line)`: at the end of the input it fails;
otherwise the line is the text up to the next newline (or to the end of the
input) and the newline is consumed. -/
def getline : List Char → Option (List Char × List Char)
  | [] => none
  | c :: s =>
    some ((c :: s).takeWhile (fun x => x != newline),
      ((c :: s).dropWhile (fun x => x != newline)).drop 1)

/-- Model of `isspace` in the "C" locale: space, tab, line feed, vertical tab,
form feed, carriage return. -/
def is_space (c : Char) : Bool := c.toNat == 32 || (9 ≤ c.toNat && c.toNat ≤ 13)

/-- The value of a sequence of decimal digits. -/
def digits_value (ds : List Char) : Nat := ds.foldl (fun v c => 10 * v + (c.toNat - 48)) 0

/-- Model of `std::stoi(str)`: leading white space is skipped, an optional sign
and the longest run of decimal digits are read, the rest is ignored. No digit
(`std::invalid_argument`) or a value outside `int` (`std::out_of_range`)
gives `none`. -/
def stoi (str : List Char) : Option Int :=
  let s := str.dropWhile is_space
  let negative : Bool := s.head? == some (Char.ofNat 45)
  let s2 := if negative || s.head? == some (Char.ofNat 43) then s.drop 1 else s
  let ds := s2.takeWhile Char.isDigit
  if ds.isEmpty then none
  else
    let v : Int := if negative then -(digits_value ds : Int) else (digits_value ds : Int)
    if v < -2147483648 ∨ 2147483647 < v then none else some v

/-- Model of `stream >> word` for a `std::string`: white space is skipped and the
characters up to the next white space are read; it fails when there are none. -/
def read_word (s : List Char) : Option (List Char × List Char) :=
  let s1 := s.dropWhile is_space
  if s1.isEmpty then none
  else some (s1.takeWhile (fun c => !is_space c), s1.dropWhile (fun c => !is_space c))

/-- Model of `std::to_string(n)` and of `out << n` for a non-negative `int`. -/
def show_nat (n : Nat) : List Char := Nat.toDigits 10 n

/-- A `Molecule` together with its public members `name` and `comment`, which
no method of the class reads. -/
structure NamedMolecule (F : Type) where
  name : List Char
  comment : List Char
  mol : Molecule F

section symbol_lookup

variable {F : Type} [Arith F]

/-- Model of `symbol_map()`: the loop `map[ELEMENT_TABLE[i].symbol] = i` as an
association list in which the newest entry for a key comes first. -/
def symbol_map : List (String × Nat) :=
  ((ELEMENT_TABLE (F := F)).enum).foldl (fun map p => (p.2.symbol, p.1) :: map) []

/-- Model of `element_by_symbol`: the row whose index the map holds for the
symbol, or an out-of-range error. -/
def element_by_symbol (symbol : String) : Except String (ElementInfo F) :=
  match (symbol_map (F := F)).lookup symbol with
  | none => .error ("Unknown element symbol: " ++ symbol)
  | some i => .ok ((ELEMENT_TABLE (F := F)).getD i ⟨0, "X", "Dummy", 0.000, 0.00, 0.00⟩)

end symbol_lookup

/-! ## XYZ files (`xyz_parser.cpp`) -/

section xyz

variable {F : Type} [Arith F] [Inhabited F]

/-- The body of the atom loop of `parse_xyz` for one line:
`atom_stream >> symbol >> x >> y >> z`, then the lookup of the symbol.
`read_double` is `stream >> x` for a `double`. -/
def xyz_atom_line (read_double : List Char → Option (F × List Char)) (line : List Char) :
    Except String (Atom F) :=
  match read_word line with
  | none => .error ("XYZ: malformed atom line: " ++ String.mk line)
  | some (symbol, r1) =>
    match read_double r1 with
    | none => .error ("XYZ: malformed atom line: " ++ String.mk line)
    | some (x, r2) =>
      match read_double r2 with
      | none => .error ("XYZ: malformed atom line: " ++ String.mk line)
      | some (y, r3) =>
        match read_double r3 with
        | none => .error ("XYZ: malformed atom line: " ++ String.mk line)
        | some (z, _) =>
          match element_by_symbol (F := F) (String.mk symbol) with
          | .error e => .error e
          | .ok elem => .ok ⟨elem.atomic_number, String.mk symbol, ⟨x, y, z⟩⟩

/-- The atom loop of `parse_xyz`, entered at iteration `i` with `fuel`
iterations to go. -/
def xyz_atoms (read_double : List Char → Option (F × List Char)) (num_atoms : Int) :
    Nat → Nat → List Char → List (Atom F) → Except String (List (Atom F))
  | 0, _, _, atoms => .ok atoms
  | fuel + 1, i, stream, atoms =>
    match getline stream with
    | none =>
      .error ("XYZ: expected " ++ toString num_atoms ++ " atoms, got " ++ toString i)
    | some (line, rest) =>
      match xyz_atom_line read_double line with
      | .error e => .error e
      | .ok a => xyz_atoms read_double num_atoms fuel (i + 1) rest (atoms ++ [a])

/-- Model of `parse_xyz`. -/
def parse_xyz (read_double : List Char → Option (F × List Char)) (content : List Char) :
    Except String (NamedMolecule F) :=
  match getline content with
  | none => .error "XYZ: empty input"
  | some (line, s1) =>
    match stoi line with
    | none => .error ("XYZ: invalid atom count: " ++ String.mk line)
    | some num_atoms =>
      if num_atoms < 0 then .error "XYZ: negative atom count"
      else
        match getline s1 with
        | none => .error "XYZ: missing comment line"
        | some (comment, s2) =>
          match xyz_atoms read_double num_atoms num_atoms.toNat 0 s2 [] with
          | .error e => .error e
          | .ok atoms =>
            match (Molecule.mk atoms []).perceive_bonds 0.45 with
            | .error e => .error e
            | .ok mol => .ok ⟨[], comment, mol⟩

/-- Model of `write_xyz`; `show_double` is `out << x` for a `double`. -/
def write_xyz (show_double : F → List Char) (m : NamedMolecule F) : List Char :=
  show_nat m.mol.num_atoms ++ [newline] ++ m.comment ++ [newline] ++
    (List.range m.mol.num_atoms).flatMap fun i =>
      (m.mol.atom i).symbol.data ++ [Char.ofNat 32] ++
        show_double (m.mol.atom i).position.x ++ [Char.ofNat 32] ++
        show_double (m.mol.atom i).position.y ++ [Char.ofNat 32] ++
        show_double (m.mol.atom i).position.z ++ [newline]

end xyz

/-! ## SDF files (`sdf_parser.cpp`) -/

/-- A `Bond` as the source declares it, three values of type `int`. The parser
can store a negative index, which the graph model `Bond` cannot hold. -/
structure RawBond where
  atom_i : Int
  atom_j : Int
  order : Int
  deriving DecidableEq, Repr

/-- The molecule that `parse_sdf` builds. -/
structure SDFMolecule (F : Type) where
  name : List Char
  comment : List Char
  atoms : List (Atom F)
  bonds : List RawBond

/-- Model of `line.substr(pos, len)` for `pos` within the line. -/
def substr (line : List Char) (pos len : Nat) : List Char := (line.drop pos).take len

/-- The trimming of the symbol field in `parse_sdf`: leading and trailing
spaces go, a field of spaces only stays as it is. -/
def trim_symbol (symbol : List Char) : List Char :=
  if symbol.all (fun c => c == Char.ofNat 32) then symbol
  else ((symbol.dropWhile (fun c => c == Char.ofNat 32)).reverse.dropWhile
    (fun c => c == Char.ofNat 32)).reverse

section sdf

variable {F : Type} [Arith F] [Inhabited F]

/-- The body of the atom loop of `parse_sdf` for one line; `stod` is `std::stod`. -/
def sdf_atom_line (stod : List Char → Option F) (line : List Char) : Except String (Atom F) :=
  if line.length < 34 then .error ("SDF: atom line too short: " ++ String.mk line)
  else
    match stod (substr line 0 10) with
    | none => .error "stod"
    | some x =>
      match stod (substr line 10 10) with
      | none => .error "stod"
      | some y =>
        match stod (substr line 20 10) with
        | none => .error "stod"
        | some z =>
          match element_by_symbol (F := F) (String.mk (trim_symbol (substr line 31 3))) with
          | .error e => .error e
          | .ok elem =>
            .ok ⟨elem.atomic_number, String.mk (trim_symbol (substr line 31 3)), ⟨x, y, z⟩⟩

/-- The atom loop of `parse_sdf`. -/
def sdf_atoms (stod : List Char → Option F) (num_atoms : Int) :
    Nat → Nat → List Char → List (Atom F) → Except String (List (Atom F) × List Char)
  | 0, _, stream, atoms => .ok (atoms, stream)
  | fuel + 1, i, stream, atoms =>
    match getline stream with
    | none =>
      .error ("SDF: expected " ++ toString num_atoms ++ " atoms, got " ++ toString i)
    | some (line, rest) =>
      match sdf_atom_line stod line with
      | .error e => .error e
      | .ok a => sdf_atoms stod num_atoms fuel (i + 1) rest (atoms ++ [a])

/-- The body of the bond loop of `parse_sdf` for one line. -/
def sdf_bond_line (line : List Char) : Except String RawBond :=
  if line.length < 9 then .error ("SDF: bond line too short: " ++ String.mk line)
  else
    match stoi (substr line 0 3) with
    | none => .error "stoi"
    | some a1 =>
      match stoi (substr line 3 3) with
      | none => .error "stoi"
      | some a2 =>
        match stoi (substr line 6 3) with
        | none => .error "stoi"
        | some order => .ok ⟨a1 - 1, a2 - 1, order⟩

/-- The bond loop of `parse_sdf`. -/
def sdf_bonds (num_bonds : Int) :
    Nat → Nat → List Char → List RawBond → Except String (List RawBond)
  | 0, _, _, bonds => .ok bonds
  | fuel + 1, i, stream, bonds =>
    match getline stream with
    | none =>
      .error ("SDF: expected " ++ toString num_bonds ++ " bonds, got " ++ toString i)
    | some (line, rest) =>
      match sdf_bond_line line with
      | .error e => .error e
      | .ok b => sdf_bonds num_bonds fuel (i + 1) rest (bonds ++ [b])

/-- Model of `parse_sdf`. -/
def parse_sdf (stod : List Char → Option F) (content : List Char) :
    Except String (SDFMolecule F) :=
  match getline content with
  | none => .error "SDF: empty input"
  | some (name, s1) =>
    let s2 := match getline s1 with
      | none => s1
      | some (_, r) => r
    let (comment, s3) := match getline s2 with
      | none => (([] : List Char), s2)
      | some (l, r) => (l, r)
    match getline s3 with
    | none => .error "SDF: missing counts line"
    | some (line, s4) =>
      if line.length < 6 then .error "SDF: counts line too short"
      else
        match stoi (substr line 0 3), stoi (substr line 3 3) with
        | some num_atoms, some num_bonds =>
          match sdf_atoms stod num_atoms num_atoms.toNat 0 s4 [] with
          | .error e => .error e
          | .ok (atoms, s5) =>
            match sdf_bonds num_bonds num_bonds.toNat 0 s5 [] with
            | .error e => .error e
            | .ok bonds => .ok ⟨name, comment, atoms, bonds⟩
        | _, _ => .error ("SDF: invalid counts line: " ++ String.mk line)

end sdf

/-! ## A sample conversion between text and numbers -/

/-- A reader that understands unsigned whole numbers only; it stands in for
`stream >> x` on such input. -/
noncomputable def read_whole (s : List Char) : Option (ℝ × List Char) :=
  let s1 := s.dropWhile is_space
  if (s1.takeWhile Char.isDigit).isEmpty then none
  else some ((digits_value (s1.takeWhile Char.isDigit) : ℝ), s1.dropWhile Char.isDigit)

/-- A writer for the numbers that `read_whole` returns. -/
noncomputable def show_whole (x : ℝ) : List Char := show_nat ⌊x⌋₊

/-- The conversion `std::stod` on unsigned whole numbers. -/
noncomputable def stod_whole (s : List Char) : Option ℝ := (read_whole s).map fun p => p.1

/-! ## Vocabulary of the parser statements -/

/-- The first `n` lines of a stream, fewer when the stream ends before. -/
def first_lines : Nat → List Char → List (List Char)
  | 0, _ => []
  | n + 1, s =>
    match getline s with
    | none => []
    | some (line, rest) => line :: first_lines n rest

/-- What is left of a stream after its first `n` lines. -/
def after_lines : Nat → List Char → List Char
  | 0, s => s
  | n + 1, s =>
    match getline s with
    | none => []
    | some (_, rest) => after_lines n rest

/-- The writer and the reader of `double` fit together: for every number `x`
that the reader can return, the text written for `x` has no newline, and
reading it after a blank, when a blank or the end of the line follows, yields
`round x` and leaves what follows. -/
def Formats {F : Type} (read_double : List Char → Option (F × List Char))
    (show_double : F → List Char) (round : F → F) : Prop :=
  ∀ x, (∃ s r, read_double s = some (x, r)) →
    newline ∉ show_double x ∧
    ∀ s, (s = [] ∨ s.head? = some (Char.ofNat 32)) →
      read_double (Char.ofNat 32 :: (show_double x ++ s)) = some (round x, s)

/-- The Bond invariants of the data model for a molecule of `n` atoms: both
indices in `[0, n)`, distinct, order among 1, 2, 3, 4. -/
def RawBond.valid (n : Nat) (b : RawBond) : Prop :=
  0 ≤ b.atom_i ∧ b.atom_i < n ∧ 0 ≤ b.atom_j ∧ b.atom_j < n ∧ b.atom_i ≠ b.atom_j ∧
    1 ≤ b.order ∧ b.order ≤ 4

/-! ## Sample files -/

/-- An XYZ file of two atoms. -/
def pair_xyz : List Char := "2\npair\nO 0 0 0\nH 1 0 0\n".toList

/-- An XYZ file of one atom. -/
def helium_xyz : List Char := "1\nhelium\nHe 0 0 0\n".toList

/-- An XYZ file whose first line is the text `1.5`. -/
def fractional_xyz : List Char := "1.5\nc\nH 0 0 0\n".toList

/-- An SDF file of two atoms and one bond. -/
def pair_sdf : List Char :=
  ("pair\n\n\n  2  1\n" ++
    "         0         0         0 H  \n" ++
    "         1         0         0 H  \n" ++
    "  1  2  1\n").toList

/-- An SDF file without atoms whose bond block has the lines `1 1 7` and `0 5 2`. -/
def loose_sdf : List Char := "loose\n\n\n  0  2\n  1  1  7\n  0  5  2\n".toList

/-! ## Checked arithmetic

The operations of `double` with their domains kept: a value is a real number or
the mark of an operation that has none, which every later operation passes on.
A division by zero, the square root of a negative number, the logarithm of a
number that is not positive and the arc cosine outside `[-1, 1]` have no value;
a comparison with the mark is false. -/

/-- A value of checked arithmetic. -/
structure Checked where
  val : Option ℝ

namespace Checked

/-- A real number as a checked value. -/
def lift (x : ℝ) : Checked := ⟨some x⟩

/-- The mark of an operation without value. -/
def undefined : Checked := ⟨none⟩

/-- An operation defined everywhere. -/
def map (f : ℝ → ℝ) (a : Checked) : Checked :=
  match a.val with
  | some x => lift (f x)
  | none => undefined

/-- A binary operation defined everywhere. -/
def map2 (f : ℝ → ℝ → ℝ) (a b : Checked) : Checked :=
  match a.val, b.val with
  | some x, some y => lift (f x y)
  | _, _ => undefined

/-- An operation with the domain `dom`. -/
noncomputable def mapOn (dom : ℝ → Prop) (f : ℝ → ℝ) (a : Checked) : Checked :=
  match a.val with
  | some x => if (Classical.propDecidable (dom x)).decide then lift (f x) else undefined
  | none => undefined

/-- Division, without value on the divisor zero. -/
noncomputable def div (a b : Checked) : Checked :=
  match a.val, b.val with
  | some x, some y => if (Classical.propDecidable (y = 0)).decide then undefined else lift (x / y)
  | _, _ => undefined

/-- The order of two checked values; false when one of them is the mark. -/
def lt (a b : Checked) : Prop :=
  match a.val, b.val with
  | some x, some y => x < y
  | _, _ => False

/-- The weak order of two checked values; false when one of them is the mark. -/
def le (a b : Checked) : Prop :=
  match a.val, b.val with
  | some x, some y => x ≤ y
  | _, _ => False

end Checked

noncomputable instance instArithChecked : Arith Checked where
  add := Checked.map2 (fun x y => x + y)
  sub := Checked.map2 (fun x y => x - y)
  mul := Checked.map2 (fun x y => x * y)
  div := Checked.div
  neg := Checked.map (fun x => -x)
  lt := Checked.lt
  le := Checked.le
  ofScientific := fun m s e => Checked.lift (OfScientific.ofScientific m s e)
  ofInt := fun n => Checked.lift (n : ℝ)
  pi := Checked.lift Real.pi
  sqrt := Checked.mapOn (fun x => 0 ≤ x) Real.sqrt
  log := Checked.mapOn (fun x => 0 < x) Real.log
  cos := Checked.map Real.cos
  sin := Checked.map Real.sin
  acos := Checked.mapOn (fun x => -1 ≤ x ∧ x ≤ 1) Real.arccos
  abs := Checked.map (fun x => |x|)
  decLt := fun _ _ => Classical.propDecidable _
  decLe := fun _ _ => Classical.propDecidable _

/-- An element read outside a vector has no value. -/
instance instInhabitedChecked : Inhabited Checked := ⟨Checked.undefined⟩

/-! ## Vocabulary of the definedness statement -/

/-- A vector with every coordinate converted. -/
def Vec3.map {F G : Type} (f : F → G) (v : Vec3 F) : Vec3 G := ⟨f v.x, f v.y, f v.z⟩

/-- A molecule with every coordinate converted. -/
def Molecule.map {F G : Type} (f : F → G) (mol : Molecule F) : Molecule G :=
  { atoms := mol.atoms.map fun a => ⟨a.atomic_number, a.symbol, a.position.map f⟩,
    bonds := mol.bonds }

/-- A parameter row with every number converted. -/
def UFFAtomType.map {F G : Type} (f : F → G) (p : UFFAtomType F) : UFFAtomType G :=
  ⟨p.label, f p.r1, f p.theta0, f p.x1, f p.D1, f p.zeta, f p.Z1, f p.Vi, f p.Uj, f p.Xi,
    f p.hard, f p.radius⟩

/-- What the evaluator needs of a parameter row: a positive radius and
electronegativity, van der Waals parameters that are not negative, and a
natural angle in `(0, 180]` degrees. -/
def RowDefined (p : UFFAtomType ℝ) : Prop :=
  0 < p.r1 ∧ 0 < p.Xi ∧ 0 ≤ p.x1 ∧ 0 ≤ p.D1 ∧ 0 < p.theta0 ∧ p.theta0 ≤ 180

/-- Every atom index held by the bonds and by the lists of the evaluator is an
index of the molecule. -/
def IndicesValid {F : Type} (ff : UFFForceField) (mol : Molecule F) : Prop :=
  (∀ b ∈ mol.bonds, b.atom_i < mol.num_atoms ∧ b.atom_j < mol.num_atoms) ∧
  (∀ a ∈ ff.angles_, a.i < mol.num_atoms ∧ a.j < mol.num_atoms ∧ a.k < mol.num_atoms) ∧
  (∀ t ∈ ff.torsions_, t.i < mol.num_atoms ∧ t.j < mol.num_atoms ∧ t.k < mol.num_atoms ∧
    t.l < mol.num_atoms) ∧
  (∀ p ∈ ff.nonbonded_pairs_, p.1 < mol.num_atoms ∧ p.2 < mol.num_atoms)

/-- Hydrogen peroxide with its four atoms on one line, one unit apart. -/
noncomputable def straight_peroxide : Molecule ℝ :=
  { atoms := [⟨1, "H", ⟨-1, 0, 0⟩⟩, ⟨8, "O", ⟨0, 0, 0⟩⟩, ⟨8, "O", ⟨1, 0, 0⟩⟩,
      ⟨1, "H", ⟨2, 0, 0⟩⟩],
    bonds := [⟨0, 1, 1⟩, ⟨1, 2, 1⟩, ⟨2, 3, 1⟩] }

/-! ## Vocabulary of the force-field statements -/

section angle_vocabulary

variable {F : Type} [Arith F]

/-- The angle energy term as `angle_bend_energy` adds it once its guards are
passed, as a function of the force constant, the natural angle in radians and
the clamped cosine of the current angle. -/
def angle_term (K theta0 cos_theta : F) : F :=
  let theta := Arith.acos cos_theta
  let cos_theta0 := Arith.cos theta0
  let sin_theta0 := Arith.sin theta0
  if Arith.abs (theta0 - Arith.pi) < 0.01 then
    K * (1.0 + cos_theta)
  else if Arith.abs (theta0 - 2.0 * Arith.pi / 3.0) < 0.01 then
    let C2 := 1.0 / (4.0 * sin_theta0 * sin_theta0)
    let C1 := -4.0 * C2 * cos_theta0
    let C0 := C2 * (2.0 * cos_theta0 * cos_theta0 + 1.0)
    K * (C0 + C1 * cos_theta + C2 * Arith.cos (2.0 * theta))
  else
    let C2 := 1.0 / (4.0 * sin_theta0 * sin_theta0)
    let C1 := -4.0 * C2 * cos_theta0
    let C0 := C2 * (2.0 * cos_theta0 * cos_theta0 + 1.0)
    K * (C0 + C1 * cos_theta + C2 * Arith.cos (2.0 * theta))

/-- The variable `sin_theta` of `angle_bend_gradient`: the sine of the current
angle, replaced by `1e-10` when its magnitude is below `1e-10`. -/
def floored_sin (cos_theta : F) : F :=
  let theta := Arith.acos cos_theta
  let sin_theta := Arith.sin theta
  if Arith.abs sin_theta < 1e-10 then 1e-10 else sin_theta

/-- The variable `dE_dtheta` of `angle_bend_gradient`, as a function of the
force constant, the natural angle in radians and the clamped cosine of the
current angle. -/
def angle_slope (K theta0 cos_theta : F) : F :=
  let theta := Arith.acos cos_theta
  let sin_theta := Arith.sin theta
  let sin_theta := if Arith.abs sin_theta < 1e-10 then 1e-10 else sin_theta
  let cos_theta0 := Arith.cos theta0
  let sin_theta0 := Arith.sin theta0
  if Arith.abs (theta0 - Arith.pi) < 0.01 then -K * sin_theta
  else
    let C2 := 1.0 / (4.0 * sin_theta0 * sin_theta0)
    let C1 := -4.0 * C2 * cos_theta0
    K * (-C1 * sin_theta - 2.0 * C2 * Arith.sin (2.0 * theta))

/-- The angle force constant in the words of the specification:
`664.12 Z_i Z_k r_ij r_jk / r_ik^5 [3 r_ij r_jk (1 - cos^2 theta0) - r_ik^2 cos theta0]`
with `r_ik^2 = r_ij^2 + r_jk^2 - 2 r_ij r_jk cos theta0`. -/
def stated_angle_force_constant (pi pj pk : UFFAtomType F) : F :=
  let theta0 := pj.theta0 * DEG2RAD
  let r_ij := pi.r1 + pj.r1
  let r_jk := pj.r1 + pk.r1
  let r_ik_sq := r_ij * r_ij + r_jk * r_jk - 2.0 * r_ij * r_jk * Arith.cos theta0
  let r_ik := Arith.sqrt r_ik_sq
  664.12 * pi.Z1 * pk.Z1 * r_ij * r_jk / (r_ik * r_ik * r_ik * r_ik * r_ik) *
    (3.0 * r_ij * r_jk * (1.0 - Arith.cos theta0 * Arith.cos theta0) -
      r_ik_sq * Arith.cos theta0)

/-- The gradient vector of atom `a`: the entries `3a`, `3a+1`, `3a+2` of the
flat gradient. -/
def gradient_of_atom (grad : List F) (a : Nat) : Vec3 F :=
  ⟨grad.getD (3 * a) 0.0, grad.getD (3 * a + 1) 0.0, grad.getD (3 * a + 2) 0.0⟩

/-- The sum of the gradient vectors of the atoms `0 .. n-1`. -/
def net_force (grad : List F) (n : Nat) : Vec3 F :=
  (List.range n).foldl (fun s a => s.add (gradient_of_atom grad a)) ⟨0.0, 0.0, 0.0⟩

/-- The sum over the atoms `0 .. n-1` of position cross gradient vector. -/
def net_torque (pos : Nat → Vec3 F) (grad : List F) (n : Nat) : Vec3 F :=
  (List.range n).foldl (fun s a => s.add ((pos a).cross (gradient_of_atom grad a)))
    ⟨0.0, 0.0, 0.0⟩

end angle_vocabulary

/-- The sample table extended by the rows of the published UFF parameter set
for the labels "C_3" and "C_2". -/
noncomputable def carbon_uff_params : String → UFFAtomType ℝ := fun label =>
  if label = "C_3" then
    ⟨"C_3", 0.757, 109.47, 3.851, 0.105, 12.73, 1.912, 2.119, 2.0, 5.343, 5.063, 0.759⟩
  else if label = "C_2" then
    ⟨"C_2", 0.732, 120.0, 3.851, 0.105, 12.73, 1.912, 0.0, 2.0, 5.343, 5.063, 0.759⟩
  else sample_uff_params label

/-- An evaluator state for the four-atom chain whose central atoms are typed
"C_3" and "C_2" (a torsion about the single bond of propene). -/
def propene_chain_ff : UFFForceField :=
  { atom_types_ := ["H_", "C_3", "C_2", "H_"],
    angles_ := [⟨0, 1, 2⟩, ⟨1, 2, 3⟩],
    torsions_ := [⟨0, 1, 2, 3⟩],
    nonbonded_pairs_ := [(0, 3)] }

/-- An evaluator state for the four-atom chain whose central atoms are typed
"O_3" and "C_2" (a torsion about the C-O bond of an enol). -/
def enol_chain_ff : UFFForceField :=
  { atom_types_ := ["H_", "O_3", "C_2", "H_"],
    angles_ := [⟨0, 1, 2⟩, ⟨1, 2, 3⟩],
    torsions_ := [⟨0, 1, 2, 3⟩],
    nonbonded_pairs_ := [(0, 3)] }

/-- Three atoms in a chain 0 - 1 - 2 whose bonds are stored as (1, 2), (0, 1). -/
def chain_stored_backwards : Molecule ℚ :=
  { atoms := [⟨1, "H", ⟨0, 0, 0⟩⟩, ⟨8, "O", ⟨1, 0, 0⟩⟩, ⟨1, "H", ⟨1, 1, 0⟩⟩],
    bonds := [⟨1, 2, 1⟩, ⟨0, 1, 1⟩] }

/-! # Theorems -/

/-! ## List lemmas: ordered pairs of a sequence -/

section pair_lemmas

theorem mem_ordered_pairs {α : Type} :
    ∀ (l : List α) (p : α × α), p ∈ ordered_pairs l → p.1 ∈ l ∧ p.2 ∈ l := by
  intro l
  induction l with
  | nil => intro p h; simp [ordered_pairs] at h
  | cons x xs ih =>
    intro p h
    simp only [ordered_pairs, List.mem_append, List.mem_map] at h
    rcases h with ⟨y, hy, rfl⟩ | h
    · exact ⟨List.mem_cons_self _ _, List.mem_cons_of_mem _ hy⟩
    · exact ⟨List.mem_cons_of_mem _ (ih p h).1, List.mem_cons_of_mem _ (ih p h).2⟩

theorem ordered_pairs_ne {α : Type} :
    ∀ (l : List α), l.Nodup → ∀ p ∈ ordered_pairs l, p.1 ≠ p.2 := by
  intro l
  induction l with
  | nil => intro _ p h; simp [ordered_pairs] at h
  | cons x xs ih =>
    intro hnd p h
    rw [List.nodup_cons] at hnd
    simp only [ordered_pairs, List.mem_append, List.mem_map] at h
    rcases h with ⟨y, hy, rfl⟩ | h
    · intro hxy
      have hxy2 : x = y := hxy
      exact hnd.1 (by rw [hxy2]; exact hy)
    · exact ih hnd.2 p h

theorem ordered_pairs_of_mem {α : Type} :
    ∀ (l : List α) (x y : α), x ∈ l → y ∈ l → x ≠ y →
      (x, y) ∈ ordered_pairs l ∨ (y, x) ∈ ordered_pairs l := by
  intro l
  induction l with
  | nil => intro x y hx; cases hx
  | cons a as ih =>
    intro x y hx hy hne
    simp only [ordered_pairs, List.mem_append, List.mem_map]
    rcases List.mem_cons.1 hx with rfl | hx' <;> rcases List.mem_cons.1 hy with rfl | hy'
    · exact absurd rfl hne
    · exact Or.inl (Or.inl ⟨y, hy', rfl⟩)
    · exact Or.inr (Or.inl ⟨x, hx', rfl⟩)
    · rcases ih x y hx' hy' hne with h | h
      · exact Or.inl (Or.inr h)
      · exact Or.inr (Or.inr h)

theorem ordered_pairs_countP {α : Type} [DecidableEq α] :
    ∀ (l : List α), l.Nodup → ∀ (x y : α), x ∈ l → y ∈ l → x ≠ y →
      (ordered_pairs l).countP (fun p => decide (p = (x, y) ∨ p = (y, x))) = 1 := by
  intro l
  induction l with
  | nil => intro _ x y hx; cases hx
  | cons a as ih =>
    intro hnd x y hx hy hne
    rw [List.nodup_cons] at hnd
    simp only [ordered_pairs, List.countP_append, List.countP_map]
    have hzero : ∀ (u v : α), u ∉ as →
        (ordered_pairs as).countP (fun p => decide (p = (u, v) ∨ p = (v, u))) = 0 := by
      intro u v hu
      rw [List.countP_eq_zero]
      intro p hp
      have := mem_ordered_pairs as p hp
      simp only [decide_eq_true_eq]
      rintro (rfl | rfl)
      · exact hu this.1
      · exact hu this.2
    have hone : ∀ (v : α), v ∈ as → v ≠ a →
        as.countP ((fun p => decide (p = (a, v) ∨ p = (v, a))) ∘ fun y => (a, y)) = 1 := by
      intro v hv hva
      have : ((fun p => decide (p = (a, v) ∨ p = (v, a))) ∘ fun y => (a, y)) = (fun y => y == v) := by
        funext z
        simp only [Function.comp, Prod.mk.injEq, true_and]
        by_cases hz : z = v
        · simp [hz]
        · have : ¬ (a = v ∧ z = a) := fun h => hva h.1.symm
          simp [hz, this]
      rw [this]
      exact List.count_eq_one_of_mem hnd.2 hv
    rcases List.mem_cons.1 hx with rfl | hx' <;> rcases List.mem_cons.1 hy with rfl | hy'
    · exact absurd rfl hne
    · rw [hone y hy' (Ne.symm hne), hzero x y hnd.1]
    · have hsw : (fun p : α × α => decide (p = (x, y) ∨ p = (y, x))) =
          (fun p => decide (p = (y, x) ∨ p = (x, y))) := by
        funext p; simp [or_comm]
      rw [hsw, hone x hx' hne, hzero y x hnd.1]
    · have hfirst : as.countP ((fun p => decide (p = (x, y) ∨ p = (y, x))) ∘ fun z => (a, z)) = 0 := by
        rw [List.countP_eq_zero]
        intro z _
        simp only [Function.comp, decide_eq_true_eq, Prod.mk.injEq]
        rintro (⟨h1, _⟩ | ⟨h1, _⟩)
        · exact hnd.1 (h1 ▸ hx')
        · exact hnd.1 (h1 ▸ hy')
      rw [hfirst, ih hnd.2 x y hx' hy' hne]

theorem ordered_pairs_length {α : Type} :
    ∀ (l : List α), (ordered_pairs l).length = l.length * (l.length - 1) / 2 := by
  intro l
  induction l with
  | nil => simp [ordered_pairs]
  | cons a as ih =>
    simp only [ordered_pairs, List.length_append, List.length_map, List.length_cons, ih]
    rw [Nat.triangle_succ]
    omega
theorem map_getD_range {α β : Type} (d : α) (h : α → β) :
    ∀ xs : List α, (List.range xs.length).map (fun b => h (xs.getD b d)) = xs.map h := by
  intro xs
  apply List.ext_getElem
  · simp
  · intro n h1 h2
    simp at h1
    simp [List.getD_eq_getElem?_getD, List.getElem?_eq_getElem h1]

theorem index_pairs_eq {α β : Type} (d : α) (g : α → α → β) :
    ∀ l : List α,
      ((List.range l.length).flatMap fun a =>
        (List.range' (a + 1) (l.length - (a + 1))).map fun b => g (l.getD a d) (l.getD b d)) =
      (ordered_pairs l).map (fun p => g p.1 p.2) := by
  intro l
  induction l with
  | nil => simp [ordered_pairs]
  | cons x xs ih =>
    rw [List.length_cons, List.range_succ_eq_map, List.flatMap_cons, List.flatMap_map]
    simp only [ordered_pairs, List.map_append, List.map_map]
    congr 1
    · have : List.range' (0 + 1) (xs.length + 1 - (0 + 1)) = (List.range xs.length).map (· + 1) := by
        simp [List.range'_eq_map_range, Nat.add_comm]
      rw [this, List.map_map]
      simpa [Function.comp_def] using map_getD_range d (g x) xs
    · rw [← ih]
      apply List.flatMap_congr
      intro a _
      have : List.range' (a + 1 + 1) (xs.length + 1 - (a + 1 + 1)) =
          (List.range' (a + 1) (xs.length - (a + 1))).map (· + 1) := by
        have h2 : (fun x : Nat => x + 1) = (fun x => 1 + x) := by funext x; omega
        rw [h2, List.map_add_range']
        congr 1 <;> omega
      rw [this, List.map_map]
      simp [Function.comp_def]
/-- A sum over `0 .. n-1` with a single non-zero term. -/
theorem sum_range_single (c : Nat → Nat) :
    ∀ (n j : Nat), j < n → (∀ m, m < n → m ≠ j → c m = 0) →
      ((List.range n).map c).sum = c j := by
  intro n
  induction n with
  | zero => intro j hj; omega
  | succ n ih =>
    intro j hj hz
    rw [List.range_succ, List.map_append, List.sum_append]
    simp only [List.map_cons, List.map_nil, List.sum_cons, List.sum_nil, Nat.add_zero]
    by_cases hjn : j = n
    · subst hjn
      have : ((List.range j).map c).sum = 0 := by
        rw [List.sum_eq_zero]
        intro x hx
        obtain ⟨m, hm, rfl⟩ := List.mem_map.1 hx
        have hm2 := List.mem_range.1 hm
        exact hz m (by omega) (by omega)
      omega
    · rw [ih j (by omega) (fun m hm hne => hz m (by omega) hne), hz n (by omega) (Ne.symm hjn)]
      omega

end pair_lemmas

/-! ## Graph lemmas -/

section graph_lemmas

variable {F : Type}

theorem mem_bonded_to (mol : Molecule F) (i n : Nat) :
    n ∈ mol.bonded_to i ↔ Bonded mol i n := by
  unfold Molecule.bonded_to Bonded
  have key : ∀ (bs : List Bond) (acc : List Nat),
      n ∈ bs.foldl
        (fun neighbors b =>
          if b.atom_i = i then neighbors ++ [b.atom_j]
          else if b.atom_j = i then neighbors ++ [b.atom_i]
          else neighbors) acc ↔
      n ∈ acc ∨ ∃ b ∈ bs, (b.atom_i = i ∧ b.atom_j = n) ∨ (b.atom_i = n ∧ b.atom_j = i) := by
    intro bs
    induction bs with
    | nil => intro acc; simp
    | cons b bs ih =>
      intro acc
      rw [List.foldl_cons, ih]
      by_cases h1 : b.atom_i = i
      · by_cases h3 : b.atom_j = n
        · simp [h1, h3]
        · have h4 : ¬ n = b.atom_j := fun h => h3 h.symm
          have h5 : ¬ (i = n ∧ b.atom_j = i) := fun h => h3 (h.2.trans h.1)
          simp [h1, h3, h4, h5]
      · by_cases h2 : b.atom_j = i
        · by_cases h3 : b.atom_i = n
          · have h6 : ¬ n = i := fun h => h1 (h3.trans h)
            simp [h2, h3, h6]
          · have h4 : ¬ n = b.atom_i := fun h => h3 h.symm
            simp [h1, h2, h3, h4]
        · simp [h1, h2]
  simpa using key mol.bonds []

theorem adjacency_fold_row (bs : List Bond) :
    ∀ (acc : List (List Nat)) (j : Nat), j < acc.length →
      (bs.foldl Molecule.adjacency_step acc).getD j [] = acc.getD j [] ++ neighbor_row bs j := by
  induction bs with
  | nil => intro acc j _; simp [neighbor_row]
  | cons b bs ih =>
    intro acc j hj
    rw [List.foldl_cons, ih _ j (by simpa [Molecule.adjacency_step] using hj)]
    have hstep : (Molecule.adjacency_step acc b).getD j [] =
        acc.getD j [] ++ ((if b.atom_i = j then [b.atom_j] else []) ++
          (if b.atom_j = j then [b.atom_i] else [])) := by
      unfold Molecule.adjacency_step
      rw [List.getD_eq_getElem?_getD, List.getD_eq_getElem?_getD, List.getElem?_modify,
        List.getElem?_modify, List.getElem?_eq_getElem hj]
      by_cases h1 : b.atom_i = j <;> by_cases h2 : b.atom_j = j <;> simp [h1, h2]
    rw [hstep]
    simp [neighbor_row, List.flatMap_cons, List.append_assoc]

/-- The adjacency row of a valid atom lists its bond partners in bond order. -/
theorem adjacency_list_row (mol : Molecule F) (j : Nat) (hj : j < mol.num_atoms) :
    mol.adjacency_list.getD j [] = neighbor_row mol.bonds j := by
  unfold Molecule.adjacency_list
  rw [adjacency_fold_row mol.bonds _ j (by simpa [Molecule.num_atoms] using hj)]
  have hj2 : j < mol.atoms.length := hj
  simp [List.getD_eq_getElem?_getD, List.getElem?_replicate, hj2]

theorem mem_neighbor_row (bs : List Bond) (j n : Nat) :
    n ∈ neighbor_row bs j ↔
      ∃ b ∈ bs, (b.atom_i = j ∧ b.atom_j = n) ∨ (b.atom_i = n ∧ b.atom_j = j) := by
  unfold neighbor_row
  simp only [List.mem_flatMap, List.mem_append]
  constructor
  · rintro ⟨b, hb, h | h⟩
    · by_cases h1 : b.atom_i = j
      · rw [if_pos h1] at h
        exact ⟨b, hb, Or.inl ⟨h1, (List.mem_singleton.1 h).symm⟩⟩
      · rw [if_neg h1] at h
        cases h
    · by_cases h2 : b.atom_j = j
      · rw [if_pos h2] at h
        exact ⟨b, hb, Or.inr ⟨(List.mem_singleton.1 h).symm, h2⟩⟩
      · rw [if_neg h2] at h
        cases h
  · rintro ⟨b, hb, ⟨h1, h2⟩ | ⟨h1, h2⟩⟩
    · exact ⟨b, hb, Or.inl (by rw [if_pos h1]; exact List.mem_singleton.2 h2.symm)⟩
    · exact ⟨b, hb, Or.inr (by rw [if_pos h2]; exact List.mem_singleton.2 h1.symm)⟩

theorem mem_neighbor_row_iff_bonded (mol : Molecule F) (j n : Nat) :
    n ∈ neighbor_row mol.bonds j ↔ Bonded mol j n :=
  mem_neighbor_row mol.bonds j n

theorem bonded_symm (mol : Molecule F) (i n : Nat) : Bonded mol i n ↔ Bonded mol n i := by
  unfold Bonded
  constructor <;> rintro ⟨b, hb, h⟩ <;> exact ⟨b, hb, h.symm⟩

theorem bonded_lt (mol : Molecule F) (hv : ValidBonds mol) (i n : Nat) (h : Bonded mol i n) :
    i < mol.num_atoms ∧ n < mol.num_atoms := by
  obtain ⟨b, hb, ⟨h1, h2⟩ | ⟨h1, h2⟩⟩ := h
  · exact ⟨h1 ▸ (hv b hb).1, h2 ▸ (hv b hb).2⟩
  · exact ⟨h2 ▸ (hv b hb).2, h1 ▸ (hv b hb).1⟩

theorem neighbor_row_cons (b : Bond) (bs : List Bond) (j : Nat) :
    neighbor_row (b :: bs) j =
      ((if b.atom_i = j then [b.atom_j] else []) ++ (if b.atom_j = j then [b.atom_i] else [])) ++
        neighbor_row bs j := by
  simp [neighbor_row, List.flatMap_cons]

/-- Without self-bonds and duplicate bonds an adjacency row lists nobody twice. -/
theorem neighbor_row_nodup (bs : List Bond)
    (hself : ∀ b ∈ bs, b.atom_i ≠ b.atom_j)
    (hdup : bs.Pairwise fun b c =>
      ¬ ((b.atom_i = c.atom_i ∧ b.atom_j = c.atom_j) ∨
        (b.atom_i = c.atom_j ∧ b.atom_j = c.atom_i)))
    (j : Nat) : (neighbor_row bs j).Nodup := by
  induction bs with
  | nil => simp [neighbor_row]
  | cons b bs ih =>
    rw [List.pairwise_cons] at hdup
    have hs : b.atom_i ≠ b.atom_j := hself b (List.mem_cons_self _ _)
    have ihn := ih (fun c hc => hself c (List.mem_cons_of_mem _ hc)) hdup.2
    rw [neighbor_row_cons]
    have hnot : ∀ n, n ∈ neighbor_row bs j →
        ¬ ((b.atom_i = j ∧ b.atom_j = n) ∨ (b.atom_i = n ∧ b.atom_j = j)) := by
      intro n hn hb
      obtain ⟨c, hc, hcn⟩ := (mem_neighbor_row bs j n).1 hn
      apply hdup.1 c hc
      rcases hb with ⟨h1, h2⟩ | ⟨h1, h2⟩ <;> rcases hcn with ⟨h3, h4⟩ | ⟨h3, h4⟩
      · exact Or.inl ⟨h1.trans h3.symm, h2.trans h4.symm⟩
      · exact Or.inr ⟨h1.trans h4.symm, h2.trans h3.symm⟩
      · exact Or.inr ⟨h1.trans h4.symm, h2.trans h3.symm⟩
      · exact Or.inl ⟨h1.trans h3.symm, h2.trans h4.symm⟩
    by_cases h1 : b.atom_i = j
    · have h2 : ¬ b.atom_j = j := fun h => hs (h1.trans h.symm)
      rw [if_pos h1, if_neg h2]
      simp only [List.append_nil, List.singleton_append, List.nodup_cons]
      exact ⟨fun hn => hnot _ hn (Or.inl ⟨h1, rfl⟩), ihn⟩
    · by_cases h2 : b.atom_j = j
      · rw [if_neg h1, if_pos h2]
        simp only [List.nil_append, List.singleton_append, List.nodup_cons]
        exact ⟨fun hn => hnot _ hn (Or.inr ⟨rfl, h2⟩), ihn⟩
      · rw [if_neg h1, if_neg h2]
        simpa using ihn

theorem degree_fold (bs : List Bond) (j : Nat) :
    ∀ acc : Nat,
      bs.foldl (fun count b => if b.atom_i = j ∨ b.atom_j = j then count + 1 else count) acc =
        acc + bs.countP (fun b => decide (b.atom_i = j ∨ b.atom_j = j)) := by
  induction bs with
  | nil => intro acc; simp
  | cons b bs ih =>
    intro acc
    rw [List.foldl_cons, ih, List.countP_cons]
    by_cases h : b.atom_i = j ∨ b.atom_j = j
    · simp only [h, if_true, decide_True]; omega
    · simp [h]

/-- The degree is the number of bonds mentioning the atom. -/
theorem degree_eq_countP (mol : Molecule F) (j : Nat) :
    mol.degree j = mol.bonds.countP (fun b => decide (b.atom_i = j ∨ b.atom_j = j)) := by
  unfold Molecule.degree
  rw [degree_fold]
  simp

/-- Without self-bonds the adjacency row of an atom has as many entries as its degree. -/
theorem neighbor_row_length (bs : List Bond) (hself : ∀ b ∈ bs, b.atom_i ≠ b.atom_j)
    (j : Nat) :
    (neighbor_row bs j).length = bs.countP (fun b => decide (b.atom_i = j ∨ b.atom_j = j)) := by
  induction bs with
  | nil => simp [neighbor_row]
  | cons b bs ih =>
    have hs : b.atom_i ≠ b.atom_j := hself b (List.mem_cons_self _ _)
    rw [neighbor_row_cons, List.length_append, ih (fun c hc => hself c (List.mem_cons_of_mem _ hc)),
      List.countP_cons]
    by_cases h1 : b.atom_i = j
    · have h2 : ¬ b.atom_j = j := fun h => hs (h1.trans h.symm)
      simp [h1, h2]; omega
    · by_cases h2 : b.atom_j = j
      · simp [h1, h2]; omega
      · simp [h1, h2]

/-- The angle list, centre by centre, is the list of ordered pairs of the adjacency row. -/
theorem build_angles_eq (mol : Molecule F) :
    build_angles mol =
      (List.range mol.num_atoms).flatMap fun j =>
        (ordered_pairs (neighbor_row mol.bonds j)).map fun p => (⟨p.1, j, p.2⟩ : AngleInfo) := by
  unfold build_angles
  apply List.flatMap_congr
  intro j hj
  rw [adjacency_list_row mol j (List.mem_range.1 hj)]
  exact index_pairs_eq 0 (fun x y => (⟨x, j, y⟩ : AngleInfo)) (neighbor_row mol.bonds j)

theorem mem_build_angles (mol : Molecule F) (t : AngleInfo) :
    t ∈ build_angles mol ↔
      t.j < mol.num_atoms ∧ (t.i, t.k) ∈ ordered_pairs (neighbor_row mol.bonds t.j) := by
  rw [build_angles_eq]
  simp only [List.mem_flatMap, List.mem_range, List.mem_map]
  constructor
  · rintro ⟨j, hj, p, hp, rfl⟩
    exact ⟨hj, hp⟩
  · rintro ⟨hj, hp⟩
    exact ⟨t.j, hj, (t.i, t.k), hp, rfl⟩

/-- On valid bonds the torsion loop reads the adjacency rows of the two bond ends. -/
theorem build_torsions_eq (mol : Molecule F) (hv : ValidBonds mol) :
    build_torsions mol =
      mol.bonds.flatMap fun bond =>
        (neighbor_row mol.bonds bond.atom_i).flatMap fun i =>
          if i = bond.atom_j then []
          else (neighbor_row mol.bonds bond.atom_j).flatMap fun l =>
            if l = bond.atom_i ∨ l = i then []
            else [(⟨i, bond.atom_i, bond.atom_j, l⟩ : TorsionInfo)] := by
  unfold build_torsions
  apply List.flatMap_congr
  intro bond hb
  simp only []
  rw [adjacency_list_row mol _ (hv bond hb).1, adjacency_list_row mol _ (hv bond hb).2]

theorem mem_build_torsions (mol : Molecule F) (hv : ValidBonds mol) (t : TorsionInfo) :
    t ∈ build_torsions mol ↔
      (∃ bond ∈ mol.bonds, bond.atom_i = t.j ∧ bond.atom_j = t.k) ∧
        t.i ∈ neighbor_row mol.bonds t.j ∧ t.i ≠ t.k ∧
        t.l ∈ neighbor_row mol.bonds t.k ∧ t.l ≠ t.j ∧ t.l ≠ t.i := by
  rw [build_torsions_eq mol hv]
  simp only [List.mem_flatMap]
  constructor
  · rintro ⟨bond, hb, i, hi, hin⟩
    by_cases hik : i = bond.atom_j
    · rw [if_pos hik] at hin; cases hin
    · rw [if_neg hik, List.mem_flatMap] at hin
      obtain ⟨l, hl, hln⟩ := hin
      by_cases hlj : l = bond.atom_i ∨ l = i
      · rw [if_pos hlj] at hln; cases hln
      · rw [if_neg hlj, List.mem_singleton] at hln
        subst hln
        exact ⟨⟨bond, hb, rfl, rfl⟩, hi, hik, hl, fun h => hlj (Or.inl h), fun h => hlj (Or.inr h)⟩
  · rintro ⟨⟨bond, hb, h1, h2⟩, hi, hik, hl, hlj, hli⟩
    refine ⟨bond, hb, t.i, by rw [h1]; exact hi, ?_⟩
    rw [if_neg (by rw [h2]; exact hik), List.mem_flatMap]
    refine ⟨t.l, by rw [h2]; exact hl, ?_⟩
    rw [if_neg (by rw [h1]; rintro (h | h); exact hlj h; exact hli h), List.mem_singleton]
    cases t
    simp only at h1 h2
    rw [h1, h2]

/-- Without self-bonds and duplicate bonds the torsion list has no repeated entry. -/
theorem build_torsions_nodup (mol : Molecule F) (hv : ValidBonds mol) (hs : NoSelfBond mol)
    (hd : NoDuplicateBond mol) : (build_torsions mol).Nodup := by
  rw [build_torsions_eq mol hv, List.nodup_flatMap]
  constructor
  · intro bond _
    rw [List.nodup_flatMap]
    constructor
    · intro i _
      by_cases hik : i = bond.atom_j
      · rw [if_pos hik]; exact List.nodup_nil
      · rw [if_neg hik, List.nodup_flatMap]
        constructor
        · intro l _
          by_cases hlj : l = bond.atom_i ∨ l = i
          · rw [if_pos hlj]; exact List.nodup_nil
          · rw [if_neg hlj]; exact List.nodup_singleton _
        · refine List.Pairwise.imp ?_ (neighbor_row_nodup mol.bonds hs hd bond.atom_j)
          intro l l2 hne
          simp only [Function.onFun]
          intro t h1 h2
          by_cases c1 : l = bond.atom_i ∨ l = i
          · rw [if_pos c1] at h1; cases h1
          · by_cases c2 : l2 = bond.atom_i ∨ l2 = i
            · rw [if_pos c2] at h2; cases h2
            · rw [if_neg c1, List.mem_singleton] at h1
              rw [if_neg c2, List.mem_singleton] at h2
              rw [h1] at h2
              exact hne (by injection h2)
    · refine List.Pairwise.imp ?_ (neighbor_row_nodup mol.bonds hs hd bond.atom_i)
      intro i i2 hne
      simp only [Function.onFun]
      intro t h1 h2
      by_cases c1 : i = bond.atom_j
      · rw [if_pos c1] at h1; cases h1
      · by_cases c2 : i2 = bond.atom_j
        · rw [if_pos c2] at h2; cases h2
        · rw [if_neg c1, List.mem_flatMap] at h1
          rw [if_neg c2, List.mem_flatMap] at h2
          obtain ⟨l, _, hl⟩ := h1
          obtain ⟨l2, _, hl2⟩ := h2
          by_cases d1 : l = bond.atom_i ∨ l = i
          · rw [if_pos d1] at hl; cases hl
          · by_cases d2 : l2 = bond.atom_i ∨ l2 = i2
            · rw [if_pos d2] at hl2; cases hl2
            · rw [if_neg d1, List.mem_singleton] at hl
              rw [if_neg d2, List.mem_singleton] at hl2
              rw [hl] at hl2
              exact hne (by injection hl2)
  · refine List.Pairwise.imp ?_ hd
    intro b c hbc
    simp only [Function.onFun]
    intro t h1 h2
    apply hbc
    simp only [List.mem_flatMap] at h1 h2
    obtain ⟨i, _, hi⟩ := h1
    obtain ⟨i2, _, hi2⟩ := h2
    by_cases c1 : i = b.atom_j
    · rw [if_pos c1] at hi; cases hi
    · by_cases c2 : i2 = c.atom_j
      · rw [if_pos c2] at hi2; cases hi2
      · rw [if_neg c1, List.mem_flatMap] at hi
        rw [if_neg c2, List.mem_flatMap] at hi2
        obtain ⟨l, _, hl⟩ := hi
        obtain ⟨l2, _, hl2⟩ := hi2
        by_cases d1 : l = b.atom_i ∨ l = i
        · rw [if_pos d1] at hl; cases hl
        · by_cases d2 : l2 = c.atom_i ∨ l2 = i2
          · rw [if_pos d2] at hl2; cases hl2
          · rw [if_neg d1, List.mem_singleton] at hl
            rw [if_neg d2, List.mem_singleton] at hl2
            rw [hl] at hl2
            injection hl2 with e1 e2 e3 e4
            exact Or.inl ⟨e2, e3⟩

theorem mem_build_nonbonded (n : Nat) (excluded : List (Nat × Nat)) (i j : Nat) :
    (i, j) ∈ build_nonbonded n excluded ↔ i < j ∧ j < n ∧ (i, j) ∉ excluded := by
  unfold build_nonbonded
  simp only [List.mem_flatMap, List.mem_range, List.mem_map, List.mem_filter,
    List.mem_range'_1, decide_eq_true_eq, Prod.mk.injEq]
  constructor
  · rintro ⟨a, ha, b, ⟨⟨h1, h2⟩, h3⟩, rfl, rfl⟩
    exact ⟨by omega, by omega, h3⟩
  · rintro ⟨h1, h2, h3⟩
    exact ⟨i, by omega, j, ⟨⟨by omega, by omega⟩, h3⟩, rfl, rfl⟩

/-- The nonbonded loop emits its pairs in strictly increasing lexicographic order. -/
theorem build_nonbonded_sorted (n : Nat) (excluded : List (Nat × Nat)) :
    (build_nonbonded n excluded).Pairwise
      (fun p q => p.1 < q.1 ∨ (p.1 = q.1 ∧ p.2 < q.2)) := by
  unfold build_nonbonded
  rw [List.pairwise_flatMap]
  constructor
  · intro i _
    rw [List.pairwise_map]
    refine List.Pairwise.imp ?_ ((List.pairwise_lt_range' (i + 1) (n - (i + 1))).filter _)
    intro a b hab
    exact Or.inr ⟨rfl, hab⟩
  · refine List.Pairwise.imp ?_ (List.pairwise_lt_range n)
    intro a b hab x hx y hy
    simp only [List.mem_map] at hx hy
    obtain ⟨_, _, rfl⟩ := hx
    obtain ⟨_, _, rfl⟩ := hy
    exact Or.inl hab

/-- A strictly increasing sequence of pairs holds each of its entries once. -/
theorem count_eq_one_of_sorted (l : List (Nat × Nat))
    (h : l.Pairwise (fun p q => p.1 < q.1 ∨ (p.1 = q.1 ∧ p.2 < q.2))) :
    ∀ p ∈ l, l.countP (fun q => decide (q = p)) = 1 := by
  have hnd : l.Nodup := by
    refine List.Pairwise.imp ?_ h
    rintro p q (h1 | ⟨_, h2⟩) hpq
    · rw [hpq] at h1; exact Nat.lt_irrefl _ h1
    · rw [hpq] at h2; exact Nat.lt_irrefl _ h2
  intro p hp
  exact List.count_eq_one_of_mem hnd hp

/-- For `i < j` the pair is in the `excluded` set exactly when the two atoms
share a bond or are two entries of one adjacency row. -/
theorem mem_build_excluded (mol : Molecule F) (i j : Nat) (hij : i < j) :
    (i, j) ∈ build_excluded mol (build_angles mol) ↔
      Bonded mol i j ∨
        ∃ m, m < mol.num_atoms ∧ i ∈ neighbor_row mol.bonds m ∧ j ∈ neighbor_row mol.bonds m := by
  unfold build_excluded
  rw [List.mem_append]
  apply or_congr
  · simp only [List.mem_map, Prod.mk.injEq]
    constructor
    · rintro ⟨b, hb, h1, h2⟩
      refine ⟨b, hb, ?_⟩
      rcases Nat.le_total b.atom_i b.atom_j with h | h
      · rw [Nat.min_eq_left h] at h1
        rw [Nat.max_eq_right h] at h2
        exact Or.inl ⟨h1, h2⟩
      · rw [Nat.min_eq_right h] at h1
        rw [Nat.max_eq_left h] at h2
        exact Or.inr ⟨h2, h1⟩
    · rintro ⟨b, hb, ⟨h1, h2⟩ | ⟨h1, h2⟩⟩
      · refine ⟨b, hb, ?_, ?_⟩
        · rw [h1, h2]; exact Nat.min_eq_left (Nat.le_of_lt hij)
        · rw [h1, h2]; exact Nat.max_eq_right (Nat.le_of_lt hij)
      · refine ⟨b, hb, ?_, ?_⟩
        · rw [h1, h2]; exact Nat.min_eq_right (Nat.le_of_lt hij)
        · rw [h1, h2]; exact Nat.max_eq_left (Nat.le_of_lt hij)
  · simp only [List.mem_map, Prod.mk.injEq]
    constructor
    · rintro ⟨t, ht, h1, h2⟩
      rw [mem_build_angles] at ht
      have hm := mem_ordered_pairs _ _ ht.2
      refine ⟨t.j, ht.1, ?_, ?_⟩
      · rcases Nat.le_total t.i t.k with h | h
        · rw [Nat.min_eq_left h] at h1; rw [← h1]; exact hm.1
        · rw [Nat.min_eq_right h] at h1; rw [← h1]; exact hm.2
      · rcases Nat.le_total t.i t.k with h | h
        · rw [Nat.max_eq_right h] at h2; rw [← h2]; exact hm.2
        · rw [Nat.max_eq_left h] at h2; rw [← h2]; exact hm.1
    · rintro ⟨m, hm, hi, hj⟩
      rcases ordered_pairs_of_mem _ i j hi hj (Nat.ne_of_lt hij) with h | h
      · refine ⟨⟨i, m, j⟩, (mem_build_angles mol _).2 ⟨hm, h⟩, ?_, ?_⟩
        · exact Nat.min_eq_left (Nat.le_of_lt hij)
        · exact Nat.max_eq_right (Nat.le_of_lt hij)
      · refine ⟨⟨j, m, i⟩, (mem_build_angles mol _).2 ⟨hm, h⟩, ?_, ?_⟩
        · exact Nat.min_eq_right (Nat.le_of_lt hij)
        · exact Nat.max_eq_left (Nat.le_of_lt hij)

end graph_lemmas

/-! ## Typing: helper lemmas -/

section typing_lemmas

variable {F : Type} [Inhabited F]

/-- Sequencing a fallible map over a list succeeds exactly when every element
succeeds, and then lists the results in order. -/
theorem mapM_ok_iff {α β ε : Type} (f : α → Except ε β) :
    ∀ (l : List α) (r : List β),
      l.mapM f = .ok r ↔ List.Forall₂ (fun a b => f a = .ok b) l r := by
  intro l
  induction l with
  | nil =>
    intro r
    rw [List.mapM_nil]
    cases r <;> simp [pure, Except.pure]
  | cons a l ih =>
    intro r
    rw [List.mapM_cons]
    cases hfa : f a with
    | error e =>
      simp only [bind, Except.bind]
      constructor
      · intro h; cases h
      · intro h
        cases h with
        | cons h1 _ => rw [hfa] at h1; cases h1
    | ok b =>
      cases hl : l.mapM f with
      | error e =>
        simp only [bind, Except.bind]
        constructor
        · intro h; cases h
        · intro h
          cases h with
          | cons h1 h2 =>
            rw [← ih] at h2
            rw [hl] at h2; cases h2
      | ok bs =>
        simp only [bind, Except.bind, pure, Except.pure]
        constructor
        · intro h
          cases h
          exact List.Forall₂.cons hfa ((ih bs).1 hl)
        · intro h
          cases h with
          | cons h1 h2 =>
            rw [hfa] at h1
            cases h1
            rw [← ih, hl] at h2
            cases h2
            rfl

theorem forall₂_range_get {β : Type} (P : Nat → β → Prop) :
    ∀ (n : Nat) (r : List β), List.Forall₂ P (List.range n) r →
      r.length = n ∧ ∀ i, i < n → ∃ b, r.get? i = some b ∧ P i b := by
  intro n r h
  have hlen : (List.range n).length = r.length := h.length_eq
  rw [List.length_range] at hlen
  refine ⟨hlen.symm, ?_⟩
  intro i hi
  have hi2 : i < r.length := by omega
  refine ⟨r.get ⟨i, hi2⟩, List.get?_eq_get hi2, ?_⟩
  have := List.Forall₂.get h (by simpa using hi) hi2
  simpa using this

/-- On success the `i`-th label returned by `assign_uff_types` is the one chosen
by the loop body for atom `i`. -/
theorem assign_uff_types_get (has_uff_type : String → Bool) (mol : Molecule F)
    (types : List String) (h : assign_uff_types has_uff_type mol = .ok types)
    (i : Nat) (hi : i < mol.num_atoms) :
    ∃ t, types.get? i = some t ∧ uff_type_of has_uff_type mol i = .ok t := by
  unfold assign_uff_types at h
  rw [mapM_ok_iff] at h
  exact (forall₂_range_get _ _ _ h).2 i hi

/-- The aromaticity scan answers whether some bonded neighbour is a carbon of degree 3. -/
theorem aromatic_scan_iff (mol : Molecule F) (i : Nat) :
    aromatic_scan mol i = true ↔
      ∃ n, Bonded mol i n ∧ (mol.atom n).atomic_number = 6 ∧ mol.degree n = 3 := by
  unfold aromatic_scan
  simp only [List.any_eq_true, mem_bonded_to, Bool.and_eq_true, beq_iff_eq]

end typing_lemmas

/-! ## Typing: the element rules -/

section typing_rules

variable {F : Type} [Inhabited F]

/-- C7: a carbon atom is labelled "C_1" at degree at most 1, "C_2" at degree 2,
"C_3" at degree 4 or more, and at degree 3 "C_R" when some bonded neighbour is
a carbon of degree 3 and "C_2" otherwise. -/
theorem assign_uff_types_carbon (has_uff_type : String → Bool) (mol : Molecule F)
    (types : List String) (i : Nat)
    (hok : assign_uff_types has_uff_type mol = .ok types) (hi : i < mol.num_atoms)
    (hC : (mol.atom i).atomic_number = 6) :
    (mol.degree i ≤ 1 → types.get? i = some "C_1") ∧
    (mol.degree i = 2 → types.get? i = some "C_2") ∧
    (4 ≤ mol.degree i → types.get? i = some "C_3") ∧
    (mol.degree i = 3 →
      (∃ n, Bonded mol i n ∧ (mol.atom n).atomic_number = 6 ∧ mol.degree n = 3) →
      types.get? i = some "C_R") ∧
    (mol.degree i = 3 →
      (¬ ∃ n, Bonded mol i n ∧ (mol.atom n).atomic_number = 6 ∧ mol.degree n = 3) →
      types.get? i = some "C_2") := by
  obtain ⟨t, ht, hu⟩ := assign_uff_types_get has_uff_type mol types hok i hi
  rw [ht]
  unfold uff_type_of at hu
  simp only [hC] at hu
  refine ⟨?_, ?_, ?_, ?_, ?_⟩
  · intro hd
    rw [if_pos hd] at hu
    cases hu; rfl
  · intro hd
    rw [if_neg (by omega), if_pos hd] at hu
    cases hu; rfl
  · intro hd
    rw [if_neg (by omega), if_neg (by omega), if_neg (by omega)] at hu
    cases hu; rfl
  · intro hd har
    rw [if_neg (by omega), if_neg (by omega), if_pos hd,
      if_pos ((aromatic_scan_iff mol i).2 har)] at hu
    cases hu; rfl
  · intro hd har
    rw [if_neg (by omega), if_neg (by omega), if_pos hd,
      if_neg (fun h => har ((aromatic_scan_iff mol i).1 h))] at hu
    cases hu; rfl

/-- C8: a nitrogen atom is labelled "N_1" at degree at most 1, "N_2" at degree 2,
"N_3" at degree 4 or more and at degree 3 "N_R" when some bonded neighbour is a
carbon of degree 3, else "N_3"; an oxygen atom is labelled "O_2" at degree at
most 1, "O_3" at degree 3 or more and at degree 2 "O_R" when some bonded
neighbour is a carbon of degree 3, else "O_3". -/
theorem assign_uff_types_nitrogen_oxygen (has_uff_type : String → Bool) (mol : Molecule F)
    (types : List String) (i : Nat)
    (hok : assign_uff_types has_uff_type mol = .ok types) (hi : i < mol.num_atoms) :
    ((mol.atom i).atomic_number = 7 →
      (mol.degree i ≤ 1 → types.get? i = some "N_1") ∧
      (mol.degree i = 2 → types.get? i = some "N_2") ∧
      (mol.degree i = 3 →
        (∃ n, Bonded mol i n ∧ (mol.atom n).atomic_number = 6 ∧ mol.degree n = 3) →
        types.get? i = some "N_R") ∧
      (mol.degree i = 3 →
        (¬ ∃ n, Bonded mol i n ∧ (mol.atom n).atomic_number = 6 ∧ mol.degree n = 3) →
        types.get? i = some "N_3") ∧
      (4 ≤ mol.degree i → types.get? i = some "N_3")) ∧
    ((mol.atom i).atomic_number = 8 →
      (mol.degree i ≤ 1 → types.get? i = some "O_2") ∧
      (mol.degree i = 2 →
        (∃ n, Bonded mol i n ∧ (mol.atom n).atomic_number = 6 ∧ mol.degree n = 3) →
        types.get? i = some "O_R") ∧
      (mol.degree i = 2 →
        (¬ ∃ n, Bonded mol i n ∧ (mol.atom n).atomic_number = 6 ∧ mol.degree n = 3) →
        types.get? i = some "O_3") ∧
      (3 ≤ mol.degree i → types.get? i = some "O_3")) := by
  obtain ⟨t, ht, hu⟩ := assign_uff_types_get has_uff_type mol types hok i hi
  rw [ht]
  unfold uff_type_of at hu
  constructor
  · intro hN
    simp only [hN] at hu
    refine ⟨?_, ?_, ?_, ?_, ?_⟩
    · intro hd
      rw [if_pos hd] at hu
      cases hu; rfl
    · intro hd
      rw [if_neg (by omega), if_pos hd] at hu
      cases hu; rfl
    · intro hd har
      rw [if_neg (by omega), if_neg (by omega), if_pos hd,
        if_pos ((aromatic_scan_iff mol i).2 har)] at hu
      cases hu; rfl
    · intro hd har
      rw [if_neg (by omega), if_neg (by omega), if_pos hd,
        if_neg (fun h => har ((aromatic_scan_iff mol i).1 h))] at hu
      cases hu; rfl
    · intro hd
      rw [if_neg (by omega), if_neg (by omega), if_neg (by omega)] at hu
      cases hu; rfl
  · intro hO
    simp only [hO] at hu
    refine ⟨?_, ?_, ?_, ?_⟩
    · intro hd
      rw [if_pos hd] at hu
      cases hu; rfl
    · intro hd har
      rw [if_neg (by omega), if_pos hd, if_pos ((aromatic_scan_iff mol i).2 har)] at hu
      cases hu; rfl
    · intro hd har
      rw [if_neg (by omega), if_pos hd,
        if_neg (fun h => har ((aromatic_scan_iff mol i).1 h))] at hu
      cases hu; rfl
    · intro hd
      rw [if_neg (by omega), if_neg (by omega)] at hu
      cases hu; rfl

/-- C9: whatever the degree and the symbol string, H is labelled "H_", F "F_",
Cl "Cl", Br "Br" and I "I_"; boron is "B_2" at degree at most 2 and "B_3"
above; phosphorus is "P_3+3" at degree at most 3 and "P_3+5" above; sulfur is
"S_3+2" at degree at most 2, "S_3+4" at degree 3 or 4 and "S_3+6" from 5 on. -/
theorem assign_uff_types_main_group (has_uff_type : String → Bool) (mol : Molecule F)
    (types : List String) (i : Nat)
    (hok : assign_uff_types has_uff_type mol = .ok types) (hi : i < mol.num_atoms) :
    ((mol.atom i).atomic_number = 1 → types.get? i = some "H_") ∧
    ((mol.atom i).atomic_number = 9 → types.get? i = some "F_") ∧
    ((mol.atom i).atomic_number = 17 → types.get? i = some "Cl") ∧
    ((mol.atom i).atomic_number = 35 → types.get? i = some "Br") ∧
    ((mol.atom i).atomic_number = 53 → types.get? i = some "I_") ∧
    ((mol.atom i).atomic_number = 5 → mol.degree i ≤ 2 → types.get? i = some "B_2") ∧
    ((mol.atom i).atomic_number = 5 → 2 < mol.degree i → types.get? i = some "B_3") ∧
    ((mol.atom i).atomic_number = 15 → mol.degree i ≤ 3 → types.get? i = some "P_3+3") ∧
    ((mol.atom i).atomic_number = 15 → 3 < mol.degree i → types.get? i = some "P_3+5") ∧
    ((mol.atom i).atomic_number = 16 → mol.degree i ≤ 2 → types.get? i = some "S_3+2") ∧
    ((mol.atom i).atomic_number = 16 → (mol.degree i = 3 ∨ mol.degree i = 4) →
      types.get? i = some "S_3+4") ∧
    ((mol.atom i).atomic_number = 16 → 5 ≤ mol.degree i → types.get? i = some "S_3+6") := by
  obtain ⟨t, ht, hu⟩ := assign_uff_types_get has_uff_type mol types hok i hi
  rw [ht]
  unfold uff_type_of at hu
  refine ⟨?_, ?_, ?_, ?_, ?_, ?_, ?_, ?_, ?_, ?_, ?_, ?_⟩
  · intro hZ; simp only [hZ] at hu; cases hu; rfl
  · intro hZ; simp only [hZ] at hu; cases hu; rfl
  · intro hZ; simp only [hZ] at hu; cases hu; rfl
  · intro hZ; simp only [hZ] at hu; cases hu; rfl
  · intro hZ; simp only [hZ] at hu; cases hu; rfl
  · intro hZ hd; simp only [hZ] at hu; rw [if_pos hd] at hu; cases hu; rfl
  · intro hZ hd; simp only [hZ] at hu; rw [if_neg (by omega)] at hu; cases hu; rfl
  · intro hZ hd; simp only [hZ] at hu; rw [if_pos hd] at hu; cases hu; rfl
  · intro hZ hd; simp only [hZ] at hu; rw [if_neg (by omega)] at hu; cases hu; rfl
  · intro hZ hd; simp only [hZ] at hu; rw [if_pos hd] at hu; cases hu; rfl
  · intro hZ hd; simp only [hZ] at hu
    rw [if_neg (by omega), if_pos (by omega)] at hu; cases hu; rfl
  · intro hZ hd; simp only [hZ] at hu
    rw [if_neg (by omega), if_neg (by omega)] at hu; cases hu; rfl

/-- C10 (amended): the selected metals and noble gases get a fixed label whatever
their degree: Li "Li", Na "Na", K "K_", He "He4+4", Ne "Ne4+4", Ar "Ar4+4",
Be "Be3+2", Mg "Mg3+2", Ca "Ca6+2", Al "Al3", Si "Si3", Fe "Fe3+2", Co "Co6+3",
Ni "Ni4+2", Cu "Cu3+1", Zn "Zn3+2". -/
theorem assign_uff_types_fixed_labels (has_uff_type : String → Bool) (mol : Molecule F)
    (types : List String) (i : Nat)
    (hok : assign_uff_types has_uff_type mol = .ok types) (hi : i < mol.num_atoms) :
    ((mol.atom i).atomic_number = 3 → types.get? i = some "Li") ∧
    ((mol.atom i).atomic_number = 11 → types.get? i = some "Na") ∧
    ((mol.atom i).atomic_number = 19 → types.get? i = some "K_") ∧
    ((mol.atom i).atomic_number = 2 → types.get? i = some "He4+4") ∧
    ((mol.atom i).atomic_number = 10 → types.get? i = some "Ne4+4") ∧
    ((mol.atom i).atomic_number = 18 → types.get? i = some "Ar4+4") ∧
    ((mol.atom i).atomic_number = 4 → types.get? i = some "Be3+2") ∧
    ((mol.atom i).atomic_number = 12 → types.get? i = some "Mg3+2") ∧
    ((mol.atom i).atomic_number = 20 → types.get? i = some "Ca6+2") ∧
    ((mol.atom i).atomic_number = 13 → types.get? i = some "Al3") ∧
    ((mol.atom i).atomic_number = 14 → types.get? i = some "Si3") ∧
    ((mol.atom i).atomic_number = 26 → types.get? i = some "Fe3+2") ∧
    ((mol.atom i).atomic_number = 27 → types.get? i = some "Co6+3") ∧
    ((mol.atom i).atomic_number = 28 → types.get? i = some "Ni4+2") ∧
    ((mol.atom i).atomic_number = 29 → types.get? i = some "Cu3+1") ∧
    ((mol.atom i).atomic_number = 30 → types.get? i = some "Zn3+2") := by
  obtain ⟨t, ht, hu⟩ := assign_uff_types_get has_uff_type mol types hok i hi
  rw [ht]
  unfold uff_type_of at hu
  refine ⟨?_, ?_, ?_, ?_, ?_, ?_, ?_, ?_, ?_, ?_, ?_, ?_, ?_, ?_, ?_, ?_⟩ <;>
    (intro hZ; simp only [hZ] at hu; cases hu; rfl)

end typing_rules

theorem assign_uff_types_carbon_witness :
    assign_uff_types no_uff_type ethene = .ok ["C_R", "C_R", "H_", "H_", "H_", "H_"] ∧
    0 < ethene.num_atoms ∧ (ethene.atom 0).atomic_number = 6 ∧ ethene.degree 0 = 3 ∧
    (∃ n, Bonded ethene 0 n ∧ (ethene.atom n).atomic_number = 6 ∧ ethene.degree n = 3) ∧
    ["C_R", "C_R", "H_", "H_", "H_", "H_"].get? 0 = some "C_R" := by
  have hok : assign_uff_types no_uff_type ethene =
      .ok ["C_R", "C_R", "H_", "H_", "H_", "H_"] := by rfl
  have har : ∃ n, Bonded ethene 0 n ∧ (ethene.atom n).atomic_number = 6 ∧
      ethene.degree n = 3 :=
    ⟨1, ⟨⟨0, 1, 1⟩, by decide, Or.inl ⟨rfl, rfl⟩⟩, by rfl, by rfl⟩
  exact ⟨hok, by decide, by rfl, by rfl, har,
    (assign_uff_types_carbon no_uff_type ethene _ 0 hok (by decide) (by rfl)).2.2.2.1
      (by rfl) har⟩

theorem assign_uff_types_nitrogen_oxygen_witness :
    assign_uff_types no_uff_type formamide_water =
      .ok ["O_2", "C_2", "N_R", "H_", "H_", "H_", "O_3", "H_", "H_"] ∧
    (2 < formamide_water.num_atoms ∧ (formamide_water.atom 2).atomic_number = 7 ∧
      formamide_water.degree 2 = 3 ∧
      (∃ n, Bonded formamide_water 2 n ∧ (formamide_water.atom n).atomic_number = 6 ∧
        formamide_water.degree n = 3) ∧
      ["O_2", "C_2", "N_R", "H_", "H_", "H_", "O_3", "H_", "H_"].get? 2 = some "N_R") ∧
    (6 < formamide_water.num_atoms ∧ (formamide_water.atom 6).atomic_number = 8 ∧
      formamide_water.degree 6 = 2 ∧
      (¬ ∃ n, Bonded formamide_water 6 n ∧ (formamide_water.atom n).atomic_number = 6 ∧
        formamide_water.degree n = 3) ∧
      ["O_2", "C_2", "N_R", "H_", "H_", "H_", "O_3", "H_", "H_"].get? 6 = some "O_3") := by
  have hok : assign_uff_types no_uff_type formamide_water =
      .ok ["O_2", "C_2", "N_R", "H_", "H_", "H_", "O_3", "H_", "H_"] := by rfl
  have hN : ∃ n, Bonded formamide_water 2 n ∧ (formamide_water.atom n).atomic_number = 6 ∧
      formamide_water.degree n = 3 :=
    ⟨1, ⟨⟨1, 2, 1⟩, by decide, Or.inr ⟨rfl, rfl⟩⟩, by rfl, by rfl⟩
  have hO : ¬ ∃ n, Bonded formamide_water 6 n ∧ (formamide_water.atom n).atomic_number = 6 ∧
      formamide_water.degree n = 3 := by
    rintro ⟨n, ⟨b, hb, hbn⟩, hc, -⟩
    simp only [formamide_water, List.mem_cons, List.mem_singleton, List.not_mem_nil,
      or_false] at hb
    rcases hb with rfl | rfl | rfl | rfl | rfl | rfl | rfl <;>
      simp at hbn <;> subst hbn <;> revert hc <;> decide
  exact ⟨hok,
    ⟨by decide, by rfl, by rfl, hN,
      ((assign_uff_types_nitrogen_oxygen no_uff_type formamide_water _ 2 hok (by decide)).1
        (by rfl)).2.2.1 (by rfl) hN⟩,
    ⟨by decide, by rfl, by rfl, hO,
      ((assign_uff_types_nitrogen_oxygen no_uff_type formamide_water _ 6 hok (by decide)).2
        (by rfl)).2.2.1 (by rfl) hO⟩⟩

theorem assign_uff_types_main_group_witness :
    assign_uff_types no_uff_type main_group_sample =
      .ok ["H_", "F_", "Cl", "Br", "I_", "B_3", "P_3+3", "S_3+2"] ∧
    (0 < main_group_sample.num_atoms ∧ (main_group_sample.atom 0).atomic_number = 1 ∧
      ["H_", "F_", "Cl", "Br", "I_", "B_3", "P_3+3", "S_3+2"].get? 0 = some "H_") ∧
    (5 < main_group_sample.num_atoms ∧ (main_group_sample.atom 5).atomic_number = 5 ∧
      2 < main_group_sample.degree 5 ∧
      ["H_", "F_", "Cl", "Br", "I_", "B_3", "P_3+3", "S_3+2"].get? 5 = some "B_3") ∧
    (7 < main_group_sample.num_atoms ∧ (main_group_sample.atom 7).atomic_number = 16 ∧
      main_group_sample.degree 7 ≤ 2 ∧
      ["H_", "F_", "Cl", "Br", "I_", "B_3", "P_3+3", "S_3+2"].get? 7 = some "S_3+2") := by
  have hok : assign_uff_types no_uff_type main_group_sample =
      .ok ["H_", "F_", "Cl", "Br", "I_", "B_3", "P_3+3", "S_3+2"] := by rfl
  exact ⟨hok,
    ⟨by decide, by rfl,
      (assign_uff_types_main_group no_uff_type main_group_sample _ 0 hok (by decide)).1
        (by rfl)⟩,
    ⟨by decide, by rfl, by decide,
      (assign_uff_types_main_group no_uff_type main_group_sample _ 5 hok
        (by decide)).2.2.2.2.2.2.1 (by rfl) (by decide)⟩,
    ⟨by decide, by rfl, by decide,
      (assign_uff_types_main_group no_uff_type main_group_sample _ 7 hok
        (by decide)).2.2.2.2.2.2.2.2.2.1 (by rfl) (by decide)⟩⟩

/-- C10 as stated fails for potassium: the label returned is "K_", not "K". -/
theorem potassium_label_is_K_underscore :
    assign_uff_types no_uff_type potassium_atom = .ok ["K_"] ∧
    (potassium_atom.atom 0).atomic_number = 19 ∧
    ¬ (∃ types, assign_uff_types no_uff_type potassium_atom = .ok types ∧
        types.get? 0 = some "K") := by
  have hok : assign_uff_types no_uff_type potassium_atom = .ok ["K_"] := by rfl
  refine ⟨hok, by rfl, ?_⟩
  rintro ⟨types, h1, h2⟩
  rw [hok] at h1
  cases h1
  revert h2
  decide

theorem assign_uff_types_fixed_labels_witness :
    assign_uff_types no_uff_type fixed_label_sample =
      .ok ["Li", "Na", "K_", "He4+4", "Ne4+4", "Ar4+4", "Be3+2", "Mg3+2", "Ca6+2", "Al3",
        "Si3", "Fe3+2", "Co6+3", "Ni4+2", "Cu3+1", "Zn3+2"] ∧
    2 < fixed_label_sample.num_atoms ∧ (fixed_label_sample.atom 2).atomic_number = 19 ∧
    ["Li", "Na", "K_", "He4+4", "Ne4+4", "Ar4+4", "Be3+2", "Mg3+2", "Ca6+2", "Al3",
        "Si3", "Fe3+2", "Co6+3", "Ni4+2", "Cu3+1", "Zn3+2"].get? 2 = some "K_" := by
  have hok : assign_uff_types no_uff_type fixed_label_sample =
      .ok ["Li", "Na", "K_", "He4+4", "Ne4+4", "Ar4+4", "Be3+2", "Mg3+2", "Ca6+2", "Al3",
        "Si3", "Fe3+2", "Co6+3", "Ni4+2", "Cu3+1", "Zn3+2"] := by rfl
  exact ⟨hok, by decide, by rfl,
    (assign_uff_types_fixed_labels no_uff_type fixed_label_sample _ 2 hok (by decide)).2.2.1
      (by rfl)⟩

/-! ## Evaluator precompute: angle list -/

section setup_theorems

variable {F : Type} [Inhabited F]

/-- A successful `setup` stores the labels of `assign_uff_types` and the three
lists built from the bond graph. -/
theorem setup_ok (has_uff_type : String → Bool) (mol : Molecule F) (ff : UFFForceField)
    (hok : setup has_uff_type mol = .ok ff) :
    assign_uff_types has_uff_type mol = .ok ff.atom_types_ ∧
    ff.angles_ = build_angles mol ∧
    ff.torsions_ = build_torsions mol ∧
    ff.nonbonded_pairs_ =
      build_nonbonded mol.num_atoms (build_excluded mol (build_angles mol)) := by
  unfold setup at hok
  cases h : assign_uff_types has_uff_type mol with
  | error e =>
    rw [h] at hok
    simp only [bind, Except.bind] at hok
    cases hok
  | ok types =>
    rw [h] at hok
    simp only [bind, Except.bind, pure, Except.pure] at hok
    cases hok
    exact ⟨rfl, rfl, rfl, rfl⟩

/-- C4: after `setup` on a molecule with valid, distinct bond endpoints and no
duplicate bond, the angle list holds only triples `(i, j, k)` with `i` and `k`
two distinct atoms bonded to the valid centre `j`; for every centre and every
unordered pair of distinct atoms bonded to it exactly one entry has that centre
and those two ends; and the length is the sum over atoms of
`degree * (degree - 1) / 2`. -/
theorem setup_angle_list (has_uff_type : String → Bool) (mol : Molecule F) (ff : UFFForceField)
    (hok : setup has_uff_type mol = .ok ff)
    (hv : ValidBonds mol) (hs : NoSelfBond mol) (hd : NoDuplicateBond mol) :
    (∀ t ∈ ff.angles_,
      t.j < mol.num_atoms ∧ Bonded mol t.j t.i ∧ Bonded mol t.j t.k ∧ t.i ≠ t.k) ∧
    (∀ j i k, Bonded mol j i → Bonded mol j k → i ≠ k →
      ff.angles_.countP (fun t =>
        decide (t.j = j ∧ ((t.i = i ∧ t.k = k) ∨ (t.i = k ∧ t.k = i)))) = 1) ∧
    ff.angles_.length =
      ((List.range mol.num_atoms).map
        (fun j => mol.degree j * (mol.degree j - 1) / 2)).sum := by
  obtain ⟨-, hang, -, -⟩ := setup_ok has_uff_type mol ff hok
  rw [hang]
  have hnd : ∀ j, (neighbor_row mol.bonds j).Nodup := neighbor_row_nodup mol.bonds hs hd
  refine ⟨?_, ?_, ?_⟩
  · intro t ht
    rw [mem_build_angles] at ht
    have hm := mem_ordered_pairs _ _ ht.2
    exact ⟨ht.1, (mem_neighbor_row_iff_bonded mol t.j t.i).1 hm.1,
      (mem_neighbor_row_iff_bonded mol t.j t.k).1 hm.2, ordered_pairs_ne _ (hnd t.j) _ ht.2⟩
  · intro j i k hi hk hne
    have hj : j < mol.num_atoms := (bonded_lt mol hv j i hi).1
    rw [build_angles_eq, List.countP_flatMap]
    rw [sum_range_single _ mol.num_atoms j hj]
    · simp only [Function.comp, List.countP_map]
      rw [← ordered_pairs_countP _ (hnd j) i k
        ((mem_neighbor_row_iff_bonded mol j i).2 hi)
        ((mem_neighbor_row_iff_bonded mol j k).2 hk) hne]
      congr 1
      funext p
      simp [Prod.ext_iff]
    · intro m _ hmj
      simp only [Function.comp, List.countP_map]
      rw [List.countP_eq_zero]
      intro p _
      simp [hmj]
  · rw [build_angles_eq, List.length_flatMap]
    congr 1
    apply List.map_congr_left
    intro j _
    simp only [Function.comp, List.length_map]
    rw [ordered_pairs_length, neighbor_row_length mol.bonds hs, ← degree_eq_countP]

/-! ## Evaluator precompute: torsion list -/

/-- C5: after `setup` on a molecule with valid, distinct bond endpoints and no
duplicate bond, every quadruple `(i, j, k, l)` of the torsion list has `j`
bonded to `k`, `i` bonded to `j` with `i ≠ k`, `l` bonded to `k` with `l ≠ j`
and `l ≠ i`, hence four pairwise distinct indices; and for every bond `j - k`,
every such `i` and every such `l`, the list holds the dihedral exactly once,
as `(i, j, k, l)` or as `(l, k, j, i)`. -/
theorem setup_torsion_list (has_uff_type : String → Bool) (mol : Molecule F)
    (ff : UFFForceField) (hok : setup has_uff_type mol = .ok ff)
    (hv : ValidBonds mol) (hs : NoSelfBond mol) (hd : NoDuplicateBond mol) :
    (∀ t ∈ ff.torsions_,
      Bonded mol t.j t.k ∧ Bonded mol t.i t.j ∧ t.i ≠ t.k ∧
      Bonded mol t.l t.k ∧ t.l ≠ t.j ∧ t.l ≠ t.i ∧
      t.i ≠ t.j ∧ t.j ≠ t.k ∧ t.k ≠ t.l) ∧
    (∀ i j k l, Bonded mol j k → Bonded mol i j → i ≠ k → Bonded mol l k → l ≠ j → l ≠ i →
      ff.torsions_.count ⟨i, j, k, l⟩ + ff.torsions_.count ⟨l, k, j, i⟩ = 1) := by
  obtain ⟨-, -, htor, -⟩ := setup_ok has_uff_type mol ff hok
  rw [htor]
  have hne : ∀ a b, Bonded mol a b → a ≠ b := by
    rintro a b ⟨c, hc, ⟨h1, h2⟩ | ⟨h1, h2⟩⟩ hab
    · exact hs c hc (h1.trans (hab.trans h2.symm))
    · exact hs c hc (h1.trans (hab.symm.trans h2.symm))
  constructor
  · intro t ht
    rw [mem_build_torsions mol hv] at ht
    obtain ⟨⟨bond, hb, h1, h2⟩, hi, hik, hl, hlj, hli⟩ := ht
    have hjk : Bonded mol t.j t.k := ⟨bond, hb, Or.inl ⟨h1, h2⟩⟩
    have hij : Bonded mol t.i t.j :=
      (bonded_symm mol _ _).1 ((mem_neighbor_row_iff_bonded mol t.j t.i).1 hi)
    have hlk : Bonded mol t.l t.k :=
      (bonded_symm mol _ _).1 ((mem_neighbor_row_iff_bonded mol t.k t.l).1 hl)
    exact ⟨hjk, hij, hik, hlk, hlj, hli, hne _ _ hij, hne _ _ hjk, Ne.symm (hne _ _ hlk)⟩
  · intro i j k l hjk hij hik hlk hlj hli
    have hnd := build_torsions_nodup mol hv hs hd
    have hi : i ∈ neighbor_row mol.bonds j :=
      (mem_neighbor_row_iff_bonded mol j i).2 ((bonded_symm mol _ _).1 hij)
    have hl : l ∈ neighbor_row mol.bonds k :=
      (mem_neighbor_row_iff_bonded mol k l).2 ((bonded_symm mol _ _).1 hlk)
    have hjk_ne : j ≠ k := hne _ _ hjk
    have hsym : Symmetric fun b c : Bond =>
        ¬ ((b.atom_i = c.atom_i ∧ b.atom_j = c.atom_j) ∨
          (b.atom_i = c.atom_j ∧ b.atom_j = c.atom_i)) := by
      intro b c h hcb
      apply h
      rcases hcb with ⟨h1, h2⟩ | ⟨h1, h2⟩
      · exact Or.inl ⟨h1.symm, h2.symm⟩
      · exact Or.inr ⟨h2.symm, h1.symm⟩
    have hone : ∀ b c : Bond, b ∈ mol.bonds → c ∈ mol.bonds →
        b.atom_i = j → b.atom_j = k → c.atom_i = k → c.atom_j = j → False := by
      intro b c hb hc h1 h2 h3 h4
      have hbc : b ≠ c := by
        intro h
        rw [h] at h1
        exact hjk_ne (h1.symm.trans h3)
      exact List.Pairwise.forall hsym hd hb hc hbc (Or.inr ⟨h1.trans h4.symm, h2.trans h3.symm⟩)
    obtain ⟨b, hb, ⟨h1, h2⟩ | ⟨h1, h2⟩⟩ := hjk
    · have hin : (⟨i, j, k, l⟩ : TorsionInfo) ∈ build_torsions mol :=
        (mem_build_torsions mol hv _).2 ⟨⟨b, hb, h1, h2⟩, hi, hik, hl, hlj, hli⟩
      have hout : (⟨l, k, j, i⟩ : TorsionInfo) ∉ build_torsions mol := by
        intro h
        obtain ⟨⟨c, hc, h3, h4⟩, -⟩ := (mem_build_torsions mol hv _).1 h
        exact hone b c hb hc h1 h2 h3 h4
      rw [List.count_eq_one_of_mem hnd hin, List.count_eq_zero_of_not_mem hout]
    · have hin : (⟨l, k, j, i⟩ : TorsionInfo) ∈ build_torsions mol :=
        (mem_build_torsions mol hv _).2
          ⟨⟨b, hb, h1, h2⟩, hl, hlj, hi, hik, Ne.symm hli⟩
      have hout : (⟨i, j, k, l⟩ : TorsionInfo) ∉ build_torsions mol := by
        intro h
        obtain ⟨⟨c, hc, h3, h4⟩, -⟩ := (mem_build_torsions mol hv _).1 h
        exact hone c b hc hb h3 h4 h1 h2
      rw [List.count_eq_one_of_mem hnd hin, List.count_eq_zero_of_not_mem hout]

/-! ## Evaluator precompute: nonbonded pairs -/

/-- C3: after `setup` on a molecule whose bonds have valid endpoints, the pair
`(i, j)` is in the nonbonded list exactly when `i < j < N`, the two atoms are
not bonded to each other and have no common bonded neighbour; every listed
pair occurs once and the list is strictly increasing in lexicographic order. -/
theorem setup_nonbonded_pairs (has_uff_type : String → Bool) (mol : Molecule F)
    (ff : UFFForceField) (hok : setup has_uff_type mol = .ok ff) (hv : ValidBonds mol) :
    (∀ i j, (i, j) ∈ ff.nonbonded_pairs_ ↔
      i < j ∧ j < mol.num_atoms ∧ ¬ Bonded mol i j ∧
        ¬ ∃ m, Bonded mol m i ∧ Bonded mol m j) ∧
    (∀ p ∈ ff.nonbonded_pairs_, ff.nonbonded_pairs_.countP (fun q => decide (q = p)) = 1) ∧
    ff.nonbonded_pairs_.Pairwise (fun p q => p.1 < q.1 ∨ (p.1 = q.1 ∧ p.2 < q.2)) := by
  obtain ⟨-, -, -, hnb⟩ := setup_ok has_uff_type mol ff hok
  rw [hnb]
  refine ⟨?_, count_eq_one_of_sorted _ (build_nonbonded_sorted _ _), build_nonbonded_sorted _ _⟩
  intro i j
  rw [mem_build_nonbonded]
  constructor
  · rintro ⟨hij, hj, hex⟩
    rw [mem_build_excluded mol i j hij] at hex
    refine ⟨hij, hj, fun h => hex (Or.inl h), ?_⟩
    rintro ⟨m, hmi, hmj⟩
    exact hex (Or.inr ⟨m, (bonded_lt mol hv m i hmi).1,
      (mem_neighbor_row_iff_bonded mol m i).2 hmi, (mem_neighbor_row_iff_bonded mol m j).2 hmj⟩)
  · rintro ⟨hij, hj, h12, h13⟩
    refine ⟨hij, hj, ?_⟩
    rw [mem_build_excluded mol i j hij]
    rintro (h | ⟨m, _, hmi, hmj⟩)
    · exact h12 h
    · exact h13 ⟨m, (mem_neighbor_row_iff_bonded mol m i).1 hmi,
        (mem_neighbor_row_iff_bonded mol m j).1 hmj⟩

end setup_theorems

/-! ## Evaluator precompute: the ethene instance -/

theorem ethene_valid_bonds : ValidBonds ethene := by
  unfold ValidBonds
  decide

theorem ethene_no_self_bond : NoSelfBond ethene := by
  unfold NoSelfBond
  decide

theorem ethene_no_duplicate_bond : NoDuplicateBond ethene := by
  unfold NoDuplicateBond
  decide

theorem setup_nonbonded_pairs_witness :
    setup no_uff_type ethene = .ok ethene_ff ∧ ValidBonds ethene ∧
    ((∀ i j, (i, j) ∈ ethene_ff.nonbonded_pairs_ ↔
      i < j ∧ j < ethene.num_atoms ∧ ¬ Bonded ethene i j ∧
        ¬ ∃ m, Bonded ethene m i ∧ Bonded ethene m j) ∧
    (∀ p ∈ ethene_ff.nonbonded_pairs_,
      ethene_ff.nonbonded_pairs_.countP (fun q => decide (q = p)) = 1) ∧
    ethene_ff.nonbonded_pairs_.Pairwise (fun p q => p.1 < q.1 ∨ (p.1 = q.1 ∧ p.2 < q.2))) :=
  ⟨by rfl, ethene_valid_bonds,
    setup_nonbonded_pairs no_uff_type ethene ethene_ff (by rfl) ethene_valid_bonds⟩

theorem setup_angle_list_witness :
    setup no_uff_type ethene = .ok ethene_ff ∧ ValidBonds ethene ∧ NoSelfBond ethene ∧
    NoDuplicateBond ethene ∧
    ((∀ t ∈ ethene_ff.angles_,
      t.j < ethene.num_atoms ∧ Bonded ethene t.j t.i ∧ Bonded ethene t.j t.k ∧ t.i ≠ t.k) ∧
    (∀ j i k, Bonded ethene j i → Bonded ethene j k → i ≠ k →
      ethene_ff.angles_.countP (fun t =>
        decide (t.j = j ∧ ((t.i = i ∧ t.k = k) ∨ (t.i = k ∧ t.k = i)))) = 1) ∧
    ethene_ff.angles_.length =
      ((List.range ethene.num_atoms).map
        (fun j => ethene.degree j * (ethene.degree j - 1) / 2)).sum) :=
  ⟨by rfl, ethene_valid_bonds, ethene_no_self_bond, ethene_no_duplicate_bond,
    setup_angle_list no_uff_type ethene ethene_ff (by rfl) ethene_valid_bonds
      ethene_no_self_bond ethene_no_duplicate_bond⟩

theorem setup_torsion_list_witness :
    setup no_uff_type ethene = .ok ethene_ff ∧ ValidBonds ethene ∧ NoSelfBond ethene ∧
    NoDuplicateBond ethene ∧
    ((∀ t ∈ ethene_ff.torsions_,
      Bonded ethene t.j t.k ∧ Bonded ethene t.i t.j ∧ t.i ≠ t.k ∧
      Bonded ethene t.l t.k ∧ t.l ≠ t.j ∧ t.l ≠ t.i ∧
      t.i ≠ t.j ∧ t.j ≠ t.k ∧ t.k ≠ t.l) ∧
    (∀ i j k l, Bonded ethene j k → Bonded ethene i j → i ≠ k → Bonded ethene l k →
      l ≠ j → l ≠ i →
      ethene_ff.torsions_.count ⟨i, j, k, l⟩ + ethene_ff.torsions_.count ⟨l, k, j, i⟩ = 1)) :=
  ⟨by rfl, ethene_valid_bonds, ethene_no_self_bond, ethene_no_duplicate_bond,
    setup_torsion_list no_uff_type ethene ethene_ff (by rfl) ethene_valid_bonds
      ethene_no_self_bond ethene_no_duplicate_bond⟩

/-! ## Bond perception -/

section perceive_theorems

theorem foldlM_ok_of_forall {α β ε : Type} (f : β → α → Except ε β) (g : β → α → β)
    (l : List α) (h : ∀ acc x, x ∈ l → f acc x = .ok (g acc x)) :
    ∀ acc, l.foldlM f acc = .ok (l.foldl g acc) := by
  induction l with
  | nil => intro acc; rfl
  | cons x xs ih =>
    intro acc
    rw [List.foldlM_cons, h acc x (List.mem_cons_self _ _)]
    exact ih (fun acc y hy => h acc y (List.mem_cons_of_mem _ hy)) (g acc x)

theorem foldl_push_filter {α β : Type} (c : α → Bool) (b : α → β) (l : List α) :
    ∀ acc : List β,
      l.foldl (fun acc x => if c x then acc ++ [b x] else acc) acc =
        acc ++ (l.filter c).map b := by
  induction l with
  | nil => intro acc; simp
  | cons x xs ih =>
    intro acc
    rw [List.foldl_cons, ih]
    by_cases hc : c x = true
    · simp [hc, List.filter_cons]
    · simp [hc, List.filter_cons]

theorem foldl_append_flatMap {α β : Type} (row : α → List β) (l : List α) :
    ∀ acc : List β, l.foldl (fun acc x => acc ++ row x) acc = acc ++ l.flatMap row := by
  induction l with
  | nil => intro acc; simp
  | cons x xs ih =>
    intro acc
    rw [List.foldl_cons, ih, List.flatMap_cons, List.append_assoc]

theorem element_by_number_ok {F : Type} [Arith F] (z : Int) (h0 : 0 ≤ z) (h1 : z < 55) :
    ∃ e : ElementInfo F, element_by_number (F := F) z = .ok e ∧
      e.covalent_radius = covalent_radius z := by
  unfold element_by_number covalent_radius NUM_ELEMENTS
  rw [if_neg (by push_cast; omega)]
  exact ⟨_, rfl, rfl⟩

theorem atom_in_table {F : Type} [Inhabited F] (mol : Molecule F) (hZ : AtomsInTable mol) (i : Nat) :
    0 ≤ (mol.atom i).atomic_number ∧ (mol.atom i).atomic_number < 55 := by
  unfold Molecule.atom
  rw [List.getD_eq_getElem?_getD]
  by_cases hi : i < mol.atoms.length
  · rw [List.getElem?_eq_getElem hi]
    exact hZ _ (List.getElem_mem hi)
  · rw [List.getElem?_eq_none (by omega)]
    simp [Molecule.default_atom]

variable {F : Type} [Arith F] [Inhabited F]

theorem perceive_step_ok (mol : Molecule F) (hZ : AtomsInTable mol) (tolerance : F)
    (i : Nat) (bonds : List Bond) (j : Nat) :
    perceive_step mol tolerance i bonds j =
      .ok (if decide (within_bond_range mol tolerance i j) then bonds ++ [⟨i, j, 1⟩]
        else bonds) := by
  obtain ⟨ei, hei, hri⟩ := element_by_number_ok (F := F) _ (atom_in_table mol hZ i).1
    (atom_in_table mol hZ i).2
  obtain ⟨ej, hej, hrj⟩ := element_by_number_ok (F := F) _ (atom_in_table mol hZ j).1
    (atom_in_table mol hZ j).2
  unfold perceive_step
  rw [hei, hej]
  simp only [bind, Except.bind, pure, Except.pure, hri, hrj]
  by_cases hc : within_bond_range mol tolerance i j
  · have hc2 := hc
    unfold within_bond_range distance at hc2
    rw [if_pos hc2]
    simp [hc]
  · have hc2 := hc
    unfold within_bond_range distance at hc2
    rw [if_neg hc2]
    simp [hc]

/-- The perceived bond sequence is strictly increasing in lexicographic order. -/
theorem perceive_bonds_sorted (mol : Molecule F) (tolerance : F) :
    ((List.range mol.num_atoms).flatMap fun i =>
      ((List.range' (i + 1) (mol.num_atoms - (i + 1))).filter
        fun j => decide (within_bond_range mol tolerance i j)).map
          fun j => (⟨i, j, 1⟩ : Bond)).Pairwise
      (fun b c => b.atom_i < c.atom_i ∨ (b.atom_i = c.atom_i ∧ b.atom_j < c.atom_j)) := by
  rw [List.pairwise_flatMap]
  constructor
  · intro i _
    rw [List.pairwise_map]
    refine List.Pairwise.imp ?_
      ((List.pairwise_lt_range' (i + 1) (mol.num_atoms - (i + 1))).filter _)
    intro a b hab
    exact Or.inr ⟨rfl, hab⟩
  · refine List.Pairwise.imp ?_ (List.pairwise_lt_range mol.num_atoms)
    intro a b hab x hx y hy
    simp only [List.mem_map] at hx hy
    obtain ⟨_, _, rfl⟩ := hx
    obtain ⟨_, _, rfl⟩ := hy
    exact Or.inl hab

/-- On a molecule whose atomic numbers are in the table, `perceive_bonds`
returns the pairs within bond range, row by row. -/
theorem perceive_bonds_eq (mol : Molecule F) (hZ : AtomsInTable mol) (tolerance : F) :
    mol.perceive_bonds tolerance =
      .ok { mol with bonds :=
        ((List.range mol.num_atoms).flatMap fun i =>
          ((List.range' (i + 1) (mol.num_atoms - (i + 1))).filter
            fun j => decide (within_bond_range mol tolerance i j)).map
              fun j => (⟨i, j, 1⟩ : Bond)) } := by
  unfold Molecule.perceive_bonds
  simp only []
  have hinner : ∀ (i : Nat) (acc : List Bond),
      (List.range' (i + 1) (mol.num_atoms - (i + 1))).foldlM
        (perceive_step mol tolerance i) acc =
      .ok (acc ++ ((List.range' (i + 1) (mol.num_atoms - (i + 1))).filter
        fun j => decide (within_bond_range mol tolerance i j)).map
          fun j => (⟨i, j, 1⟩ : Bond)) := by
    intro i acc
    rw [foldlM_ok_of_forall (perceive_step mol tolerance i)
      (fun bonds j => if decide (within_bond_range mol tolerance i j) then
        bonds ++ [(⟨i, j, 1⟩ : Bond)] else bonds) _
      (fun bonds j _ => perceive_step_ok mol hZ tolerance i bonds j)]
    rw [foldl_push_filter]
  rw [foldlM_ok_of_forall _
    (fun bonds i => bonds ++ ((List.range' (i + 1) (mol.num_atoms - (i + 1))).filter
        fun j => decide (within_bond_range mol tolerance i j)).map
          fun j => (⟨i, j, 1⟩ : Bond)) _ (fun acc i _ => hinner i acc)]
  rw [foldl_append_flatMap]
  rfl

/-- C6: on a molecule whose atomic numbers are in the element table,
`perceive_bonds` succeeds, keeps the atoms, and leaves a bond sequence in which
atoms `i < j` are joined exactly when `j` is an atom and
`0.4 ≤ d(i, j) ≤ r_i + r_j + tolerance`; every stored bond is `(i, j, 1)` with
`i < j`, occurs once, the sequence is strictly increasing in lexicographic
order, and it does not depend on the bonds present before the call. -/
theorem perceive_bonds_spec (mol : Molecule F) (tolerance : F) (hZ : AtomsInTable mol) :
    ∃ mol2 : Molecule F, mol.perceive_bonds tolerance = .ok mol2 ∧
      mol2.atoms = mol.atoms ∧
      (∀ i j, i < j →
        ((∃ b ∈ mol2.bonds, (b.atom_i = i ∧ b.atom_j = j) ∨ (b.atom_i = j ∧ b.atom_j = i)) ↔
          (j < mol.num_atoms ∧ within_bond_range mol tolerance i j))) ∧
      (∀ b ∈ mol2.bonds, b.atom_i < b.atom_j ∧ b.order = 1 ∧ mol2.bonds.count b = 1) ∧
      mol2.bonds.Pairwise
        (fun b c => b.atom_i < c.atom_i ∨ (b.atom_i = c.atom_i ∧ b.atom_j < c.atom_j)) ∧
      (∀ old : List Bond,
        Molecule.perceive_bonds { mol with bonds := old } tolerance = .ok mol2) := by
  refine ⟨_, perceive_bonds_eq mol hZ tolerance, rfl, ?_, ?_, ?_, ?_⟩
  · intro i j hij
    simp only [List.mem_flatMap, List.mem_range, List.mem_map, List.mem_filter,
      List.mem_range'_1, decide_eq_true_eq]
    constructor
    · rintro ⟨b, ⟨a, ha, c, ⟨⟨h1, h2⟩, h3⟩, rfl⟩, ⟨h4, h5⟩ | ⟨h4, h5⟩⟩
      · simp only at h4 h5
        subst h4 h5
        exact ⟨by omega, h3⟩
      · simp only at h4 h5
        omega
    · rintro ⟨hj, hc⟩
      exact ⟨⟨i, j, 1⟩, ⟨i, by omega, j, ⟨⟨by omega, by omega⟩, hc⟩, rfl⟩, Or.inl ⟨rfl, rfl⟩⟩
  · have hsorted := perceive_bonds_sorted mol tolerance
    have hnd : ((List.range mol.num_atoms).flatMap fun i =>
          ((List.range' (i + 1) (mol.num_atoms - (i + 1))).filter
            fun j => decide (within_bond_range mol tolerance i j)).map
              fun j => (⟨i, j, 1⟩ : Bond)).Nodup := by
      refine List.Pairwise.imp ?_ hsorted
      rintro b c (h1 | ⟨_, h2⟩) hbc
      · rw [hbc] at h1; exact Nat.lt_irrefl _ h1
      · rw [hbc] at h2; exact Nat.lt_irrefl _ h2
    intro b hb
    refine ⟨?_, ?_, List.count_eq_one_of_mem hnd hb⟩
    · simp only [List.mem_flatMap, List.mem_range, List.mem_map, List.mem_filter,
        List.mem_range'_1] at hb
      obtain ⟨a, _, c, ⟨⟨h1, _⟩, _⟩, rfl⟩ := hb
      exact h1
    · simp only [List.mem_flatMap, List.mem_map] at hb
      obtain ⟨a, _, c, _, rfl⟩ := hb
      rfl
  · exact perceive_bonds_sorted mol tolerance
  · intro old
    have hZ2 : AtomsInTable ({ mol with bonds := old } : Molecule F) := hZ
    exact perceive_bonds_eq _ hZ2 tolerance

end perceive_theorems

theorem perceive_bonds_spec_witness :
    AtomsInTable (peroxide 0) ∧
    ∃ mol2 : Molecule ℝ, (peroxide 0).perceive_bonds 0.45 = .ok mol2 ∧
      mol2.atoms = (peroxide 0).atoms ∧
      (∀ i j, i < j →
        ((∃ b ∈ mol2.bonds, (b.atom_i = i ∧ b.atom_j = j) ∨ (b.atom_i = j ∧ b.atom_j = i)) ↔
          (j < (peroxide 0).num_atoms ∧ within_bond_range (peroxide 0) 0.45 i j))) ∧
      (∀ b ∈ mol2.bonds, b.atom_i < b.atom_j ∧ b.order = 1 ∧ mol2.bonds.count b = 1) ∧
      mol2.bonds.Pairwise
        (fun b c => b.atom_i < c.atom_i ∨ (b.atom_i = c.atom_i ∧ b.atom_j < c.atom_j)) ∧
      (∀ old : List Bond,
        Molecule.perceive_bonds { peroxide 0 with bonds := old } 0.45 = .ok mol2) := by
  have hZ : AtomsInTable (peroxide 0) := by
    intro a ha
    simp only [peroxide, List.mem_cons, List.mem_singleton, List.not_mem_nil, or_false] at ha
    rcases ha with rfl | rfl | rfl | rfl <;> exact ⟨by decide, by decide⟩
  exact ⟨hZ, perceive_bonds_spec (peroxide 0) 0.45 hZ⟩

/-! ## Energy components -/

section energy_theorems

variable {F : Type} [Arith F] [Inhabited F]

/-- C2: `calculate_energy_components` returns the four term energies and, as
total, their sum taken in the order bond, angle, torsion, van der Waals;
`calculate_energy` returns that same total. No law of arithmetic is used, so
the equalities hold bit for bit. -/
theorem calculate_energy_components_total (get_uff_params : String → UFFAtomType F)
    (ff : UFFForceField) (mol : Molecule F) :
    (calculate_energy_components get_uff_params ff mol).total =
      (calculate_energy_components get_uff_params ff mol).bond_stretch +
        (calculate_energy_components get_uff_params ff mol).angle_bend +
        (calculate_energy_components get_uff_params ff mol).torsion +
        (calculate_energy_components get_uff_params ff mol).vdw ∧
    (calculate_energy_components get_uff_params ff mol).bond_stretch =
      bond_stretch_energy get_uff_params ff mol ∧
    (calculate_energy_components get_uff_params ff mol).angle_bend =
      angle_bend_energy get_uff_params ff mol ∧
    (calculate_energy_components get_uff_params ff mol).torsion =
      torsion_energy get_uff_params ff mol ∧
    (calculate_energy_components get_uff_params ff mol).vdw =
      vdw_energy get_uff_params ff mol ∧
    calculate_energy get_uff_params ff mol =
      (calculate_energy_components get_uff_params ff mol).total := by
  unfold calculate_energy_components calculate_energy
  exact ⟨rfl, rfl, rfl, rfl, rfl, rfl⟩

end energy_theorems

/-! ## The loop bodies of the angle and torsion routines -/

section step_shapes

variable {F : Type} [Arith F] [Inhabited F]

theorem angle_bend_energy_step_eq (P : String → UFFAtomType F) (ff : UFFForceField)
    (mol : Molecule F) (E : F) (a : AngleInfo) :
    angle_bend_energy_step P ff mol E a =
      if ((mol.atom a.i).position.sub (mol.atom a.j).position).norm < 1e-10 ∨
          ((mol.atom a.k).position.sub (mol.atom a.j).position).norm < 1e-10 then E
      else if Arith.abs (angle_force_constant (P (ff.atom_type a.i)) (P (ff.atom_type a.j))
          (P (ff.atom_type a.k))) < 1e-10 then E
      else if Arith.abs ((P (ff.atom_type a.j)).theta0 * DEG2RAD - Arith.pi) < 0.01 then
        E + angle_force_constant (P (ff.atom_type a.i)) (P (ff.atom_type a.j))
          (P (ff.atom_type a.k)) *
          (1.0 + clamped_cos_angle (mol.atom a.i).position (mol.atom a.j).position
            (mol.atom a.k).position)
      else
        E + angle_force_constant (P (ff.atom_type a.i)) (P (ff.atom_type a.j))
          (P (ff.atom_type a.k)) *
          (1.0 / (4.0 * Arith.sin ((P (ff.atom_type a.j)).theta0 * DEG2RAD) *
              Arith.sin ((P (ff.atom_type a.j)).theta0 * DEG2RAD)) *
              (2.0 * Arith.cos ((P (ff.atom_type a.j)).theta0 * DEG2RAD) *
                Arith.cos ((P (ff.atom_type a.j)).theta0 * DEG2RAD) + 1.0) +
            -4.0 * (1.0 / (4.0 * Arith.sin ((P (ff.atom_type a.j)).theta0 * DEG2RAD) *
              Arith.sin ((P (ff.atom_type a.j)).theta0 * DEG2RAD))) *
              Arith.cos ((P (ff.atom_type a.j)).theta0 * DEG2RAD) *
              clamped_cos_angle (mol.atom a.i).position (mol.atom a.j).position
                (mol.atom a.k).position +
            1.0 / (4.0 * Arith.sin ((P (ff.atom_type a.j)).theta0 * DEG2RAD) *
              Arith.sin ((P (ff.atom_type a.j)).theta0 * DEG2RAD)) *
              Arith.cos (2.0 * Arith.acos (clamped_cos_angle (mol.atom a.i).position
                (mol.atom a.j).position (mol.atom a.k).position))) := by
  unfold angle_bend_energy_step angle_force_constant clamped_cos_angle
  simp only []
  split_ifs <;> rfl

theorem angle_bend_gradient_step_eq (P : String → UFFAtomType F) (ff : UFFForceField)
    (mol : Molecule F) (grad : List F) (a : AngleInfo) :
    angle_bend_gradient_step P ff mol grad a =
      if ((mol.atom a.i).position.sub (mol.atom a.j).position).norm < 1e-10 ∨
          ((mol.atom a.k).position.sub (mol.atom a.j).position).norm < 1e-10 then grad
      else if Arith.abs (angle_force_constant (P (ff.atom_type a.i)) (P (ff.atom_type a.j))
          (P (ff.atom_type a.k))) < 1e-10 then grad
      else
        let rji := (mol.atom a.i).position.sub (mol.atom a.j).position
        let rjk := (mol.atom a.k).position.sub (mol.atom a.j).position
        let dji := rji.norm
        let djk := rjk.norm
        let cos_theta := clamped_cos_angle (mol.atom a.i).position (mol.atom a.j).position
          (mol.atom a.k).position
        let theta := Arith.acos cos_theta
        let sin_theta := Arith.sin theta
        let sin_theta := if Arith.abs sin_theta < 1e-10 then 1e-10 else sin_theta
        let K := angle_force_constant (P (ff.atom_type a.i)) (P (ff.atom_type a.j))
          (P (ff.atom_type a.k))
        let theta0 := (P (ff.atom_type a.j)).theta0 * DEG2RAD
        let cos_theta0 := Arith.cos theta0
        let sin_theta0 := Arith.sin theta0
        let dE_dtheta :=
          if Arith.abs (theta0 - Arith.pi) < 0.01 then -K * sin_theta
          else
            let C2 := 1.0 / (4.0 * sin_theta0 * sin_theta0)
            let C1 := -4.0 * C2 * cos_theta0
            K * (-C1 * sin_theta - 2.0 * C2 * Arith.sin (2.0 * theta))
        let uji := rji.sdiv dji
        let ujk := rjk.sdiv djk
        let dthetadri := ((ujk.sub (Vec3.smul cos_theta uji)).neg).sdiv (dji * sin_theta)
        let dthetadrk := ((uji.sub (Vec3.smul cos_theta ujk)).neg).sdiv (djk * sin_theta)
        let dthetadrj := dthetadri.neg.sub dthetadrk
        segment_add (segment_add (segment_add grad a.i (Vec3.smul dE_dtheta dthetadri))
          a.j (Vec3.smul dE_dtheta dthetadrj)) a.k (Vec3.smul dE_dtheta dthetadrk) := by
  unfold angle_bend_gradient_step angle_force_constant clamped_cos_angle
  simp only []

theorem torsion_energy_step_eq (P : String → UFFAtomType F) (ff : UFFForceField)
    (mol : Molecule F) (E : F) (tor : TorsionInfo) :
    torsion_energy_step P ff mol E tor =
      if (torsion_choice (P (ff.atom_type tor.j)) (P (ff.atom_type tor.k))).2.2 < 1e-10 then E
      else
        E + 0.5 * (torsion_choice (P (ff.atom_type tor.j)) (P (ff.atom_type tor.k))).2.2 *
          (1.0 - Arith.cos
              (Arith.ofInt (torsion_choice (P (ff.atom_type tor.j)) (P (ff.atom_type tor.k))).1 *
                (torsion_choice (P (ff.atom_type tor.j)) (P (ff.atom_type tor.k))).2.1) *
            Arith.cos
              (Arith.ofInt (torsion_choice (P (ff.atom_type tor.j)) (P (ff.atom_type tor.k))).1 *
                compute_dihedral (mol.atom tor.i).position (mol.atom tor.j).position
                  (mol.atom tor.k).position (mol.atom tor.l).position)) := by
  unfold torsion_energy_step torsion_choice
  simp only []

theorem torsion_gradient_step_eq (P : String → UFFAtomType F) (ff : UFFForceField)
    (mol : Molecule F) (grad : List F) (tor : TorsionInfo) :
    torsion_gradient_step P ff mol grad tor =
      let p1 := (mol.atom tor.i).position
      let p2 := (mol.atom tor.j).position
      let p3 := (mol.atom tor.k).position
      let p4 := (mol.atom tor.l).position
      let b1 := p2.sub p1
      let b2 := p3.sub p2
      let b3 := p4.sub p3
      let n1 := b1.cross b2
      let n2 := b2.cross b3
      let n1_sq := n1.squaredNorm
      let n2_sq := n2.squaredNorm
      if n1_sq < 1e-20 ∨ n2_sq < 1e-20 then grad
      else if b2.norm < 1e-10 then grad
      else if (torsion_choice (P (ff.atom_type tor.j)) (P (ff.atom_type tor.k))).2.2 < 1e-10
        then grad
      else
        let b2_norm := b2.norm
        let phi := compute_dihedral p1 p2 p3 p4
        let n := (torsion_choice (P (ff.atom_type tor.j)) (P (ff.atom_type tor.k))).1
        let phi0 := (torsion_choice (P (ff.atom_type tor.j)) (P (ff.atom_type tor.k))).2.1
        let V := (torsion_choice (P (ff.atom_type tor.j)) (P (ff.atom_type tor.k))).2.2
        let dE_dphi := 0.5 * V * Arith.ofInt n * Arith.cos (Arith.ofInt n * phi0) *
          Arith.sin (Arith.ofInt n * phi)
        let dphi_dp1 := Vec3.smul (-(b2_norm / n1_sq)) n1
        let dphi_dp4 := Vec3.smul (b2_norm / n2_sq) n2
        let dot_b1_b2 := b1.dot b2 / (b2_norm * b2_norm)
        let dot_b3_b2 := b3.dot b2 / (b2_norm * b2_norm)
        let dphi_dp2 := (Vec3.smul (dot_b1_b2 - 1.0) dphi_dp1).sub (Vec3.smul dot_b3_b2 dphi_dp4)
        let dphi_dp3 := (Vec3.smul (dot_b3_b2 - 1.0) dphi_dp4).sub (Vec3.smul dot_b1_b2 dphi_dp1)
        segment_add (segment_add (segment_add (segment_add grad tor.i
          (Vec3.smul dE_dphi dphi_dp1)) tor.j (Vec3.smul dE_dphi dphi_dp2))
          tor.k (Vec3.smul dE_dphi dphi_dp3)) tor.l (Vec3.smul dE_dphi dphi_dp4) := by
  unfold torsion_gradient_step torsion_choice
  simp only []

end step_shapes

/-! ## The real interpretation: evaluation lemmas -/

section real_basics

open Real

@[simp] theorem arith_sqrt_real (x : ℝ) : Arith.sqrt x = Real.sqrt x := rfl
@[simp] theorem arith_cos_real (x : ℝ) : Arith.cos x = Real.cos x := rfl
@[simp] theorem arith_sin_real (x : ℝ) : Arith.sin x = Real.sin x := rfl
@[simp] theorem arith_acos_real (x : ℝ) : Arith.acos x = Real.arccos x := rfl
@[simp] theorem arith_log_real (x : ℝ) : Arith.log x = Real.log x := rfl
@[simp] theorem arith_abs_real (x : ℝ) : Arith.abs x = |x| := rfl
@[simp] theorem arith_pi_real : (Arith.pi : ℝ) = Real.pi := rfl
@[simp] theorem arith_ofInt_real (n : Int) : (Arith.ofInt n : ℝ) = (n : ℝ) := rfl

/-- The bonds of `peroxide`: the numbers of bonds and of atoms, and bonds 0, 1 and 2,
in this order. -/
theorem peroxide_bonds :
    (∀ t : ℝ, (peroxide t).num_bonds = 3) ∧
    (∀ t : ℝ, (peroxide t).num_atoms = 4) ∧
    (∀ t : ℝ, (peroxide t).bond 0 = ⟨0, 1, 1⟩) ∧
    (∀ t : ℝ, (peroxide t).bond 1 = ⟨1, 2, 1⟩) ∧
    (∀ t : ℝ, (peroxide t).bond 2 = ⟨2, 3, 1⟩) :=
  ⟨fun _ => rfl, fun _ => rfl, fun _ => rfl, fun _ => rfl, fun _ => rfl⟩

/-- The positions of the atoms 0, 1, 2 and 3 of `peroxide`, in this order. -/
theorem peroxide_positions :
    (∀ t : ℝ, ((peroxide t).atom 0).position = ⟨-3/5, -4/5, 0⟩) ∧
    (∀ t : ℝ, ((peroxide t).atom 1).position = ⟨0, t, 0⟩) ∧
    (∀ t : ℝ, ((peroxide t).atom 2).position = ⟨1, 0, 0⟩) ∧
    (∀ t : ℝ, ((peroxide t).atom 3).position = ⟨8/5, 0, 4/5⟩) :=
  ⟨fun _ => rfl, fun _ => rfl, fun _ => rfl, fun _ => rfl⟩

@[simp] theorem length_segment_add {F : Type} [Arith F] (g : List F) (i : Nat) (v : Vec3 F) :
    (segment_add g i v).length = g.length := by
  simp [segment_add]

@[simp] theorem length_segment_sub {F : Type} [Arith F] (g : List F) (i : Nat) (v : Vec3 F) :
    (segment_sub g i v).length = g.length := by
  simp [segment_sub]

theorem getD_segment_add (g : List ℝ) (i k : Nat) (v : Vec3 ℝ) (hk : k < g.length) :
    (segment_add g i v).getD k 0 =
      g.getD k 0 + (if 3 * i = k then v.x else if 3 * i + 1 = k then v.y
        else if 3 * i + 2 = k then v.z else 0) := by
  unfold segment_add
  simp only [List.getD_eq_getElem?_getD, List.getElem?_modify, List.getElem?_eq_getElem hk,
    Option.map_eq_map, Option.map_some', Option.getD_some]
  by_cases h0 : 3 * i = k
  · have h1 : ¬ 3 * i + 1 = k := by omega
    have h2 : ¬ 3 * i + 2 = k := by omega
    simp [h0, h1, h2]
  · by_cases h1 : 3 * i + 1 = k
    · have h2 : ¬ 3 * i + 2 = k := by omega
      simp [h0, h1, h2]
    · by_cases h2 : 3 * i + 2 = k
      · simp [h0, h1, h2]
      · simp [h0, h1, h2]

theorem getD_segment_sub (g : List ℝ) (i k : Nat) (v : Vec3 ℝ) (hk : k < g.length) :
    (segment_sub g i v).getD k 0 =
      g.getD k 0 - (if 3 * i = k then v.x else if 3 * i + 1 = k then v.y
        else if 3 * i + 2 = k then v.z else 0) := by
  unfold segment_sub
  simp only [List.getD_eq_getElem?_getD, List.getElem?_modify, List.getElem?_eq_getElem hk,
    Option.map_eq_map, Option.map_some', Option.getD_some]
  by_cases h0 : 3 * i = k
  · have h1 : ¬ 3 * i + 1 = k := by omega
    have h2 : ¬ 3 * i + 2 = k := by omega
    simp [h0, h1, h2]
  · by_cases h1 : 3 * i + 1 = k
    · have h2 : ¬ 3 * i + 2 = k := by omega
      simp [h0, h1, h2]
    · by_cases h2 : 3 * i + 2 = k
      · simp [h0, h1, h2]
      · simp [h0, h1, h2]

theorem peroxide_type0 : peroxide_ff.atom_type 0 = "H_" := rfl
theorem peroxide_type1 : peroxide_ff.atom_type 1 = "O_3" := rfl
theorem peroxide_type2 : peroxide_ff.atom_type 2 = "O_3" := rfl
theorem peroxide_type3 : peroxide_ff.atom_type 3 = "H_" := rfl
theorem peroxide_angles : peroxide_ff.angles_ = [⟨0, 1, 2⟩, ⟨1, 2, 3⟩] := rfl
theorem peroxide_torsions : peroxide_ff.torsions_ = [⟨0, 1, 2, 3⟩] := rfl
theorem peroxide_nonbonded : peroxide_ff.nonbonded_pairs_ = [(0, 3)] := rfl

end real_basics

/-! ## The peroxide instance -/

section setup_peroxide

theorem peroxide_setup (has_uff_type : String → Bool) (t : ℝ) :
    setup has_uff_type (peroxide t) = .ok peroxide_ff := by
  have peroxide_Z0 : ((peroxide t).atom 0).atomic_number = 1 := rfl
  have peroxide_Z1 : ((peroxide t).atom 1).atomic_number = 8 := rfl
  have peroxide_Z2 : ((peroxide t).atom 2).atomic_number = 8 := rfl
  have peroxide_Z3 : ((peroxide t).atom 3).atomic_number = 1 := rfl
  have peroxide_deg1 : (peroxide t).degree 1 = 2 := by rfl
  have peroxide_deg2 : (peroxide t).degree 2 = 2 := by rfl
  have peroxide_scan1 : aromatic_scan (peroxide t) 1 = false := by
    unfold aromatic_scan
    rw [show (peroxide t).bonded_to 1 = [0, 2] from by rfl]
    simp [peroxide_Z0, peroxide_Z2]
  have peroxide_scan2 : aromatic_scan (peroxide t) 2 = false := by
    unfold aromatic_scan
    rw [show (peroxide t).bonded_to 2 = [1, 3] from by rfl]
    simp [peroxide_Z1, peroxide_Z3]
  have peroxide_types :
      assign_uff_types has_uff_type (peroxide t) = .ok ["H_", "O_3", "O_3", "H_"] := by
    rw [assign_uff_types, mapM_ok_iff, peroxide_bonds.2.1]
    have h0 : uff_type_of has_uff_type (peroxide t) 0 = .ok "H_" := by
      unfold uff_type_of; simp only [peroxide_Z0]
    have h1 : uff_type_of has_uff_type (peroxide t) 1 = .ok "O_3" := by
      unfold uff_type_of; simp only [peroxide_Z1, peroxide_deg1, peroxide_scan1]; rfl
    have h2 : uff_type_of has_uff_type (peroxide t) 2 = .ok "O_3" := by
      unfold uff_type_of; simp only [peroxide_Z2, peroxide_deg2, peroxide_scan2]; rfl
    have h3 : uff_type_of has_uff_type (peroxide t) 3 = .ok "H_" := by
      unfold uff_type_of; simp only [peroxide_Z3]
    exact List.Forall₂.cons h0 (List.Forall₂.cons h1 (List.Forall₂.cons h2
      (List.Forall₂.cons h3 List.Forall₂.nil)))
  unfold setup
  rw [peroxide_types]
  have ha : build_angles (peroxide t) = [⟨0, 1, 2⟩, ⟨1, 2, 3⟩] := by rfl
  have ht : build_torsions (peroxide t) = [⟨0, 1, 2, 3⟩] := by rfl
  have hn : build_nonbonded (peroxide t).num_atoms
      (build_excluded (peroxide t) [⟨0, 1, 2⟩, ⟨1, 2, 3⟩]) = [(0, 3)] := by rfl
  simp only [bind, Except.bind, pure, Except.pure, ha, ht, hn]
  rfl

end setup_peroxide

/-! ## Calculus along the displacement path -/

section real_analysis
open Real

theorem hasDerivAt_sqrt_quad (a b c : ℝ) (ha : 0 < a) :
    HasDerivAt (fun t : ℝ => √(a + b * t + c * t ^ 2)) (b / (2 * √a)) 0 := by
  have hasDerivAt_quad : ∀ a b c : ℝ, HasDerivAt (fun t : ℝ => a + b * t + c * t ^ 2) b 0 := by
    intro a b c
    have h := (((hasDerivAt_id (0:ℝ)).const_mul b).const_add a).add
      (((hasDerivAt_id (0:ℝ)).pow 2).const_mul c)
    convert h using 1
    simp
  have h := (hasDerivAt_quad a b c).sqrt (by simpa using ne_of_gt ha)
  convert h using 1
  simp

theorem hasDerivAt_cos_path (n0 n1 n2 b1 c1 b2 c2 : ℝ) :
    HasDerivAt (fun t : ℝ => (n0 + n1 * t + n2 * t ^ 2) /
      (√(1 + b1 * t + c1 * t ^ 2) * √(1 + b2 * t + c2 * t ^ 2)))
      (n1 - n0 * (b1 / 2 + b2 / 2)) 0 := by
  have hasDerivAt_quad : ∀ a b c : ℝ, HasDerivAt (fun t : ℝ => a + b * t + c * t ^ 2) b 0 := by
    intro a b c
    have h := (((hasDerivAt_id (0:ℝ)).const_mul b).const_add a).add
      (((hasDerivAt_id (0:ℝ)).pow 2).const_mul c)
    convert h using 1
    simp
  have hN := hasDerivAt_quad n0 n1 n2
  have h1 := hasDerivAt_sqrt_quad 1 b1 c1 one_pos
  have h2 := hasDerivAt_sqrt_quad 1 b2 c2 one_pos
  have h := hN.div (h1.mul h2) (by simp)
  convert h using 1
  simp

/-- Inside the open interval the clamp to `[-1, 1]` does nothing. -/
theorem clamp_of_mem (x : ℝ) (h0 : -1 < x) (h1 : x < 1) : fmax (-1.0) (fmin 1.0 x) = x := by
  unfold fmax fmin
  have e1 : ((1.0 : ℝ)) = 1 := by norm_num
  rw [e1, if_pos h1, if_pos h0]

theorem hasDerivAt_clamp {f : ℝ → ℝ} {f' : ℝ} (hf : HasDerivAt f f' 0)
    (h0 : -1 < f 0) (h1 : f 0 < 1) :
    HasDerivAt (fun t => fmax (-1.0) (fmin 1.0 (f t))) f' 0 := by
  refine hf.congr_of_eventuallyEq ?_
  have hev : ∀ᶠ t in nhds (0:ℝ), f t ∈ Set.Ioo (-1:ℝ) 1 :=
    hf.continuousAt.eventually (Ioo_mem_nhds h0 h1)
  filter_upwards [hev] with t ht
  exact clamp_of_mem (f t) ht.1 ht.2

end real_analysis

section real_analysis2
open Real

set_option maxHeartbeats 1000000 in
/-- The clamped cosines of the angles H-O-O, at the displaced oxygen, and O-O-H,
centred on the fixed oxygen: derivative along the path and value at the reference
geometry, for the first angle and then for the second. -/
theorem cos_angle_paths :
    (HasDerivAt (fun t : ℝ => clamped_cos_angle (⟨-3/5, -4/5, 0⟩ : Vec3 ℝ) ⟨0, t, 0⟩ ⟨1, 0, 0⟩)
        (32/25) 0 ∧
      clamped_cos_angle (⟨-3/5, -4/5, 0⟩ : Vec3 ℝ) ⟨0, 0, 0⟩ ⟨1, 0, 0⟩ = -3/5) ∧
    (HasDerivAt (fun t : ℝ => clamped_cos_angle (⟨0, t, 0⟩ : Vec3 ℝ) ⟨1, 0, 0⟩ ⟨8/5, 0, 4/5⟩)
        0 0 ∧
      clamped_cos_angle (⟨0, 0, 0⟩ : Vec3 ℝ) ⟨1, 0, 0⟩ ⟨8/5, 0, 4/5⟩ = -3/5) := by
  constructor
  · have hraw : (fun t : ℝ => (Vec3.sub (⟨-3/5, -4/5, 0⟩ : Vec3 ℝ) ⟨0, t, 0⟩).dot
          (Vec3.sub ⟨1, 0, 0⟩ ⟨0, t, 0⟩) /
        ((Vec3.sub (⟨-3/5, -4/5, 0⟩ : Vec3 ℝ) ⟨0, t, 0⟩).norm *
          (Vec3.sub (⟨1, 0, 0⟩ : Vec3 ℝ) ⟨0, t, 0⟩).norm)) =
        fun t => (-3/5 + 4/5 * t + 1 * t ^ 2) /
          (√(1 + 8/5 * t + 1 * t ^ 2) * √(1 + 0 * t + 1 * t ^ 2)) := by
      funext t
      simp only [Vec3.sub, Vec3.dot, Vec3.norm, Vec3.squaredNorm, arith_sqrt_real]
      congr 1
      · ring
      · congr 1 <;> congr 1 <;> ring
    have hd := hasDerivAt_cos_path (-3/5) (4/5) 1 (8/5) 1 0 1
    rw [← hraw] at hd
    have hv : (Vec3.sub (⟨-3/5, -4/5, 0⟩ : Vec3 ℝ) ⟨0, 0, 0⟩).dot
          (Vec3.sub ⟨1, 0, 0⟩ ⟨0, 0, 0⟩) /
        ((Vec3.sub (⟨-3/5, -4/5, 0⟩ : Vec3 ℝ) ⟨0, 0, 0⟩).norm *
          (Vec3.sub (⟨1, 0, 0⟩ : Vec3 ℝ) ⟨0, 0, 0⟩).norm) = -3/5 := by
      have := congrFun hraw 0
      simp only [] at this
      rw [this]
      norm_num
    constructor
    · have hc := hasDerivAt_clamp hd (by rw [hv]; norm_num) (by rw [hv]; norm_num)
      convert hc using 1
      norm_num
    · unfold clamped_cos_angle
      simp only []
      rw [hv]
      exact clamp_of_mem _ (by norm_num) (by norm_num)
  · have hraw : (fun t : ℝ => (Vec3.sub (⟨0, t, 0⟩ : Vec3 ℝ) ⟨1, 0, 0⟩).dot
          (Vec3.sub ⟨8/5, 0, 4/5⟩ ⟨1, 0, 0⟩) /
        ((Vec3.sub (⟨0, t, 0⟩ : Vec3 ℝ) ⟨1, 0, 0⟩).norm *
          (Vec3.sub (⟨8/5, 0, 4/5⟩ : Vec3 ℝ) ⟨1, 0, 0⟩).norm)) =
        fun t => (-3/5 + 0 * t + 0 * t ^ 2) /
          (√(1 + 0 * t + 1 * t ^ 2) * √(1 + 0 * t + 0 * t ^ 2)) := by
      funext t
      simp only [Vec3.sub, Vec3.dot, Vec3.norm, Vec3.squaredNorm, arith_sqrt_real]
      congr 1
      · ring
      · congr 1 <;> congr 1 <;> ring
    have hd := hasDerivAt_cos_path (-3/5) 0 0 0 1 0 0
    rw [← hraw] at hd
    have hv : (Vec3.sub (⟨0, 0, 0⟩ : Vec3 ℝ) ⟨1, 0, 0⟩).dot
          (Vec3.sub ⟨8/5, 0, 4/5⟩ ⟨1, 0, 0⟩) /
        ((Vec3.sub (⟨0, 0, 0⟩ : Vec3 ℝ) ⟨1, 0, 0⟩).norm *
          (Vec3.sub (⟨8/5, 0, 4/5⟩ : Vec3 ℝ) ⟨1, 0, 0⟩).norm) = -3/5 := by
      have := congrFun hraw 0
      simp only [] at this
      rw [this]
      norm_num
    constructor
    · have hc := hasDerivAt_clamp hd (by rw [hv]; norm_num) (by rw [hv]; norm_num)
      convert hc using 1
      norm_num
    · unfold clamped_cos_angle
      simp only []
      rw [hv]
      exact clamp_of_mem _ (by norm_num) (by norm_num)

/-- Near the reference geometry the dihedral H-O-O-H is minus the arc cosine
of an explicit function of the displacement. -/
theorem dihedral_path (t : ℝ) (h0 : -1/4 < t) (h1 : t < 1/4) :
    compute_dihedral (⟨-3/5, -4/5, 0⟩ : Vec3 ℝ) ⟨0, t, 0⟩ ⟨1, 0, 0⟩ ⟨8/5, 0, 4/5⟩ =
      -Real.arccos (fmax (-1.0) (fmin 1.0 ((0 + (-3/4) * t + 0 * t ^ 2) /
        (√(1 + 0 * t + 25/16 * t ^ 2) * √(1 + 0 * t + 0 * t ^ 2))))) := by
  unfold compute_dihedral
  simp only [Vec3.sub, Vec3.cross, Vec3.dot, Vec3.norm, Vec3.squaredNorm, Vec3.sdiv,
    arith_sqrt_real, arith_acos_real]
  have a1 : ((t - -4 / 5) * (0 - 0) - (0 - 0) * (0 - t) : ℝ) = 0 := by ring
  have a2 : ((0 - 0) * (1 - 0) - (0 - -3 / 5) * (0 - 0) : ℝ) = 0 := by ring
  have a3 : ((0 - -3 / 5) * (0 - t) - (t - -4 / 5) * (1 - 0) : ℝ) = -(4/5 + 8/5 * t) := by ring
  have b1 : ((0 - t) * (4 / 5 - 0) - (0 - 0) * (0 - 0) : ℝ) = -(4/5) * t := by ring
  have b2 : ((0 - 0) * (8 / 5 - 1) - (1 - 0) * (4 / 5 - 0) : ℝ) = -(4/5) := by ring
  have b3 : ((1 - 0) * (0 - 0) - (0 - t) * (8 / 5 - 1) : ℝ) = 3/5 * t := by ring
  simp only [a1, a2, a3, b1, b2, b3]
  have key : ∀ x y z w : ℝ, x * x + y * y + z * z = w ^ 2 → 0 ≤ w →
      √(x * x + y * y + z * z) = w := by
    intro x y z w h hw
    rw [h]
    exact Real.sqrt_sq hw
  have hs_pos : 0 < 1 + 0 * t + 25 / 16 * t ^ 2 := by nlinarith [sq_nonneg t]
  have hs1 : (1:ℝ) ≤ √(1 + 0 * t + 25 / 16 * t ^ 2) := by
    rw [Real.one_le_sqrt]
    nlinarith [sq_nonneg t]
  rw [key _ _ _ (4/5 + 8/5 * t) (by ring) (by linarith)]
  rw [key _ _ _ (4/5 * √(1 + 0 * t + 25 / 16 * t ^ 2))
    (by rw [mul_pow, Real.sq_sqrt hs_pos.le]; ring) (by linarith)]
  have e0 : ((0.0 : ℝ)) = 0 := by norm_num
  have e10 : ((1e-10 : ℝ)) < 2/5 := by norm_num
  have hguard : ¬ (4/5 + 8/5 * t < (1e-10 : ℝ) ∨
      4/5 * √(1 + 0 * t + 25 / 16 * t ^ 2) < (1e-10 : ℝ)) := by
    rintro (h | h)
    · linarith
    · linarith
  rw [if_neg hguard]
  have hw : (4/5 + 8/5 * t) ≠ 0 := by linarith
  have hs : √(1 + 0 * t + 25 / 16 * t ^ 2) ≠ 0 := by linarith
  have hz : -(4/5 + 8/5 * t) / (4/5 + 8/5 * t) = -1 := by
    rw [neg_div, div_self hw]
  rw [hz]
  have hsign : (0 / (4 / 5 + 8 / 5 * t) * (8 / 5 - 1) + 0 / (4 / 5 + 8 / 5 * t) * (0 - 0) +
      -1 * (4 / 5 - 0) : ℝ) < 0.0 := by
    norm_num
  rw [if_pos hsign]
  congr 3
  have h1 : √(1 + 0 * t + 0 * t ^ 2) = 1 := by
    rw [show (1 + 0 * t + 0 * t ^ 2 : ℝ) = 1 by ring]
    exact Real.sqrt_one
  rw [h1]
  field_simp
  ring_nf

end real_analysis2

section real_analysis3
open Real

theorem dihedral_deriv :
    HasDerivAt (fun t : ℝ =>
      compute_dihedral (⟨-3/5, -4/5, 0⟩ : Vec3 ℝ) ⟨0, t, 0⟩ ⟨1, 0, 0⟩ ⟨8/5, 0, 4/5⟩) (-(3/4)) 0 ∧
    compute_dihedral (⟨-3/5, -4/5, 0⟩ : Vec3 ℝ) ⟨0, 0, 0⟩ ⟨1, 0, 0⟩ ⟨8/5, 0, 4/5⟩ = -(π / 2) := by
  have hraw := hasDerivAt_cos_path 0 (-3/4) 0 0 (25/16) 0 0
  have hraw0 : ((0 + -3 / 4 * (0:ℝ) + 0 * (0:ℝ) ^ 2) /
      (√(1 + 0 * (0:ℝ) + 25 / 16 * (0:ℝ) ^ 2) * √(1 + 0 * (0:ℝ) + 0 * (0:ℝ) ^ 2))) = 0 := by
    simp
  have hcl := hasDerivAt_clamp hraw (by rw [hraw0]; norm_num) (by rw [hraw0]; norm_num)
  have hcl0 : fmax (-1.0) (fmin 1.0 ((0 + -3 / 4 * (0:ℝ) + 0 * (0:ℝ) ^ 2) /
      (√(1 + 0 * (0:ℝ) + 25 / 16 * (0:ℝ) ^ 2) * √(1 + 0 * (0:ℝ) + 0 * (0:ℝ) ^ 2)))) = 0 := by
    rw [hraw0]
    exact clamp_of_mem 0 (by norm_num) (by norm_num)
  have harc : HasDerivAt Real.arccos (-(1 / √(1 - (0:ℝ) ^ 2))) 0 :=
    Real.hasDerivAt_arccos (by norm_num) (by norm_num)
  have hcomp : HasDerivAt (fun t : ℝ => Real.arccos (fmax (-1.0) (fmin 1.0
      ((0 + -3 / 4 * t + 0 * t ^ 2) /
        (√(1 + 0 * t + 25 / 16 * t ^ 2) * √(1 + 0 * t + 0 * t ^ 2))))))
      (-(1 / √(1 - (0:ℝ) ^ 2)) * (-3 / 4 - 0 * (0 / 2 + 0 / 2))) 0 := by
    have := HasDerivAt.comp (0:ℝ) (by rw [hcl0]; exact harc) hcl
    exact this
  have hneg := hcomp.neg
  constructor
  · refine (hneg.congr_of_eventuallyEq ?_).congr_deriv ?_
    · filter_upwards [Ioo_mem_nhds (by norm_num : (-1/4 : ℝ) < 0) (by norm_num : (0:ℝ) < 1/4)]
        with t ht
      exact dihedral_path t ht.1 ht.2
    · norm_num
  · rw [dihedral_path 0 (by norm_num) (by norm_num)]
    rw [hcl0, Real.arccos_zero]

end real_analysis3

section real_analysis4
open Real

theorem torsion_choice_sp3 (p : UFFAtomType ℝ) (hsp3 : |p.theta0 - 109.47| < 5) :
    torsion_choice p p = (3, π, |p.Vi|) := by
  unfold torsion_choice
  have h5 : |p.theta0 - 109.47| < (5.0 : ℝ) := by
    rw [show (5.0 : ℝ) = 5 by norm_num]; exact hsp3
  simp only [arith_abs_real, h5, decide_True, Bool.and_self, if_true, arith_pi_real,
    arith_sqrt_real]
  rw [abs_mul, Real.sqrt_mul_self (abs_nonneg _)]

theorem cos_three_pi : Real.cos (3 * π) = -1 := by
  rw [show 3 * π = π + 2 * π by ring, Real.cos_add_two_pi, Real.cos_pi]

theorem sin_neg_three_half_pi : Real.sin (3 * -(π / 2)) = 1 := by
  rw [show 3 * -(π / 2) = π / 2 - 2 * π by ring, Real.sin_sub_two_pi, Real.sin_pi_div_two]

/-- The torsion energy along the path has derivative `9/8 * V` at the reference geometry. -/
theorem torsion_energy_deriv (P : String → UFFAtomType ℝ)
    (hsp3 : |(P "O_3").theta0 - 109.47| < 5) (hV : (1e-10 : ℝ) ≤ |(P "O_3").Vi|) :
    HasDerivAt (fun t => torsion_energy P peroxide_ff (peroxide t))
      (9 / 8 * |(P "O_3").Vi|) 0 := by
  have hfun : (fun t => torsion_energy P peroxide_ff (peroxide t)) = fun t =>
      0.0 + 0.5 * |(P "O_3").Vi| * (1.0 - Real.cos (((3 : ℤ) : ℝ) * π) *
        Real.cos (((3 : ℤ) : ℝ) *
          compute_dihedral (⟨-3/5, -4/5, 0⟩ : Vec3 ℝ) ⟨0, t, 0⟩ ⟨1, 0, 0⟩ ⟨8/5, 0, 4/5⟩)) := by
    funext t
    unfold torsion_energy
    rw [peroxide_torsions, List.foldl_cons, List.foldl_nil, torsion_energy_step_eq]
    simp only [peroxide_type1, peroxide_type2, torsion_choice_sp3 _ hsp3, peroxide_positions.1,
      peroxide_positions.2.1, peroxide_positions.2.2.1, peroxide_positions.2.2.2, arith_cos_real, arith_ofInt_real]
    rw [if_neg (not_lt.2 hV)]
  rw [hfun]
  obtain ⟨hphi, hphi0⟩ := dihedral_deriv
  have h3 := (hphi.const_mul (((3 : ℤ) : ℝ))).cos
  have h := (((h3.const_mul (Real.cos (((3 : ℤ) : ℝ) * π))).const_sub (1.0 : ℝ)).const_mul
    (0.5 * |(P "O_3").Vi|)).const_add (0.0 : ℝ)
  refine h.congr_deriv ?_
  simp only [hphi0]
  have e3 : (((3 : ℤ) : ℝ)) = 3 := by norm_num
  rw [e3, cos_three_pi, sin_neg_three_half_pi]
  norm_num
  ring

end real_analysis4

section real_analysis5
open Real

theorem torsion_gradient_entry (P : String → UFFAtomType ℝ)
    (hsp3 : |(P "O_3").theta0 - 109.47| < 5) (hV : (1e-10 : ℝ) ≤ |(P "O_3").Vi|)
    (g : List ℝ) (hg : g.length = 12) :
    (torsion_gradient P peroxide_ff (peroxide 0) g).length = 12 ∧
    (torsion_gradient P peroxide_ff (peroxide 0) g).getD 4 0 =
      g.getD 4 0 + -(9 / 8 * |(P "O_3").Vi|) := by
  unfold torsion_gradient
  rw [peroxide_torsions, List.foldl_cons, List.foldl_nil, torsion_gradient_step_eq]
  simp only [peroxide_type1, peroxide_type2, torsion_choice_sp3 _ hsp3, peroxide_positions.1,
    peroxide_positions.2.1, peroxide_positions.2.2.1, peroxide_positions.2.2.2, arith_cos_real, arith_sin_real,
    arith_ofInt_real, dihedral_deriv.2]
  have e3 : (((3 : ℤ) : ℝ)) = 3 := by norm_num
  rw [e3, cos_three_pi, sin_neg_three_half_pi]
  simp only [Vec3.sub, Vec3.cross, Vec3.dot, Vec3.norm, Vec3.squaredNorm, Vec3.smul,
    arith_sqrt_real]
  have hb2 : √((1 - 0) * (1 - 0) + (0 - 0) * (0 - 0) + (0 - 0) * (0 - 0) : ℝ) = 1 := by
    rw [show ((1 - 0) * (1 - 0) + (0 - 0) * (0 - 0) + (0 - 0) * (0 - 0) : ℝ) = 1 by norm_num]
    exact Real.sqrt_one
  rw [hb2]
  have hg1 : ¬ ((((0 - -4 / 5) * (0 - 0) - (0 - 0) * (0 - 0)) *
      ((0 - -4 / 5) * (0 - 0) - (0 - 0) * (0 - 0)) +
      ((0 - 0) * (1 - 0) - (0 - -3 / 5) * (0 - 0)) * ((0 - 0) * (1 - 0) - (0 - -3 / 5) * (0 - 0)) +
      ((0 - -3 / 5) * (0 - 0) - (0 - -4 / 5) * (1 - 0)) *
        ((0 - -3 / 5) * (0 - 0) - (0 - -4 / 5) * (1 - 0)) < (1e-20 : ℝ)) ∨
      (((0 - 0) * (4 / 5 - 0) - (0 - 0) * (0 - 0)) * ((0 - 0) * (4 / 5 - 0) - (0 - 0) * (0 - 0)) +
      ((0 - 0) * (8 / 5 - 1) - (1 - 0) * (4 / 5 - 0)) * ((0 - 0) * (8 / 5 - 1) - (1 - 0) * (4 / 5 - 0)) +
      ((1 - 0) * (0 - 0) - (0 - 0) * (8 / 5 - 1)) * ((1 - 0) * (0 - 0) - (0 - 0) * (8 / 5 - 1)) <
        (1e-20 : ℝ))) := by
    norm_num
  have hg2 : ¬ ((1 : ℝ) < 1e-10) := by norm_num
  rw [if_neg hg1, if_neg hg2, if_neg (not_lt.2 hV)]
  constructor
  · simp [hg]
  · simp (disch := simp [hg]) only [getD_segment_add]
    norm_num
    ring

end real_analysis5

section real_analysis6
open Real

/-- One angle term along a path: its derivative is `dE_dtheta` times the
derivative of the angle. -/
theorem angle_term_hasDerivAt (K th0 : ℝ) (c : ℝ → ℝ) (c' x0 : ℝ) (E : ℝ → ℝ) (E' : ℝ)
    (hE : HasDerivAt E E' 0) (hc : HasDerivAt c c' 0) (hx : c 0 = x0)
    (h0 : -1 < x0) (h1 : x0 < 1) :
    HasDerivAt (fun t =>
      if |K| < 1e-10 then E t
      else if |th0 - π| < 0.01 then E t + K * (1.0 + c t)
      else E t + K * (1.0 / (4.0 * Real.sin th0 * Real.sin th0) *
          (2.0 * Real.cos th0 * Real.cos th0 + 1.0) +
        -4.0 * (1.0 / (4.0 * Real.sin th0 * Real.sin th0)) * Real.cos th0 * c t +
        1.0 / (4.0 * Real.sin th0 * Real.sin th0) * Real.cos (2.0 * Real.arccos (c t))))
      (E' + (if |K| < 1e-10 then 0
        else angle_dE_dtheta K th0 x0 * (-c' / Real.sin (Real.arccos x0)))) 0 := by
  have hs : 0 < Real.sin (Real.arccos x0) := by
    rw [Real.sin_arccos]
    apply Real.sqrt_pos.2
    nlinarith
  have hsne : Real.sin (Real.arccos x0) ≠ 0 := ne_of_gt hs
  by_cases hK : |K| < 1e-10
  · simp only [hK, if_true, add_zero]
    exact hE
  · simp only [hK, if_false]
    unfold angle_dE_dtheta
    by_cases hlin : |th0 - π| < 0.01
    · simp only [hlin, if_true]
      have h := hE.add ((hc.const_add (1.0 : ℝ)).const_mul K)
      refine h.congr_deriv ?_
      field_simp
      ring
    · simp only [hlin, if_false]
      have harc : HasDerivAt Real.arccos (-(1 / √(1 - x0 ^ 2))) (c 0) := by
        rw [hx]
        exact Real.hasDerivAt_arccos (ne_of_gt h0) (ne_of_lt h1)
      have hcomp0 : HasDerivAt (Real.arccos ∘ c) (-(1 / √(1 - x0 ^ 2)) * c') 0 :=
        harc.comp 0 hc
      have hcomp : HasDerivAt (fun t => Real.arccos (c t)) (-(1 / √(1 - x0 ^ 2)) * c') 0 :=
        hcomp0
      have hcos := (hcomp.const_mul (2.0 : ℝ)).cos
      have h := hE.add ((((hc.const_mul (-4.0 * (1.0 / (4.0 * Real.sin th0 * Real.sin th0)) *
          Real.cos th0)).const_add (1.0 / (4.0 * Real.sin th0 * Real.sin th0) *
          (2.0 * Real.cos th0 * Real.cos th0 + 1.0))).add
        (hcos.const_mul (1.0 / (4.0 * Real.sin th0 * Real.sin th0)))).const_mul K)
      refine h.congr_deriv ?_
      rw [hx, ← Real.sin_arccos]
      generalize (1.0 / (4.0 * Real.sin th0 * Real.sin th0) : ℝ) = C2
      field_simp
      ring

end real_analysis6

section real_analysis7
open Real

/-- A vector one of whose squared length bounds is `a ^ 2` is not shorter than `a`. -/
theorem norm_ge_of_sq_le (v : Vec3 ℝ) (a : ℝ)
    (h : a ^ 2 ≤ v.x * v.x + v.y * v.y + v.z * v.z) : a ≤ v.norm := by
  unfold Vec3.norm Vec3.squaredNorm
  rw [arith_sqrt_real]
  exact Real.le_sqrt_of_sq_le h

theorem not_small_of_ge (x : ℝ) (h : 3/5 ≤ x) : ¬ x < (1e-10 : ℝ) := by
  have e : (1e-10 : ℝ) < 3/5 := by norm_num
  intro hx
  linarith

theorem angle_guards (t : ℝ) :
    ¬ ((Vec3.sub (⟨-3/5, -4/5, 0⟩ : Vec3 ℝ) ⟨0, t, 0⟩).norm < (1e-10 : ℝ) ∨
        (Vec3.sub (⟨1, 0, 0⟩ : Vec3 ℝ) ⟨0, t, 0⟩).norm < (1e-10 : ℝ)) ∧
    ¬ ((Vec3.sub (⟨0, t, 0⟩ : Vec3 ℝ) ⟨1, 0, 0⟩).norm < (1e-10 : ℝ) ∨
        (Vec3.sub (⟨8/5, 0, 4/5⟩ : Vec3 ℝ) ⟨1, 0, 0⟩).norm < (1e-10 : ℝ)) := by
  have h1 : 3/5 ≤ (Vec3.sub (⟨-3/5, -4/5, 0⟩ : Vec3 ℝ) ⟨0, t, 0⟩).norm :=
    norm_ge_of_sq_le _ _ (by simp only [Vec3.sub]; nlinarith [sq_nonneg (-4/5 - t)])
  have h2 : 3/5 ≤ (Vec3.sub (⟨1, 0, 0⟩ : Vec3 ℝ) ⟨0, t, 0⟩).norm :=
    norm_ge_of_sq_le _ _ (by simp only [Vec3.sub]; nlinarith [sq_nonneg (0 - t)])
  have h3 : 3/5 ≤ (Vec3.sub (⟨0, t, 0⟩ : Vec3 ℝ) ⟨1, 0, 0⟩).norm :=
    norm_ge_of_sq_le _ _ (by simp only [Vec3.sub]; nlinarith [sq_nonneg (t - 0)])
  have h4 : 3/5 ≤ (Vec3.sub (⟨8/5, 0, 4/5⟩ : Vec3 ℝ) ⟨1, 0, 0⟩).norm :=
    norm_ge_of_sq_le _ _ (by simp only [Vec3.sub]; norm_num)
  constructor
  · rintro (h | h)
    · exact not_small_of_ge _ h1 h
    · exact not_small_of_ge _ h2 h
  · rintro (h | h)
    · exact not_small_of_ge _ h3 h
    · exact not_small_of_ge _ h4 h

end real_analysis7

section real_analysis8
open Real

theorem sin_arccos_val : Real.sin (Real.arccos (-3/5)) = 4/5 := by
  rw [Real.sin_arccos, show (1 - (-3/5 : ℝ) ^ 2) = (4/5) ^ 2 by norm_num]
  exact Real.sqrt_sq (by norm_num)

theorem unit_norms :
    (Vec3.sub (⟨-3/5, -4/5, 0⟩ : Vec3 ℝ) ⟨0, 0, 0⟩).norm = 1 ∧
    (Vec3.sub (⟨1, 0, 0⟩ : Vec3 ℝ) ⟨0, 0, 0⟩).norm = 1 ∧
    (Vec3.sub (⟨0, 0, 0⟩ : Vec3 ℝ) ⟨1, 0, 0⟩).norm = 1 ∧
    (Vec3.sub (⟨8/5, 0, 4/5⟩ : Vec3 ℝ) ⟨1, 0, 0⟩).norm = 1 := by
  have key : ∀ v : Vec3 ℝ, v.x * v.x + v.y * v.y + v.z * v.z = 1 → v.norm = 1 := by
    intro v h
    unfold Vec3.norm Vec3.squaredNorm
    rw [arith_sqrt_real, h, Real.sqrt_one]
  refine ⟨key _ ?_, key _ ?_, key _ ?_, key _ ?_⟩ <;> simp only [Vec3.sub] <;> norm_num

end real_analysis8

section real_analysis9
open Real

set_option maxHeartbeats 1000000 in
/-- Derivatives of the bond, angle and van der Waals energies along the path, in
this order; the angle energy has the derivative that `angle_dE_dtheta` gives. -/
theorem peroxide_energy_derivs (P : String → UFFAtomType ℝ) :
    (HasDerivAt (fun t => bond_stretch_energy P peroxide_ff (peroxide t))
      (uff_bond_force_constant P peroxide_ff 0 (peroxide 0) *
        (1 - uff_bond_length P peroxide_ff 0 (peroxide 0)) * (4/5)) 0) ∧
    (HasDerivAt (fun t => angle_bend_energy P peroxide_ff (peroxide t))
      (0 +
        (if |angle_force_constant (P "H_") (P "O_3") (P "O_3")| < 1e-10 then 0
          else angle_dE_dtheta (angle_force_constant (P "H_") (P "O_3") (P "O_3"))
            ((P "O_3").theta0 * DEG2RAD) (-3/5) *
            (-(32/25) / Real.sin (Real.arccos (-3/5)))) +
        (if |angle_force_constant (P "O_3") (P "O_3") (P "H_")| < 1e-10 then 0
          else angle_dE_dtheta (angle_force_constant (P "O_3") (P "O_3") (P "H_"))
            ((P "O_3").theta0 * DEG2RAD) (-3/5) *
            (-0 / Real.sin (Real.arccos (-3/5))))) 0) ∧
    (HasDerivAt (fun t => vdw_energy P peroxide_ff (peroxide t)) 0 0) := by
  refine ⟨?_, ?_, ?_⟩
  · have hfun : (fun t => bond_stretch_energy P peroxide_ff (peroxide t)) = fun t =>
        0.0 + 0.5 * uff_bond_force_constant P peroxide_ff 0 (peroxide 0) *
            (√(1 + 8/5 * t + 1 * t ^ 2) - uff_bond_length P peroxide_ff 0 (peroxide 0)) *
            (√(1 + 8/5 * t + 1 * t ^ 2) - uff_bond_length P peroxide_ff 0 (peroxide 0)) +
          0.5 * uff_bond_force_constant P peroxide_ff 1 (peroxide 0) *
            (√(1 + 0 * t + 1 * t ^ 2) - uff_bond_length P peroxide_ff 1 (peroxide 0)) *
            (√(1 + 0 * t + 1 * t ^ 2) - uff_bond_length P peroxide_ff 1 (peroxide 0)) +
          0.5 * uff_bond_force_constant P peroxide_ff 2 (peroxide 0) *
            (√(1 + 0 * t + 0 * t ^ 2) - uff_bond_length P peroxide_ff 2 (peroxide 0)) *
            (√(1 + 0 * t + 0 * t ^ 2) - uff_bond_length P peroxide_ff 2 (peroxide 0)) := by
      funext t
      have bond_k_const : ∀ b, uff_bond_force_constant P peroxide_ff b (peroxide t) =
          uff_bond_force_constant P peroxide_ff b (peroxide 0) := fun _ => rfl
      have bond_r0_const : ∀ b, uff_bond_length P peroxide_ff b (peroxide t) =
          uff_bond_length P peroxide_ff b (peroxide 0) := fun _ => rfl
      unfold bond_stretch_energy
      simp only [peroxide_bonds.1, List.range_succ, List.range_zero, List.nil_append,
        List.cons_append, List.foldl_cons, List.foldl_nil, bond_stretch_energy_step,
        peroxide_bonds.2.2.1, peroxide_bonds.2.2.2.1, peroxide_bonds.2.2.2.2, peroxide_positions.1, peroxide_positions.2.1,
        peroxide_positions.2.2.1, peroxide_positions.2.2.2, bond_k_const, bond_r0_const, Vec3.sub,
        Vec3.norm, Vec3.squaredNorm, arith_sqrt_real]
      have e1 : ((-3 / 5 - 0) * (-3 / 5 - 0) + (-4 / 5 - t) * (-4 / 5 - t) + (0 - 0) * (0 - 0) : ℝ) =
          1 + 8/5 * t + 1 * t ^ 2 := by ring
      have e2 : ((0 - 1) * (0 - 1) + (t - 0) * (t - 0) + (0 - 0) * (0 - 0) : ℝ) =
          1 + 0 * t + 1 * t ^ 2 := by ring
      have e3 : ((1 - 8 / 5) * (1 - 8 / 5) + (0 - 0) * (0 - 0) + (0 - 4 / 5) * (0 - 4 / 5) : ℝ) =
          1 + 0 * t + 0 * t ^ 2 := by ring
      rw [e1, e2, e3]
    rw [hfun]
    generalize uff_bond_force_constant P peroxide_ff 0 (peroxide 0) = k0
    generalize uff_bond_force_constant P peroxide_ff 1 (peroxide 0) = k1
    generalize uff_bond_force_constant P peroxide_ff 2 (peroxide 0) = k2
    generalize uff_bond_length P peroxide_ff 0 (peroxide 0) = r0
    generalize uff_bond_length P peroxide_ff 1 (peroxide 0) = r1
    generalize uff_bond_length P peroxide_ff 2 (peroxide 0) = r2
    have s0 := hasDerivAt_sqrt_quad 1 (8/5) 1 one_pos
    have s1 := hasDerivAt_sqrt_quad 1 0 1 one_pos
    have s2 := hasDerivAt_sqrt_quad 1 0 0 one_pos
    have q0 := ((s0.sub_const r0).const_mul (0.5 * k0)).mul (s0.sub_const r0)
    have q1 := ((s1.sub_const r1).const_mul (0.5 * k1)).mul (s1.sub_const r1)
    have q2 := ((s2.sub_const r2).const_mul (0.5 * k2)).mul (s2.sub_const r2)
    have q := (((q0.const_add (0.0 : ℝ)).add q1).add q2)
    refine q.congr_deriv ?_
    simp only [Real.sqrt_one]
    norm_num
    ring
  · have hfun : (fun t => angle_bend_energy P peroxide_ff (peroxide t)) = fun t =>
        (fun E c => if |angle_force_constant (P "O_3") (P "O_3") (P "H_")| < 1e-10 then E
          else if |(P "O_3").theta0 * DEG2RAD - π| < 0.01 then
            E + angle_force_constant (P "O_3") (P "O_3") (P "H_") * (1.0 + c)
          else E + angle_force_constant (P "O_3") (P "O_3") (P "H_") *
            (1.0 / (4.0 * Real.sin ((P "O_3").theta0 * DEG2RAD) *
                Real.sin ((P "O_3").theta0 * DEG2RAD)) *
              (2.0 * Real.cos ((P "O_3").theta0 * DEG2RAD) *
                Real.cos ((P "O_3").theta0 * DEG2RAD) + 1.0) +
            -4.0 * (1.0 / (4.0 * Real.sin ((P "O_3").theta0 * DEG2RAD) *
                Real.sin ((P "O_3").theta0 * DEG2RAD))) *
              Real.cos ((P "O_3").theta0 * DEG2RAD) * c +
            1.0 / (4.0 * Real.sin ((P "O_3").theta0 * DEG2RAD) *
                Real.sin ((P "O_3").theta0 * DEG2RAD)) * Real.cos (2.0 * Real.arccos c)))
        ((fun E c => if |angle_force_constant (P "H_") (P "O_3") (P "O_3")| < 1e-10 then E
          else if |(P "O_3").theta0 * DEG2RAD - π| < 0.01 then
            E + angle_force_constant (P "H_") (P "O_3") (P "O_3") * (1.0 + c)
          else E + angle_force_constant (P "H_") (P "O_3") (P "O_3") *
            (1.0 / (4.0 * Real.sin ((P "O_3").theta0 * DEG2RAD) *
                Real.sin ((P "O_3").theta0 * DEG2RAD)) *
              (2.0 * Real.cos ((P "O_3").theta0 * DEG2RAD) *
                Real.cos ((P "O_3").theta0 * DEG2RAD) + 1.0) +
            -4.0 * (1.0 / (4.0 * Real.sin ((P "O_3").theta0 * DEG2RAD) *
                Real.sin ((P "O_3").theta0 * DEG2RAD))) *
              Real.cos ((P "O_3").theta0 * DEG2RAD) * c +
            1.0 / (4.0 * Real.sin ((P "O_3").theta0 * DEG2RAD) *
                Real.sin ((P "O_3").theta0 * DEG2RAD)) * Real.cos (2.0 * Real.arccos c)))
          (0.0 : ℝ) (clamped_cos_angle (⟨-3/5, -4/5, 0⟩ : Vec3 ℝ) ⟨0, t, 0⟩ ⟨1, 0, 0⟩))
        (clamped_cos_angle (⟨0, t, 0⟩ : Vec3 ℝ) ⟨1, 0, 0⟩ ⟨8/5, 0, 4/5⟩) := by
      funext t
      unfold angle_bend_energy
      rw [peroxide_angles, List.foldl_cons, List.foldl_cons, List.foldl_nil,
        angle_bend_energy_step_eq, angle_bend_energy_step_eq]
      simp only [peroxide_type0, peroxide_type1, peroxide_type2, peroxide_type3, peroxide_positions.1,
        peroxide_positions.2.1, peroxide_positions.2.2.1, peroxide_positions.2.2.2, arith_cos_real, arith_sin_real,
        arith_acos_real, arith_abs_real, arith_pi_real]
      rw [if_neg (angle_guards t).1, if_neg (angle_guards t).2]
    rw [hfun]
    have hE0 : HasDerivAt (fun _ : ℝ => (0.0 : ℝ)) 0 0 := hasDerivAt_const _ _
    have h1 := angle_term_hasDerivAt (angle_force_constant (P "H_") (P "O_3") (P "O_3"))
      ((P "O_3").theta0 * DEG2RAD) _ (32/25) (-3/5) _ 0 hE0 cos_angle_paths.1.1 cos_angle_paths.1.2
      (by norm_num) (by norm_num)
    have h2 := angle_term_hasDerivAt (angle_force_constant (P "O_3") (P "O_3") (P "H_"))
      ((P "O_3").theta0 * DEG2RAD) _ 0 (-3/5) _ _ h1 cos_angle_paths.2.1 cos_angle_paths.2.2
      (by norm_num) (by norm_num)
    exact h2
  · have hfun : (fun t => vdw_energy P peroxide_ff (peroxide t)) =
        fun _ => vdw_energy P peroxide_ff (peroxide 0) := by
      funext t
      unfold vdw_energy vdw_energy_step
      simp only [peroxide_nonbonded, List.foldl_cons, List.foldl_nil, peroxide_positions.1, peroxide_positions.2.2.2]
    rw [hfun]
    exact hasDerivAt_const _ _

end real_analysis9

/-! ## The gradient is not the derivative of the energy -/

section gradient_defect
open Real

set_option maxHeartbeats 1000000 in
/-- Entry 4 of the gradient at the reference geometry of `peroxide`. -/
theorem peroxide_gradient_entry (P : String → UFFAtomType ℝ)
    (hsp3 : |(P "O_3").theta0 - 109.47| < 5) (hV : (1e-10 : ℝ) ≤ |(P "O_3").Vi|) :
    (calculate_gradient P peroxide_ff (peroxide 0)).getD 4 0 =
      uff_bond_force_constant P peroxide_ff 0 (peroxide 0) *
          (1 - uff_bond_length P peroxide_ff 0 (peroxide 0)) * (4/5) +
        (if |angle_force_constant (P "H_") (P "O_3") (P "O_3")| < 1e-10 then 0
          else angle_dE_dtheta (angle_force_constant (P "H_") (P "O_3") (P "O_3"))
            ((P "O_3").theta0 * DEG2RAD) (-3/5) * (-(8/5))) +
        (if |angle_force_constant (P "O_3") (P "O_3") (P "H_")| < 1e-10 then 0
          else angle_dE_dtheta (angle_force_constant (P "O_3") (P "O_3") (P "H_"))
            ((P "O_3").theta0 * DEG2RAD) (-3/5) * 0) +
        -(9 / 8 * |(P "O_3").Vi|) := by
  have bond_gradient_entry : ∀ (g : List ℝ) (hg : g.length = 12),
      (bond_stretch_gradient P peroxide_ff (peroxide 0) g).length = 12 ∧
      (bond_stretch_gradient P peroxide_ff (peroxide 0) g).getD 4 0 =
        g.getD 4 0 + uff_bond_force_constant P peroxide_ff 0 (peroxide 0) *
          (1 - uff_bond_length P peroxide_ff 0 (peroxide 0)) * (4/5) := by
    intro g hg
    unfold bond_stretch_gradient
    simp only [peroxide_bonds.1, List.range_succ, List.range_zero, List.nil_append,
      List.cons_append, List.foldl_cons, List.foldl_nil, bond_stretch_gradient_step,
      peroxide_bonds.2.2.1, peroxide_bonds.2.2.2.1, peroxide_bonds.2.2.2.2, peroxide_positions.1, peroxide_positions.2.1,
      peroxide_positions.2.2.1, peroxide_positions.2.2.2, unit_norms.1, unit_norms.2.2.1]
    have hn : (Vec3.sub (⟨1, 0, 0⟩ : Vec3 ℝ) ⟨8/5, 0, 4/5⟩).norm = 1 := by
      unfold Vec3.norm Vec3.squaredNorm
      simp only [Vec3.sub, arith_sqrt_real]
      rw [show ((1 - 8 / 5) * (1 - 8 / 5) + (0 - 0) * (0 - 0) + (0 - 4 / 5) * (0 - 4 / 5) : ℝ) = 1
        by norm_num, Real.sqrt_one]
    rw [hn]
    have hlt : ¬ ((1 : ℝ) < 1e-10) := by norm_num
    simp only [hlt, if_false]
    generalize uff_bond_force_constant P peroxide_ff 0 (peroxide 0) = k0
    generalize uff_bond_force_constant P peroxide_ff 1 (peroxide 0) = k1
    generalize uff_bond_force_constant P peroxide_ff 2 (peroxide 0) = k2
    generalize uff_bond_length P peroxide_ff 0 (peroxide 0) = r0
    generalize uff_bond_length P peroxide_ff 1 (peroxide 0) = r1
    generalize uff_bond_length P peroxide_ff 2 (peroxide 0) = r2
    constructor
    · simp [hg]
    · simp (disch := simp [hg]) only [getD_segment_add, getD_segment_sub]
      simp only [Vec3.sub, Vec3.smul, Vec3.sdiv]
      norm_num
  have angle_gradient_entry : ∀ (g : List ℝ) (hg : g.length = 12),
      (angle_bend_gradient P peroxide_ff (peroxide 0) g).length = 12 ∧
      (angle_bend_gradient P peroxide_ff (peroxide 0) g).getD 4 0 =
        g.getD 4 0 +
          (if |angle_force_constant (P "H_") (P "O_3") (P "O_3")| < 1e-10 then 0
            else angle_dE_dtheta (angle_force_constant (P "H_") (P "O_3") (P "O_3"))
              ((P "O_3").theta0 * DEG2RAD) (-3/5) * (-(8/5))) +
          (if |angle_force_constant (P "O_3") (P "O_3") (P "H_")| < 1e-10 then 0
            else angle_dE_dtheta (angle_force_constant (P "O_3") (P "O_3") (P "H_"))
              ((P "O_3").theta0 * DEG2RAD) (-3/5) * 0) := by
    intro g hg
    unfold angle_bend_gradient
    rw [peroxide_angles, List.foldl_cons, List.foldl_cons, List.foldl_nil,
      angle_bend_gradient_step_eq, angle_bend_gradient_step_eq]
    simp only [peroxide_type0, peroxide_type1, peroxide_type2, peroxide_type3, peroxide_positions.1,
      peroxide_positions.2.1, peroxide_positions.2.2.1, peroxide_positions.2.2.2, arith_cos_real, arith_sin_real,
      arith_acos_real, arith_abs_real, arith_pi_real, cos_angle_paths.1.2, cos_angle_paths.2.2,
      unit_norms.1, unit_norms.2.1, unit_norms.2.2.1, unit_norms.2.2.2, sin_arccos_val]
    have hfloor : ¬ (|(4/5 : ℝ)| < 1e-10) := by norm_num [abs_of_pos]
    have hone : ¬ ((1 : ℝ) < 1e-10 ∨ (1 : ℝ) < 1e-10) := by norm_num
    simp only [hfloor, hone, if_false]
    unfold angle_dE_dtheta
    rw [sin_arccos_val]
    generalize angle_force_constant (P "H_") (P "O_3") (P "O_3") = K1
    generalize angle_force_constant (P "O_3") (P "O_3") (P "H_") = K2
    generalize (P "O_3").theta0 * DEG2RAD = th0
    by_cases hK1 : |K1| < 1e-10 <;> by_cases hK2 : |K2| < 1e-10
    · simp only [hK1, hK2, if_true]
      exact ⟨hg, by ring⟩
    · simp only [hK1, hK2, if_true, if_false]
      constructor
      · simp [hg]
      · simp (disch := simp [hg]) only [getD_segment_add]
        simp only [Vec3.sub, Vec3.smul, Vec3.sdiv, Vec3.neg]
        norm_num
    · simp only [hK1, hK2, if_true, if_false]
      constructor
      · simp [hg]
      · simp (disch := simp [hg]) only [getD_segment_add]
        simp only [Vec3.sub, Vec3.smul, Vec3.sdiv, Vec3.neg]
        norm_num
    · simp only [hK1, hK2, if_false]
      constructor
      · simp [hg]
      · simp (disch := simp [hg]) only [getD_segment_add]
        simp only [Vec3.sub, Vec3.smul, Vec3.sdiv, Vec3.neg]
        norm_num
  have vdw_gradient_entry : ∀ (g : List ℝ) (hg : g.length = 12),
      (vdw_gradient P peroxide_ff (peroxide 0) g).getD 4 0 = g.getD 4 0 := by
    intro g hg
    unfold vdw_gradient vdw_gradient_step
    simp only [peroxide_nonbonded, List.foldl_cons, List.foldl_nil]
    split_ifs
    · rfl
    · simp (disch := simp [hg]) only [getD_segment_add, getD_segment_sub]
      norm_num
  unfold calculate_gradient
  simp only [peroxide_bonds.2.1]
  have h0 : (List.replicate (4 * 3) (0.0 : ℝ)).length = 12 := by simp
  have hz : (List.replicate (4 * 3) (0.0 : ℝ)).getD 4 0 = 0 := by
    norm_num [List.getD_eq_getElem?_getD, List.getElem?_replicate]
  obtain ⟨hb1, hb2⟩ := bond_gradient_entry _ h0
  obtain ⟨ha1, ha2⟩ := angle_gradient_entry _ hb1
  obtain ⟨ht1, ht2⟩ := torsion_gradient_entry P hsp3 hV _ ha1
  rw [vdw_gradient_entry _ ht1, ht2, ha2, hb2, hz]
  ring

/-- C1 fails on hydrogen peroxide: for every parameter table whose "O_3" row
passes the sp3 test and has a torsion barrier of at least `1e-10`, the molecule
is typed, no guard triggers, the energy is differentiable in the second
coordinate of the first oxygen, and its derivative exceeds entry 4 of
`calculate_gradient` by `9/4 * |Vi|`; so that entry is not the partial
derivative of the energy. -/
theorem gradient_entry_not_derivative (P : String → UFFAtomType ℝ)
    (has_uff_type : String → Bool)
    (hsp3 : |(P "O_3").theta0 - 109.47| < 5) (hV : (1e-10 : ℝ) ≤ |(P "O_3").Vi|) :
    setup has_uff_type (peroxide 0) = .ok peroxide_ff ∧
    HasDerivAt (fun t => calculate_energy P peroxide_ff (peroxide t))
      ((calculate_gradient P peroxide_ff (peroxide 0)).getD 4 0 + 9 / 4 * |(P "O_3").Vi|) 0 ∧
    ¬ HasDerivAt (fun t => calculate_energy P peroxide_ff (peroxide t))
      ((calculate_gradient P peroxide_ff (peroxide 0)).getD 4 0) 0 := by
  have hsum := ((((peroxide_energy_derivs P).1).add (peroxide_energy_derivs P).2.1).add
    (torsion_energy_deriv P hsp3 hV)).add (peroxide_energy_derivs P).2.2
  have hE : HasDerivAt (fun t => calculate_energy P peroxide_ff (peroxide t))
      ((calculate_gradient P peroxide_ff (peroxide 0)).getD 4 0 + 9 / 4 * |(P "O_3").Vi|) 0 := by
    refine hsum.congr_deriv ?_
    rw [peroxide_gradient_entry P hsp3 hV, sin_arccos_val]
    norm_num
    ring
  refine ⟨peroxide_setup has_uff_type 0, hE, ?_⟩
  intro h
  have huniq := h.unique hE
  have hpos : (0 : ℝ) < |(P "O_3").Vi| := lt_of_lt_of_le (by norm_num) hV
  linarith

theorem gradient_entry_not_derivative_witness :
    |(sample_uff_params "O_3").theta0 - 109.47| < 5 ∧
    (1e-10 : ℝ) ≤ |(sample_uff_params "O_3").Vi| ∧
    ¬ HasDerivAt (fun t => calculate_energy sample_uff_params peroxide_ff (peroxide t))
      ((calculate_gradient sample_uff_params peroxide_ff (peroxide 0)).getD 4 0) 0 := by
  have h1 : |(sample_uff_params "O_3").theta0 - 109.47| < 5 := by
    simp only [sample_uff_params, if_true]
    rw [abs_lt]
    constructor <;> norm_num
  have h2 : (1e-10 : ℝ) ≤ |(sample_uff_params "O_3").Vi| := by
    simp only [sample_uff_params, if_true]
    rw [abs_of_pos (by norm_num)]
    norm_num
  exact ⟨h1, h2, (gradient_entry_not_derivative sample_uff_params no_uff_type h1 h2).2.2⟩

end gradient_defect

/-! ## Typing: fallback, label count and inputs read -/

section typing_fallback

theorem has_dedicated_rule_cases (z : Int) (hr : has_dedicated_rule z = true) :
    z = 1 ∨ z = 2 ∨ z = 3 ∨ z = 4 ∨ z = 5 ∨ z = 6 ∨ z = 7 ∨ z = 8 ∨ z = 9 ∨ z = 10 ∨
    z = 11 ∨ z = 12 ∨ z = 13 ∨ z = 14 ∨ z = 15 ∨ z = 16 ∨ z = 17 ∨ z = 18 ∨ z = 19 ∨
    z = 20 ∨ z = 26 ∨ z = 27 ∨ z = 28 ∨ z = 29 ∨ z = 30 ∨ z = 35 ∨ z = 53 := by
  simp only [has_dedicated_rule, Bool.or_eq_true, Bool.and_eq_true, decide_eq_true_eq] at hr
  omega

variable {F : Type} [Inhabited F]

/-- An atom with a dedicated rule always gets a label, and never the empty one. -/
theorem uff_type_of_rule (has_uff_type : String → Bool) (mol : Molecule F) (i : Nat)
    (hr : has_dedicated_rule (mol.atom i).atomic_number = true) :
    ∃ l, uff_type_of has_uff_type mol i = .ok l ∧ l ≠ "" := by
  have hz := has_dedicated_rule_cases _ hr
  unfold uff_type_of
  rcases hz with h | h | h | h | h | h | h | h | h | h | h | h | h | h | h | h | h | h | h |
    h | h | h | h | h | h | h | h <;> simp only [h] <;>
    first
      | exact ⟨_, rfl, by decide⟩
      | (split_ifs <;> exact ⟨_, rfl, by decide⟩)

/-- On an atom without a dedicated rule the loop body is the fallback of the
specification. -/
theorem uff_type_of_fallback (has_uff_type : String → Bool) (mol : Molecule F) (i : Nat)
    (hr : has_dedicated_rule (mol.atom i).atomic_number = false) :
    uff_type_of has_uff_type mol i =
      match fallback_label has_uff_type (mol.atom i).symbol with
      | some l => .ok l
      | none => .error (unknown_type_error (mol.atom i)) := by
  unfold uff_type_of
  simp only []
  split
  all_goals first
    | (rename_i h; rw [h] at hr; exact absurd hr (by decide))
    | skip
  unfold fallback_label unknown_type_error
  simp only [List.find?]
  by_cases h1 : has_uff_type ((mol.atom i).symbol ++ "_3") = true
  · simp [h1]
  · by_cases h2 : has_uff_type ((mol.atom i).symbol ++ "_") = true
    · simp [h1, h2]
    · by_cases h3 : has_uff_type (mol.atom i).symbol = true
      · simp [h1, h2, h3]
      · simp [h1, h2, h3]

/-- A fallback label is empty only when the symbol is empty and the table holds
the empty label. -/
theorem fallback_label_empty (has_uff_type : String → Bool) (symbol : String)
    (h : fallback_label has_uff_type symbol = some "") :
    has_uff_type "" = true ∧ symbol = "" := by
  unfold fallback_label at h
  have hmem := List.mem_of_find?_eq_some h
  have hp := List.find?_some h
  simp only [List.mem_cons, List.mem_singleton, List.not_mem_nil, or_false] at hmem
  rcases hmem with h1 | h1 | h1
  · have := congrArg String.length h1
    rw [String.length_append] at this
    have e0 : ("" : String).length = 0 := by decide
    have e3 : ("_3" : String).length = 2 := by decide
    omega
  · have := congrArg String.length h1
    rw [String.length_append] at this
    have e0 : ("" : String).length = 0 := by decide
    have e3 : ("_" : String).length = 1 := by decide
    omega
  · exact ⟨hp, h1.symm⟩

/-- A fallible map over a list fails exactly at its first failing element. -/
theorem mapM_error_iff {α β ε : Type} (f : α → Except ε β) (e : ε) :
    ∀ (l : List α), l.mapM f = .error e ↔
      ∃ l1 a l2, l = l1 ++ a :: l2 ∧ (∀ x ∈ l1, ∃ b, f x = .ok b) ∧ f a = .error e := by
  intro l
  induction l with
  | nil =>
    rw [List.mapM_nil]
    simp [pure, Except.pure]
  | cons a l ih =>
    rw [List.mapM_cons]
    cases hfa : f a with
    | error e2 =>
      simp only [bind, Except.bind]
      constructor
      · intro h
        cases h
        exact ⟨[], a, l, rfl, by simp, hfa⟩
      · rintro ⟨l1, a2, l2, hl, hall, ha2⟩
        cases l1 with
        | nil =>
          simp only [List.nil_append, List.cons.injEq] at hl
          rw [← hl.1, hfa] at ha2
          injection ha2 with h
          rw [h]
        | cons x l1 =>
          simp only [List.cons_append, List.cons.injEq] at hl
          obtain ⟨b, hb⟩ := hall x (by simp)
          rw [← hl.1, hfa] at hb
          cases hb
    | ok b =>
      cases hl : l.mapM f with
      | error e2 =>
        simp only [bind, Except.bind]
        have ih2 := (ih).symm
        constructor
        · intro h
          cases h
          obtain ⟨l1, a2, l2, h1, h2, h3⟩ := ih.1 hl
          refine ⟨a :: l1, a2, l2, by rw [h1]; rfl, ?_, h3⟩
          intro x hx
          rcases List.mem_cons.1 hx with rfl | hx
          · exact ⟨b, hfa⟩
          · exact h2 x hx
        · rintro ⟨l1, a2, l2, h1, h2, h3⟩
          cases l1 with
          | nil =>
            simp only [List.nil_append, List.cons.injEq] at h1
            rw [← h1.1, hfa] at h3
            cases h3
          | cons x l1 =>
            simp only [List.cons_append, List.cons.injEq] at h1
            have := ih.2 ⟨l1, a2, l2, h1.2, fun y hy => h2 y (List.mem_cons_of_mem _ hy), h3⟩
            rw [hl] at this
            exact this
      | ok bs =>
        simp only [bind, Except.bind, pure, Except.pure]
        constructor
        · intro h; cases h
        · rintro ⟨l1, a2, l2, h1, h2, h3⟩
          cases l1 with
          | nil =>
            simp only [List.nil_append, List.cons.injEq] at h1
            rw [← h1.1, hfa] at h3
            cases h3
          | cons x l1 =>
            simp only [List.cons_append, List.cons.injEq] at h1
            have := ih.2 ⟨l1, a2, l2, h1.2, fun y hy => h2 y (List.mem_cons_of_mem _ hy), h3⟩
            rw [hl] at this
            cases this

/-- The index sequence of a loop, cut at index `i`. -/
theorem range_split (n i : Nat) (hi : i < n) :
    List.range n = List.range i ++ i :: List.range' (i + 1) (n - (i + 1)) := by
  rw [List.range_eq_range', List.range_eq_range']
  have h1 : n = (n - (i + 1) + 1) + i := by omega
  conv_lhs => rw [h1]
  rw [← List.range'_append_1 0 i (n - (i + 1) + 1), List.range'_succ]
  simp

/-- The typer fails with `e` exactly when `e` is thrown by the first atom whose
loop body fails. -/
theorem assign_uff_types_error_iff (has_uff_type : String → Bool) (mol : Molecule F)
    (e : String) :
    assign_uff_types has_uff_type mol = .error e ↔
      ∃ i, i < mol.num_atoms ∧ (∀ j, j < i → ∃ l, uff_type_of has_uff_type mol j = .ok l) ∧
        uff_type_of has_uff_type mol i = .error e := by
  unfold assign_uff_types
  rw [mapM_error_iff]
  constructor
  · rintro ⟨l1, a, l2, h1, h2, h3⟩
    have hlen := congrArg List.length h1
    simp only [List.length_range, List.length_append, List.length_cons] at hlen
    have hi : l1.length < mol.num_atoms := by omega
    rw [range_split _ _ hi] at h1
    obtain ⟨e1, e2⟩ := List.append_inj h1 (by simp)
    have ha : l1.length = a := by
      injection e2
    refine ⟨l1.length, hi, ?_, by rw [ha]; exact h3⟩
    intro j hj
    apply h2
    rw [← e1]
    exact List.mem_range.2 hj
  · rintro ⟨i, hi, h2, h3⟩
    exact ⟨List.range i, i, List.range' (i + 1) (mol.num_atoms - (i + 1)), range_split _ _ hi,
      fun x hx => h2 x (List.mem_range.1 hx), h3⟩

end typing_fallback

section typing_contract

variable {F : Type} [Inhabited F]

/-- C11: an atom without a dedicated rule gets the first of "<Sym>_3", "<Sym>_",
"<Sym>" that the parameter table contains; the typer fails exactly when some
such atom has none of the three in the table, the error then being the
unknown-type message of such an atom; an atom with a dedicated rule always
gets a label. -/
theorem assign_uff_types_fallback (has_uff_type : String → Bool) (mol : Molecule F) :
    (∀ types, assign_uff_types has_uff_type mol = .ok types →
      ∀ i, i < mol.num_atoms → has_dedicated_rule (mol.atom i).atomic_number = false →
        ∃ l, types.get? i = some l ∧
          fallback_label has_uff_type (mol.atom i).symbol = some l) ∧
    ((∃ e, assign_uff_types has_uff_type mol = .error e) ↔
      ∃ i, i < mol.num_atoms ∧ has_dedicated_rule (mol.atom i).atomic_number = false ∧
        fallback_label has_uff_type (mol.atom i).symbol = none) ∧
    (∀ e, assign_uff_types has_uff_type mol = .error e →
      ∃ i, i < mol.num_atoms ∧ has_dedicated_rule (mol.atom i).atomic_number = false ∧
        fallback_label has_uff_type (mol.atom i).symbol = none ∧
        e = unknown_type_error (mol.atom i)) ∧
    (∀ i, has_dedicated_rule (mol.atom i).atomic_number = true →
      ∃ l, uff_type_of has_uff_type mol i = .ok l) := by
  have herr : ∀ e, assign_uff_types has_uff_type mol = .error e →
      ∃ i, i < mol.num_atoms ∧ has_dedicated_rule (mol.atom i).atomic_number = false ∧
        fallback_label has_uff_type (mol.atom i).symbol = none ∧
        e = unknown_type_error (mol.atom i) := by
    intro e he
    obtain ⟨i, hi, _, h3⟩ := (assign_uff_types_error_iff has_uff_type mol e).1 he
    cases hr : has_dedicated_rule (mol.atom i).atomic_number with
    | true =>
      obtain ⟨l, hl, _⟩ := uff_type_of_rule has_uff_type mol i hr
      rw [hl] at h3
      cases h3
    | false =>
      rw [uff_type_of_fallback has_uff_type mol i hr] at h3
      cases hf : fallback_label has_uff_type (mol.atom i).symbol with
      | some l => rw [hf] at h3; cases h3
      | none =>
        rw [hf] at h3
        injection h3 with h4
        exact ⟨i, hi, hr, hf, h4.symm⟩
  refine ⟨?_, ⟨?_, ?_⟩, herr, ?_⟩
  · intro types hok i hi hr
    obtain ⟨t, ht, hu⟩ := assign_uff_types_get has_uff_type mol types hok i hi
    rw [uff_type_of_fallback has_uff_type mol i hr] at hu
    cases hf : fallback_label has_uff_type (mol.atom i).symbol with
    | none => rw [hf] at hu; cases hu
    | some l =>
      rw [hf] at hu
      injection hu with h4
      exact ⟨l, by rw [ht, h4], rfl⟩
  · rintro ⟨e, he⟩
    obtain ⟨i, hi, hr, hf, _⟩ := herr e he
    exact ⟨i, hi, hr, hf⟩
  · rintro ⟨i, hi, hr, hf⟩
    cases hA : assign_uff_types has_uff_type mol with
    | error e => exact ⟨e, rfl⟩
    | ok types =>
      obtain ⟨t, _, hu⟩ := assign_uff_types_get has_uff_type mol types hA i hi
      rw [uff_type_of_fallback has_uff_type mol i hr, hf] at hu
      cases hu
  · intro i hr
    obtain ⟨l, hl, _⟩ := uff_type_of_rule has_uff_type mol i hr
    exact ⟨l, hl⟩

/-- C12: a successful call returns exactly one label per atom, the `i`-th being
the label chosen by the loop body for atom `i`; a label is the empty string
only for an atom without a dedicated rule whose symbol is empty, and only when
the parameter table itself holds the empty label. -/
theorem assign_uff_types_one_label_per_atom (has_uff_type : String → Bool) (mol : Molecule F)
    (types : List String) (hok : assign_uff_types has_uff_type mol = .ok types) :
    types.length = mol.num_atoms ∧
    ∀ i, i < mol.num_atoms →
      ∃ t, types.get? i = some t ∧ uff_type_of has_uff_type mol i = .ok t ∧
        (t = "" → has_uff_type "" = true ∧ (mol.atom i).symbol = "" ∧
          has_dedicated_rule (mol.atom i).atomic_number = false) := by
  have hlen : types.length = mol.num_atoms := by
    have h := hok
    unfold assign_uff_types at h
    rw [mapM_ok_iff] at h
    exact (forall₂_range_get _ _ _ h).1
  refine ⟨hlen, ?_⟩
  intro i hi
  obtain ⟨t, ht, hu⟩ := assign_uff_types_get has_uff_type mol types hok i hi
  refine ⟨t, ht, hu, ?_⟩
  intro hte
  cases hr : has_dedicated_rule (mol.atom i).atomic_number with
  | true =>
    obtain ⟨l, hl, hne⟩ := uff_type_of_rule has_uff_type mol i hr
    rw [hl] at hu
    injection hu with h4
    exact absurd (h4.trans hte) hne
  | false =>
    rw [uff_type_of_fallback has_uff_type mol i hr] at hu
    cases hf : fallback_label has_uff_type (mol.atom i).symbol with
    | none => rw [hf] at hu; cases hu
    | some l =>
      rw [hf] at hu
      injection hu with h4
      rw [h4, hte] at hf
      obtain ⟨h5, h6⟩ := fallback_label_empty has_uff_type _ hf
      exact ⟨h5, h6, rfl⟩

end typing_contract

theorem assign_uff_types_fallback_witness :
    assign_uff_types water_labels rubidium_named_O = .ok ["O_3"] ∧
    has_dedicated_rule (rubidium_named_O.atom 0).atomic_number = false ∧
    fallback_label water_labels (rubidium_named_O.atom 0).symbol = some "O_3" ∧
    (∃ e, assign_uff_types water_labels rubidium_atom = .error e) := by
  refine ⟨by rfl, by rfl, by rfl, ?_⟩
  exact ((assign_uff_types_fallback water_labels rubidium_atom).2.1).2
    ⟨0, by decide, by rfl, by rfl⟩

theorem assign_uff_types_one_label_per_atom_witness :
    assign_uff_types no_uff_type ethene = .ok ["C_R", "C_R", "H_", "H_", "H_", "H_"] ∧
    ["C_R", "C_R", "H_", "H_", "H_", "H_"].length = ethene.num_atoms := by
  have hok : assign_uff_types no_uff_type ethene =
      .ok ["C_R", "C_R", "H_", "H_", "H_", "H_"] := by rfl
  exact ⟨hok, (assign_uff_types_one_label_per_atom no_uff_type ethene _ hok).1⟩

/-- Equal field sequences have equally many atoms. -/
theorem num_atoms_congr {F β : Type} (f : Atom F → β) (mol1 mol2 : Molecule F)
    (h : mol1.atoms.map f = mol2.atoms.map f) : mol1.num_atoms = mol2.num_atoms := by
  have := congrArg List.length h
  simpa [Molecule.num_atoms] using this

section typing_inputs

variable {F : Type} [Inhabited F]

/-- Reading a field of `mol.atom(i)` is reading the sequence of that field. -/
theorem atom_field_congr {β : Type} (f : Atom F → β) (mol1 mol2 : Molecule F)
    (h : mol1.atoms.map f = mol2.atoms.map f) (i : Nat) :
    f (mol1.atom i) = f (mol2.atom i) := by
  have key : ∀ (mol : Molecule F),
      f (mol.atom i) = (mol.atoms.map f).getD i (f Molecule.default_atom) := by
    intro mol
    unfold Molecule.atom
    rw [List.getD_eq_getElem?_getD, List.getD_eq_getElem?_getD, List.getElem?_map]
    cases mol.atoms[i]? <;> rfl
  rw [key mol1, key mol2, h]

set_option maxHeartbeats 2000000 in
/-- The loop body of the typer reads the atomic numbers, the bonds and, for an
atom without a dedicated rule, the symbol of that atom; nothing else. -/
theorem uff_type_of_congr (has_uff_type : String → Bool) (mol1 mol2 : Molecule F) (i : Nat)
    (hZ : ∀ n, (mol1.atom n).atomic_number = (mol2.atom n).atomic_number)
    (hb : mol1.bonds = mol2.bonds)
    (hs : has_dedicated_rule (mol1.atom i).atomic_number = false →
      (mol1.atom i).symbol = (mol2.atom i).symbol) :
    uff_type_of has_uff_type mol1 i = uff_type_of has_uff_type mol2 i := by
  have hdeg : mol2.degree i = mol1.degree i := by
    unfold Molecule.degree; rw [hb]
  have hscan : aromatic_scan mol2 i = aromatic_scan mol1 i := by
    unfold aromatic_scan Molecule.bonded_to Molecule.degree
    rw [hb]
    simp only [hZ]
  cases hr : has_dedicated_rule (mol1.atom i).atomic_number with
  | false =>
    have hr2 : has_dedicated_rule (mol2.atom i).atomic_number = false := by
      rw [← hZ]; exact hr
    rw [uff_type_of_fallback _ _ _ hr, uff_type_of_fallback _ _ _ hr2]
    unfold unknown_type_error
    rw [hs hr, hZ]
  | true =>
    have hz := has_dedicated_rule_cases _ hr
    have e1 : ∀ r, r = uff_type_of has_uff_type mol2 i →
        uff_type_of has_uff_type mol1 i = r := by
      intro r hr2
      rcases hz with h | h | h | h | h | h | h | h | h | h | h | h | h | h | h | h | h | h |
        h | h | h | h | h | h | h | h | h <;>
      (have h2 := (hZ i).symm.trans h
       unfold uff_type_of
       simp only [h]
       rw [hr2]
       unfold uff_type_of
       simp only [h2, hdeg, hscan])
    exact e1 _ rfl

theorem mapM_congr_mem {α β ε : Type} (f g : α → Except ε β) :
    ∀ (l : List α), (∀ x ∈ l, f x = g x) → l.mapM f = l.mapM g := by
  intro l
  induction l with
  | nil => intro _; rfl
  | cons a l ih =>
    intro h
    rw [List.mapM_cons, List.mapM_cons, h a (by simp), ih (fun x hx => h x (by simp [hx]))]

/-- C13 (amended): two molecules with the same sequence of atomic numbers, the
same bond sequence and, on every atom without a dedicated rule, the same
symbol get the same outcome from the typer (the same labels, or the same
failure), whatever their atom positions. -/
theorem assign_uff_types_ignores_positions (has_uff_type : String → Bool)
    (mol1 mol2 : Molecule F)
    (hZ : mol1.atoms.map (fun a => a.atomic_number) = mol2.atoms.map (fun a => a.atomic_number))
    (hb : mol1.bonds = mol2.bonds)
    (hs : ∀ i, i < mol1.num_atoms → has_dedicated_rule (mol1.atom i).atomic_number = false →
      (mol1.atom i).symbol = (mol2.atom i).symbol) :
    assign_uff_types has_uff_type mol1 = assign_uff_types has_uff_type mol2 := by
  unfold assign_uff_types
  rw [← num_atoms_congr _ mol1 mol2 hZ]
  apply mapM_congr_mem
  intro i hi
  exact uff_type_of_congr has_uff_type mol1 mol2 i (atom_field_congr _ mol1 mol2 hZ) hb
    (hs i (List.mem_range.1 hi))

end typing_inputs

/-- C13 as stated fails: two one-atom molecules with the same atomic number (37)
and no bonds, one with the symbol string "O", one with "Rb"; with a table
that holds "O_3" the first is typed and the second is rejected. -/
theorem typer_reads_symbol :
    rubidium_named_O.atoms.map (fun a => a.atomic_number) =
      rubidium_atom.atoms.map (fun a => a.atomic_number) ∧
    rubidium_named_O.bonds = rubidium_atom.bonds ∧
    assign_uff_types water_labels rubidium_named_O = .ok ["O_3"] ∧
    assign_uff_types water_labels rubidium_atom =
      .error "No UFF type for element: Rb (Z=37)" := by
  refine ⟨by rfl, by rfl, by rfl, by rfl⟩

theorem assign_uff_types_ignores_positions_witness :
    (peroxide 0).atoms.map (fun a => a.atomic_number) =
      (peroxide 1).atoms.map (fun a => a.atomic_number) ∧
    (peroxide 0).bonds = (peroxide 1).bonds ∧
    assign_uff_types no_uff_type (peroxide 0) = assign_uff_types no_uff_type (peroxide 1) :=
  ⟨rfl, rfl, assign_uff_types_ignores_positions no_uff_type (peroxide 0) (peroxide 1) rfl rfl
    (fun _ _ _ => by
      rename_i i hi hr
      have hi2 : i < 4 := hi
      interval_cases i <;> rfl)⟩

section setup_state

variable {F : Type} [Inhabited F]

/-- The method and the function `setup` agree: on success the new state is the
value of `setup`, on failure the state is kept. -/
theorem setup_method_eq (self : UFFForceField) (has_uff_type : String → Bool)
    (mol : Molecule F) :
    self.setup has_uff_type mol =
      match setup has_uff_type mol with
      | .ok ff => (.ok (), ff)
      | .error e => (.error e, self) := by
  unfold UFFForceField.setup setup
  cases assign_uff_types has_uff_type mol with
  | error e => rfl
  | ok types => rfl

/-- A call of `setup` in which the typer throws. -/
theorem setup_method_error (self : UFFForceField) (has_uff_type : String → Bool)
    (mol : Molecule F) (e : String) (h : assign_uff_types has_uff_type mol = .error e) :
    self.setup has_uff_type mol = (.error e, self) := by
  unfold UFFForceField.setup
  rw [h]

/-- A call of `setup` in which the typer returns. -/
theorem setup_method_ok (self : UFFForceField) (has_uff_type : String → Bool)
    (mol : Molecule F) (types : List String)
    (h : assign_uff_types has_uff_type mol = .ok types) :
    self.setup has_uff_type mol =
      (.ok (), ⟨types, build_angles mol, build_torsions mol,
        build_nonbonded mol.num_atoms (build_excluded mol (build_angles mol))⟩) := by
  unfold UFFForceField.setup
  rw [h]

/-- C14: `setup` fails exactly when the typer fails, with the typer's error;
a failing call leaves the stored atom types, angle list, torsion list and
nonbonded-pair list as they were (the molecule is read-only); after a
successful call `atom_types()` is the result of the typer. -/
theorem setup_fails_iff_typer_fails (self : UFFForceField) (has_uff_type : String → Bool)
    (mol : Molecule F) :
    (∀ e, (self.setup has_uff_type mol).1 = .error e ↔
      assign_uff_types has_uff_type mol = .error e) ∧
    (∀ e, (self.setup has_uff_type mol).1 = .error e →
      (self.setup has_uff_type mol).2 = self) ∧
    (∀ types, assign_uff_types has_uff_type mol = .ok types →
      (self.setup has_uff_type mol).1 = .ok () ∧
      (self.setup has_uff_type mol).2.atom_types = types) := by
  cases hA : assign_uff_types has_uff_type mol with
  | error e2 =>
    rw [setup_method_error self has_uff_type mol e2 hA]
    refine ⟨fun e => ⟨fun h => ?_, fun h => ?_⟩, fun e _ => rfl, ?_⟩
    · injection h with h1
      rw [h1]
    · injection h with h1
      show (Except.error e2 : Except String Unit) = Except.error e
      rw [h1]
    · intro types h
      cases h
  | ok types2 =>
    rw [setup_method_ok self has_uff_type mol types2 hA]
    refine ⟨?_, ?_, ?_⟩
    · intro e
      constructor <;> (intro h; cases h)
    · intro e h
      cases h
    · intro types h
      injection h with h2
      exact ⟨rfl, h2⟩

/-- C15: the outcome of `setup`, and on success the whole state it leaves, is
the same for two molecules with the same atomic numbers, symbols and bonds,
whatever the positions and whatever the two states before the call; and a
second call on the same molecule changes nothing. -/
theorem setup_depends_on_graph_only (self1 self2 : UFFForceField)
    (has_uff_type : String → Bool) (mol1 mol2 : Molecule F)
    (hZ : mol1.atoms.map (fun a => a.atomic_number) = mol2.atoms.map (fun a => a.atomic_number))
    (hsym : mol1.atoms.map (fun a => a.symbol) = mol2.atoms.map (fun a => a.symbol))
    (hb : mol1.bonds = mol2.bonds) :
    (self1.setup has_uff_type mol1).1 = (self2.setup has_uff_type mol2).1 ∧
    ((self1.setup has_uff_type mol1).1 = .ok () →
      (self1.setup has_uff_type mol1).2 = (self2.setup has_uff_type mol2).2 ∧
      (self1.setup has_uff_type mol1).2.setup has_uff_type mol1 =
        (.ok (), (self1.setup has_uff_type mol1).2)) := by
  have hn : mol1.num_atoms = mol2.num_atoms := num_atoms_congr _ mol1 mol2 hZ
  have hn2 : mol1.atoms.length = mol2.atoms.length := hn
  have hA : assign_uff_types has_uff_type mol1 = assign_uff_types has_uff_type mol2 := by
    unfold assign_uff_types
    rw [← hn]
    apply mapM_congr_mem
    intro i _
    exact uff_type_of_congr has_uff_type mol1 mol2 i (atom_field_congr _ mol1 mol2 hZ) hb
      (fun _ => atom_field_congr _ mol1 mol2 hsym i)
  have hadj : mol1.adjacency_list = mol2.adjacency_list := by
    unfold Molecule.adjacency_list; rw [hb, hn2]
  have hang : build_angles mol1 = build_angles mol2 := by
    unfold build_angles; rw [hadj, hn]
  have htor : build_torsions mol1 = build_torsions mol2 := by
    unfold build_torsions; rw [hadj, hb]
  have hex : ∀ l, build_excluded mol1 l = build_excluded mol2 l := by
    intro l; unfold build_excluded; rw [hb]
  cases hT : assign_uff_types has_uff_type mol1 with
  | error e =>
    rw [setup_method_error self1 has_uff_type mol1 e hT,
      setup_method_error self2 has_uff_type mol2 e (hA ▸ hT)]
    refine ⟨rfl, ?_⟩
    intro h
    cases h
  | ok types =>
    rw [setup_method_ok self1 has_uff_type mol1 types hT,
      setup_method_ok self2 has_uff_type mol2 types (hA ▸ hT)]
    refine ⟨rfl, fun _ => ⟨?_, ?_⟩⟩
    · rw [hang, htor, hex, hn]
    · exact setup_method_ok _ has_uff_type mol1 types hT

end setup_state

theorem setup_fails_iff_typer_fails_witness :
    stale_ff.setup water_labels rubidium_atom =
      (.error "No UFF type for element: Rb (Z=37)", stale_ff) ∧
    (stale_ff.setup water_labels rubidium_named_O).1 = .ok () ∧
    (stale_ff.setup water_labels rubidium_named_O).2.atom_types = ["O_3"] := by
  have h := setup_fails_iff_typer_fails stale_ff water_labels rubidium_named_O
  exact ⟨by rfl, (h.2.2 ["O_3"] (by rfl)).1, (h.2.2 ["O_3"] (by rfl)).2⟩

theorem setup_depends_on_graph_only_witness :
    (peroxide 0).atoms.map (fun a => a.atomic_number) =
      (peroxide 1).atoms.map (fun a => a.atomic_number) ∧
    (peroxide 0).atoms.map (fun a => a.symbol) = (peroxide 1).atoms.map (fun a => a.symbol) ∧
    (peroxide 0).bonds = (peroxide 1).bonds ∧
    (stale_ff.setup no_uff_type (peroxide 0)).1 = (peroxide_ff.setup no_uff_type (peroxide 1)).1 :=
  ⟨rfl, rfl, rfl,
    (setup_depends_on_graph_only stale_ff peroxide_ff no_uff_type (peroxide 0) (peroxide 1)
      rfl rfl rfl).1⟩

/-! ## Optimizer: positions and the line search -/

theorem get_positions_length {F : Type} (mol : Molecule F) :
    mol.get_positions.length = 3 * mol.atoms.length := by
  unfold Molecule.get_positions
  induction mol.atoms with
  | nil => rfl
  | cons a l ih =>
    rw [List.flatMap_cons, List.length_append, ih]
    simp only [List.length_cons, List.length_nil]
    omega

section positions_lemmas

variable {F : Type} [Inhabited F]

theorem write_positions_length (mol : Molecule F) (p : List F) :
    (mol.write_positions p).atoms.length = mol.atoms.length := by
  unfold Molecule.write_positions
  simp

theorem write_positions_bonds (mol : Molecule F) (p : List F) :
    (mol.write_positions p).bonds = mol.bonds := rfl

/-- Writing positions overwrites whatever positions were there. -/
theorem write_positions_twice (mol : Molecule F) (p q : List F) :
    (mol.write_positions p).write_positions q = mol.write_positions q := by
  unfold Molecule.write_positions
  simp only [Molecule.mk.injEq, and_true]
  apply List.ext_getElem
  · simp
  · intro i h1 h2
    simp

theorem set_positions_ok (mol : Molecule F) (p : List F)
    (h : p.length = 3 * mol.atoms.length) :
    mol.set_positions p = .ok (mol.write_positions p) := by
  unfold Molecule.set_positions
  rw [if_neg (by simpa using h)]

end positions_lemmas

section line_search_lemmas

variable {F : Type} [Arith F] [Inhabited F]

theorem trial_positions_length (positions direction : List F) (alpha : F) :
    (trial_positions positions direction alpha).length = positions.length := by
  unfold trial_positions
  simp

theorem tiny_positions_length (positions grad : List F) :
    (tiny_positions positions grad).length = positions.length := by
  unfold tiny_positions
  simp

/-- The loop of the line search from trial `ls` on, entered in a state that
differs from the state `s0` at its start only in the positions: it leaves
through `break` at the first trial from `ls` on that passes the test, or after
trial 19 with the tiny step. -/
theorem line_search_spec (P : String → UFFAtomType F) (ff : UFFForceField) (s0 : SDState F) :
    ∀ (fuel ls : Nat) (s : SDState F), fuel + ls = 20 → 0 < fuel →
      s.prev_energy = s0.prev_energy → s.step_size = s0.step_size →
      (∀ p, s.mol.write_positions p = s0.mol.write_positions p) →
      s.mol.atoms.length = s0.mol.atoms.length →
      line_search P ff s0.mol.get_positions
          (vec_normalized ((calculate_gradient P ff s0.mol).map fun g => -g))
          (calculate_gradient P ff s0.mol) fuel ls (trial_alpha s0.step_size ls) s =
        .ok (match (List.range' ls fuel).find? fun l => decide (trial_accepted P ff s0 l) with
          | some l => accepted_state P ff s0 l
          | none => tiny_state P ff s0) := by
  intro fuel
  induction fuel with
  | zero => intro ls s _ h; omega
  | succ fuel ih =>
    intro ls s hfl _ hE hS hW hL
    unfold line_search
    rw [set_positions_ok _ _ (by rw [trial_positions_length, get_positions_length, hL])]
    simp only [hW, hE]
    rw [List.range'_succ, List.find?_cons]
    by_cases hacc : trial_accepted P ff s0 ls
    · have hacc2 := hacc
      unfold trial_accepted trial_mol at hacc2
      rw [if_pos hacc2]
      simp only [hacc, decide_True]
      rfl
    · have hacc2 := hacc
      unfold trial_accepted trial_mol at hacc2
      rw [if_neg hacc2]
      simp only [hacc, decide_False]
      by_cases h19 : ls = 19
      · have hf : fuel = 0 := by omega
        subst hf
        rw [if_pos h19]
        rw [set_positions_ok _ _ (by rw [write_positions_length, get_positions_length])]
        simp only []
        rw [set_positions_ok _ _ (by
          rw [write_positions_length, write_positions_length, tiny_positions_length,
            get_positions_length])]
        simp only [write_positions_twice]
        unfold line_search
        rfl
      · rw [if_neg h19]
        have := ih (ls + 1)
          ⟨s0.mol.write_positions (trial_positions s0.mol.get_positions
            (vec_normalized ((calculate_gradient P ff s0.mol).map fun g => -g))
            (trial_alpha s0.step_size ls)), s0.prev_energy, s.step_size⟩
          (by omega) (by omega) rfl hS (fun p => write_positions_twice _ _ _)
          (write_positions_length _ _)
        exact this

/-- The line search of an iteration that starts in state `s` ends, without an
exception, in the state `sd_next s`. -/
theorem backtracking_eq (P : String → UFFAtomType F) (ff : UFFForceField) (s : SDState F) :
    backtracking P ff (calculate_gradient P ff s.mol) s = .ok (sd_next P ff s) := by
  unfold backtracking sd_next first_accepted
  exact line_search_spec P ff s 20 0 s rfl (by decide) rfl rfl (fun _ => rfl) rfl

/-- The two ways a line search can end. -/
theorem sd_next_cases (P : String → UFFAtomType F) (ff : UFFForceField) (s : SDState F) :
    (∃ ls, ls < 20 ∧ trial_accepted P ff s ls ∧ (∀ j, j < ls → ¬ trial_accepted P ff s j) ∧
      sd_next P ff s = accepted_state P ff s ls) ∨
    ((∀ ls, ls < 20 → ¬ trial_accepted P ff s ls) ∧ sd_next P ff s = tiny_state P ff s) := by
  unfold sd_next first_accepted
  cases h : (List.range' 0 20).find? fun ls => decide (trial_accepted P ff s ls) with
  | some ls =>
    left
    have hm := List.mem_of_find?_eq_some h
    have hp := List.find?_some h
    rw [List.mem_range'_1] at hm
    refine ⟨ls, by omega, by simpa using hp, ?_, rfl⟩
    intro j hj hacc
    rw [List.find?_eq_some] at h
    obtain ⟨_, as, bs, hsplit, hall⟩ := h
    have hlen : as.length = ls := by
      have h1 := congrArg (fun l => l.get? as.length) hsplit
      simp only [List.get?_eq_getElem?, List.getElem?_append_right (le_refl _), Nat.sub_self,
        List.getElem?_cons_zero] at h1
      have h2 : as.length < 20 := by
        have := congrArg List.length hsplit
        simp at this
        omega
      rw [List.getElem?_range' _ _ h2] at h1
      simpa using h1
    have hj2 : j ∈ as := by
      have h1 := congrArg (fun l => l.get? j) hsplit
      simp only [List.get?_eq_getElem?] at h1
      rw [List.getElem?_append_left (by omega), List.getElem?_range' _ _ (by omega)] at h1
      have := List.getElem?_mem h1.symm
      simpa using this
    have := hall j hj2
    simp [hacc] at this
  | none =>
    right
    refine ⟨?_, rfl⟩
    intro ls hls
    rw [List.find?_eq_none] at h
    have := h ls (by rw [List.mem_range'_1]; omega)
    simpa using this

end line_search_lemmas

/-! ## Optimizer: the trace of a steepest-descent run -/

theorem trajectory_back_concat {F : Type} [Inhabited F] (traj : List (OptProgress F))
    (p : OptProgress F) :
    trajectory_back (traj ++ [p]) = p := by
  unfold trajectory_back
  simp

section sd_trace

variable {F : Type} [Arith F] [Inhabited F]

theorem sd_state_iterate (P : String → UFFAtomType F) (ff : UFFForceField) (mol : Molecule F)
    (k : Nat) :
    sd_state P ff mol k = (sd_next P ff)^[k] ⟨mol, calculate_energy P ff mol, 0.01⟩ := by
  induction k with
  | zero => rfl
  | succ k ih =>
    rw [Function.iterate_succ_apply', ← ih]
    rfl

/-- One iteration that ends in the gradient test. -/
theorem sd_loop_grad_exit (P : String → UFFAtomType F) (ff : UFFForceField)
    (settings : OptSettings F) (cb : Bool) (fuel iter : Nat) (s : SDState F)
    (traj log : List (OptProgress F))
    (h : grad_rms P ff s.mol < settings.grad_tolerance) :
    sd_loop P ff settings cb (fuel + 1) iter s traj log =
      .ok ⟨{ converged := true, iterations := iter, final_energy := s.prev_energy,
             final_grad_norm := grad_rms P ff s.mol,
             trajectory := traj ++ [sd_record P ff settings s iter] }, s.mol,
           if cb then log ++ [sd_record P ff settings s iter] else log⟩ := by
  unfold sd_loop
  unfold grad_rms at h
  simp only [h, if_true]
  rfl

/-- One iteration that ends in the energy test. -/
theorem sd_loop_energy_exit (P : String → UFFAtomType F) (ff : UFFForceField)
    (settings : OptSettings F) (cb : Bool) (fuel iter : Nat) (s : SDState F)
    (traj log : List (OptProgress F))
    (h : ¬ grad_rms P ff s.mol < settings.grad_tolerance) (hi : 0 < iter)
    (he : Arith.abs ((sd_next P ff s).prev_energy - s.prev_energy) <
      settings.energy_tolerance) :
    sd_loop P ff settings cb (fuel + 1) iter s traj log =
      .ok ⟨{ converged := true, iterations := iter,
             final_energy := (sd_next P ff s).prev_energy,
             final_grad_norm := grad_rms P ff s.mol,
             trajectory := traj ++ [sd_record P ff settings s iter] },
           (sd_next P ff s).mol,
           if cb then log ++ [sd_record P ff settings s iter] else log⟩ := by
  unfold sd_loop
  unfold grad_rms at h
  simp only [h, if_false, backtracking_eq, trajectory_back_concat]
  rw [if_pos ⟨hi, he⟩]
  rfl

/-- One iteration after which the loop goes on. -/
theorem sd_loop_continue (P : String → UFFAtomType F) (ff : UFFForceField)
    (settings : OptSettings F) (cb : Bool) (fuel iter : Nat) (s : SDState F)
    (traj log : List (OptProgress F))
    (h : ¬ grad_rms P ff s.mol < settings.grad_tolerance)
    (he : ¬ (0 < iter ∧ Arith.abs ((sd_next P ff s).prev_energy - s.prev_energy) <
      settings.energy_tolerance)) :
    sd_loop P ff settings cb (fuel + 1) iter s traj log =
      sd_loop P ff settings cb fuel (iter + 1) (sd_next P ff s)
        (traj ++ [sd_record P ff settings s iter])
        (if cb then log ++ [sd_record P ff settings s iter] else log) := by
  conv_lhs => unfold sd_loop
  unfold grad_rms at h
  simp only [h, if_false, backtracking_eq, trajectory_back_concat]
  rw [if_neg he]
  rfl

/-- The trace of the loop of `steepest_descent`: it always returns; the records
it appends are those of the states at the heads of its iterations, numbered
from `iter` on; the callback, if any, sees the same records; and it ends in
one of the three exits. -/
theorem sd_loop_trace (P : String → UFFAtomType F) (ff : UFFForceField)
    (settings : OptSettings F) (cb : Bool) :
    ∀ (fuel iter : Nat) (s : SDState F) (traj log : List (OptProgress F)),
      ∃ out n, sd_loop P ff settings cb fuel iter s traj log = .ok out ∧
        out.result.trajectory = traj ++ (List.range n).map
          (fun j => sd_record P ff settings ((sd_next P ff)^[j] s) (iter + j)) ∧
        out.callbacks = log ++ (if cb then (List.range n).map
          (fun j => sd_record P ff settings ((sd_next P ff)^[j] s) (iter + j)) else []) ∧
        sd_exit P ff settings (fun j => (sd_next P ff)^[j] s) iter fuel n out := by
  intro fuel
  induction fuel with
  | zero =>
    intro iter s traj log
    refine ⟨_, 0, rfl, by simp, by simp, Or.inr (Or.inr ⟨rfl, rfl, rfl, rfl, rfl, rfl⟩)⟩
  | succ fuel ih =>
    intro iter s traj log
    have hone : (List.range 1).map
        (fun j => sd_record P ff settings ((sd_next P ff)^[j] s) (iter + j)) =
        [sd_record P ff settings s iter] := rfl
    by_cases hg : grad_rms P ff s.mol < settings.grad_tolerance
    · refine ⟨_, 1, sd_loop_grad_exit P ff settings cb fuel iter s traj log hg, by rw [hone],
        ?_, Or.inl ⟨0, rfl, by omega, hg, rfl, rfl, rfl, rfl, rfl⟩⟩
      rw [hone]
      cases cb <;> simp
    · by_cases he : 0 < iter ∧ Arith.abs ((sd_next P ff s).prev_energy - s.prev_energy) <
          settings.energy_tolerance
      · refine ⟨_, 1, sd_loop_energy_exit P ff settings cb fuel iter s traj log hg he.1 he.2,
          by rw [hone], ?_,
          Or.inr (Or.inl ⟨0, rfl, by omega, by omega, hg, he.2, rfl, rfl, rfl, rfl, rfl⟩)⟩
        rw [hone]
        cases cb <;> simp
      · obtain ⟨out, n, h1, h2, h3, h4⟩ := ih (iter + 1) (sd_next P ff s)
          (traj ++ [sd_record P ff settings s iter])
          (if cb then log ++ [sd_record P ff settings s iter] else log)
        have hmap : (List.range (n + 1)).map
            (fun j => sd_record P ff settings ((sd_next P ff)^[j] s) (iter + j)) =
            sd_record P ff settings s iter :: (List.range n).map
              (fun j => sd_record P ff settings ((sd_next P ff)^[j] (sd_next P ff s))
                (iter + 1 + j)) := by
          rw [List.range_succ_eq_map, List.map_cons, List.map_map]
          congr 1
          apply List.map_congr_left
          intro j _
          simp only [Function.comp, Function.iterate_succ_apply, Nat.succ_eq_add_one]
          congr 1
          omega
        refine ⟨out, n + 1, ?_, ?_, ?_, ?_⟩
        · rw [sd_loop_continue P ff settings cb fuel iter s traj log hg he]
          exact h1
        · rw [h2, hmap]
          simp
        · rw [h3, hmap]
          cases cb <;> simp
        · rcases h4 with ⟨m, e1, e2, e3, e4, e5, e6, e7, e8⟩ |
            ⟨m, e1, e2, e3, e4, e5, e6, e7, e8, e9, e10⟩ | ⟨e1, e2, e3, e4, e5, e6⟩
          · refine Or.inl ⟨m + 1, by omega, by omega, e3, e4, ?_, e6, e7, e8⟩
            rw [e5]
            congr 1
            omega
          · refine Or.inr (Or.inl ⟨m + 1, by omega, by omega, by omega, e4, e5, e6, ?_, e8, e9,
              e10⟩)
            rw [e7]
            congr 1
            omega
          · exact Or.inr (Or.inr ⟨by omega, e2, e3, e4, e5, e6⟩)

/-- The trace of a run of `steepest_descent`. -/
theorem steepest_descent_trace (P : String → UFFAtomType F) (ff : UFFForceField)
    (settings : OptSettings F) (cb : Bool) (mol : Molecule F) :
    ∃ out n, steepest_descent P ff settings cb mol = .ok out ∧
      out.result.trajectory = (List.range n).map
        (fun j => sd_record P ff settings (sd_state P ff mol j) j) ∧
      out.callbacks = (if cb then out.result.trajectory else []) ∧
      sd_exit P ff settings (sd_state P ff mol) 0 settings.max_iterations.toNat n out := by
  obtain ⟨out, n, h1, h2, h3, h4⟩ := sd_loop_trace P ff settings cb
    settings.max_iterations.toNat 0 ⟨mol, calculate_energy P ff mol, 0.01⟩ [] []
  have hst : (fun j => (sd_next P ff)^[j] ⟨mol, calculate_energy P ff mol, 0.01⟩) =
      sd_state P ff mol := by
    funext j
    exact (sd_state_iterate P ff mol j).symm
  have hrec : (List.range n).map (fun j => sd_record P ff settings
      ((sd_next P ff)^[j] ⟨mol, calculate_energy P ff mol, 0.01⟩) (0 + j)) =
      (List.range n).map (fun j => sd_record P ff settings (sd_state P ff mol j) j) := by
    apply List.map_congr_left
    intro j _
    rw [← sd_state_iterate, Nat.zero_add]
  rw [hst] at h4
  rw [hrec, List.nil_append] at h2 h3
  refine ⟨out, n, h1, h2, ?_, h4⟩
  rw [h3, h2]

end sd_trace

/-! ## Optimizer: the claims on steepest descent and on progress records -/

section sd_claims

variable {F : Type} [Arith F] [Inhabited F]

/-- Reading record `k` of a mapped index sequence. -/
theorem get?_map_range {β : Type} (f : Nat → β) (n k : Nat) (hk : k < n) :
    ((List.range n).map f).get? k = some (f k) := by
  rw [List.get?_eq_getElem?, List.getElem?_map, List.getElem?_range hk]
  rfl

/-- In every state of a run `prev_energy` is the energy of the molecule. -/
theorem sd_state_energy (P : String → UFFAtomType F) (ff : UFFForceField) (mol : Molecule F)
    (k : Nat) :
    (sd_state P ff mol k).prev_energy = calculate_energy P ff (sd_state P ff mol k).mol := by
  cases k with
  | zero => rfl
  | succ k =>
    show (sd_next P ff (sd_state P ff mol k)).prev_energy =
      calculate_energy P ff (sd_next P ff (sd_state P ff mol k)).mol
    rcases sd_next_cases P ff (sd_state P ff mol k) with ⟨ls, _, _, _, h⟩ | ⟨_, h⟩
    · rw [h]; rfl
    · rw [h]; rfl

/-- C16 (amended): when steepest descent returns with `converged = true`, either
`final_grad_norm < grad_tolerance`, or at least two records were reported and
`final_energy` differs in absolute value from the energy of the last reported
record by less than `energy_tolerance`. -/
theorem sd_converged_validity (P : String → UFFAtomType F) (ff : UFFForceField)
    (settings : OptSettings F) (cb : Bool) (mol : Molecule F) (out : OptOutcome F)
    (hrun : steepest_descent P ff settings cb mol = .ok out)
    (hconv : out.result.converged = true) :
    out.result.final_grad_norm < settings.grad_tolerance ∨
    (2 ≤ out.result.trajectory.length ∧
      Arith.abs (out.result.final_energy - (trajectory_back out.result.trajectory).energy) <
        settings.energy_tolerance) := by
  obtain ⟨out2, n, h1, h2, _, h4⟩ := steepest_descent_trace P ff settings cb mol
  rw [hrun] at h1
  injection h1 with h1
  subst h1
  rcases h4 with ⟨m, _, _, e3, _, _, _, e7, _⟩ | ⟨m, e1, _, e3, _, e5, _, _, e8, _, _⟩ |
    ⟨_, e2, _⟩
  · left
    rw [e7]
    exact e3
  · right
    subst e1
    rw [h2, List.range_succ, List.map_append, List.map_singleton, trajectory_back_concat, e8]
    refine ⟨?_, e5⟩
    simp only [List.length_append, List.length_map, List.length_range, List.length_singleton]
    omega
  · rw [e2] at hconv
    cases hconv

/-- C17: for consecutive progress records `k` and `k + 1` of a steepest-descent
run, with `s` the state at the head of iteration `k`: the energies of the two
records are `prev_energy` before and after the line search of iteration `k`;
if one of the 20 trials passed the test the energy of record `k + 1` is
strictly less than that of record `k`; and if it is not strictly less, all 20
trials failed. -/
theorem sd_descent_monotone (P : String → UFFAtomType F) (ff : UFFForceField)
    (settings : OptSettings F) (cb : Bool) (mol : Molecule F) (out : OptOutcome F)
    (hrun : steepest_descent P ff settings cb mol = .ok out)
    (k : Nat) (hk : k + 1 < out.result.trajectory.length) :
    ∃ r0 r1, out.result.trajectory.get? k = some r0 ∧
      out.result.trajectory.get? (k + 1) = some r1 ∧
      r0.energy = (sd_state P ff mol k).prev_energy ∧
      backtracking P ff (calculate_gradient P ff (sd_state P ff mol k).mol)
        (sd_state P ff mol k) = .ok (sd_state P ff mol (k + 1)) ∧
      r1.energy = (sd_state P ff mol (k + 1)).prev_energy ∧
      ((∃ ls, ls < 20 ∧ trial_accepted P ff (sd_state P ff mol k) ls) →
        r1.energy < r0.energy) ∧
      (¬ r1.energy < r0.energy →
        ∀ ls, ls < 20 → ¬ trial_accepted P ff (sd_state P ff mol k) ls) := by
  obtain ⟨out2, n, h1, h2, _, _⟩ := steepest_descent_trace P ff settings cb mol
  rw [hrun] at h1
  injection h1 with h1
  subst h1
  have hn : k + 1 < n := by
    rw [h2] at hk
    simpa using hk
  have hacc : (∃ ls, ls < 20 ∧ trial_accepted P ff (sd_state P ff mol k) ls) →
      (sd_state P ff mol (k + 1)).prev_energy < (sd_state P ff mol k).prev_energy := by
    rintro ⟨ls, hls, hacc⟩
    show (sd_next P ff (sd_state P ff mol k)).prev_energy < _
    rcases sd_next_cases P ff (sd_state P ff mol k) with ⟨l, _, hl, _, h⟩ | ⟨hall, _⟩
    · rw [h]
      exact hl
    · exact absurd hacc (hall ls hls)
  refine ⟨_, _, by rw [h2]; exact get?_map_range _ n k (by omega),
    by rw [h2]; exact get?_map_range _ n (k + 1) hn, rfl, backtracking_eq P ff _, rfl, hacc, ?_⟩
  intro hnot ls hls hacc1
  exact hnot (hacc ⟨ls, hls, hacc1⟩)

/-- C19 (amended): on every converged exit of steepest descent `iterations` is
the iteration index of the last progress record, one less than the number of
records reported; that number is the length of `trajectory` and, with a
callback, the number of callback invocations. -/
theorem sd_iterations_on_converged (P : String → UFFAtomType F) (ff : UFFForceField)
    (settings : OptSettings F) (cb : Bool) (mol : Molecule F) (out : OptOutcome F)
    (hrun : steepest_descent P ff settings cb mol = .ok out)
    (hconv : out.result.converged = true) :
    out.result.iterations + 1 = (out.result.trajectory.length : Int) ∧
    (∃ r, out.result.trajectory.getLast? = some r ∧ r.iteration = out.result.iterations) ∧
    (cb = true → out.callbacks.length = out.result.trajectory.length) := by
  obtain ⟨out2, n, h1, h2, h3, h4⟩ := steepest_descent_trace P ff settings cb mol
  rw [hrun] at h1
  injection h1 with h1
  subst h1
  have hcb : cb = true → out.callbacks.length = out.result.trajectory.length := by
    intro hc
    rw [h3, if_pos hc]
  have key : ∀ m : Nat, n = m + 1 → out.result.iterations = ((0 + m : Nat) : Int) →
      out.result.iterations + 1 = (out.result.trajectory.length : Int) ∧
      (∃ r, out.result.trajectory.getLast? = some r ∧ r.iteration = out.result.iterations) := by
    intro m e1 e5
    subst e1
    rw [h2, e5]
    refine ⟨by simp, ?_⟩
    rw [List.range_succ, List.map_append, List.map_singleton, List.getLast?_concat]
    exact ⟨_, rfl, by simp [sd_record]⟩
  rcases h4 with ⟨m, e1, _, _, _, e5, _⟩ | ⟨m, e1, _, _, _, _, _, e7, _⟩ | ⟨_, e2, _⟩
  · exact ⟨(key m e1 e5).1, (key m e1 e5).2, hcb⟩
  · exact ⟨(key m e1 e7).1, (key m e1 e7).2, hcb⟩
  · rw [e2] at hconv
    cases hconv

/-- What the result record holds on each exit: `final_energy` is always the
energy of the molecule as returned; `final_grad_norm` is the gradient norm of
the molecule as returned on the gradient exit and at the end of the loop, and
the gradient norm of the last record (the geometry before the last line
search) on the energy exit. -/
theorem sd_final_values (P : String → UFFAtomType F) (ff : UFFForceField)
    (settings : OptSettings F) (cb : Bool) (mol : Molecule F) (out : OptOutcome F)
    (hrun : steepest_descent P ff settings cb mol = .ok out) :
    out.result.final_energy = calculate_energy P ff out.mol ∧
    (out.result.final_grad_norm = grad_rms P ff out.mol ∨
      (out.result.converged = true ∧
        ∃ r, out.result.trajectory.getLast? = some r ∧
          out.result.final_grad_norm = r.grad_norm ∧
          Arith.abs (out.result.final_energy - r.energy) < settings.energy_tolerance)) := by
  obtain ⟨out2, n, h1, h2, _, h4⟩ := steepest_descent_trace P ff settings cb mol
  rw [hrun] at h1
  injection h1 with h1
  subst h1
  rcases h4 with ⟨m, _, _, _, _, _, e6, e7, e8⟩ | ⟨m, e1, _, _, _, e5, e6, _, e8, e9, e10⟩ |
    ⟨_, _, _, e4, e5, e6⟩
  · rw [e6, e7, e8]
    exact ⟨sd_state_energy P ff mol m, Or.inl rfl⟩
  · subst e1
    rw [e8, e10]
    refine ⟨sd_state_energy P ff mol (m + 1), Or.inr ⟨e6, ?_⟩⟩
    rw [h2, List.range_succ, List.map_append, List.map_singleton, List.getLast?_concat]
    exact ⟨_, rfl, e9, e5⟩
  · rw [e4, e5, e6]
    exact ⟨sd_state_energy P ff mol _, Or.inl rfl⟩

end sd_claims

section objective_claims

variable {F : Type} [Arith F] [Inhabited F]

theorem objective_call_invariant (P : String → UFFAtomType F) (ff : UFFForceField)
    (settings : OptSettings F) (cb : Bool) (self : UFFObjective F) (x : List F)
    (h : objective_invariant settings cb self) :
    objective_invariant settings cb (UFFObjective.call P ff settings cb self x).2 := by
  unfold UFFObjective.call
  cases hs : self.mol_.set_positions x with
  | error e => exact h
  | ok mol =>
    obtain ⟨h1, h2, h3⟩ := h
    by_cases hemit : cb = true ∨ settings.store_trajectory = true
    · simp only [hemit, if_true]
      refine ⟨?_, ?_, ?_⟩
      · intro k r hk
        simp only [List.get?_eq_getElem?] at hk
        by_cases hlt : k < self.trajectory_.length
        · rw [List.getElem?_append_left hlt] at hk
          exact h1 k r (by simpa [List.get?_eq_getElem?] using hk)
        · rw [List.getElem?_append_right (by omega)] at hk
          have hk0 : k - self.trajectory_.length = 0 := by
            by_contra hne
            rw [List.getElem?_eq_none (by simp; omega)] at hk
            cases hk
          rw [hk0] at hk
          simp only [List.getElem?_cons_zero, Option.some.injEq] at hk
          rw [← hk]
          simp only
          rw [h3 hemit]
          congr 1
          omega
      · cases cb with
        | true => simp [h2]
        | false => simpa using h2
      · intro _
        simp only [List.length_append, List.length_singleton, Nat.cast_add, Nat.cast_one]
        rw [h3 hemit]
    · simp only [hemit, if_false]
      exact ⟨h1, h2, fun hc => absurd hc hemit⟩

theorem objective_calls_invariant (P : String → UFFAtomType F) (ff : UFFForceField)
    (settings : OptSettings F) (cb : Bool) :
    ∀ (xs : List (List F)) (self : UFFObjective F), objective_invariant settings cb self →
      objective_invariant settings cb (UFFObjective.calls P ff settings cb self xs) := by
  intro xs
  induction xs with
  | nil => intro self h; exact h
  | cons x xs ih =>
    intro self h
    have hstep := objective_call_invariant P ff settings cb self x h
    unfold UFFObjective.calls
    cases hc : UFFObjective.call P ff settings cb self x with
    | mk r self2 =>
      rw [hc] at hstep
      cases r with
      | error e => exact hstep
      | ok v => exact ih self2 hstep

/-- C20: in a steepest-descent run, and in the trajectory kept by the L-BFGS
objective closure after any sequence of calls, the `k`-th record (from 0)
carries `iteration = k`, and the callback, when there is one, is invoked with
exactly these records in this order; steepest descent always returns. -/
theorem progress_records_in_order (P : String → UFFAtomType F) (ff : UFFForceField)
    (settings : OptSettings F) (cb : Bool) (mol : Molecule F) (xs : List (List F)) :
    (∃ out, steepest_descent P ff settings cb mol = .ok out ∧
      (∀ k r, out.result.trajectory.get? k = some r → r.iteration = (k : Int)) ∧
      out.callbacks = (if cb then out.result.trajectory else [])) ∧
    ((∀ k r, (UFFObjective.calls P ff settings cb (UFFObjective.init mol) xs).trajectory_.get? k
        = some r → r.iteration = (k : Int)) ∧
      (UFFObjective.calls P ff settings cb (UFFObjective.init mol) xs).callbacks =
        (if cb then (UFFObjective.calls P ff settings cb (UFFObjective.init mol) xs).trajectory_
          else [])) := by
  constructor
  · obtain ⟨out, n, h1, h2, h3, _⟩ := steepest_descent_trace P ff settings cb mol
    refine ⟨out, h1, ?_, h3⟩
    intro k r hk
    rw [h2] at hk
    have hkn : k < n := by
      by_contra hge
      rw [List.get?_eq_getElem?, List.getElem?_eq_none (by simp; omega)] at hk
      cases hk
    rw [get?_map_range _ n k hkn] at hk
    injection hk with hk
    rw [← hk]
    rfl
  · have hinit : objective_invariant settings cb (UFFObjective.init mol) := by
      refine ⟨?_, ?_, ?_⟩
      · intro k r hk
        cases hk
      · cases cb <;> rfl
      · intro _; rfl
    have h := objective_calls_invariant P ff settings cb xs _ hinit
    exact ⟨h.1, h.2.1⟩

end objective_claims

/-! ## Optimizer: dihydrogen over the reals -/

section dihydrogen_run
open Real

theorem dihydrogen_setup (has_uff_type : String → Bool) (u v : ℝ) :
    setup has_uff_type (dihydrogen u v) = .ok dihydrogen_ff := by
  rfl

theorem helium_setup (has_uff_type : String → Bool) :
    setup has_uff_type helium_atom = .ok helium_ff := by
  rfl

theorem dihydrogen_bond_length (u v : ℝ) :
    uff_bond_length sample_uff_params dihydrogen_ff 0 (dihydrogen u v) = dihydrogen_r0 := by
  unfold uff_bond_length
  have hb : (dihydrogen u v).bond 0 = ⟨0, 1, 1⟩ := rfl
  have h0 : dihydrogen_ff.atom_type 0 = "H_" := rfl
  have h1 : dihydrogen_ff.atom_type 1 = "H_" := rfl
  have hP : sample_uff_params "H_" =
      ⟨"H_", 0.354, 180.0, 2.886, 0.044, 12.0, 0.712, 0.0, 0.0, 4.528, 6.9452, 0.371⟩ := by
    unfold sample_uff_params
    rw [if_neg (by decide)]
  simp only [hb, h0, h1, hP, arith_log_real, arith_ofInt_real, arith_sqrt_real]
  unfold dihydrogen_r0
  norm_num

theorem dihydrogen_force_constant (u v : ℝ) :
    uff_bond_force_constant sample_uff_params dihydrogen_ff 0 (dihydrogen u v) =
      dihydrogen_k := by
  unfold uff_bond_force_constant
  have hb : (dihydrogen u v).bond 0 = ⟨0, 1, 1⟩ := rfl
  have h0 : dihydrogen_ff.atom_type 0 = "H_" := rfl
  have h1 : dihydrogen_ff.atom_type 1 = "H_" := rfl
  have hP : sample_uff_params "H_" =
      ⟨"H_", 0.354, 180.0, 2.886, 0.044, 12.0, 0.712, 0.0, 0.0, 4.528, 6.9452, 0.371⟩ := by
    unfold sample_uff_params
    rw [if_neg (by decide)]
  simp only [dihydrogen_bond_length, hb, h0, h1, hP]
  unfold dihydrogen_k dihydrogen_r0
  rfl

/-- The distance of the two atoms. -/
theorem dihydrogen_distance (u v : ℝ) (h : u ≤ v) :
    (((dihydrogen u v).atom 0).position.sub ((dihydrogen u v).atom 1).position).norm = v - u := by
  have h0 : ((dihydrogen u v).atom 0).position = ⟨u, 0, 0⟩ := rfl
  have h1 : ((dihydrogen u v).atom 1).position = ⟨v, 0, 0⟩ := rfl
  rw [h0, h1]
  unfold Vec3.norm Vec3.squaredNorm Vec3.sub
  simp only [arith_sqrt_real, sub_self, mul_zero, add_zero]
  rw [show (u - v) * (u - v) = (v - u) * (v - u) by ring, Real.sqrt_mul_self (by linarith)]

/-- The energy of dihydrogen is the harmonic bond term. -/
theorem dihydrogen_energy (u v : ℝ) (h : u ≤ v) :
    calculate_energy sample_uff_params dihydrogen_ff (dihydrogen u v) =
      0.5 * dihydrogen_k * (v - u - dihydrogen_r0) * (v - u - dihydrogen_r0) := by
  unfold calculate_energy bond_stretch_energy angle_bend_energy torsion_energy vdw_energy
  have hn : (dihydrogen u v).num_bonds = 1 := rfl
  have hb : (dihydrogen u v).bond 0 = ⟨0, 1, 1⟩ := rfl
  have ha : dihydrogen_ff.angles_ = [] := rfl
  have ht : dihydrogen_ff.torsions_ = [] := rfl
  have hv : dihydrogen_ff.nonbonded_pairs_ = [] := rfl
  rw [hn, ha, ht, hv]
  simp only [List.range_succ, List.range_zero, List.nil_append, List.foldl_cons, List.foldl_nil]
  unfold bond_stretch_energy_step
  simp only [hb, dihydrogen_distance u v h, dihydrogen_bond_length, dihydrogen_force_constant]
  norm_num

/-- The gradient of dihydrogen. -/
theorem dihydrogen_gradient (u v : ℝ) (h : u + 1e-10 ≤ v) :
    calculate_gradient sample_uff_params dihydrogen_ff (dihydrogen u v) =
      [-(dihydrogen_k * (v - u - dihydrogen_r0)), 0, 0,
        dihydrogen_k * (v - u - dihydrogen_r0), 0, 0] := by
  have huv : u < v := by
    have : (0:ℝ) < 1e-10 := by norm_num
    linarith
  unfold calculate_gradient bond_stretch_gradient angle_bend_gradient torsion_gradient
    vdw_gradient
  have hn : (dihydrogen u v).num_bonds = 1 := rfl
  have hna : (dihydrogen u v).num_atoms = 2 := rfl
  have hb : (dihydrogen u v).bond 0 = ⟨0, 1, 1⟩ := rfl
  have ha : dihydrogen_ff.angles_ = [] := rfl
  have ht : dihydrogen_ff.torsions_ = [] := rfl
  have hv : dihydrogen_ff.nonbonded_pairs_ = [] := rfl
  simp only [hn, hna, ha, ht, hv]
  simp only [List.range_succ, List.range_zero, List.nil_append, List.foldl_cons, List.foldl_nil]
  unfold bond_stretch_gradient_step
  simp only [hb, dihydrogen_distance u v (le_of_lt huv), dihydrogen_bond_length,
    dihydrogen_force_constant]
  rw [if_neg (by linarith)]
  have h0 : ((dihydrogen u v).atom 0).position = ⟨u, 0, 0⟩ := rfl
  have h1 : ((dihydrogen u v).atom 1).position = ⟨v, 0, 0⟩ := rfl
  rw [h0, h1]
  have hne : v - u ≠ 0 := by linarith
  simp only [segment_add, segment_sub, Vec3.smul, Vec3.sdiv, Vec3.sub, List.replicate,
    List.modify, List.modifyHead, List.modifyTailIdx]
  norm_num
  have key : ∀ X : ℝ, X * (u - v) / (v - u) = -X := by
    intro X
    field_simp
    ring
  rw [key]
  exact ⟨rfl, neg_neg _⟩

/-- The per-atom root-mean-square gradient of dihydrogen. -/
theorem dihydrogen_grad_rms (u v : ℝ) (h : u + 1e-10 ≤ v) :
    grad_rms sample_uff_params dihydrogen_ff (dihydrogen u v) =
      |dihydrogen_k * (v - u - dihydrogen_r0)| := by
  unfold grad_rms vec_norm vec_squared_norm
  rw [dihydrogen_gradient u v h]
  have hna : (dihydrogen u v).num_atoms = 2 := rfl
  rw [hna]
  simp only [List.foldl_cons, List.foldl_nil, arith_sqrt_real, arith_ofInt_real]
  norm_num
  rw [show dihydrogen_k * (v - u - dihydrogen_r0) * (dihydrogen_k * (v - u - dihydrogen_r0)) +
      dihydrogen_k * (v - u - dihydrogen_r0) * (dihydrogen_k * (v - u - dihydrogen_r0)) =
      2 * (|dihydrogen_k * (v - u - dihydrogen_r0)| * |dihydrogen_k * (v - u - dihydrogen_r0)|)
    by rw [abs_mul_abs_self]; ring]
  rw [Real.sqrt_mul (by norm_num), Real.sqrt_mul_self (abs_nonneg _)]
  field_simp

/-- The normalized descent direction of dihydrogen stretched beyond its natural
length. -/
theorem dihydrogen_direction (u v : ℝ) (h : u + dihydrogen_r0 < v) :
    vec_normalized
        ((calculate_gradient sample_uff_params dihydrogen_ff (dihydrogen u v)).map fun g => -g) =
      [√2 / 2, 0, 0, -(√2 / 2), 0, 0] := by
  have hr0 : (0:ℝ) < dihydrogen_r0 := by unfold dihydrogen_r0; norm_num
  have hk : (0:ℝ) < dihydrogen_k := by unfold dihydrogen_k; norm_num
  have hg : 0 < dihydrogen_k * (v - u - dihydrogen_r0) := mul_pos hk (by linarith)
  rw [dihydrogen_gradient u v (by unfold dihydrogen_r0 at h; norm_num at h ⊢; linarith)]
  generalize dihydrogen_k * (v - u - dihydrogen_r0) = g at hg
  unfold vec_normalized vec_squared_norm
  simp only [List.map_cons, List.map_nil, List.foldl_cons, List.foldl_nil, arith_sqrt_real]
  norm_num
  have hs : √(g * g + g * g) = √2 * g := by
    rw [show g * g + g * g = 2 * (g * g) by ring, Real.sqrt_mul (by norm_num),
      Real.sqrt_mul_self (le_of_lt hg)]
  have hpos : 0 < g * g + g * g := by positivity
  rw [if_neg (ne_of_gt hg), hs]
  have h2 : (√2 : ℝ) ≠ 0 := by positivity
  have h22 : (√2 : ℝ) * √2 = 2 := Real.mul_self_sqrt (by norm_num)
  have hgne : g ≠ 0 := ne_of_gt hg
  simp only [List.cons.injEq, and_true, true_and]
  constructor
  · field_simp
    rw [← mul_assoc, h22]
    ring
  · field_simp
    rw [← mul_assoc, h22]
    ring

end dihydrogen_run

section dihydrogen_steps
open Real

theorem dihydrogen_write (u v a0 a1 a2 a3 a4 a5 : ℝ) :
    (dihydrogen u v).write_positions [a0, a1, a2, a3, a4, a5] =
      { atoms := [⟨1, "H", ⟨a0, a1, a2⟩⟩, ⟨1, "H", ⟨a3, a4, a5⟩⟩], bonds := [⟨0, 1, 1⟩] } := rfl

theorem trial_positions_six (a0 a1 a2 a3 a4 a5 b0 b1 b2 b3 b4 b5 alpha : ℝ) :
    trial_positions [a0, a1, a2, a3, a4, a5] [b0, b1, b2, b3, b4, b5] alpha =
      [a0 + alpha * b0, a1 + alpha * b1, a2 + alpha * b2, a3 + alpha * b3, a4 + alpha * b4,
        a5 + alpha * b5] := rfl

/-- The trial molecule of dihydrogen stretched beyond its natural length: both
atoms move towards each other by `alpha / √2`. -/
theorem dihydrogen_trial_mol (u v E step : ℝ) (ls : Nat) (h : u + dihydrogen_r0 < v) :
    trial_mol sample_uff_params dihydrogen_ff ⟨dihydrogen u v, E, step⟩ ls =
      dihydrogen (u + trial_alpha step ls * (√2 / 2)) (v - trial_alpha step ls * (√2 / 2)) := by
  unfold trial_mol
  simp only [dihydrogen_direction u v h]
  have hp : (dihydrogen u v).get_positions = [u, 0, 0, v, 0, 0] := rfl
  rw [hp, trial_positions_six, dihydrogen_write]
  unfold dihydrogen
  simp only [mul_zero, add_zero, mul_neg]
  rfl

/-- A line search that accepts its first trial. -/
theorem sd_next_of_first {F : Type} [Arith F] [Inhabited F] (P : String → UFFAtomType F)
    (ff : UFFForceField) (s : SDState F) (h : trial_accepted P ff s 0) :
    sd_next P ff s = accepted_state P ff s 0 := by
  unfold sd_next first_accepted
  rw [List.range'_succ, List.find?_cons]
  simp only [h, decide_True]

/-- One iteration on stretched dihydrogen with a step short enough to descend:
the first trial is accepted. -/
theorem dihydrogen_step (u v step : ℝ) (h : u + dihydrogen_r0 < v) (hstep : 0 < step)
    (hle : step * √2 ≤ v - u) (hsmall : step * √2 < 2 * (v - u - dihydrogen_r0)) :
    sd_next sample_uff_params dihydrogen_ff
        ⟨dihydrogen u v, calculate_energy sample_uff_params dihydrogen_ff (dihydrogen u v),
          step⟩ =
      ⟨dihydrogen (u + step * (√2 / 2)) (v - step * (√2 / 2)),
        calculate_energy sample_uff_params dihydrogen_ff
          (dihydrogen (u + step * (√2 / 2)) (v - step * (√2 / 2))),
        fmin (step * 1.2) 0.5⟩ := by
  have hr0 : (0:ℝ) < dihydrogen_r0 := by unfold dihydrogen_r0; norm_num
  have hk : (0:ℝ) < dihydrogen_k := by unfold dihydrogen_k; norm_num
  have hacc : trial_accepted sample_uff_params dihydrogen_ff
      ⟨dihydrogen u v, calculate_energy sample_uff_params dihydrogen_ff (dihydrogen u v),
        step⟩ 0 := by
    unfold trial_accepted
    rw [dihydrogen_trial_mol u v _ step 0 h]
    simp only [trial_alpha]
    rw [dihydrogen_energy _ _ (by linarith), dihydrogen_energy u v (by linarith)]
    have e1 : v - step * (√2 / 2) - (u + step * (√2 / 2)) - dihydrogen_r0 =
        (v - u - dihydrogen_r0) - step * √2 := by ring
    rw [e1]
    have hpos : 0 < step * √2 := mul_pos hstep (by positivity)
    nlinarith [mul_pos hk hpos]
  rw [sd_next_of_first _ _ _ hacc]
  unfold accepted_state
  rw [dihydrogen_trial_mol u v _ step 0 h]
  rfl

end dihydrogen_steps

section dihydrogen_sample_run
open Real

theorem sqrt_two_bounds : (1.4142 : ℝ) < √2 ∧ √2 < (1.4143 : ℝ) := by
  constructor
  · rw [Real.lt_sqrt (by norm_num)]
    norm_num
  · rw [Real.sqrt_lt' (by norm_num)]
    norm_num

theorem dihydrogen_k_bounds : (948 : ℝ) < dihydrogen_k ∧ dihydrogen_k < 949 := by
  unfold dihydrogen_k
  constructor <;> norm_num

theorem fmin_first_step : fmin ((0.01 : ℝ) * 1.2) 0.5 = 0.012 := by
  unfold fmin
  rw [if_neg (by norm_num)]
  norm_num

/-- The state at the head of iteration 1 of the sample run. -/
theorem dihydrogen_state_one :
    sd_next sample_uff_params dihydrogen_ff
        ⟨dihydrogen_start,
          calculate_energy sample_uff_params dihydrogen_ff dihydrogen_start, 0.01⟩ =
      ⟨dihydrogen_first, calculate_energy sample_uff_params dihydrogen_ff dihydrogen_first,
        0.012⟩ := by
  obtain ⟨hs1, hs2⟩ := sqrt_two_bounds
  unfold dihydrogen_start dihydrogen_first
  rw [dihydrogen_step 0 0.758 0.01 (by unfold dihydrogen_r0; norm_num) (by norm_num)
    (by nlinarith) (by unfold dihydrogen_r0; nlinarith), fmin_first_step]

/-- The state after the line search of iteration 1 of the sample run. -/
theorem dihydrogen_state_two :
    sd_next sample_uff_params dihydrogen_ff
        ⟨dihydrogen_first, calculate_energy sample_uff_params dihydrogen_ff dihydrogen_first,
          0.012⟩ =
      ⟨dihydrogen_second, calculate_energy sample_uff_params dihydrogen_ff dihydrogen_second,
        fmin (0.012 * 1.2) 0.5⟩ := by
  obtain ⟨hs1, hs2⟩ := sqrt_two_bounds
  unfold dihydrogen_first dihydrogen_second
  rw [dihydrogen_step _ _ 0.012 (by unfold dihydrogen_r0; nlinarith) (by norm_num)
    (by nlinarith) (by unfold dihydrogen_r0; nlinarith)]

theorem dihydrogen_energy_start :
    calculate_energy sample_uff_params dihydrogen_ff dihydrogen_start =
      0.5 * dihydrogen_k * 0.05 * 0.05 := by
  unfold dihydrogen_start
  rw [dihydrogen_energy _ _ (by norm_num)]
  unfold dihydrogen_r0
  norm_num

theorem dihydrogen_energy_first :
    calculate_energy sample_uff_params dihydrogen_ff dihydrogen_first =
      0.5 * dihydrogen_k * (0.05 - 0.01 * √2) * (0.05 - 0.01 * √2) := by
  obtain ⟨hs1, hs2⟩ := sqrt_two_bounds
  unfold dihydrogen_first
  rw [dihydrogen_energy _ _ (by nlinarith)]
  unfold dihydrogen_r0
  ring

theorem dihydrogen_energy_second :
    calculate_energy sample_uff_params dihydrogen_ff dihydrogen_second =
      0.5 * dihydrogen_k * (0.05 - 0.022 * √2) * (0.05 - 0.022 * √2) := by
  obtain ⟨hs1, hs2⟩ := sqrt_two_bounds
  unfold dihydrogen_second
  rw [dihydrogen_energy _ _ (by nlinarith)]
  unfold dihydrogen_r0
  ring

theorem dihydrogen_rms_start :
    grad_rms sample_uff_params dihydrogen_ff dihydrogen_start = dihydrogen_k * 0.05 := by
  obtain ⟨hk1, hk2⟩ := dihydrogen_k_bounds
  unfold dihydrogen_start
  rw [dihydrogen_grad_rms _ _ (by norm_num)]
  unfold dihydrogen_r0
  rw [abs_of_pos (by nlinarith)]
  norm_num

theorem dihydrogen_rms_first :
    grad_rms sample_uff_params dihydrogen_ff dihydrogen_first =
      dihydrogen_k * (0.05 - 0.01 * √2) := by
  obtain ⟨hs1, hs2⟩ := sqrt_two_bounds
  obtain ⟨hk1, hk2⟩ := dihydrogen_k_bounds
  unfold dihydrogen_first
  rw [dihydrogen_grad_rms _ _ (by nlinarith)]
  unfold dihydrogen_r0
  have e : (0.758 - 0.01 * (√2 / 2) - (0 + 0.01 * (√2 / 2)) - 0.708 : ℝ) = 0.05 - 0.01 * √2 := by
    ring
  rw [e, abs_of_pos (mul_pos (by linarith) (by nlinarith))]

theorem dihydrogen_rms_second :
    grad_rms sample_uff_params dihydrogen_ff dihydrogen_second =
      dihydrogen_k * (0.05 - 0.022 * √2) := by
  obtain ⟨hs1, hs2⟩ := sqrt_two_bounds
  obtain ⟨hk1, hk2⟩ := dihydrogen_k_bounds
  unfold dihydrogen_second
  rw [dihydrogen_grad_rms _ _ (by nlinarith)]
  unfold dihydrogen_r0
  have e : (0.758 - 0.01 * (√2 / 2) - 0.012 * (√2 / 2) -
      (0 + 0.01 * (√2 / 2) + 0.012 * (√2 / 2)) - 0.708 : ℝ) = 0.05 - 0.022 * √2 := by
    ring
  rw [e, abs_of_pos (mul_pos (by linarith) (by nlinarith))]

/-- The sample run: two records, then the energy test of iteration 1 ends it. -/
theorem dihydrogen_run (cb : Bool) :
    steepest_descent sample_uff_params dihydrogen_ff coarse_settings cb dihydrogen_start =
      .ok ⟨{ converged := true, iterations := 1,
             final_energy := calculate_energy sample_uff_params dihydrogen_ff dihydrogen_second,
             final_grad_norm := grad_rms sample_uff_params dihydrogen_ff dihydrogen_first,
             trajectory :=
               [{ iteration := 0,
                  energy := calculate_energy sample_uff_params dihydrogen_ff dihydrogen_start,
                  grad_norm := grad_rms sample_uff_params dihydrogen_ff dihydrogen_start,
                  positions := dihydrogen_start.get_positions },
                { iteration := 1,
                  energy := calculate_energy sample_uff_params dihydrogen_ff dihydrogen_first,
                  grad_norm := grad_rms sample_uff_params dihydrogen_ff dihydrogen_first,
                  positions := dihydrogen_first.get_positions }] },
           dihydrogen_second,
           if cb then
             [{ iteration := 0,
                energy := calculate_energy sample_uff_params dihydrogen_ff dihydrogen_start,
                grad_norm := grad_rms sample_uff_params dihydrogen_ff dihydrogen_start,
                positions := dihydrogen_start.get_positions },
              { iteration := 1,
                energy := calculate_energy sample_uff_params dihydrogen_ff dihydrogen_first,
                grad_norm := grad_rms sample_uff_params dihydrogen_ff dihydrogen_first,
                positions := dihydrogen_first.get_positions }]
           else []⟩ := by
  obtain ⟨hs1, hs2⟩ := sqrt_two_bounds
  obtain ⟨hk1, hk2⟩ := dihydrogen_k_bounds
  unfold steepest_descent
  have hfuel : coarse_settings.max_iterations.toNat = 198 + 1 + 1 := rfl
  have hgt : coarse_settings.grad_tolerance = 1e-3 := rfl
  have het : coarse_settings.energy_tolerance = 0.5 := rfl
  rw [hfuel]
  rw [sd_loop_continue _ _ _ _ _ _ _ _ _
    (by rw [dihydrogen_rms_start, hgt]; norm_num; nlinarith)
    (by rintro ⟨h0, _⟩; exact absurd h0 (by decide))]
  rw [dihydrogen_state_one]
  rw [sd_loop_energy_exit _ _ _ _ _ _ _ _ _
    (by
      show ¬ grad_rms sample_uff_params dihydrogen_ff dihydrogen_first < _
      rw [dihydrogen_rms_first, hgt]
      norm_num
      nlinarith)
    (by decide)
    (by
      rw [dihydrogen_state_two]
      show |calculate_energy sample_uff_params dihydrogen_ff dihydrogen_second -
        calculate_energy sample_uff_params dihydrogen_ff dihydrogen_first| < _
      rw [dihydrogen_energy_second, dihydrogen_energy_first, het, abs_lt]
      have h22 : (√2 : ℝ) * √2 = 2 := Real.mul_self_sqrt (by norm_num)
      constructor <;> nlinarith)]
  rw [dihydrogen_state_two]
  cases cb <;> rfl

end dihydrogen_sample_run

section helium_run
open Real

theorem helium_gradient :
    calculate_gradient sample_uff_params helium_ff helium_atom = [0, 0, 0] := by
  unfold calculate_gradient bond_stretch_gradient angle_bend_gradient torsion_gradient
    vdw_gradient
  have hn : helium_atom.num_bonds = 0 := rfl
  have hna : helium_atom.num_atoms = 1 := rfl
  have ha : helium_ff.angles_ = [] := rfl
  have ht : helium_ff.torsions_ = [] := rfl
  have hv : helium_ff.nonbonded_pairs_ = [] := rfl
  simp only [hn, hna, ha, ht, hv, List.range_zero, List.foldl_nil, List.replicate]
  norm_num

theorem helium_grad_rms : grad_rms sample_uff_params helium_ff helium_atom = 0 := by
  unfold grad_rms vec_norm vec_squared_norm
  rw [helium_gradient]
  simp only [List.foldl_cons, List.foldl_nil, arith_sqrt_real, arith_ofInt_real]
  norm_num

/-- A single atom under the default settings: the gradient test ends the run in
iteration 0, after one record. -/
theorem helium_run (cb : Bool) :
    steepest_descent sample_uff_params helium_ff default_sd_settings cb helium_atom =
      .ok ⟨{ converged := true, iterations := 0,
             final_energy := calculate_energy sample_uff_params helium_ff helium_atom,
             final_grad_norm := grad_rms sample_uff_params helium_ff helium_atom,
             trajectory :=
               [{ iteration := 0,
                  energy := calculate_energy sample_uff_params helium_ff helium_atom,
                  grad_norm := grad_rms sample_uff_params helium_ff helium_atom,
                  positions := helium_atom.get_positions }] },
           helium_atom,
           if cb then
             [{ iteration := 0,
                energy := calculate_energy sample_uff_params helium_ff helium_atom,
                grad_norm := grad_rms sample_uff_params helium_ff helium_atom,
                positions := helium_atom.get_positions }]
           else []⟩ := by
  unfold steepest_descent
  have hfuel : default_sd_settings.max_iterations.toNat = 499 + 1 := rfl
  have hgt : default_sd_settings.grad_tolerance = 1e-4 := rfl
  rw [hfuel, sd_loop_grad_exit _ _ _ _ _ _ _ _ _ (by
    show grad_rms sample_uff_params helium_ff helium_atom < _
    rw [helium_grad_rms, hgt]
    norm_num)]
  cases cb <;> rfl

end helium_run

section optimizer_exhibits
open Real

/-- C16 as stated fails on stretched dihydrogen with an energy tolerance of 0.5:
the run converges in iteration 1 with a gradient norm above the tolerance,
and the energies of its two progress records differ by more than 0.5. -/
theorem sd_converged_with_large_record_gap :
    ∃ out, steepest_descent sample_uff_params dihydrogen_ff coarse_settings false
        dihydrogen_start = .ok out ∧
      out.result.converged = true ∧
      ¬ out.result.final_grad_norm < coarse_settings.grad_tolerance ∧
      ∃ r0 r1, out.result.trajectory = [r0, r1] ∧
        ¬ |r1.energy - r0.energy| < coarse_settings.energy_tolerance := by
  obtain ⟨hs1, hs2⟩ := sqrt_two_bounds
  obtain ⟨hk1, hk2⟩ := dihydrogen_k_bounds
  have h22 : (√2 : ℝ) * √2 = 2 := Real.mul_self_sqrt (by norm_num)
  have hgt : coarse_settings.grad_tolerance = 1e-3 := rfl
  have het : coarse_settings.energy_tolerance = 0.5 := rfl
  refine ⟨_, dihydrogen_run false, rfl, ?_, _, _, rfl, ?_⟩
  · show ¬ grad_rms sample_uff_params dihydrogen_ff dihydrogen_first < _
    rw [dihydrogen_rms_first, hgt]
    norm_num
    nlinarith
  · show ¬ |calculate_energy sample_uff_params dihydrogen_ff dihydrogen_first -
      calculate_energy sample_uff_params dihydrogen_ff dihydrogen_start| < _
    rw [dihydrogen_energy_first, dihydrogen_energy_start, het, not_lt]
    rw [abs_sub_comm, le_abs]
    left
    nlinarith

theorem sd_converged_validity_witness :
    ∃ out, steepest_descent sample_uff_params dihydrogen_ff coarse_settings false
        dihydrogen_start = .ok out ∧
      out.result.converged = true ∧
      (out.result.final_grad_norm < coarse_settings.grad_tolerance ∨
        (2 ≤ out.result.trajectory.length ∧
          Arith.abs (out.result.final_energy - (trajectory_back out.result.trajectory).energy) <
            coarse_settings.energy_tolerance)) :=
  ⟨_, dihydrogen_run false, rfl,
    sd_converged_validity sample_uff_params dihydrogen_ff coarse_settings false dihydrogen_start
      _ (dihydrogen_run false) rfl⟩

theorem sd_descent_monotone_witness :
    ∃ out, steepest_descent sample_uff_params dihydrogen_ff coarse_settings false
        dihydrogen_start = .ok out ∧
      0 + 1 < out.result.trajectory.length ∧
      ∃ r0 r1, out.result.trajectory.get? 0 = some r0 ∧
        out.result.trajectory.get? (0 + 1) = some r1 ∧
        ((∃ ls, ls < 20 ∧ trial_accepted sample_uff_params dihydrogen_ff
            (sd_state sample_uff_params dihydrogen_ff dihydrogen_start 0) ls) →
          r1.energy < r0.energy) := by
  obtain ⟨r0, r1, h0, h1, _, _, _, hacc, _⟩ :=
    sd_descent_monotone sample_uff_params dihydrogen_ff coarse_settings false dihydrogen_start
      _ (dihydrogen_run false) 0 (by show 0 + 1 < 2; decide)
  exact ⟨_, dihydrogen_run false, by show 0 + 1 < 2; decide, r0, r1, h0, h1, hacc⟩

/-- C18 fails on stretched dihydrogen: the run ends in the energy test of
iteration 1; `final_energy` is the energy of the final geometry, but
`final_grad_norm` is the gradient norm of the geometry before the last line
search, which differs from that of the final geometry. -/
theorem sd_final_grad_norm_is_stale :
    ∃ out, steepest_descent sample_uff_params dihydrogen_ff coarse_settings false
        dihydrogen_start = .ok out ∧
      out.result.converged = true ∧
      out.result.final_energy = calculate_energy sample_uff_params dihydrogen_ff out.mol ∧
      out.result.final_grad_norm = dihydrogen_k * (0.05 - 0.01 * √2) ∧
      grad_rms sample_uff_params dihydrogen_ff out.mol = dihydrogen_k * (0.05 - 0.022 * √2) ∧
      out.result.final_grad_norm ≠ grad_rms sample_uff_params dihydrogen_ff out.mol := by
  obtain ⟨hs1, hs2⟩ := sqrt_two_bounds
  obtain ⟨hk1, hk2⟩ := dihydrogen_k_bounds
  refine ⟨_, dihydrogen_run false, rfl, rfl, dihydrogen_rms_first, dihydrogen_rms_second, ?_⟩
  show grad_rms sample_uff_params dihydrogen_ff dihydrogen_first ≠
    grad_rms sample_uff_params dihydrogen_ff dihydrogen_second
  rw [dihydrogen_rms_first, dihydrogen_rms_second]
  intro h
  nlinarith

/-- C19 as stated fails on a single atom under the default settings: the run
converges in iteration 0 and reports `iterations = 0`, yet one progress record
was reported and the callback was invoked once. -/
theorem sd_iterations_not_record_count :
    ∃ out, steepest_descent sample_uff_params helium_ff default_sd_settings true helium_atom =
        .ok out ∧
      out.result.converged = true ∧ out.result.iterations = 0 ∧
      out.result.trajectory.length = 1 ∧ out.callbacks.length = 1 ∧
      out.result.iterations ≠ (out.result.trajectory.length : Int) :=
  ⟨_, helium_run true, rfl, rfl, rfl, rfl, by decide⟩

theorem sd_iterations_on_converged_witness :
    ∃ out, steepest_descent sample_uff_params dihydrogen_ff coarse_settings true
        dihydrogen_start = .ok out ∧
      out.result.converged = true ∧
      out.result.iterations + 1 = (out.result.trajectory.length : Int) ∧
      out.callbacks.length = out.result.trajectory.length := by
  have h := sd_iterations_on_converged sample_uff_params dihydrogen_ff coarse_settings true
    dihydrogen_start _ (dihydrogen_run true) rfl
  exact ⟨_, dihydrogen_run true, rfl, h.1, h.2.2 rfl⟩

end optimizer_exhibits

/-! ## Molecular graph: positions, neighbourhood queries, frame of the mutators -/

section flatten_lemmas

variable {F : Type} [Inhabited F]

/-- Three consecutive entries of a sequence. -/
theorem take_three_drop (p : List F) (k : Nat) (h : 3 * k + 3 ≤ p.length) :
    (p.drop (3 * k)).take 3 =
      [p.getD (3 * k) default, p.getD (3 * k + 1) default, p.getD (3 * k + 2) default] := by
  apply List.ext_getElem
  · simp; omega
  · intro n h1 h2
    have hn : n < 3 := by simpa using h2
    simp only [List.getElem_take, List.getElem_drop]
    interval_cases n
    · simp [List.getD_eq_getElem?_getD, List.getElem?_eq_getElem (show 3 * k < p.length by omega)]
    · simp [List.getD_eq_getElem?_getD,
        List.getElem?_eq_getElem (show 3 * k + 1 < p.length by omega)]
    · simp [List.getD_eq_getElem?_getD,
        List.getElem?_eq_getElem (show 3 * k + 2 < p.length by omega)]

/-- Flattening the atoms written from entry `3k` on gives back those entries. -/
theorem flatten_written (p : List F) :
    ∀ (atoms : List (Atom F)) (k : Nat), 3 * k + 3 * atoms.length ≤ p.length →
      ((atoms.enumFrom k).map fun q : Nat × Atom F =>
          ({ q.2 with
            position := ⟨p.getD (3 * q.1) default, p.getD (3 * q.1 + 1) default,
              p.getD (3 * q.1 + 2) default⟩ } : Atom F)).flatMap
        (fun a => [a.position.x, a.position.y, a.position.z]) =
      (p.drop (3 * k)).take (3 * atoms.length) := by
  intro atoms
  induction atoms with
  | nil => intro k _; simp
  | cons a as ih =>
    intro k h
    simp only [List.length_cons] at h
    rw [List.enumFrom_cons, List.map_cons, List.flatMap_cons, ih (k + 1) (by omega)]
    simp only [List.length_cons]
    have h3 : 3 * (as.length + 1) = 3 + 3 * as.length := by omega
    rw [h3, List.take_add, take_three_drop p k (by omega), List.drop_drop]
    have h4 : 3 * k + 3 = 3 * (k + 1) := by omega
    rw [h4]

end flatten_lemmas

/-- The entries of the flattened positions: atom-major, xyz-minor. -/
theorem get_positions_entries {F : Type} (mol : Molecule F) (i : Nat) (hi : i < mol.atoms.length) :
    mol.get_positions.get? (3 * i) = some (mol.atoms.get ⟨i, hi⟩).position.x ∧
    mol.get_positions.get? (3 * i + 1) = some (mol.atoms.get ⟨i, hi⟩).position.y ∧
    mol.get_positions.get? (3 * i + 2) = some (mol.atoms.get ⟨i, hi⟩).position.z := by
  have key : ∀ (as : List (Atom F)) (k : Nat) (hk : k < as.length),
      (as.flatMap fun a => [a.position.x, a.position.y, a.position.z])[3 * k]? =
          some (as.get ⟨k, hk⟩).position.x ∧
      (as.flatMap fun a => [a.position.x, a.position.y, a.position.z])[3 * k + 1]? =
          some (as.get ⟨k, hk⟩).position.y ∧
      (as.flatMap fun a => [a.position.x, a.position.y, a.position.z])[3 * k + 2]? =
          some (as.get ⟨k, hk⟩).position.z := by
    intro as
    induction as with
    | nil => intro k hk; cases hk
    | cons a as ih =>
      intro k hk
      cases k with
      | zero => simp [List.flatMap_cons]
      | succ k =>
        have hk2 : k < as.length := by simpa using hk
        obtain ⟨e1, e2, e3⟩ := ih k hk2
        have s1 : 3 * (k + 1) = 3 * k + 3 := by omega
        have s2 : 3 * k + 3 + 1 = 3 * k + 1 + 3 := by omega
        have s3 : 3 * k + 3 + 2 = 3 * k + 2 + 3 := by omega
        simp only [List.flatMap_cons, List.get_cons_succ]
        rw [s1, s2, s3]
        refine ⟨?_, ?_, ?_⟩
        · rw [List.getElem?_append_right (by simp)]
          simpa using e1
        · rw [List.getElem?_append_right (by simp)]
          simpa using e2
        · rw [List.getElem?_append_right (by simp)]
          simpa using e3
  unfold Molecule.get_positions
  simp only [List.get?_eq_getElem?]
  exact key mol.atoms i hi

section positions_claims

variable {F : Type} [Inhabited F]

/-- Reading back what was written: the flattened positions are the vector. -/
theorem get_positions_write (mol : Molecule F) (p : List F)
    (h : p.length = 3 * mol.atoms.length) :
    (mol.write_positions p).get_positions = p := by
  unfold Molecule.get_positions Molecule.write_positions
  simp only [List.enum]
  have := flatten_written p mol.atoms 0 (by omega)
  rw [this, List.drop_zero, ← h, List.take_length]

/-- Writing the flattened positions of a molecule changes nothing. -/
theorem write_get_positions (mol : Molecule F) :
    mol.write_positions mol.get_positions = mol := by
  unfold Molecule.write_positions
  have key : (mol.atoms.enum.map fun q : Nat × Atom F =>
      ({ q.2 with
        position := ⟨mol.get_positions.getD (3 * q.1) default,
          mol.get_positions.getD (3 * q.1 + 1) default,
          mol.get_positions.getD (3 * q.1 + 2) default⟩ } : Atom F)) = mol.atoms := by
    apply List.ext_getElem
    · simp
    · intro i h1 h2
      obtain ⟨e1, e2, e3⟩ := get_positions_entries mol i h2
      simp only [List.get?_eq_getElem?] at e1 e2 e3
      simp only [List.getElem_map, List.getElem_enum, List.getD_eq_getElem?_getD, e1, e2, e3,
        Option.getD_some]
      rfl
  rw [key]

end positions_claims

section mutator_claims

variable {F : Type} [Inhabited F]

/-- The atom that `set_positions` leaves at index `i`. -/
theorem write_positions_atom (mol : Molecule F) (p : List F) (i : Nat)
    (hi : i < mol.atoms.length) :
    (mol.write_positions p).atoms.get? i =
      some { mol.atoms.get ⟨i, hi⟩ with
        position := ⟨p.getD (3 * i) default, p.getD (3 * i + 1) default,
          p.getD (3 * i + 2) default⟩ } := by
  unfold Molecule.write_positions
  simp only [List.get?_eq_getElem?, List.getElem?_map]
  rw [List.getElem?_eq_getElem (by simpa using hi)]
  simp [List.getElem_enum]

/-- The call and the function form of `set_positions` agree. -/
theorem set_positions_call_eq (mol : Molecule F) (p : List F) :
    mol.set_positions_call p =
      match mol.set_positions p with
      | .ok m => (.ok (), m)
      | .error e => (.error e, mol) := by
  unfold Molecule.set_positions_call Molecule.set_positions
  by_cases h : p.length ≠ 3 * mol.atoms.length
  · rw [if_pos h, if_pos h]
  · rw [if_neg h, if_neg h]

/-- C22: `set_positions(p)` throws the size-mismatch error exactly when the
length of `p` is not `3 * num_atoms`; a throwing call leaves the molecule as it
was; a returning call leaves at every index `i` the old atom with position
`(p[3i], p[3i+1], p[3i+2])`, and the bonds as they were. -/
theorem set_positions_spec (mol : Molecule F) (p : List F) :
    ((mol.set_positions_call p).1 = .error "Position vector size mismatch" ↔
      p.length ≠ 3 * mol.num_atoms) ∧
    ((mol.set_positions_call p).1 = .ok () ↔ p.length = 3 * mol.num_atoms) ∧
    (p.length ≠ 3 * mol.num_atoms → (mol.set_positions_call p).2 = mol) ∧
    (p.length = 3 * mol.num_atoms →
      (mol.set_positions_call p).2.bonds = mol.bonds ∧
      (mol.set_positions_call p).2.num_atoms = mol.num_atoms ∧
      ∀ i (hi : i < mol.atoms.length), ∃ x y z,
        p.get? (3 * i) = some x ∧ p.get? (3 * i + 1) = some y ∧ p.get? (3 * i + 2) = some z ∧
        (mol.set_positions_call p).2.atoms.get? i =
          some { mol.atoms.get ⟨i, hi⟩ with position := ⟨x, y, z⟩ }) := by
  unfold Molecule.set_positions_call Molecule.num_atoms
  by_cases h : p.length ≠ 3 * mol.atoms.length
  · rw [if_pos h]
    refine ⟨⟨fun _ => h, fun _ => rfl⟩, ⟨fun h1 => (nomatch h1), fun h1 => absurd h1 h⟩,
      fun _ => rfl, fun h1 => absurd h1 h⟩
  · rw [if_neg h]
    have h2 : p.length = 3 * mol.atoms.length := not_not.1 h
    refine ⟨⟨fun h1 => (nomatch h1), fun h1 => absurd h2 h1⟩, ⟨fun _ => h2, fun _ => rfl⟩,
      fun h1 => absurd h2 h1, fun _ => ⟨rfl, write_positions_length mol p, ?_⟩⟩
    intro i hi
    have g : ∀ k, k < p.length → p.get? k = some (p.getD k default) := by
      intro k hk
      rw [List.get?_eq_getElem?, List.getD_eq_getElem?_getD, List.getElem?_eq_getElem hk]
      rfl
    exact ⟨_, _, _, g _ (by omega), g _ (by omega), g _ (by omega),
      write_positions_atom mol p i hi⟩

/-- C23: `get_positions` returns `3 * num_atoms` entries, entries `3i`, `3i+1`,
`3i+2` being the coordinates of atom `i`; after `set_positions(p)` with `p` of
that length it returns exactly `p`; and `set_positions(get_positions())`
succeeds and leaves the molecule unchanged. -/
theorem get_set_positions_inverse (mol : Molecule F) :
    mol.get_positions.length = 3 * mol.num_atoms ∧
    (∀ i (hi : i < mol.atoms.length),
      mol.get_positions.get? (3 * i) = some (mol.atoms.get ⟨i, hi⟩).position.x ∧
      mol.get_positions.get? (3 * i + 1) = some (mol.atoms.get ⟨i, hi⟩).position.y ∧
      mol.get_positions.get? (3 * i + 2) = some (mol.atoms.get ⟨i, hi⟩).position.z) ∧
    (∀ p : List F, p.length = 3 * mol.num_atoms →
      (mol.set_positions_call p).1 = .ok () ∧
      (mol.set_positions_call p).2.get_positions = p) ∧
    mol.set_positions_call mol.get_positions = (.ok (), mol) := by
  refine ⟨get_positions_length mol, get_positions_entries mol, ?_, ?_⟩
  · intro p hp
    unfold Molecule.set_positions_call
    rw [if_neg (by simpa using hp)]
    exact ⟨rfl, get_positions_write mol p hp⟩
  · unfold Molecule.set_positions_call
    rw [if_neg (by simpa using get_positions_length mol), write_get_positions]

end mutator_claims

section perceive_frame

variable {F : Type} [Arith F] [Inhabited F]

/-- Once an exception is in flight the rest of the loop does nothing. -/
theorem perceive_call_stuck (mol : Molecule F) (tolerance : F) (i : Nat) (l : List Nat) :
    ∀ (st : List Bond × Option String) (e : String), st.2 = some e →
      l.foldl (perceive_call_step mol tolerance i) st = st := by
  induction l with
  | nil => intro st e _; rfl
  | cons x l ihl =>
    intro st e he
    rw [List.foldl_cons]
    have : perceive_call_step mol tolerance i st x = st := by
      unfold perceive_call_step
      rw [he]
    rw [this]
    exact ihl st e he

/-- The inner loop of `perceive_bonds`, both models, when no pair throws. -/
theorem perceive_call_inner_ok (mol : Molecule F) (tolerance : F) (i : Nat) :
    ∀ (js : List Nat) (bonds b : List Bond),
      js.foldlM (perceive_step mol tolerance i) bonds = .ok b →
      js.foldl (perceive_call_step mol tolerance i) (bonds, none) = (b, none) := by
  intro js
  induction js with
  | nil =>
    intro bonds b h
    injection h with h
    rw [List.foldl_nil, h]
  | cons j js ih =>
    intro bonds b h
    rw [List.foldlM_cons] at h
    rw [List.foldl_cons]
    cases hs : perceive_step mol tolerance i bonds j with
    | ok b1 =>
      rw [hs] at h
      have h1 : perceive_call_step mol tolerance i (bonds, none) j = (b1, none) := by
        unfold perceive_call_step
        simp only [hs]
      rw [h1]
      exact ih b1 b h
    | error e =>
      rw [hs] at h
      cases h

/-- The inner loop of `perceive_bonds`, both models, when some pair throws. -/
theorem perceive_call_inner_error (mol : Molecule F) (tolerance : F) (i : Nat) :
    ∀ (js : List Nat) (bonds : List Bond) (e : String),
      js.foldlM (perceive_step mol tolerance i) bonds = .error e →
      (js.foldl (perceive_call_step mol tolerance i) (bonds, none)).2 = some e := by
  intro js
  induction js with
  | nil => intro bonds e h; cases h
  | cons j js ih =>
    intro bonds e h
    rw [List.foldlM_cons] at h
    rw [List.foldl_cons]
    cases hs : perceive_step mol tolerance i bonds j with
    | ok b1 =>
      rw [hs] at h
      have h1 : perceive_call_step mol tolerance i (bonds, none) j = (b1, none) := by
        unfold perceive_call_step
        simp only [hs]
      rw [h1]
      exact ih b1 e h
    | error e1 =>
      rw [hs] at h
      have he : e1 = e := by injection h
      have h1 : perceive_call_step mol tolerance i (bonds, none) j = (bonds, some e1) := by
        unfold perceive_call_step
        simp only [hs]
      rw [h1, perceive_call_stuck mol tolerance i js _ e1 rfl, he]

/-- The two models of `perceive_bonds` agree: the call returns exactly when the
function does, with the same molecule, and throws the same exception. -/
theorem perceive_bonds_call_eq (mol : Molecule F) (tolerance : F) :
    (∀ m, mol.perceive_bonds tolerance = .ok m →
      mol.perceive_bonds_call tolerance = (.ok (), m)) ∧
    (∀ e, mol.perceive_bonds tolerance = .error e →
      (mol.perceive_bonds_call tolerance).1 = .error e) := by
  have outer : ∀ (is : List Nat) (bonds : List Bond),
      (∀ b, is.foldlM (fun bonds i => (List.range' (i + 1) (mol.num_atoms - (i + 1))).foldlM
          (perceive_step mol tolerance i) bonds) bonds = .ok b →
        is.foldl (fun st i => (List.range' (i + 1) (mol.num_atoms - (i + 1))).foldl
          (perceive_call_step mol tolerance i) st) (bonds, none) = (b, none)) ∧
      (∀ e, is.foldlM (fun bonds i => (List.range' (i + 1) (mol.num_atoms - (i + 1))).foldlM
          (perceive_step mol tolerance i) bonds) bonds = .error e →
        (is.foldl (fun st i => (List.range' (i + 1) (mol.num_atoms - (i + 1))).foldl
          (perceive_call_step mol tolerance i) st) (bonds, none)).2 = some e) := by
    intro is
    induction is with
    | nil =>
      intro bonds
      refine ⟨fun b h => ?_, fun e h => (nomatch h)⟩
      injection h with h
      rw [List.foldl_nil, h]
    | cons i is ih =>
      intro bonds
      simp only [List.foldlM_cons, List.foldl_cons]
      cases hs : (List.range' (i + 1) (mol.num_atoms - (i + 1))).foldlM
          (perceive_step mol tolerance i) bonds with
      | ok b1 =>
        rw [perceive_call_inner_ok mol tolerance i _ bonds b1 hs]
        exact ih b1
      | error e1 =>
        have h1 := perceive_call_inner_error mol tolerance i _ bonds e1 hs
        have hstuck : ∀ (l : List Nat) (st : List Bond × Option String), st.2 = some e1 →
            l.foldl (fun st i => (List.range' (i + 1) (mol.num_atoms - (i + 1))).foldl
              (perceive_call_step mol tolerance i) st) st = st := by
          intro l
          induction l with
          | nil => intro st _; rfl
          | cons x l ihl =>
            intro st hst
            rw [List.foldl_cons, perceive_call_stuck mol tolerance x _ st e1 hst]
            exact ihl st hst
        refine ⟨fun b h => (nomatch h), fun e h => ?_⟩
        have he : e1 = e := by injection h
        rw [hstuck is _ h1, h1, he]
  constructor
  · intro m hm
    unfold Molecule.perceive_bonds at hm
    cases hf : (List.range mol.num_atoms).foldlM
        (fun bonds i => (List.range' (i + 1) (mol.num_atoms - (i + 1))).foldlM
          (perceive_step mol tolerance i) bonds) [] with
    | ok b =>
      simp only [hf, bind, Except.bind, pure, Except.pure] at hm
      injection hm with hm
      unfold Molecule.perceive_bonds_call
      simp only [(outer _ []).1 b hf]
      rw [← hm]
    | error e =>
      simp only [hf, bind, Except.bind] at hm
      cases hm
  · intro e he
    unfold Molecule.perceive_bonds at he
    cases hf : (List.range mol.num_atoms).foldlM
        (fun bonds i => (List.range' (i + 1) (mol.num_atoms - (i + 1))).foldlM
          (perceive_step mol tolerance i) bonds) [] with
    | ok b =>
      simp only [hf, bind, Except.bind, pure, Except.pure] at he
      cases he
    | error e1 =>
      simp only [hf, bind, Except.bind] at he
      have he1 : e1 = e := by injection he
      unfold Molecule.perceive_bonds_call
      simp only [(outer _ []).2 e1 hf, he1]

/-- Both models of `perceive_bonds` leave the atoms alone. -/
theorem perceive_bonds_call_frame (mol : Molecule F) (tolerance : F) :
    (mol.perceive_bonds_call tolerance).2.atoms = mol.atoms ∧
    (∀ m, mol.perceive_bonds tolerance = .ok m → m.atoms = mol.atoms) := by
  refine ⟨rfl, ?_⟩
  intro m hm
  unfold Molecule.perceive_bonds at hm
  simp only [bind, Except.bind, pure, Except.pure] at hm
  split at hm
  · cases hm
  · injection hm with hm
    rw [← hm]

/-- C25: atom indices are stable. `add_atom` puts the new atom at index
`num_atoms` and keeps every atom and the bonds; `add_bond` appends one bond and
keeps the atoms; `set_positions` (returning or throwing) keeps the number of
atoms, every atomic number and symbol, and the bonds; `perceive_bonds`
(returning or throwing) keeps the atoms, positions included. -/
theorem atom_indices_stable (mol : Molecule F) (a : Atom F) (b : Bond) (p : List F)
    (tolerance : F) :
    ((mol.add_atom a).num_atoms = mol.num_atoms + 1 ∧
      (mol.add_atom a).atoms.get? mol.num_atoms = some a ∧
      (∀ i, i < mol.num_atoms → (mol.add_atom a).atoms.get? i = mol.atoms.get? i) ∧
      (mol.add_atom a).bonds = mol.bonds) ∧
    ((mol.add_bond b).atoms = mol.atoms ∧ (mol.add_bond b).bonds = mol.bonds ++ [b]) ∧
    ((mol.set_positions_call p).2.num_atoms = mol.num_atoms ∧
      (mol.set_positions_call p).2.atoms.map (fun x => (x.atomic_number, x.symbol)) =
        mol.atoms.map (fun x => (x.atomic_number, x.symbol)) ∧
      (mol.set_positions_call p).2.bonds = mol.bonds) ∧
    ((mol.perceive_bonds_call tolerance).2.atoms = mol.atoms ∧
      (∀ m, mol.perceive_bonds tolerance = .ok m → m.atoms = mol.atoms)) := by
  refine ⟨⟨?_, ?_, ?_, rfl⟩, ⟨rfl, rfl⟩, ?_, perceive_bonds_call_frame mol tolerance⟩
  · simp [Molecule.add_atom, Molecule.num_atoms]
  · simp [Molecule.add_atom, Molecule.num_atoms, List.get?_eq_getElem?]
  · intro i hi
    simp only [Molecule.add_atom, List.get?_eq_getElem?]
    rw [List.getElem?_append_left (by simpa [Molecule.num_atoms] using hi)]
  · unfold Molecule.set_positions_call
    by_cases h : p.length ≠ 3 * mol.atoms.length
    · rw [if_pos h]
      exact ⟨rfl, rfl, rfl⟩
    · rw [if_neg h]
      refine ⟨write_positions_length mol p, ?_, rfl⟩
      unfold Molecule.write_positions
      apply List.ext_getElem
      · simp
      · intro i h1 h2
        simp [List.getElem_enum]

end perceive_frame

section graph_claims

variable {F : Type}

/-- The loop of `bonded_to` appends, bond by bond, the partner of the atom. -/
theorem bonded_to_fold (i : Nat) (bs : List Bond) :
    ∀ acc : List Nat,
      bs.foldl
        (fun neighbors b =>
          if b.atom_i = i then neighbors ++ [b.atom_j]
          else if b.atom_j = i then neighbors ++ [b.atom_i]
          else neighbors) acc =
      acc ++ bs.flatMap (fun b =>
        if b.atom_i = i then [b.atom_j] else if b.atom_j = i then [b.atom_i] else []) := by
  induction bs with
  | nil => intro acc; simp
  | cons b bs ih =>
    intro acc
    rw [List.foldl_cons, ih, List.flatMap_cons]
    by_cases h1 : b.atom_i = i
    · simp [h1]
    · by_cases h2 : b.atom_j = i
      · simp [h1, h2]
      · simp [h1, h2]

theorem bonded_to_eq_flatMap (mol : Molecule F) (i : Nat) :
    mol.bonded_to i = mol.bonds.flatMap (fun b =>
      if b.atom_i = i then [b.atom_j] else if b.atom_j = i then [b.atom_i] else []) := by
  unfold Molecule.bonded_to
  rw [bonded_to_fold]
  simp

/-- Without self-bonds `bonded_to` returns the adjacency row read off the bonds. -/
theorem bonded_to_eq_neighbor_row (mol : Molecule F) (hs : NoSelfBond mol) (i : Nat) :
    mol.bonded_to i = neighbor_row mol.bonds i := by
  rw [bonded_to_eq_flatMap]
  unfold neighbor_row
  apply List.flatMap_congr
  intro b hb
  have h := hs b hb
  by_cases h1 : b.atom_i = i
  · have h2 : ¬ b.atom_j = i := fun h2 => h (h1.trans h2.symm)
    simp [h1, h2]
  · by_cases h2 : b.atom_j = i
    · simp [h1, h2]
    · simp [h1, h2]

/-- The list `bonded_to` has one entry for every bond that mentions the atom. -/
theorem bonded_to_length (mol : Molecule F) (i : Nat) :
    (mol.bonded_to i).length =
      mol.bonds.countP (fun b => decide (b.atom_i = i ∨ b.atom_j = i)) := by
  rw [bonded_to_eq_flatMap]
  induction mol.bonds with
  | nil => simp
  | cons b bs ih =>
    rw [List.flatMap_cons, List.length_append, ih, List.countP_cons]
    by_cases h1 : b.atom_i = i
    · simp [h1]; omega
    · by_cases h2 : b.atom_j = i
      · simp [h1, h2]; omega
      · simp [h1, h2]

/-- Atom `j` is listed for `i` as often as `i` is listed for `j`. -/
theorem bonded_to_count_symm (mol : Molecule F) (i j : Nat) :
    (mol.bonded_to i).count j = (mol.bonded_to j).count i := by
  rw [bonded_to_eq_flatMap, bonded_to_eq_flatMap]
  by_cases hij : i = j
  · rw [hij]
  have key : ∀ a c : Nat,
      List.count j (if a = i then [c] else if c = i then [a] else []) =
        List.count i (if a = j then [c] else if c = j then [a] else []) := by
    intro a c
    by_cases h1 : a = i <;> by_cases h2 : c = i <;> by_cases h3 : a = j <;>
      by_cases h4 : c = j <;>
      simp_all [List.count_singleton, List.count_nil]
  induction mol.bonds with
  | nil => simp
  | cons b bs ih =>
    rw [List.flatMap_cons, List.flatMap_cons, List.count_append, List.count_append, ih,
      key b.atom_i b.atom_j]

theorem adjacency_step_length (adj : List (List Nat)) (b : Bond) :
    (Molecule.adjacency_step adj b).length = adj.length := by
  simp [Molecule.adjacency_step]

/-- The adjacency list has one row per atom. -/
theorem adjacency_list_length (mol : Molecule F) :
    mol.adjacency_list.length = mol.num_atoms := by
  unfold Molecule.adjacency_list Molecule.num_atoms
  have key : ∀ (bs : List Bond) (acc : List (List Nat)),
      (bs.foldl Molecule.adjacency_step acc).length = acc.length := by
    intro bs
    induction bs with
    | nil => intro acc; rfl
    | cons b bs ih => intro acc; rw [List.foldl_cons, ih, adjacency_step_length]
  rw [key]
  simp

/-- The order query does not depend on the order of its two arguments. -/
theorem bond_order_between_symm (mol : Molecule F) (i j : Nat) :
    mol.bond_order_between i j = mol.bond_order_between j i := by
  unfold Molecule.bond_order_between
  have h : (fun b : Bond => (b.atom_i == i && b.atom_j == j) || (b.atom_i == j && b.atom_j == i)) =
      (fun b : Bond => (b.atom_i == j && b.atom_j == i) || (b.atom_i == i && b.atom_j == j)) := by
    funext b
    exact Bool.or_comm _ _
  rw [h]

/-- C24: in a molecule whose bonds have valid and distinct endpoints, for atom
indices `i` and `j`: `bond_order_between` is symmetric; `j` occurs in
`bonded_to(i)` as often as `i` in `bonded_to(j)`; `degree(i)` is the number of
bonds containing `i`, the length of `bonded_to(i)` and the length of row `i` of
`adjacency_list()`; and that row is `bonded_to(i)` as a sequence. -/
theorem graph_queries_agree (mol : Molecule F) (hv : ValidBonds mol) (hs : NoSelfBond mol)
    (i j : Nat) (hi : i < mol.num_atoms) (hj : j < mol.num_atoms) :
    mol.bond_order_between i j = mol.bond_order_between j i ∧
    (mol.bonded_to i).count j = (mol.bonded_to j).count i ∧
    mol.degree i = mol.bonds.countP (fun b => decide (b.atom_i = i ∨ b.atom_j = i)) ∧
    mol.degree i = (mol.bonded_to i).length ∧
    mol.adjacency_list.get? i = some (mol.bonded_to i) ∧
    mol.degree i = (mol.adjacency_list.getD i []).length := by
  have hrow : mol.adjacency_list.getD i [] = mol.bonded_to i := by
    rw [adjacency_list_row mol i hi, bonded_to_eq_neighbor_row mol hs]
  refine ⟨bond_order_between_symm mol i j, bonded_to_count_symm mol i j, degree_eq_countP mol i,
    ?_, ?_, ?_⟩
  · rw [degree_eq_countP, bonded_to_length]
  · rw [← hrow, List.get?_eq_getElem?, List.getD_eq_getElem?_getD,
      List.getElem?_eq_getElem (by rw [adjacency_list_length]; exact hi)]
    rfl
  · rw [hrow, degree_eq_countP, bonded_to_length]

theorem graph_queries_agree_witness :
    (ValidBonds ethene ∧ NoSelfBond ethene ∧ 0 < ethene.num_atoms ∧ 1 < ethene.num_atoms) ∧
    (ethene.bond_order_between 0 1 = ethene.bond_order_between 1 0 ∧
    (ethene.bonded_to 0).count 1 = (ethene.bonded_to 1).count 0 ∧
    ethene.degree 0 = ethene.bonds.countP (fun b => decide (b.atom_i = 0 ∨ b.atom_j = 0)) ∧
    ethene.degree 0 = (ethene.bonded_to 0).length ∧
    ethene.adjacency_list.get? 0 = some (ethene.bonded_to 0) ∧
    ethene.degree 0 = (ethene.adjacency_list.getD 0 []).length) :=
  ⟨⟨by unfold ValidBonds; decide, by unfold NoSelfBond; decide, by decide, by decide⟩,
    graph_queries_agree ethene (by unfold ValidBonds; decide) (by unfold NoSelfBond; decide)
      0 1 (by decide) (by decide)⟩

end graph_claims

section positions_field

variable {F : Type} [Arith F] [Inhabited F]

/-- A line search moves the atoms; it neither adds nor removes one. -/
theorem sd_next_num_atoms (P : String → UFFAtomType F) (ff : UFFForceField) (s : SDState F) :
    (sd_next P ff s).mol.atoms.length = s.mol.atoms.length := by
  rcases sd_next_cases P ff s with ⟨ls, _, _, _, h⟩ | ⟨_, h⟩
  · rw [h]
    exact write_positions_length _ _
  · rw [h]
    exact write_positions_length _ _

/-- Every state of a run has the atoms of the molecule the run started on. -/
theorem sd_state_num_atoms (P : String → UFFAtomType F) (ff : UFFForceField)
    (mol : Molecule F) (k : Nat) :
    (sd_state P ff mol k).mol.atoms.length = mol.atoms.length := by
  induction k with
  | zero => rfl
  | succ k ih =>
    show (sd_next P ff (sd_state P ff mol k)).mol.atoms.length = _
    rw [sd_next_num_atoms, ih]

/-- What a returning call of the objective closure does to its state. -/
theorem objective_call_ok (P : String → UFFAtomType F) (ff : UFFForceField)
    (settings : OptSettings F) (cb : Bool) (self : UFFObjective F) (x : List F)
    (hx : x.length = 3 * self.mol_.atoms.length) :
    ∃ v, (UFFObjective.call P ff settings cb self x).1 = .ok v ∧
      (UFFObjective.call P ff settings cb self x).2.mol_ = self.mol_.write_positions x ∧
      (UFFObjective.call P ff settings cb self x).2.trajectory_ =
        (if cb = true ∨ settings.store_trajectory = true then
          self.trajectory_ ++ [
            { iteration := self.iter_,
              energy := v.1,
              grad_norm := vec_norm v.2 /
                Arith.sqrt (Arith.ofInt (self.mol_.write_positions x).num_atoms),
              positions := if settings.store_trajectory then x else [] }]
        else self.trajectory_) := by
  unfold UFFObjective.call
  rw [set_positions_ok _ _ hx]
  refine ⟨(calculate_energy P ff (self.mol_.write_positions x),
    calculate_gradient P ff (self.mol_.write_positions x)), rfl, ?_, ?_⟩
  · by_cases hemit : cb = true ∨ settings.store_trajectory = true
    · simp only [hemit, if_true]
    · simp only [hemit, if_false]
  · by_cases hemit : cb = true ∨ settings.store_trajectory = true
    · simp only [hemit, if_true]
    · simp only [hemit, if_false]

/-- A throwing call of the objective closure leaves its state alone. -/
theorem objective_call_error (P : String → UFFAtomType F) (ff : UFFForceField)
    (settings : OptSettings F) (cb : Bool) (self : UFFObjective F) (x : List F)
    (hx : x.length ≠ 3 * self.mol_.atoms.length) :
    (UFFObjective.call P ff settings cb self x).2 = self := by
  unfold UFFObjective.call Molecule.set_positions
  rw [if_pos hx]

/-- Every record kept by the objective closure has the positions field that the
setting prescribes. -/
theorem objective_calls_positions (P : String → UFFAtomType F) (ff : UFFForceField)
    (settings : OptSettings F) (cb : Bool) (n : Nat) :
    ∀ (xs : List (List F)) (self : UFFObjective F), self.mol_.atoms.length = n →
      (∀ r ∈ self.trajectory_,
        r.positions.length = (if settings.store_trajectory then 3 * n else 0)) →
      (UFFObjective.calls P ff settings cb self xs).mol_.atoms.length = n ∧
      ∀ r ∈ (UFFObjective.calls P ff settings cb self xs).trajectory_,
        r.positions.length = (if settings.store_trajectory then 3 * n else 0) := by
  intro xs
  induction xs with
  | nil => intro self hn h; exact ⟨hn, h⟩
  | cons x xs ih =>
    intro self hn h
    unfold UFFObjective.calls
    by_cases hx : x.length = 3 * self.mol_.atoms.length
    · obtain ⟨v, h1, h2, h3⟩ := objective_call_ok P ff settings cb self x hx
      cases hc : UFFObjective.call P ff settings cb self x with
      | mk r self2 =>
        rw [hc] at h1 h2 h3
        simp only at h1 h2 h3
        rw [h1]
        apply ih self2
        · rw [h2, write_positions_length, hn]
        · intro r hr
          rw [h3] at hr
          by_cases hemit : cb = true ∨ settings.store_trajectory = true
          · rw [if_pos hemit, List.mem_append, List.mem_singleton] at hr
            rcases hr with hr | hr
            · exact h r hr
            · rw [hr]
              cases hst : settings.store_trajectory with
              | true => simp [hx, hn]
              | false => simp
          · rw [if_neg hemit] at hr
            exact h r hr
    · have h1 := objective_call_error P ff settings cb self x hx
      cases hc : UFFObjective.call P ff settings cb self x with
      | mk r self2 =>
        rw [hc] at h1
        simp only at h1
        cases r with
        | error e => simp only; rw [h1]; exact ⟨hn, h⟩
        | ok v =>
          exfalso
          have : (UFFObjective.call P ff settings cb self x).1 = .ok v := by rw [hc]
          unfold UFFObjective.call Molecule.set_positions at this
          rw [if_pos hx] at this
          cases this

/-- C21: in every steepest-descent run the run returns, and record `k` of
`result.trajectory` (the callback, when there is one, receives the same records)
has as `positions` the flattened positions of the molecule at the head of
iteration `k`, of length `3 * num_atoms`, when `store_trajectory` is true, and
the empty sequence when it is false. The same holds of the objective closure of
L-BFGS: a returning call on `x` leaves the molecule with flattened positions `x`
and, when it emits a record, that record has `positions = x` of length
`3 * num_atoms` under `store_trajectory` and empty `positions` otherwise; so
has every record kept after any sequence of calls. -/
theorem progress_positions_field (P : String → UFFAtomType F) (ff : UFFForceField)
    (settings : OptSettings F) (cb : Bool) (mol : Molecule F) :
    (∃ out n, steepest_descent P ff settings cb mol = .ok out ∧
      out.result.trajectory.length = n ∧
      out.callbacks = (if cb then out.result.trajectory else []) ∧
      ∀ k, k < n → ∃ r, out.result.trajectory.get? k = some r ∧
        (settings.store_trajectory = true →
          r.positions = (sd_state P ff mol k).mol.get_positions ∧
          r.positions.length = 3 * mol.num_atoms) ∧
        (settings.store_trajectory = false → r.positions = [])) ∧
    (∀ (self : UFFObjective F) (x : List F), x.length = 3 * self.mol_.num_atoms →
      ∃ v, (UFFObjective.call P ff settings cb self x).1 = .ok v ∧
        (UFFObjective.call P ff settings cb self x).2.mol_.get_positions = x ∧
        (UFFObjective.call P ff settings cb self x).2.mol_.num_atoms = self.mol_.num_atoms ∧
        if cb = true ∨ settings.store_trajectory = true then
          ∃ r, (UFFObjective.call P ff settings cb self x).2.trajectory_ =
              self.trajectory_ ++ [r] ∧
            r.positions = (if settings.store_trajectory then x else [])
        else (UFFObjective.call P ff settings cb self x).2.trajectory_ = self.trajectory_) ∧
    (∀ (xs : List (List F)),
      (UFFObjective.calls P ff settings cb (UFFObjective.init mol) xs).callbacks =
        (if cb then (UFFObjective.calls P ff settings cb (UFFObjective.init mol) xs).trajectory_
          else []) ∧
      ∀ r ∈ (UFFObjective.calls P ff settings cb (UFFObjective.init mol) xs).trajectory_,
        (settings.store_trajectory = true → r.positions.length = 3 * mol.num_atoms) ∧
        (settings.store_trajectory = false → r.positions = [])) := by
  refine ⟨?_, ?_, ?_⟩
  · obtain ⟨out, n, h1, h2, h3, _⟩ := steepest_descent_trace P ff settings cb mol
    refine ⟨out, n, h1, by rw [h2]; simp, h3, ?_⟩
    intro k hk
    refine ⟨sd_record P ff settings (sd_state P ff mol k) k, ?_, ?_, ?_⟩
    · rw [h2]
      exact get?_map_range _ n k hk
    · intro hst
      unfold sd_record
      simp only [hst, if_true]
      refine ⟨trivial, ?_⟩
      rw [get_positions_length, sd_state_num_atoms]
      rfl
    · intro hst
      unfold sd_record
      simp only [hst]
      rfl
  · intro self x hx
    obtain ⟨v, h1, h2, h3⟩ := objective_call_ok P ff settings cb self x hx
    refine ⟨v, h1, ?_, ?_, ?_⟩
    · rw [h2]
      exact get_positions_write _ _ hx
    · rw [h2]
      exact write_positions_length _ _
    · rw [h3]
      by_cases hemit : cb = true ∨ settings.store_trajectory = true
      · rw [if_pos hemit, if_pos hemit]
        exact ⟨_, rfl, rfl⟩
      · rw [if_neg hemit, if_neg hemit]
  · intro xs
    have hinv := objective_calls_invariant P ff settings cb xs (UFFObjective.init mol)
      ⟨fun k r hk => by simp [UFFObjective.init] at hk, by cases cb <;> rfl, fun _ => rfl⟩
    refine ⟨hinv.2.1, ?_⟩
    intro r hr
    have h := (objective_calls_positions P ff settings cb mol.atoms.length xs
      (UFFObjective.init mol) rfl (fun r hr => by simp [UFFObjective.init] at hr)).2 r hr
    constructor
    · intro hst
      rw [hst] at h
      simpa using h
    · intro hst
      rw [hst] at h
      exact List.length_eq_zero.1 (by simpa using h)

end positions_field

/-! ## Text: lines, integers, words -/

section text_lemmas

theorem getline_nil : getline [] = none := rfl

theorem getline_eq_none (s : List Char) : getline s = none ↔ s = [] := by
  cases s with
  | nil => simp [getline]
  | cons c s => simp [getline]

/-- A line read by `getline` holds no newline. -/
theorem getline_no_newline (s line rest : List Char) (h : getline s = some (line, rest)) :
    newline ∉ line := by
  cases s with
  | nil => cases h
  | cons c s =>
    simp only [getline, Option.some.injEq, Prod.mk.injEq] at h
    rw [← h.1]
    intro hmem
    have := List.mem_takeWhile_imp hmem
    simp at this

/-- Reading back a line that was written with its newline. -/
theorem getline_append (line rest : List Char) (h : newline ∉ line) :
    getline (line ++ newline :: rest) = some (line, rest) := by
  have h1 : ∀ x ∈ line, (x != newline) = true := by
    intro x hx
    simp only [bne_iff_ne, ne_eq]
    intro hx2
    exact h (hx2 ▸ hx)
  have ht : (line ++ newline :: rest).takeWhile (fun x => x != newline) = line := by
    rw [List.takeWhile_append_of_pos h1]
    simp [List.takeWhile_cons]
  have hd : (line ++ newline :: rest).dropWhile (fun x => x != newline) = newline :: rest := by
    rw [List.dropWhile_append_of_pos h1]
    simp [List.dropWhile_cons]
  cases hl : line ++ newline :: rest with
  | nil => simp at hl
  | cons c s =>
    rw [hl] at ht hd
    simp only [getline, ht, hd, List.drop_succ_cons, List.drop_zero]

theorem digits_value_append (ds : List Char) (c : Char) :
    digits_value (ds ++ [c]) = 10 * digits_value ds + (c.toNat - 48) := by
  simp [digits_value, List.foldl_append]

theorem digitChar_spec (k : Nat) (hk : k < 10) :
    (Nat.digitChar k).isDigit = true ∧ (Nat.digitChar k).toNat - 48 = k := by
  interval_cases k <;> decide

/-- The decimal digits that `toDigitsCore` puts in front of its accumulator. -/
theorem toDigitsCore_spec :
    ∀ (fuel n : Nat) (acc : List Char), n < fuel →
      ∃ ds, Nat.toDigitsCore 10 fuel n acc = ds ++ acc ∧ ds ≠ [] ∧
        (∀ c ∈ ds, c.isDigit = true) ∧ digits_value ds = n := by
  intro fuel
  induction fuel with
  | zero => intro n acc h; omega
  | succ fuel ih =>
    intro n acc h
    have hd := digitChar_spec (n % 10) (Nat.mod_lt _ (by decide))
    unfold Nat.toDigitsCore
    by_cases h0 : n / 10 = 0
    · simp only [h0, if_true]
      refine ⟨[Nat.digitChar (n % 10)], rfl, by simp, ?_, ?_⟩
      · intro c hc
        rw [List.mem_singleton.1 hc]
        exact hd.1
      · simp only [digits_value, List.foldl_cons, List.foldl_nil]
        rw [hd.2]
        omega
    · simp only [h0, if_false]
      obtain ⟨ds, h1, h2, h3, h4⟩ := ih (n / 10) (Nat.digitChar (n % 10) :: acc) (by omega)
      refine ⟨ds ++ [Nat.digitChar (n % 10)], ?_, by simp, ?_, ?_⟩
      · rw [h1]
        simp
      · intro c hc
        rcases List.mem_append.1 hc with hc | hc
        · exact h3 c hc
        · rw [List.mem_singleton.1 hc]
          exact hd.1
      · rw [digits_value_append, h4, hd.2]
        omega

/-- The text of a natural number: digits only, at least one, with its value. -/
theorem show_nat_spec (n : Nat) :
    show_nat n ≠ [] ∧ (∀ c ∈ show_nat n, c.isDigit = true) ∧ digits_value (show_nat n) = n := by
  obtain ⟨ds, h1, h2, h3, h4⟩ := toDigitsCore_spec (n + 1) n [] (by omega)
  unfold show_nat Nat.toDigits
  rw [h1, List.append_nil]
  exact ⟨h2, h3, h4⟩

theorem isDigit_not_space (c : Char) (h : c.isDigit = true) : is_space c = false := by
  unfold Char.isDigit at h
  unfold is_space
  simp only [Bool.and_eq_true, decide_eq_true_eq] at h
  have h1 : 48 ≤ c.toNat := by
    have := h.1
    exact this
  simp only [Bool.or_eq_false_iff, beq_eq_false_iff_ne, ne_eq, Bool.and_eq_false_imp,
    decide_eq_true_eq, decide_eq_false_iff_not, not_le]
  constructor
  · omega
  · intro _
    omega

theorem isDigit_not_sign (c : Char) (h : c.isDigit = true) :
    c ≠ Char.ofNat 45 ∧ c ≠ Char.ofNat 43 ∧ c ≠ newline := by
  refine ⟨?_, ?_, ?_⟩ <;> intro hc <;> rw [hc] at h <;> revert h <;> decide

/-- The digits at the head of a text: `stoi` reads them and ignores the rest. -/
theorem stoi_digits (ds rest : List Char) (hne : ds ≠ [])
    (hd : ∀ c ∈ ds, c.isDigit = true) (hrest : ∀ c, rest.head? = some c → c.isDigit = false)
    (hv : digits_value ds ≤ 2147483647) :
    stoi (ds ++ rest) = some (digits_value ds : Int) := by
  cases hds : ds with
  | nil => exact absurd hds hne
  | cons c cs =>
    have hc : c.isDigit = true := hd c (by rw [hds]; simp)
    have hsp := isDigit_not_space c hc
    obtain ⟨hm, hp, _⟩ := isDigit_not_sign c hc
    have htake : (ds ++ rest).takeWhile Char.isDigit = ds := by
      rw [List.takeWhile_append_of_pos hd]
      cases rest with
      | nil => simp
      | cons r rs =>
        have := hrest r rfl
        simp [List.takeWhile_cons, this]
    rw [hds] at htake
    unfold stoi
    simp only [List.cons_append, List.dropWhile_cons, hsp, Bool.false_eq_true, if_false,
      List.head?_cons]
    have e1 : (some c == some (Char.ofNat 45)) = false := by
      simp only [beq_eq_false_iff_ne, ne_eq, Option.some.injEq]
      exact hm
    have e2 : (some c == some (Char.ofNat 43)) = false := by
      simp only [beq_eq_false_iff_ne, ne_eq, Option.some.injEq]
      exact hp
    simp only [e1, e2, Bool.or_self, Bool.false_eq_true, if_false]
    rw [← List.cons_append, htake]
    rw [hds] at hv
    simp only [List.isEmpty_cons, Bool.false_eq_true, if_false]
    rw [if_neg (by omega)]

/-- The text written for a count is read back as that count. -/
theorem stoi_show_nat (n : Nat) (hn : n ≤ 2147483647) : stoi (show_nat n) = some (n : Int) := by
  obtain ⟨h1, h2, h3⟩ := show_nat_spec n
  have := stoi_digits (show_nat n) [] h1 h2 (by simp) (by rw [h3]; exact hn)
  rw [List.append_nil, h3] at this
  exact this

/-- A text without a digit is no integer for `stoi`. -/
theorem stoi_no_digit (str : List Char) (h : ∀ c ∈ str, c.isDigit = false) :
    stoi str = none := by
  unfold stoi
  simp only
  have hsub : ∀ c ∈ (if ((str.dropWhile is_space).head? == some (Char.ofNat 45) ||
      (str.dropWhile is_space).head? == some (Char.ofNat 43)) = true
      then (str.dropWhile is_space).drop 1 else str.dropWhile is_space), c.isDigit = false := by
    intro c hc
    apply h
    split at hc
    · exact (List.dropWhile_sublist _).subset ((List.drop_sublist _ _).subset hc)
    · exact (List.dropWhile_sublist _).subset hc
  have hemp : (List.takeWhile Char.isDigit (if ((str.dropWhile is_space).head? ==
      some (Char.ofNat 45) || (str.dropWhile is_space).head? == some (Char.ofNat 43)) = true
      then (str.dropWhile is_space).drop 1 else str.dropWhile is_space)) = [] := by
    generalize (if ((str.dropWhile is_space).head? == some (Char.ofNat 45) ||
      (str.dropWhile is_space).head? == some (Char.ofNat 43)) = true
      then (str.dropWhile is_space).drop 1 else str.dropWhile is_space) = l at hsub
    cases l with
    | nil => rfl
    | cons c l => simp [List.takeWhile_cons, hsub c (by simp)]
  rw [hemp]
  rfl

/-- The values `stoi` returns are values of `int`. -/
theorem stoi_range (str : List Char) (v : Int) (h : stoi str = some v) :
    -2147483648 ≤ v ∧ v ≤ 2147483647 := by
  unfold stoi at h
  simp only at h
  split_ifs at h <;> injection h with h <;> omega

/-- A word followed by a blank is read back as that word. -/
theorem read_word_append (w rest : List Char) (hne : w ≠ [])
    (hw : ∀ c ∈ w, is_space c = false) :
    read_word (w ++ Char.ofNat 32 :: rest) = some (w, Char.ofNat 32 :: rest) := by
  have hsp : is_space (Char.ofNat 32) = true := by decide
  have hw2 : ∀ x ∈ w, (!is_space x) = true := by
    intro x hx
    rw [hw x hx]
    rfl
  have hdrop0 : (w ++ Char.ofNat 32 :: rest).dropWhile is_space = w ++ Char.ofNat 32 :: rest := by
    cases hws : w with
    | nil => exact absurd hws hne
    | cons c cs =>
      have hc : is_space c = false := hw c (by rw [hws]; simp)
      simp [List.dropWhile_cons, hc]
  have htake : (w ++ Char.ofNat 32 :: rest).takeWhile (fun c => !is_space c) = w := by
    rw [List.takeWhile_append_of_pos hw2]
    simp [List.takeWhile_cons, hsp]
  have hdrop : (w ++ Char.ofNat 32 :: rest).dropWhile (fun c => !is_space c) =
      Char.ofNat 32 :: rest := by
    rw [List.dropWhile_append_of_pos hw2]
    simp [List.dropWhile_cons, hsp]
  unfold read_word
  simp only [hdrop0, htake, hdrop]
  rw [if_neg (by simp)]

/-- What `read_word` returns: a word without white space, at least one character. -/
theorem read_word_spec (s w rest : List Char) (h : read_word s = some (w, rest)) :
    w ≠ [] ∧ (∀ c ∈ w, is_space c = false) := by
  unfold read_word at h
  simp only at h
  split at h
  · cases h
  · rename_i hne
    simp only [Option.some.injEq, Prod.mk.injEq] at h
    rw [← h.1]
    constructor
    · cases hs : s.dropWhile is_space with
      | nil => rw [hs] at hne; simp at hne
      | cons c l =>
        have hc : ¬ is_space c = true := by
          have := List.head_dropWhile_not is_space s (by rw [hs]; simp)
          simpa [hs] using this
        simp [List.takeWhile_cons, hc]
    · intro c hc
      have := List.mem_takeWhile_imp hc
      simpa using this

end text_lemmas

/-! ## The symbol lookup -/

section symbol_lemmas

theorem lookup_some_mem {β : Type} (k : String) :
    ∀ (l : List (String × β)) (v : β), l.lookup k = some v → (k, v) ∈ l := by
  intro l
  induction l with
  | nil => intro v h; cases h
  | cons p l ih =>
    intro v h
    obtain ⟨a, b⟩ := p
    by_cases hk : k = a
    · subst hk
      simp only [List.lookup_cons, beq_self_eq_true] at h
      injection h with h
      rw [h]
      exact List.mem_cons_self _ _
    · have hb : (k == a) = false := by simpa using hk
      simp only [List.lookup_cons, hb] at h
      exact List.mem_cons_of_mem _ (ih v h)

theorem lookup_none_iff {β : Type} (k : String) :
    ∀ (l : List (String × β)), l.lookup k = none ↔ ∀ p ∈ l, p.1 ≠ k := by
  intro l
  induction l with
  | nil => simp
  | cons p l ih =>
    obtain ⟨a, b⟩ := p
    by_cases hk : k = a
    · subst hk
      simp [List.lookup_cons]
    · have hb : (k == a) = false := by simpa using hk
      simp only [List.lookup_cons, hb, ih, List.mem_cons, forall_eq_or_imp]
      exact ⟨fun h => ⟨fun h2 => hk h2.symm, h⟩, fun h => h.2⟩

variable {F : Type} [Arith F]

/-- Every entry of the symbol map points at the row that carries its symbol, and
the atomic number of that row is its index. -/
theorem symbol_map_rows :
    ∀ p ∈ symbol_map (F := F), p.2 < 55 ∧
      ((ELEMENT_TABLE (F := F)).getD p.2 ⟨0, "X", "Dummy", 0.000, 0.00, 0.00⟩).symbol = p.1 ∧
      ((ELEMENT_TABLE (F := F)).getD p.2 ⟨0, "X", "Dummy", 0.000, 0.00, 0.00⟩).atomic_number =
        (p.2 : Int) :=
  of_decide_eq_true rfl

/-- The keys of the symbol map are the symbols of the table. -/
theorem symbol_map_keys :
    (symbol_map (F := F)).map Prod.fst =
      ((ELEMENT_TABLE (F := F)).map fun row => row.symbol).reverse :=
  rfl

theorem element_table_length : (ELEMENT_TABLE (F := F)).length = 55 := rfl

/-- A symbol that is found is the symbol of a row of the table; the atomic
number of that row is within the table. -/
theorem element_by_symbol_ok (symbol : String) (elem : ElementInfo F)
    (h : element_by_symbol (F := F) symbol = .ok elem) :
    elem ∈ ELEMENT_TABLE (F := F) ∧ elem.symbol = symbol ∧
      0 ≤ elem.atomic_number ∧ elem.atomic_number < 55 := by
  unfold element_by_symbol at h
  cases hl : (symbol_map (F := F)).lookup symbol with
  | none => rw [hl] at h; cases h
  | some i =>
    rw [hl] at h
    simp only [Except.ok.injEq] at h
    obtain ⟨h1, h2, h3⟩ := symbol_map_rows (F := F) (symbol, i) (lookup_some_mem symbol _ i hl)
    simp only at h1 h2 h3
    rw [← h]
    refine ⟨?_, h2, by rw [h3]; omega, by rw [h3]; omega⟩
    rw [List.getD_eq_getElem?_getD, List.getElem?_eq_getElem (by rw [element_table_length]; exact h1)]
    exact List.getElem_mem _

/-- The lookup fails exactly on the symbols that no row of the table carries. -/
theorem element_by_symbol_error_iff (symbol : String) :
    (∃ e, element_by_symbol (F := F) symbol = .error e) ↔
      ∀ row ∈ ELEMENT_TABLE (F := F), row.symbol ≠ symbol := by
  have hkeys : (∀ p ∈ symbol_map (F := F), p.1 ≠ symbol) ↔
      ∀ row ∈ ELEMENT_TABLE (F := F), row.symbol ≠ symbol := by
    have h1 : (∀ p ∈ symbol_map (F := F), p.1 ≠ symbol) ↔
        ∀ k ∈ (symbol_map (F := F)).map Prod.fst, k ≠ symbol := by
      simp only [List.mem_map, forall_exists_index, and_imp, Prod.forall]
      constructor
      · intro h k a b hab hk
        rw [← hk]
        exact h a b hab
      · intro h a b hab
        exact h a a b hab rfl
    rw [h1, symbol_map_keys]
    simp only [List.mem_reverse, List.mem_map, forall_exists_index, and_imp]
    constructor
    · intro h row hrow
      exact h _ row hrow rfl
    · intro h k row hrow hk
      rw [← hk]
      exact h row hrow
  unfold element_by_symbol
  cases hl : (symbol_map (F := F)).lookup symbol with
  | none =>
    exact ⟨fun _ => hkeys.1 ((lookup_none_iff symbol _).1 hl), fun _ => ⟨_, rfl⟩⟩
  | some i =>
    constructor
    · rintro ⟨e, he⟩
      cases he
    · intro h
      have := (lookup_none_iff symbol _).2 (hkeys.2 h)
      rw [hl] at this
      cases this

end symbol_lemmas

/-! ## XYZ files: the parser -/

section xyz_lemmas

variable {F : Type} [Arith F]

/-- No two rows of the table carry the same symbol. -/
theorem element_symbols_nodup :
    ((ELEMENT_TABLE (F := F)).map fun row => row.symbol).Nodup :=
  of_decide_eq_true rfl

theorem element_row_unique (r1 r2 : ElementInfo F) (h1 : r1 ∈ ELEMENT_TABLE (F := F))
    (h2 : r2 ∈ ELEMENT_TABLE (F := F)) (h : r1.symbol = r2.symbol) : r1 = r2 :=
  List.inj_on_of_nodup_map element_symbols_nodup h1 h2 h

/-- The lookup of a symbol returns the row of the table that carries it. -/
theorem element_by_symbol_eq_ok_iff (symbol : String) (row : ElementInfo F) :
    element_by_symbol (F := F) symbol = .ok row ↔
      row ∈ ELEMENT_TABLE (F := F) ∧ row.symbol = symbol := by
  constructor
  · intro h
    exact ⟨(element_by_symbol_ok symbol row h).1, (element_by_symbol_ok symbol row h).2.1⟩
  · rintro ⟨h1, h2⟩
    cases hr : element_by_symbol (F := F) symbol with
    | error e =>
      exact absurd h2 ((element_by_symbol_error_iff symbol).1 ⟨e, hr⟩ row h1)
    | ok row2 =>
      have h3 := element_by_symbol_ok symbol row2 hr
      rw [element_row_unique row2 row h3.1 h1 (h3.2.1.trans h2.symm)]

/-- When a line of the atom block is accepted, and with which atom. -/
theorem xyz_atom_line_ok_iff (rd : List Char → Option (F × List Char)) (line : List Char)
    (a : Atom F) :
    xyz_atom_line rd line = .ok a ↔
      ∃ sym r1 x r2 y r3 z r4, read_word line = some (sym, r1) ∧ rd r1 = some (x, r2) ∧
        rd r2 = some (y, r3) ∧ rd r3 = some (z, r4) ∧
        ∃ row ∈ ELEMENT_TABLE (F := F), row.symbol = String.mk sym ∧
          a = ⟨row.atomic_number, String.mk sym, ⟨x, y, z⟩⟩ := by
  unfold xyz_atom_line
  cases hw : read_word line with
  | none => simp
  | some p1 =>
    obtain ⟨sym, r1⟩ := p1
    cases hx : rd r1 with
    | none => simp [hx]
    | some p2 =>
      obtain ⟨x, r2⟩ := p2
      cases hy : rd r2 with
      | none => simp [hx, hy]
      | some p3 =>
        obtain ⟨y, r3⟩ := p3
        cases hz : rd r3 with
        | none => simp [hx, hy, hz]
        | some p4 =>
          obtain ⟨z, r4⟩ := p4
          cases he : element_by_symbol (F := F) (String.mk sym) with
          | error e =>
            simp only [hx, hy, hz, he]
            refine ⟨fun h => (nomatch h), ?_⟩
            rintro ⟨sym2, r12, x2, r22, y2, r32, z2, r42, h1, h2, h3, h4, row, hrow, hsym, _⟩
            simp only [Option.some.injEq, Prod.mk.injEq] at h1
            rw [← h1.1] at hsym
            have := (element_by_symbol_eq_ok_iff (String.mk sym) row).2 ⟨hrow, hsym⟩
            rw [he] at this
            cases this
          | ok elem =>
            simp only [hx, hy, hz, he, Except.ok.injEq]
            have hel := (element_by_symbol_eq_ok_iff (String.mk sym) elem).1 he
            constructor
            · intro h
              exact ⟨sym, r1, x, r2, y, r3, z, r4, rfl, hx, hy, hz, elem, hel.1, hel.2, h.symm⟩
            · rintro ⟨sym2, r12, x2, r22, y2, r32, z2, r42, h1, h2, h3, h4, row, hrow, hsym, ha⟩
              simp only [Option.some.injEq, Prod.mk.injEq] at h1
              obtain ⟨h1a, h1b⟩ := h1
              subst h1a
              subst h1b
              rw [hx] at h2
              simp only [Option.some.injEq, Prod.mk.injEq] at h2
              obtain ⟨h2a, h2b⟩ := h2
              subst h2a
              subst h2b
              rw [hy] at h3
              simp only [Option.some.injEq, Prod.mk.injEq] at h3
              obtain ⟨h3a, h3b⟩ := h3
              subst h3a
              subst h3b
              rw [hz] at h4
              simp only [Option.some.injEq, Prod.mk.injEq] at h4
              obtain ⟨h4a, h4b⟩ := h4
              subst h4a
              rw [ha, element_row_unique row elem hrow hel.1 (hsym.trans hel.2.symm)]

/-- When a line of the atom block is rejected. -/
theorem xyz_atom_line_error_iff (rd : List Char → Option (F × List Char)) (line : List Char) :
    (∃ e, xyz_atom_line rd line = .error e) ↔
      read_word line = none ∨
      ∃ sym r1, read_word line = some (sym, r1) ∧
        ((¬ ∃ x r2 y r3 z r4, rd r1 = some (x, r2) ∧ rd r2 = some (y, r3) ∧
            rd r3 = some (z, r4)) ∨
          ∀ row ∈ ELEMENT_TABLE (F := F), row.symbol ≠ String.mk sym) := by
  have hcases : (∃ e, xyz_atom_line rd line = .error e) ↔ ¬ ∃ a, xyz_atom_line rd line = .ok a := by
    cases xyz_atom_line rd line with
    | error e => simp
    | ok a => simp
  rw [hcases]
  constructor
  · intro h
    cases hw : read_word line with
    | none => exact Or.inl rfl
    | some p =>
      obtain ⟨sym, r1⟩ := p
      right
      refine ⟨sym, r1, rfl, ?_⟩
      by_contra hc
      rw [not_or] at hc
      obtain ⟨hc1, hc2⟩ := hc
      rw [not_not] at hc1
      obtain ⟨x, r2, y, r3, z, r4, hx, hy, hz⟩ := hc1
      simp only [ne_eq, not_forall, not_not] at hc2
      obtain ⟨row, hrow, hsym⟩ := hc2
      exact h ⟨_, (xyz_atom_line_ok_iff rd line _).2
        ⟨sym, r1, x, r2, y, r3, z, r4, hw, hx, hy, hz, row, hrow, hsym, rfl⟩⟩
  · rintro h ⟨a, ha⟩
    obtain ⟨sym, r1, x, r2, y, r3, z, r4, hw, hx, hy, hz, row, hrow, hsym, _⟩ :=
      (xyz_atom_line_ok_iff rd line a).1 ha
    rcases h with h | ⟨sym2, r12, hw2, h | h⟩
    · rw [h] at hw
      cases hw
    · rw [hw] at hw2
      simp only [Option.some.injEq, Prod.mk.injEq] at hw2
      rw [← hw2.2] at h
      exact h ⟨x, r2, y, r3, z, r4, hx, hy, hz⟩
    · rw [hw] at hw2
      simp only [Option.some.injEq, Prod.mk.injEq] at hw2
      rw [← hw2.1] at h
      exact h row hrow hsym

/-- The atom loop of `parse_xyz` in terms of the lines it reads. -/
theorem xyz_atoms_spec (rd : List Char → Option (F × List Char)) (N : Int) :
    ∀ (fuel i : Nat) (s : List Char) (acc : List (Atom F)),
      xyz_atoms rd N fuel i s acc =
        match (first_lines fuel s).mapM (xyz_atom_line rd) with
        | .error e => .error e
        | .ok atoms =>
          if (first_lines fuel s).length < fuel then
            .error ("XYZ: expected " ++ toString N ++ " atoms, got " ++
              toString (i + (first_lines fuel s).length))
          else .ok (acc ++ atoms) := by
  intro fuel
  induction fuel with
  | zero =>
    intro i s acc
    unfold xyz_atoms first_lines
    rw [List.mapM_nil]
    simp [pure, Except.pure]
  | succ fuel ih =>
    intro i s acc
    unfold xyz_atoms first_lines
    cases hg : getline s with
    | none =>
      simp only [List.mapM_nil]
      simp [pure, Except.pure]
    | some p =>
      obtain ⟨line, rest⟩ := p
      simp only [List.mapM_cons]
      cases hl : xyz_atom_line rd line with
      | error e => simp [bind, Except.bind]
      | ok a =>
        simp only [bind, Except.bind]
        rw [ih (i + 1) rest (acc ++ [a])]
        cases hm : (first_lines fuel rest).mapM (xyz_atom_line rd) with
        | error e => simp
        | ok atoms =>
          simp only [pure, Except.pure, List.length_cons, Nat.add_lt_add_iff_right,
            List.append_assoc, List.singleton_append]
          have e : i + 1 + (first_lines fuel rest).length =
              i + ((first_lines fuel rest).length + 1) := by omega
          rw [e]

/-- The atoms accepted by the atom loop are in the table, so that bond
perception on them returns. -/
theorem xyz_atoms_in_table (rd : List Char → Option (F × List Char))
    (lines : List (List Char)) (atoms : List (Atom F))
    (h : List.Forall₂ (fun l a => xyz_atom_line rd l = .ok a) lines atoms) :
    AtomsInTable (Molecule.mk atoms []) := by
  intro a ha
  obtain ⟨n, hn, hna⟩ := List.mem_iff_getElem.1 ha
  have hn1 : n < atoms.length := hn
  have hn2 : n < lines.length := by rw [h.length_eq]; exact hn1
  have hl : xyz_atom_line rd (lines.get ⟨n, hn2⟩) = .ok a := by
    have := (List.forall₂_iff_get.1 h).2 n hn2 hn1
    rw [this]
    exact congrArg Except.ok hna
  obtain ⟨sym, r1, x, r2, y, r3, z, r4, _, _, _, _, row, hrow, hsym, ha2⟩ :=
    (xyz_atom_line_ok_iff rd _ a).1 hl
  have hok := element_by_symbol_ok (String.mk sym) row
    ((element_by_symbol_eq_ok_iff (String.mk sym) row).2 ⟨hrow, hsym⟩)
  rw [ha2]
  exact ⟨hok.2.2.1, hok.2.2.2⟩

theorem first_lines_length_le : ∀ (n : Nat) (s : List Char), (first_lines n s).length ≤ n := by
  intro n
  induction n with
  | zero => intro s; simp [first_lines]
  | succ n ih =>
    intro s
    unfold first_lines
    cases hg : getline s with
    | none => simp
    | some p =>
      simp only [List.length_cons]
      exact Nat.succ_le_succ (ih p.2)

end xyz_lemmas

section stoi_spec

/-- The three shapes of the text that `stoi` converts, after the white space. -/
theorem stoi_of_dropWhile (str : List Char) :
    (∀ t, str.dropWhile is_space = Char.ofNat 45 :: t →
      stoi str = if (t.takeWhile Char.isDigit).isEmpty then none
        else if -(digits_value (t.takeWhile Char.isDigit) : Int) < -2147483648 then none
        else some (-(digits_value (t.takeWhile Char.isDigit) : Int))) ∧
    (∀ t, str.dropWhile is_space = Char.ofNat 43 :: t →
      stoi str = if (t.takeWhile Char.isDigit).isEmpty then none
        else if 2147483647 < (digits_value (t.takeWhile Char.isDigit) : Int) then none
        else some (digits_value (t.takeWhile Char.isDigit) : Int)) ∧
    ((∀ t, str.dropWhile is_space ≠ Char.ofNat 45 :: t) →
      (∀ t, str.dropWhile is_space ≠ Char.ofNat 43 :: t) →
      stoi str = if ((str.dropWhile is_space).takeWhile Char.isDigit).isEmpty then none
        else if 2147483647 <
            (digits_value ((str.dropWhile is_space).takeWhile Char.isDigit) : Int) then none
        else some (digits_value ((str.dropWhile is_space).takeWhile Char.isDigit) : Int)) := by
  refine ⟨?_, ?_, ?_⟩
  · intro t ht
    unfold stoi
    simp only [ht, List.head?_cons, beq_self_eq_true, Bool.true_or, if_true, List.drop_succ_cons,
      List.drop_zero]
    by_cases he : (t.takeWhile Char.isDigit).isEmpty = true
    · simp only [he, if_true]
    · simp only [he, Bool.false_eq_true, if_false]
      by_cases hr : -(digits_value (t.takeWhile Char.isDigit) : Int) < -2147483648
      · rw [if_pos (Or.inl hr), if_pos hr]
      · rw [if_neg (by omega), if_neg hr]
  · intro t ht
    have hne : (some (Char.ofNat 43) == some (Char.ofNat 45)) = false := by decide
    unfold stoi
    simp only [ht, List.head?_cons, hne, beq_self_eq_true, Bool.or_true, if_true,
      List.drop_succ_cons, List.drop_zero, Bool.false_eq_true, if_false]
    by_cases he : (t.takeWhile Char.isDigit).isEmpty = true
    · simp only [he, if_true]
    · simp only [he, Bool.false_eq_true, if_false]
      by_cases hr : 2147483647 < (digits_value (t.takeWhile Char.isDigit) : Int)
      · rw [if_pos (Or.inr hr), if_pos hr]
      · rw [if_neg (by omega), if_neg hr]
  · intro hm hp
    have h1 : ((str.dropWhile is_space).head? == some (Char.ofNat 45)) = false := by
      cases hs : str.dropWhile is_space with
      | nil => rfl
      | cons c t =>
        simp only [List.head?_cons, beq_eq_false_iff_ne, ne_eq, Option.some.injEq]
        intro hc
        exact hm t (by rw [hs, hc])
    have h2 : ((str.dropWhile is_space).head? == some (Char.ofNat 43)) = false := by
      cases hs : str.dropWhile is_space with
      | nil => rfl
      | cons c t =>
        simp only [List.head?_cons, beq_eq_false_iff_ne, ne_eq, Option.some.injEq]
        intro hc
        exact hp t (by rw [hs, hc])
    unfold stoi
    simp only [h1, h2, Bool.or_self, Bool.false_eq_true, if_false]
    by_cases he : ((str.dropWhile is_space).takeWhile Char.isDigit).isEmpty = true
    · simp only [he, if_true]
    · simp only [he, Bool.false_eq_true, if_false]
      by_cases hr : 2147483647 <
          (digits_value ((str.dropWhile is_space).takeWhile Char.isDigit) : Int)
      · rw [if_pos (Or.inr hr), if_pos hr]
      · rw [if_neg (by omega), if_neg hr]

theorem takeWhile_dropWhile_digits (t : List Char) :
    t = t.takeWhile Char.isDigit ++ t.dropWhile Char.isDigit ∧
    (∀ c ∈ t.takeWhile Char.isDigit, c.isDigit = true) ∧
    (∀ c, (t.dropWhile Char.isDigit).head? = some c → c.isDigit = false) := by
  refine ⟨(List.takeWhile_append_dropWhile _ _).symm, fun c hc => List.mem_takeWhile_imp hc, ?_⟩
  intro c hc
  cases hd : t.dropWhile Char.isDigit with
  | nil => rw [hd] at hc; cases hc
  | cons a l =>
    rw [hd] at hc
    simp only [List.head?_cons, Option.some.injEq] at hc
    have := List.head_dropWhile_not Char.isDigit t (by rw [hd]; simp)
    simp only [hd, List.head_cons] at this
    rw [← hc]
    simpa using this

theorem dropWhile_space_append (ws body : List Char) (hws : ∀ c ∈ ws, is_space c = true)
    (hb : ∀ c, body.head? = some c → is_space c = false) :
    (ws ++ body).dropWhile is_space = body := by
  rw [List.dropWhile_append_of_pos hws]
  cases body with
  | nil => rfl
  | cons c l => simp [List.dropWhile_cons, hb c rfl]

theorem takeWhile_digits_append (ds rest : List Char) (hd : ∀ c ∈ ds, c.isDigit = true)
    (hrest : ∀ c, rest.head? = some c → c.isDigit = false) :
    (ds ++ rest).takeWhile Char.isDigit = ds := by
  rw [List.takeWhile_append_of_pos hd]
  cases rest with
  | nil => simp
  | cons r rs => simp [List.takeWhile_cons, hrest r rfl]

/-- What `stoi` accepts: optional white space, an optional sign, at least one
decimal digit, then anything that does not go on with a digit; the value is
that of the digits with the sign, and it is a value of `int`. -/
theorem stoi_eq_some_iff (str : List Char) (v : Int) :
    stoi str = some v ↔
      ∃ ws sign ds rest, str = ws ++ (sign ++ (ds ++ rest)) ∧
        (∀ c ∈ ws, is_space c = true) ∧
        (sign = [] ∨ sign = [Char.ofNat 45] ∨ sign = [Char.ofNat 43]) ∧
        ds ≠ [] ∧ (∀ c ∈ ds, c.isDigit = true) ∧
        (∀ c, rest.head? = some c → c.isDigit = false) ∧
        v = (if sign = [Char.ofNat 45] then -(digits_value ds : Int) else (digits_value ds : Int)) ∧
        -2147483648 ≤ v ∧ v ≤ 2147483647 := by
  obtain ⟨hminus, hplus, hplain⟩ := stoi_of_dropWhile str
  have hsplit : str = str.takeWhile is_space ++ str.dropWhile is_space :=
    (List.takeWhile_append_dropWhile _ _).symm
  have hws : ∀ c ∈ str.takeWhile is_space, is_space c = true :=
    fun c hc => List.mem_takeWhile_imp hc
  have hnonempty : ∀ l : List Char, ¬ l.isEmpty = true → l ≠ [] := by
    intro l h hl
    rw [hl] at h
    exact h rfl
  constructor
  · intro h
    by_cases hm : ∃ t, str.dropWhile is_space = Char.ofNat 45 :: t
    · obtain ⟨t, ht⟩ := hm
      rw [hminus t ht] at h
      split_ifs at h with he hr
      injection h with h
      obtain ⟨h1, h2, h3⟩ := takeWhile_dropWhile_digits t
      refine ⟨_, [Char.ofNat 45], _, _, ?_, hws, Or.inr (Or.inl rfl), hnonempty _ he, h2, h3,
        ?_, ?_, ?_⟩
      · rw [← h1, List.singleton_append, ← ht]
        exact hsplit
      · rw [if_pos rfl, h]
      · omega
      · omega
    · by_cases hp : ∃ t, str.dropWhile is_space = Char.ofNat 43 :: t
      · obtain ⟨t, ht⟩ := hp
        rw [hplus t ht] at h
        split_ifs at h with he hr
        injection h with h
        obtain ⟨h1, h2, h3⟩ := takeWhile_dropWhile_digits t
        refine ⟨_, [Char.ofNat 43], _, _, ?_, hws, Or.inr (Or.inr rfl), hnonempty _ he, h2, h3,
          ?_, ?_, ?_⟩
        · rw [← h1, List.singleton_append, ← ht]
          exact hsplit
        · rw [if_neg (by decide), h]
        · omega
        · omega
      · rw [hplain (fun t ht => hm ⟨t, ht⟩) (fun t ht => hp ⟨t, ht⟩)] at h
        split_ifs at h with he hr
        injection h with h
        obtain ⟨h1, h2, h3⟩ := takeWhile_dropWhile_digits (str.dropWhile is_space)
        refine ⟨_, [], _, _, ?_, hws, Or.inl rfl, hnonempty _ he, h2, h3, ?_, ?_, ?_⟩
        · rw [List.nil_append, ← h1]
          exact hsplit
        · rw [if_neg (by decide), h]
        · omega
        · omega
  · rintro ⟨ws, sign, ds, rest, hstr, hws2, hsign, hne, hd, hrest, hv, hlo, hhi⟩
    have htake := takeWhile_digits_append ds rest hd hrest
    have hempty : ¬ ds.isEmpty = true := by
      cases ds with
      | nil => exact absurd rfl hne
      | cons c l => simp
    have hdhead : ∀ c, (ds ++ rest).head? = some c → c.isDigit = true := by
      intro c hc
      cases ds with
      | nil => exact absurd rfl hne
      | cons a l =>
        simp only [List.cons_append, List.head?_cons, Option.some.injEq] at hc
        exact hc ▸ hd a (by simp)
    rcases hsign with hs | hs | hs
    · subst hs
      rw [List.nil_append] at hstr
      have hdrop : str.dropWhile is_space = ds ++ rest := by
        rw [hstr]
        exact dropWhile_space_append ws _ hws2 (fun c hc => isDigit_not_space c (hdhead c hc))
      rw [hplain (fun t ht => by
            rw [hdrop] at ht
            exact (isDigit_not_sign _ (hdhead _ (by rw [ht]; rfl))).1 rfl)
          (fun t ht => by
            rw [hdrop] at ht
            exact (isDigit_not_sign _ (hdhead _ (by rw [ht]; rfl))).2.1 rfl),
        hdrop, htake, if_neg hempty]
      rw [if_neg (by decide)] at hv
      rw [if_neg (by omega), hv]
    · subst hs
      have hdrop : str.dropWhile is_space = Char.ofNat 45 :: (ds ++ rest) := by
        rw [hstr]
        exact dropWhile_space_append ws _ hws2 (fun c hc => by
          simp only [List.singleton_append, List.head?_cons, Option.some.injEq] at hc
          rw [← hc]
          decide)
      rw [hminus _ hdrop, htake, if_neg hempty]
      rw [if_pos rfl] at hv
      rw [if_neg (by omega), hv]
    · subst hs
      have hdrop : str.dropWhile is_space = Char.ofNat 43 :: (ds ++ rest) := by
        rw [hstr]
        exact dropWhile_space_append ws _ hws2 (fun c hc => by
          simp only [List.singleton_append, List.head?_cons, Option.some.injEq] at hc
          rw [← hc]
          decide)
      rw [hplus _ hdrop, htake, if_neg hempty]
      rw [if_neg (by decide)] at hv
      rw [if_neg (by omega), hv]

end stoi_spec

section xyz_claims

variable {F : Type} [Arith F] [Inhabited F]

/-- `parse_xyz` after a count line and a comment line that were read. -/
theorem parse_xyz_unfold (rd : List Char → Option (F × List Char))
    (content l1 s1 comment s2 : List Char) (N : Int)
    (h1 : getline content = some (l1, s1)) (h2 : stoi l1 = some N) (h3 : 0 ≤ N)
    (h4 : getline s1 = some (comment, s2)) :
    parse_xyz rd content =
      match xyz_atoms rd N N.toNat 0 s2 [] with
      | .error e => .error e
      | .ok atoms =>
        match (Molecule.mk atoms []).perceive_bonds 0.45 with
        | .error e => .error e
        | .ok mol => .ok ⟨[], comment, mol⟩ := by
  unfold parse_xyz
  simp only [h1, h2, h4]
  rw [if_neg (by omega)]

/-- The outcome of `parse_xyz` after the count and the comment, in terms of the
lines of the atom block. -/
theorem parse_xyz_lines (rd : List Char → Option (F × List Char))
    (content l1 s1 comment s2 : List Char) (N : Int)
    (h1 : getline content = some (l1, s1)) (h2 : stoi l1 = some N) (h3 : 0 ≤ N)
    (h4 : getline s1 = some (comment, s2)) :
    (∀ m, parse_xyz rd content = .ok m ↔
      ((first_lines N.toNat s2).length = N.toNat ∧
        List.Forall₂ (fun l a => xyz_atom_line rd l = .ok a) (first_lines N.toNat s2)
          m.mol.atoms ∧
        m.name = [] ∧ m.comment = comment ∧
        (Molecule.mk m.mol.atoms []).perceive_bonds 0.45 = .ok m.mol)) := by
  intro m
  rw [parse_xyz_unfold rd content l1 s1 comment s2 N h1 h2 h3 h4, xyz_atoms_spec]
  have hle := first_lines_length_le N.toNat s2
  cases hm : (first_lines N.toNat s2).mapM (xyz_atom_line rd) with
  | error e =>
    simp only
    constructor
    · intro h
      cases h
    · rintro ⟨_, hf, _⟩
      rw [(mapM_ok_iff _ _ _).2 hf] at hm
      cases hm
  | ok atoms =>
    have hf := (mapM_ok_iff _ _ _).1 hm
    simp only [List.nil_append]
    by_cases hlt : (first_lines N.toNat s2).length < N.toNat
    · rw [if_pos hlt]
      simp only
      constructor
      · intro h
        cases h
      · rintro ⟨hlen, _⟩
        omega
    · rw [if_neg hlt]
      simp only
      obtain ⟨mol2, hp, hatoms, _⟩ := perceive_bonds_spec (Molecule.mk atoms []) 0.45
        (xyz_atoms_in_table rd _ atoms hf)
      rw [hp]
      simp only [Except.ok.injEq]
      constructor
      · intro h
        rw [← h]
        simp only
        have hat : mol2.atoms = atoms := hatoms
        rw [hat]
        have hmol : (Molecule.mk atoms [] : Molecule F) = { atoms := atoms, bonds := [] } := rfl
        refine ⟨by omega, hf, ?_, ?_, hp⟩ <;> first | rfl | trivial
      · rintro ⟨_, hf2, hname, hcom, hp2⟩
        have hat : m.mol.atoms = atoms := by
          have := (mapM_ok_iff _ _ _).2 hf2
          rw [hm] at this
          injection this with this
          exact this.symm
        rw [hat, hp] at hp2
        injection hp2 with hp2
        obtain ⟨n, c, mm⟩ := m
        simp only at hname hcom hp2
        rw [hname, hcom, hp2]

/-- C28 (amended): `parse_xyz` fails on empty input; it fails when `std::stoi`
rejects the first line, which is when the line does not begin, after optional
white space and an optional sign, with a decimal digit, or when the integer so
begun is no value of `int`; it fails when that integer is negative. Text that
follows the digits on the first line is ignored: whenever a molecule is
returned the first line begins with an integer `n ≥ 0` in that sense and the
molecule has `n` atoms. -/
theorem parse_xyz_count_line (rd : List Char → Option (F × List Char)) (content : List Char) :
    (content = [] → parse_xyz rd content = .error "XYZ: empty input") ∧
    (∀ line rest, getline content = some (line, rest) →
      (stoi line = none →
        parse_xyz rd content = .error ("XYZ: invalid atom count: " ++ String.mk line)) ∧
      (∀ n, stoi line = some n → n < 0 →
        parse_xyz rd content = .error "XYZ: negative atom count")) ∧
    (∀ m, parse_xyz rd content = .ok m →
      ∃ line rest n, getline content = some (line, rest) ∧ stoi line = some n ∧ 0 ≤ n ∧
        (m.mol.num_atoms : Int) = n) ∧
    (∀ (line : List Char) (n : Int), stoi line = some n ↔
      ∃ ws sign ds rest, line = ws ++ (sign ++ (ds ++ rest)) ∧
        (∀ c ∈ ws, is_space c = true) ∧
        (sign = [] ∨ sign = [Char.ofNat 45] ∨ sign = [Char.ofNat 43]) ∧
        ds ≠ [] ∧ (∀ c ∈ ds, c.isDigit = true) ∧
        (∀ c, rest.head? = some c → c.isDigit = false) ∧
        n = (if sign = [Char.ofNat 45] then -(digits_value ds : Int) else (digits_value ds : Int)) ∧
        -2147483648 ≤ n ∧ n ≤ 2147483647) := by
  refine ⟨?_, ?_, ?_, stoi_eq_some_iff⟩
  · intro h
    rw [h]
    rfl
  · intro line rest hg
    constructor
    · intro hs
      unfold parse_xyz
      simp only [hg, hs]
    · intro n hs hn
      unfold parse_xyz
      simp only [hg, hs]
      rw [if_pos hn]
  · intro m hm
    cases hg : getline content with
    | none =>
      unfold parse_xyz at hm
      simp only [hg] at hm
      cases hm
    | some p =>
      obtain ⟨line, rest⟩ := p
      cases hs : stoi line with
      | none =>
        unfold parse_xyz at hm
        simp only [hg, hs] at hm
        cases hm
      | some n =>
        by_cases hn : n < 0
        · unfold parse_xyz at hm
          simp only [hg, hs] at hm
          rw [if_pos hn] at hm
          cases hm
        · cases hc : getline rest with
          | none =>
            unfold parse_xyz at hm
            simp only [hg, hs, hc] at hm
            rw [if_neg hn] at hm
            cases hm
          | some q =>
            obtain ⟨comment, s2⟩ := q
            have h := (parse_xyz_lines rd content line rest comment s2 n hg hs (by omega) hc m).1 hm
            refine ⟨line, rest, n, rfl, hs, by omega, ?_⟩
            have hlen := h.2.1.length_eq
            unfold Molecule.num_atoms
            rw [← hlen, h.1]
            omega

/-- C29: after a count line with the integer `N ≥ 0` and a comment line,
`parse_xyz` fails when fewer than `N` lines follow, and fails when one of the
first `N` lines following is rejected: it has no symbol, or no three numbers
after the symbol, or a symbol that no row of the element table carries.
Otherwise it returns a molecule with `N` atoms in file order, the atom of each
line keeping the symbol as written with the atomic number of the table row of
that symbol and the three numbers as position, the comment equal to line 2,
and the bonds that `perceive_bonds` computes at tolerance 0.45. -/
theorem parse_xyz_body (rd : List Char → Option (F × List Char))
    (content l1 s1 comment s2 : List Char) (N : Int)
    (h1 : getline content = some (l1, s1)) (h2 : stoi l1 = some N) (h3 : 0 ≤ N)
    (h4 : getline s1 = some (comment, s2)) :
    ((first_lines N.toNat s2).length < N.toNat → ∃ e, parse_xyz rd content = .error e) ∧
    ((∃ l ∈ first_lines N.toNat s2, ∃ e, xyz_atom_line rd l = .error e) →
      ∃ e, parse_xyz rd content = .error e) ∧
    ((first_lines N.toNat s2).length = N.toNat →
      (∀ l ∈ first_lines N.toNat s2, ∃ a, xyz_atom_line rd l = .ok a) →
      ∃ m, parse_xyz rd content = .ok m ∧ m.comment = comment ∧
        m.mol.num_atoms = N.toNat ∧
        List.Forall₂ (fun l a => xyz_atom_line rd l = .ok a) (first_lines N.toNat s2)
          m.mol.atoms ∧
        (Molecule.mk m.mol.atoms []).perceive_bonds 0.45 = .ok m.mol) ∧
    (∀ l a, xyz_atom_line rd l = .ok a ↔
      ∃ sym r1 x r2 y r3 z r4, read_word l = some (sym, r1) ∧ rd r1 = some (x, r2) ∧
        rd r2 = some (y, r3) ∧ rd r3 = some (z, r4) ∧
        ∃ row ∈ ELEMENT_TABLE (F := F), row.symbol = String.mk sym ∧
          a = ⟨row.atomic_number, String.mk sym, ⟨x, y, z⟩⟩) ∧
    (∀ l, (∃ e, xyz_atom_line rd l = .error e) ↔
      read_word l = none ∨
      ∃ sym r1, read_word l = some (sym, r1) ∧
        ((¬ ∃ x r2 y r3 z r4, rd r1 = some (x, r2) ∧ rd r2 = some (y, r3) ∧
            rd r3 = some (z, r4)) ∨
          ∀ row ∈ ELEMENT_TABLE (F := F), row.symbol ≠ String.mk sym)) := by
  have hlines := parse_xyz_lines rd content l1 s1 comment s2 N h1 h2 h3 h4
  have hfail : (¬ ∃ m, parse_xyz rd content = .ok m) → ∃ e, parse_xyz rd content = .error e := by
    intro h
    cases hp : parse_xyz rd content with
    | error e => exact ⟨e, rfl⟩
    | ok m => exact absurd ⟨m, hp⟩ h
  refine ⟨?_, ?_, ?_, xyz_atom_line_ok_iff rd, xyz_atom_line_error_iff rd⟩
  · intro hlt
    apply hfail
    rintro ⟨m, hm⟩
    have := ((hlines m).1 hm).1
    omega
  · rintro ⟨l, hl, e, he⟩
    apply hfail
    rintro ⟨m, hm⟩
    have hf := ((hlines m).1 hm).2.1
    obtain ⟨n, hn, rfl⟩ := List.mem_iff_getElem.1 hl
    have hn2 : n < m.mol.atoms.length := by rw [← hf.length_eq]; exact hn
    have := (List.forall₂_iff_get.1 hf).2 n hn hn2
    simp only [List.get_eq_getElem] at this
    rw [he] at this
    cases this
  · intro hlen hall
    have hmap : ∃ atoms, (first_lines N.toNat s2).mapM (xyz_atom_line rd) = .ok atoms := by
      cases hm : (first_lines N.toNat s2).mapM (xyz_atom_line rd) with
      | ok atoms => exact ⟨atoms, rfl⟩
      | error e =>
        obtain ⟨l1, a, l2, hsplit, _, ha⟩ := (mapM_error_iff _ e _).1 hm
        obtain ⟨b, hb⟩ := hall a (by rw [hsplit]; simp)
        rw [hb] at ha
        cases ha
    obtain ⟨atoms, hatoms⟩ := hmap
    have hf := (mapM_ok_iff _ _ _).1 hatoms
    obtain ⟨mol2, hp, hat, _⟩ := perceive_bonds_spec (Molecule.mk atoms []) 0.45
      (xyz_atoms_in_table rd _ atoms hf)
    have hat2 : mol2.atoms = atoms := hat
    have hm := (hlines ⟨[], comment, mol2⟩).2 ⟨hlen, by rw [hat2]; exact hf, rfl, rfl,
      by rw [hat2]; exact hp⟩
    refine ⟨_, hm, rfl, ?_, by rw [hat2]; exact hf, by rw [hat2]; exact hp⟩
    show mol2.atoms.length = _
    rw [hat2, ← hf.length_eq, hlen]

end xyz_claims

section xyz_round_trip

variable {F : Type} [Arith F]

theorem range_flatMap_getD {α β : Type} (d : α) (f : α → List β) (l : List α) :
    (List.range l.length).flatMap (fun i => f (l.getD i d)) = l.flatMap f := by
  have h : (List.range l.length).map (fun i => l.getD i d) = l := by
    apply List.ext_getElem
    · simp
    · intro n h1 h2
      simp [List.getD_eq_getElem?_getD, List.getElem?_eq_getElem h2]
  conv_rhs => rw [← h]
  rw [List.flatMap_map]

/-- Lines written one after the other, each with its newline, are read back
one by one. -/
theorem first_lines_written {α : Type} (f : α → List Char) :
    ∀ (l : List α), (∀ a ∈ l, newline ∉ f a) →
      first_lines l.length (l.flatMap fun a => f a ++ [newline]) = l.map f := by
  intro l
  induction l with
  | nil => intro _; rfl
  | cons a l ih =>
    intro h
    simp only [List.length_cons, List.flatMap_cons, List.map_cons]
    unfold first_lines
    rw [List.append_assoc, List.singleton_append,
      getline_append (f a) _ (h a (List.mem_cons_self _ _))]
    simp only
    rw [ih (fun b hb => h b (List.mem_cons_of_mem _ hb))]

theorem newline_is_space : is_space newline = true := by decide

theorem digits_no_newline (ds : List Char) (h : ∀ c ∈ ds, c.isDigit = true) : newline ∉ ds := by
  intro hmem
  exact (isDigit_not_sign newline (h newline hmem)).2.2 rfl

/-- The line that `write_xyz` writes for an atom that `parse_xyz` accepted is
accepted again, as the same atom with the numbers as the writer formats them. -/
theorem xyz_atom_line_written (rd : List Char → Option (F × List Char))
    (sd : F → List Char) (round : F → F) (hfmt : Formats rd sd round)
    (line : List Char) (a : Atom F) (ha : xyz_atom_line rd line = .ok a) :
    newline ∉ a.symbol.data ++ [Char.ofNat 32] ++ sd a.position.x ++ [Char.ofNat 32] ++
        sd a.position.y ++ [Char.ofNat 32] ++ sd a.position.z ∧
    xyz_atom_line rd (a.symbol.data ++ [Char.ofNat 32] ++ sd a.position.x ++ [Char.ofNat 32] ++
        sd a.position.y ++ [Char.ofNat 32] ++ sd a.position.z) =
      .ok { a with
        position := ⟨round a.position.x, round a.position.y, round a.position.z⟩ } := by
  obtain ⟨sym, r1, x, r2, y, r3, z, r4, hw, hx, hy, hz, row, hrow, hsym, ha2⟩ :=
    (xyz_atom_line_ok_iff rd line a).1 ha
  obtain ⟨hne, hword⟩ := read_word_spec line sym r1 hw
  obtain ⟨hnx, hrx⟩ := hfmt x ⟨r1, r2, hx⟩
  obtain ⟨hny, hry⟩ := hfmt y ⟨r2, r3, hy⟩
  obtain ⟨hnz, hrz⟩ := hfmt z ⟨r3, r4, hz⟩
  rw [ha2]
  simp only [List.append_assoc, List.singleton_append]
  constructor
  · have hsp : ¬ newline = Char.ofNat 32 := by decide
    have hsym2 : newline ∉ sym := by
      intro hmem
      have := hword newline hmem
      rw [newline_is_space] at this
      cases this
    intro hmem
    simp only [List.mem_append, List.mem_cons] at hmem
    tauto
  · apply (xyz_atom_line_ok_iff rd _ _).2
    refine ⟨sym, _, round x, _, round y, _, round z, [],
      read_word_append sym _ hne hword, hrx _ (Or.inr rfl), hry _ (Or.inr rfl), ?_,
      row, hrow, hsym, rfl⟩
    have := hrz [] (Or.inl rfl)
    rw [List.append_nil] at this
    exact this

variable [Inhabited F]

/-- C27: for every molecule `m` returned by `parse_xyz`, parsing the text that
`write_xyz` writes for `m` returns a molecule with the comment of `m`, as many
atoms as `m`, and at every index the atom of `m` (same symbol, same atomic
number) with each coordinate as the default formatting of the writer renders
it (`round`). The writer and the reader of numbers are those of the library,
of which `Formats` states what is used. -/
theorem xyz_round_trip (rd : List Char → Option (F × List Char)) (sd : F → List Char)
    (round : F → F) (hfmt : Formats rd sd round) (content : List Char) (m : NamedMolecule F)
    (hm : parse_xyz rd content = .ok m) :
    ∃ m2, parse_xyz rd (write_xyz sd m) = .ok m2 ∧ m2.comment = m.comment ∧
      m2.mol.num_atoms = m.mol.num_atoms ∧
      m2.mol.atoms = m.mol.atoms.map (fun a => { a with
        position := ⟨round a.position.x, round a.position.y, round a.position.z⟩ }) ∧
      (∀ i, (m2.mol.atom i).symbol = (m.mol.atom i).symbol ∧
        (m2.mol.atom i).atomic_number = (m.mol.atom i).atomic_number) := by
  -- the first parse
  have hparts : ∃ line rest N comment s2, getline content = some (line, rest) ∧
      stoi line = some N ∧ 0 ≤ N ∧ getline rest = some (comment, s2) := by
    unfold parse_xyz at hm
    cases hg : getline content with
    | none => simp only [hg] at hm; cases hm
    | some p =>
      obtain ⟨line, rest⟩ := p
      cases hs : stoi line with
      | none => simp only [hg, hs] at hm; cases hm
      | some N =>
        by_cases hn : N < 0
        · simp only [hg, hs] at hm
          rw [if_pos hn] at hm
          cases hm
        · cases hc : getline rest with
          | none =>
            simp only [hg, hs, hc] at hm
            rw [if_neg hn] at hm
            cases hm
          | some q =>
            obtain ⟨comment, s2⟩ := q
            exact ⟨line, rest, N, comment, s2, rfl, hs, by omega, hc⟩
  obtain ⟨line, rest, N, comment, s2, hg, hs, hN, hc⟩ := hparts
  obtain ⟨hlen, hf, _, hcom, _⟩ :=
    (parse_xyz_lines rd content line rest comment s2 N hg hs hN hc m).1 hm
  have hrange := stoi_range line N hs
  have hcount : m.mol.atoms.length = N.toNat := by rw [← hf.length_eq, hlen]
  have hnl : newline ∉ m.comment := by
    rw [hcom]
    exact getline_no_newline rest comment s2 hc
  -- every atom was accepted from some line
  have hacc : ∀ a ∈ m.mol.atoms, ∃ l, xyz_atom_line rd l = .ok a := by
    intro a ha
    obtain ⟨n, hn, hna⟩ := List.mem_iff_getElem.1 ha
    have hn2 : n < (first_lines N.toNat s2).length := by rw [hf.length_eq]; exact hn
    refine ⟨(first_lines N.toNat s2).get ⟨n, hn2⟩, ?_⟩
    rw [(List.forall₂_iff_get.1 hf).2 n hn2 hn]
    exact congrArg Except.ok hna
  -- the text written
  have hwrite : write_xyz sd m =
      show_nat m.mol.atoms.length ++ newline :: (m.comment ++ newline ::
        (m.mol.atoms.flatMap fun a =>
          (a.symbol.data ++ [Char.ofNat 32] ++ sd a.position.x ++ [Char.ofNat 32] ++
            sd a.position.y ++ [Char.ofNat 32] ++ sd a.position.z) ++ [newline])) := by
    unfold write_xyz Molecule.num_atoms Molecule.atom
    rw [range_flatMap_getD Molecule.default_atom (fun a =>
      a.symbol.data ++ [Char.ofNat 32] ++ sd a.position.x ++ [Char.ofNat 32] ++
        sd a.position.y ++ [Char.ofNat 32] ++ sd a.position.z ++ [newline])]
    simp only [List.append_assoc, List.singleton_append]
    rfl
  obtain ⟨_, hdig, _⟩ := show_nat_spec m.mol.atoms.length
  have hg2 := getline_append (show_nat m.mol.atoms.length)
    (m.comment ++ newline :: (m.mol.atoms.flatMap fun a =>
      (a.symbol.data ++ [Char.ofNat 32] ++ sd a.position.x ++ [Char.ofNat 32] ++
        sd a.position.y ++ [Char.ofNat 32] ++ sd a.position.z) ++ [newline]))
    (digits_no_newline _ hdig)
  have hs2 := stoi_show_nat m.mol.atoms.length (by rw [hcount]; omega)
  have hc2 := getline_append m.comment
    (m.mol.atoms.flatMap fun a =>
      (a.symbol.data ++ [Char.ofNat 32] ++ sd a.position.x ++ [Char.ofNat 32] ++
        sd a.position.y ++ [Char.ofNat 32] ++ sd a.position.z) ++ [newline]) hnl
  have hlines2 := first_lines_written (fun a : Atom F =>
      a.symbol.data ++ [Char.ofNat 32] ++ sd a.position.x ++ [Char.ofNat 32] ++
        sd a.position.y ++ [Char.ofNat 32] ++ sd a.position.z) m.mol.atoms
    (fun a ha => by
      obtain ⟨l, hl⟩ := hacc a ha
      exact (xyz_atom_line_written rd sd round hfmt l a hl).1)
  have hf2 : List.Forall₂ (fun l a => xyz_atom_line rd l = .ok a)
      (m.mol.atoms.map fun a : Atom F =>
        a.symbol.data ++ [Char.ofNat 32] ++ sd a.position.x ++ [Char.ofNat 32] ++
          sd a.position.y ++ [Char.ofNat 32] ++ sd a.position.z)
      (m.mol.atoms.map fun a => { a with
        position := ⟨round a.position.x, round a.position.y, round a.position.z⟩ }) := by
    rw [List.forall₂_map_left_iff, List.forall₂_map_right_iff]
    apply List.forall₂_same.2
    intro a ha
    obtain ⟨l, hl⟩ := hacc a ha
    exact (xyz_atom_line_written rd sd round hfmt l a hl).2
  obtain ⟨mol2, hp, hat, _⟩ := perceive_bonds_spec
    (Molecule.mk (m.mol.atoms.map fun a => { a with
      position := ⟨round a.position.x, round a.position.y, round a.position.z⟩ }) []) 0.45
    (xyz_atoms_in_table rd _ _ hf2)
  have hat2 : mol2.atoms = m.mol.atoms.map fun a => { a with
      position := ⟨round a.position.x, round a.position.y, round a.position.z⟩ } := hat
  have hNat : ((m.mol.atoms.length : Int)).toNat = m.mol.atoms.length := Int.toNat_ofNat _
  have hres := (parse_xyz_lines rd (write_xyz sd m) _ _ m.comment _ (m.mol.atoms.length : Int)
    (by rw [hwrite]; exact hg2) hs2 (by omega) hc2 ⟨[], m.comment, mol2⟩).2
    ⟨by rw [hNat, hlines2, List.length_map], by rw [hNat, hlines2, hat2]; exact hf2, rfl, rfl,
      by rw [hat2]; exact hp⟩
  refine ⟨_, hres, rfl, ?_, hat2, ?_⟩
  · show mol2.atoms.length = m.mol.atoms.length
    rw [hat2, List.length_map]
  · intro i
    unfold Molecule.atom
    simp only [hat2, List.getD_eq_getElem?_getD, List.getElem?_map]
    cases m.mol.atoms[i]? with
    | none => exact ⟨rfl, rfl⟩
    | some a => exact ⟨rfl, rfl⟩

end xyz_round_trip

/-! ## SDF files: the parser -/

section sdf_lemmas

/-- When a line of the bond block is accepted, and as which bond. -/
theorem sdf_bond_line_ok_iff (line : List Char) (b : RawBond) :
    sdf_bond_line line = .ok b ↔
      9 ≤ line.length ∧ ∃ a c o, stoi (substr line 0 3) = some a ∧
        stoi (substr line 3 3) = some c ∧ stoi (substr line 6 3) = some o ∧
        b = ⟨a - 1, c - 1, o⟩ := by
  unfold sdf_bond_line
  by_cases hlen : line.length < 9
  · rw [if_pos hlen]
    constructor
    · intro h
      cases h
    · rintro ⟨h, _⟩
      omega
  · rw [if_neg hlen]
    cases ha : stoi (substr line 0 3) with
    | none => simp
    | some a =>
      cases hc : stoi (substr line 3 3) with
      | none => simp
      | some c =>
        cases ho : stoi (substr line 6 3) with
        | none => simp
        | some o =>
          simp only [Except.ok.injEq, Option.some.injEq]
          constructor
          · intro h
            exact ⟨by omega, a, c, o, rfl, rfl, rfl, h.symm⟩
          · rintro ⟨_, a2, c2, o2, h1, h2, h3, h4⟩
            rw [h4, h1, h2, h3]

/-- The bond loop of `parse_sdf` in terms of the lines it reads. -/
theorem sdf_bonds_spec (N : Int) :
    ∀ (fuel i : Nat) (s : List Char) (acc : List RawBond),
      sdf_bonds N fuel i s acc =
        match (first_lines fuel s).mapM sdf_bond_line with
        | .error e => .error e
        | .ok bonds =>
          if (first_lines fuel s).length < fuel then
            .error ("SDF: expected " ++ toString N ++ " bonds, got " ++
              toString (i + (first_lines fuel s).length))
          else .ok (acc ++ bonds) := by
  intro fuel
  induction fuel with
  | zero =>
    intro i s acc
    unfold sdf_bonds first_lines
    rw [List.mapM_nil]
    simp [pure, Except.pure]
  | succ fuel ih =>
    intro i s acc
    unfold sdf_bonds first_lines
    cases hg : getline s with
    | none =>
      simp only [List.mapM_nil]
      simp [pure, Except.pure]
    | some p =>
      obtain ⟨line, rest⟩ := p
      simp only [List.mapM_cons]
      cases hl : sdf_bond_line line with
      | error e => simp [bind, Except.bind]
      | ok a =>
        simp only [bind, Except.bind]
        rw [ih (i + 1) rest (acc ++ [a])]
        cases hm : (first_lines fuel rest).mapM sdf_bond_line with
        | error e => simp
        | ok atoms =>
          simp only [pure, Except.pure, List.length_cons, Nat.add_lt_add_iff_right,
            List.append_assoc, List.singleton_append]
          have e : i + 1 + (first_lines fuel rest).length =
              i + ((first_lines fuel rest).length + 1) := by omega
          rw [e]

variable {F : Type} [Arith F]

/-- The atom loop of `parse_sdf`: when it returns it has read `fuel` lines. -/
theorem sdf_atoms_ok (stod : List Char → Option F) (N : Int) :
    ∀ (fuel i : Nat) (s : List Char) (acc atoms : List (Atom F)) (rest : List Char),
      sdf_atoms stod N fuel i s acc = .ok (atoms, rest) →
      rest = after_lines fuel s ∧ atoms.length = acc.length + fuel := by
  intro fuel
  induction fuel with
  | zero =>
    intro i s acc atoms rest h
    unfold sdf_atoms at h
    simp only [Except.ok.injEq, Prod.mk.injEq] at h
    rw [← h.1, ← h.2]
    exact ⟨rfl, rfl⟩
  | succ fuel ih =>
    intro i s acc atoms rest h
    unfold sdf_atoms at h
    unfold after_lines
    cases hg : getline s with
    | none =>
      rw [hg] at h
      cases h
    | some p =>
      obtain ⟨line, r⟩ := p
      rw [hg] at h
      simp only at h
      cases hl : sdf_atom_line stod line with
      | error e =>
        rw [hl] at h
        cases h
      | ok a =>
        rw [hl] at h
        obtain ⟨h1, h2⟩ := ih (i + 1) r (acc ++ [a]) atoms rest h
        refine ⟨h1, ?_⟩
        rw [h2, List.length_append, List.length_singleton]
        omega

theorem first_lines_get_last : ∀ (n : Nat) (s line rest : List Char),
    getline (after_lines n s) = some (line, rest) →
      (first_lines (n + 1) s).get? n = some line ∧ after_lines (n + 1) s = rest := by
  intro n
  induction n with
  | zero =>
    intro s line rest h
    unfold after_lines at h
    unfold first_lines after_lines
    rw [h]
    exact ⟨rfl, rfl⟩
  | succ n ih =>
    intro s line rest h
    unfold after_lines at h
    unfold first_lines after_lines
    cases hg : getline s with
    | none =>
      rw [hg] at h
      simp only at h
      cases h
    | some p =>
      rw [hg] at h
      simp only at h ⊢
      obtain ⟨h1, h2⟩ := ih p.2 line rest h
      exact ⟨by simpa using h1, h2⟩

end sdf_lemmas

section sdf_claims

variable {F : Type} [Arith F]

/-- The parts of the input from which a molecule returned by `parse_sdf` is built. -/
theorem parse_sdf_ok (stod : List Char → Option F) (content : List Char) (m : SDFMolecule F)
    (hm : parse_sdf stod content = .ok m) :
    ∃ counts na nb, (first_lines 4 content).get? 3 = some counts ∧
      stoi (substr counts 0 3) = some na ∧ stoi (substr counts 3 3) = some nb ∧
      m.atoms.length = na.toNat ∧ m.bonds.length = nb.toNat ∧
      List.Forall₂ (fun l b => sdf_bond_line l = .ok b)
        (first_lines nb.toNat (after_lines na.toNat (after_lines 4 content))) m.bonds := by
  unfold parse_sdf at hm
  cases h1 : getline content with
  | none => rw [h1] at hm; cases hm
  | some p1 =>
    obtain ⟨name, s1⟩ := p1
    rw [h1] at hm
    simp only at hm
    -- the stream after the two header lines
    have hs1 : s1 = after_lines 1 content := by
      unfold after_lines
      rw [h1]
      rfl
    cases h4 : getline (match getline (match getline s1 with
        | none => s1
        | some (_, r) => r) with
        | none => (([] : List Char), match getline s1 with
          | none => s1
          | some (_, r) => r)
        | some (l, r) => (l, r)).2 with
    | none =>
      rw [h4] at hm
      cases hm
    | some p4 =>
      obtain ⟨line, s4⟩ := p4
      rw [h4] at hm
      simp only at hm
      -- the header lines exist, since a counts line was read after them
      cases h2 : getline s1 with
      | none =>
        have hnil : s1 = [] := (getline_eq_none s1).1 h2
        rw [h2] at h4
        simp only [hnil, getline_nil] at h4
        cases h4
      | some p2 =>
        obtain ⟨l2, s2⟩ := p2
        rw [h2] at h4
        simp only at h4
        cases h3 : getline s2 with
        | none =>
          have hnil : s2 = [] := (getline_eq_none s2).1 h3
          rw [h3] at h4
          simp only [hnil, getline_nil] at h4
          cases h4
        | some p3 =>
          obtain ⟨l3, s3⟩ := p3
          rw [h3] at h4
          simp only at h4
          have hs3 : s3 = after_lines 3 content := by
            simp only [after_lines, h1, h2, h3]
          rw [hs3] at h4
          obtain ⟨hcounts, hafter⟩ := first_lines_get_last 3 content line s4 h4
          by_cases hlen : line.length < 6
          · rw [if_pos hlen] at hm
            cases hm
          · rw [if_neg hlen] at hm
            cases ha : stoi (substr line 0 3) with
            | none =>
              rw [ha] at hm
              cases hm
            | some na =>
              cases hb : stoi (substr line 3 3) with
              | none =>
                rw [ha, hb] at hm
                cases hm
              | some nb =>
                rw [ha, hb] at hm
                simp only at hm
                cases hat : sdf_atoms stod na na.toNat 0 s4 [] with
                | error e =>
                  rw [hat] at hm
                  cases hm
                | ok q =>
                  obtain ⟨atoms, s5⟩ := q
                  rw [hat] at hm
                  simp only at hm
                  obtain ⟨hs5, hatlen⟩ := sdf_atoms_ok stod na na.toNat 0 s4 [] atoms s5 hat
                  rw [sdf_bonds_spec] at hm
                  cases hbm : (first_lines nb.toNat s5).mapM sdf_bond_line with
                  | error e =>
                    rw [hbm] at hm
                    cases hm
                  | ok bonds =>
                    rw [hbm] at hm
                    simp only [List.nil_append] at hm
                    by_cases hlt : (first_lines nb.toNat s5).length < nb.toNat
                    · rw [if_pos hlt] at hm
                      cases hm
                    · rw [if_neg hlt] at hm
                      injection hm with hm
                      have hf := (mapM_ok_iff _ _ _).1 hbm
                      have hle := first_lines_length_le nb.toNat s5
                      rw [← hm]
                      refine ⟨line, na, nb, hcounts, ha, hb, ?_, ?_, ?_⟩
                      · simpa using hatlen
                      · show bonds.length = _
                        rw [← hf.length_eq]
                        omega
                      · show List.Forall₂ _ _ bonds
                        have hafter2 : after_lines 4 content = s4 := hafter
                        rw [hafter2, ← hs5]
                        exact hf

/-- C30 (amended): `parse_sdf` stores every line of the bond block as it is
written, as the bond `(a - 1, b - 1, order)` of the integers `a`, `b`, `order`
that `std::stoi` reads in its three fields of three characters; nothing is
checked. So a molecule it returns satisfies the Bond invariants exactly when
every line of its bond block names two different atoms between 1 and the
number of atoms and an order between 1 and 4. -/
theorem parse_sdf_bonds (stod : List Char → Option F) (content : List Char)
    (m : SDFMolecule F) (hm : parse_sdf stod content = .ok m) :
    ∃ (counts : List Char) (na nb : Int) (lines : List (List Char)),
      (first_lines 4 content).get? 3 = some counts ∧
      stoi (substr counts 0 3) = some na ∧ stoi (substr counts 3 3) = some nb ∧
      m.atoms.length = na.toNat ∧
      lines = first_lines nb.toNat (after_lines na.toNat (after_lines 4 content)) ∧
      lines.length = nb.toNat ∧
      List.Forall₂ (fun l b => 9 ≤ l.length ∧ ∃ a c o, stoi (substr l 0 3) = some a ∧
        stoi (substr l 3 3) = some c ∧ stoi (substr l 6 3) = some o ∧
        b = (⟨a - 1, c - 1, o⟩ : RawBond)) lines m.bonds ∧
      ((∀ b ∈ m.bonds, b.valid m.atoms.length) ↔
        ∀ l ∈ lines, ∀ a c o, stoi (substr l 0 3) = some a → stoi (substr l 3 3) = some c →
          stoi (substr l 6 3) = some o →
          1 ≤ a ∧ a ≤ m.atoms.length ∧ 1 ≤ c ∧ c ≤ m.atoms.length ∧ a ≠ c ∧ 1 ≤ o ∧ o ≤ 4) := by
  obtain ⟨counts, na, nb, h1, h2, h3, h4, h5, h6⟩ := parse_sdf_ok stod content m hm
  have h7 : List.Forall₂ (fun l b => 9 ≤ l.length ∧ ∃ a c o, stoi (substr l 0 3) = some a ∧
      stoi (substr l 3 3) = some c ∧ stoi (substr l 6 3) = some o ∧
      b = (⟨a - 1, c - 1, o⟩ : RawBond))
      (first_lines nb.toNat (after_lines na.toNat (after_lines 4 content))) m.bonds :=
    h6.imp fun l b h => (sdf_bond_line_ok_iff l b).1 h
  refine ⟨counts, na, nb, _, h1, h2, h3, h4, rfl, by rw [h6.length_eq, h5], h7, ?_⟩
  constructor
  · intro hv l hl a c o ha hc ho
    obtain ⟨n, hn, rfl⟩ := List.mem_iff_getElem.1 hl
    have hn2 : n < m.bonds.length := by rw [← h6.length_eq]; exact hn
    obtain ⟨_, a2, c2, o2, ha2, hc2, ho2, hb⟩ := (List.forall₂_iff_get.1 h7).2 n hn hn2
    simp only [List.get_eq_getElem] at ha2 hc2 ho2 hb
    rw [ha] at ha2
    rw [hc] at hc2
    rw [ho] at ho2
    injection ha2 with ha2
    injection hc2 with hc2
    injection ho2 with ho2
    have := hv _ (List.getElem_mem hn2)
    rw [hb] at this
    unfold RawBond.valid at this
    simp only at this
    subst ha2
    subst hc2
    subst ho2
    omega
  · intro hv b hb
    obtain ⟨n, hn, rfl⟩ := List.mem_iff_getElem.1 hb
    have hn2 : n < (first_lines nb.toNat (after_lines na.toNat (after_lines 4 content))).length := by
      rw [h6.length_eq]; exact hn
    obtain ⟨_, a, c, o, ha, hc, ho, hb2⟩ := (List.forall₂_iff_get.1 h7).2 n hn2 hn
    simp only [List.get_eq_getElem] at ha hc ho hb2
    have := hv _ (List.getElem_mem hn2) a c o ha hc ho
    rw [hb2]
    unfold RawBond.valid
    simp only
    omega

end sdf_claims

/-! ## The parsers on the sample files -/

section parser_exhibits

/-- The sample reader and writer of whole numbers fit together, nothing being
rounded. -/
theorem formats_whole : Formats read_whole show_whole id := by
  intro x hx
  obtain ⟨s0, r0, h0⟩ := hx
  have hxk : ∃ k : Nat, x = (k : ℝ) := by
    unfold read_whole at h0
    simp only at h0
    split_ifs at h0
    simp only [Option.some.injEq, Prod.mk.injEq] at h0
    exact ⟨_, h0.1.symm⟩
  obtain ⟨k, rfl⟩ := hxk
  obtain ⟨hne, hdig, hval⟩ := show_nat_spec k
  have hshow : show_whole (k : ℝ) = show_nat k := by
    unfold show_whole
    rw [Nat.floor_natCast]
  rw [hshow]
  refine ⟨digits_no_newline _ hdig, ?_⟩
  intro s hs
  have hrest : ∀ c, s.head? = some c → c.isDigit = false := by
    intro c hc
    rcases hs with hs | hs
    · rw [hs] at hc
      cases hc
    · rw [hs] at hc
      injection hc with hc
      rw [← hc]
      decide
  have hhead : ∀ c, (show_nat k ++ s).head? = some c → is_space c = false := by
    intro c hc
    cases hk : show_nat k with
    | nil => exact absurd hk hne
    | cons a l =>
      rw [hk] at hc
      simp only [List.cons_append, List.head?_cons, Option.some.injEq] at hc
      rw [← hc]
      exact isDigit_not_space a (hdig a (by rw [hk]; simp))
  have hdrop : (Char.ofNat 32 :: (show_nat k ++ s)).dropWhile is_space = show_nat k ++ s :=
    dropWhile_space_append [Char.ofNat 32] _ (by decide) hhead
  have htake := takeWhile_digits_append (show_nat k) s hdig hrest
  have hdrop2 : (show_nat k ++ s).dropWhile Char.isDigit = s := by
    rw [List.dropWhile_append_of_pos hdig]
    cases s with
    | nil => rfl
    | cons c l => simp [List.dropWhile_cons, hrest c rfl]
  unfold read_whole
  simp only [hdrop, htake, hdrop2, hval, id]
  rw [if_neg]
  cases hk : show_nat k with
  | nil => exact absurd hk hne
  | cons a l => simp

/-- A first line that is no integer, `1.5`, is accepted as the count 1. -/
theorem parse_xyz_accepts_fractional_count :
    getline fractional_xyz = some ("1.5".toList, "c\nH 0 0 0\n".toList) ∧
    ∃ m, parse_xyz read_whole fractional_xyz = .ok m ∧ m.mol.num_atoms = 1 :=
  ⟨by decide, _, rfl, rfl⟩

/-- Bond lines that name the atom 0, an atom beyond the atom count, one atom
twice, and the order 7 are stored as they are. -/
theorem parse_sdf_stores_invalid_bonds :
    parse_sdf stod_whole loose_sdf =
      .ok ⟨"loose".toList, [], [], [⟨0, 0, 7⟩, ⟨-1, 4, 2⟩]⟩ ∧
    ¬ RawBond.valid 0 ⟨0, 0, 7⟩ ∧ ¬ RawBond.valid 0 ⟨-1, 4, 2⟩ :=
  ⟨rfl, fun h => h.2.2.2.2.1 rfl, fun h => absurd h.1 (by decide)⟩

theorem parse_xyz_body_witness :
    (getline pair_xyz = some ("2".toList, "pair\nO 0 0 0\nH 1 0 0\n".toList) ∧
      stoi "2".toList = some 2 ∧ (0 : Int) ≤ 2 ∧
      getline "pair\nO 0 0 0\nH 1 0 0\n".toList =
        some ("pair".toList, "O 0 0 0\nH 1 0 0\n".toList)) ∧
    ∃ m, parse_xyz read_whole pair_xyz = .ok m ∧ m.comment = "pair".toList ∧
      m.mol.num_atoms = 2 ∧
      List.Forall₂ (fun l a => xyz_atom_line read_whole l = .ok a)
        (first_lines 2 "O 0 0 0\nH 1 0 0\n".toList) m.mol.atoms ∧
      (Molecule.mk m.mol.atoms []).perceive_bonds 0.45 = .ok m.mol :=
  ⟨⟨by decide, by decide, by decide, by decide⟩,
    (parse_xyz_body read_whole pair_xyz "2".toList "pair\nO 0 0 0\nH 1 0 0\n".toList
      "pair".toList "O 0 0 0\nH 1 0 0\n".toList 2 (by decide) (by decide) (by decide)
      (by decide)).2.2.1 (by decide) (by
        intro l hl
        have hlines : first_lines (2 : Int).toNat "O 0 0 0\nH 1 0 0\n".toList =
            ["O 0 0 0".toList, "H 1 0 0".toList] := by decide
        rw [hlines] at hl
        simp only [List.mem_cons, List.mem_singleton, List.not_mem_nil, or_false] at hl
        rcases hl with rfl | rfl
        · exact ⟨_, rfl⟩
        · exact ⟨_, rfl⟩)⟩

theorem xyz_round_trip_witness :
    Formats read_whole show_whole id ∧
    ∃ m, parse_xyz read_whole helium_xyz = .ok m ∧
      ∃ m2, parse_xyz read_whole (write_xyz show_whole m) = .ok m2 ∧ m2.comment = m.comment ∧
        m2.mol.num_atoms = m.mol.num_atoms ∧
        m2.mol.atoms = m.mol.atoms.map (fun a => { a with
          position := ⟨id a.position.x, id a.position.y, id a.position.z⟩ }) ∧
        (∀ i, (m2.mol.atom i).symbol = (m.mol.atom i).symbol ∧
          (m2.mol.atom i).atomic_number = (m.mol.atom i).atomic_number) :=
  ⟨formats_whole, _, rfl, xyz_round_trip read_whole show_whole id formats_whole helium_xyz _ rfl⟩

theorem parse_sdf_bonds_witness :
    ∃ m, parse_sdf stod_whole pair_sdf = .ok m ∧
      ∃ (counts : List Char) (na nb : Int) (lines : List (List Char)),
        (first_lines 4 pair_sdf).get? 3 = some counts ∧
        stoi (substr counts 0 3) = some na ∧ stoi (substr counts 3 3) = some nb ∧
        m.atoms.length = na.toNat ∧
        lines = first_lines nb.toNat (after_lines na.toNat (after_lines 4 pair_sdf)) ∧
        lines.length = nb.toNat ∧
        List.Forall₂ (fun l b => 9 ≤ l.length ∧ ∃ a c o, stoi (substr l 0 3) = some a ∧
          stoi (substr l 3 3) = some c ∧ stoi (substr l 6 3) = some o ∧
          b = (⟨a - 1, c - 1, o⟩ : RawBond)) lines m.bonds ∧
        ((∀ b ∈ m.bonds, b.valid m.atoms.length) ↔
          ∀ l ∈ lines, ∀ a c o, stoi (substr l 0 3) = some a → stoi (substr l 3 3) = some c →
            stoi (substr l 6 3) = some o →
            1 ≤ a ∧ a ≤ m.atoms.length ∧ 1 ≤ c ∧ c ≤ m.atoms.length ∧ a ≠ c ∧
              1 ≤ o ∧ o ≤ 4) :=
  ⟨_, rfl, parse_sdf_bonds stod_whole pair_sdf _ rfl⟩

end parser_exhibits

/-! ## Checked arithmetic: the real evaluation inside the checked one -/

section checked_lemmas

open Checked

/-- Sum, difference, product, opposite and quotient of defined values are the
defined values of the real operations (the quotient when the divisor is not zero),
in this order. -/
theorem lift_field :
    (∀ a b : ℝ, lift a + lift b = lift (a + b)) ∧
    (∀ a b : ℝ, lift a - lift b = lift (a - b)) ∧
    (∀ a b : ℝ, lift a * lift b = lift (a * b)) ∧
    (∀ a : ℝ, -lift a = lift (-a)) ∧
    (∀ a b : ℝ, b ≠ 0 → lift a / lift b = lift (a / b)) := by
  refine ⟨fun _ _ => rfl, fun _ _ => rfl, fun _ _ => rfl, fun _ => rfl, ?_⟩
  intro a b h
  show Checked.div (lift a) (lift b) = _
  unfold Checked.div lift
  simp [h]

/-- The constants are defined: pi, the integers and the decimal literals, in this
order. -/
theorem lift_consts :
    ((Arith.pi : Checked) = lift Arith.pi) ∧
    (∀ n : Int, (Arith.ofInt n : Checked) = lift (Arith.ofInt n)) ∧
    (∀ (m : Nat) (s : Bool) (e : Nat),
      (OfScientific.ofScientific m s e : Checked) =
        lift (OfScientific.ofScientific m s e)) :=
  ⟨rfl, fun _ => rfl, fun _ _ _ => rfl⟩

/-- The functions on a defined value inside their domain: cosine, sine, absolute
value, square root, logarithm and arc cosine, in this order. -/
theorem lift_funs :
    (∀ a : ℝ, Arith.cos (lift a) = lift (Arith.cos a)) ∧
    (∀ a : ℝ, Arith.sin (lift a) = lift (Arith.sin a)) ∧
    (∀ a : ℝ, Arith.abs (lift a) = lift (Arith.abs a)) ∧
    (∀ a : ℝ, 0 ≤ a → Arith.sqrt (lift a) = lift (Arith.sqrt a)) ∧
    (∀ a : ℝ, 0 < a → Arith.log (lift a) = lift (Arith.log a)) ∧
    (∀ a : ℝ, -1 ≤ a → a ≤ 1 → Arith.acos (lift a) = lift (Arith.acos a)) := by
  refine ⟨fun _ => rfl, fun _ => rfl, fun _ => rfl, ?_, ?_, ?_⟩
  · intro a h
    show Checked.mapOn _ _ (lift a) = lift _
    unfold Checked.mapOn lift
    simp [h]
  · intro a h
    show Checked.mapOn _ _ (lift a) = lift _
    unfold Checked.mapOn lift
    simp [h]
  · intro a h1 h2
    show Checked.mapOn _ _ (lift a) = lift _
    unfold Checked.mapOn lift
    simp [h1, h2]

/-- Comparison, minimum and maximum of defined values, in this order. -/
theorem lift_order :
    (∀ a b : ℝ, (lift a < lift b) = (a < b)) ∧
    (∀ a b : ℝ, fmin (lift a) (lift b) = lift (fmin a b)) ∧
    (∀ a b : ℝ, fmax (lift a) (lift b) = lift (fmax a b)) := by
  have hlt : ∀ a b : ℝ, (lift a < lift b) = (a < b) := fun _ _ => rfl
  refine ⟨hlt, ?_, ?_⟩
  · intro a b
    unfold fmin
    simp only [hlt]
    split_ifs <;> rfl
  · intro a b
    unfold fmax
    simp only [hlt]
    split_ifs <;> rfl

end checked_lemmas

section checked_vectors

open Checked

/-- Difference, opposite, scaling and division by a scalar that is not zero, on
vectors of defined values, in this order. -/
theorem liftV_ops :
    (∀ v w : Vec3 ℝ, (v.map lift).sub (w.map lift) = (v.sub w).map lift) ∧
    (∀ v : Vec3 ℝ, (v.map lift).neg = v.neg.map lift) ∧
    (∀ (s : ℝ) (v : Vec3 ℝ), Vec3.smul (lift s) (v.map lift) = (Vec3.smul s v).map lift) ∧
    (∀ (v : Vec3 ℝ) (s : ℝ), s ≠ 0 → (v.map lift).sdiv (lift s) = (v.sdiv s).map lift) := by
  refine ⟨fun _ _ => rfl, fun _ => rfl, fun _ _ => rfl, ?_⟩
  intro v s h
  unfold Vec3.sdiv Vec3.map
  simp only [lift_field.2.2.2.2 _ _ h]

/-- Dot product, cross product, squared norm and norm of vectors of defined values,
in this order. -/
theorem liftV_products :
    (∀ v w : Vec3 ℝ, (v.map lift).dot (w.map lift) = lift (v.dot w)) ∧
    (∀ v w : Vec3 ℝ, (v.map lift).cross (w.map lift) = (v.cross w).map lift) ∧
    (∀ v : Vec3 ℝ, (v.map lift).squaredNorm = lift v.squaredNorm) ∧
    (∀ v : Vec3 ℝ, (v.map lift).norm = lift v.norm) := by
  refine ⟨fun _ _ => rfl, fun _ _ => rfl, fun _ => rfl, ?_⟩
  intro v
  have hnn : 0 ≤ v.squaredNorm := by
    unfold Vec3.squaredNorm
    nlinarith [mul_self_nonneg v.x, mul_self_nonneg v.y, mul_self_nonneg v.z]
  unfold Vec3.norm
  rw [show (v.map lift).squaredNorm = lift v.squaredNorm from rfl, lift_funs.2.2.2.1 _ hnn]

/-- Reading an atom of the converted molecule inside the molecule. -/
theorem lift_atom_position (mol : Molecule ℝ) (i : Nat) (hi : i < mol.num_atoms) :
    ((mol.map lift).atom i).position = (mol.atom i).position.map lift := by
  unfold Molecule.atom Molecule.map
  have hi2 : i < mol.atoms.length := hi
  simp [List.getD_eq_getElem?_getD, List.getElem?_eq_getElem hi2]

theorem lift_bond (mol : Molecule ℝ) (b : Nat) : (mol.map lift).bond b = mol.bond b := rfl

theorem lift_num_bonds (mol : Molecule ℝ) : (mol.map lift).num_bonds = mol.num_bonds := rfl

theorem lift_num_atoms (mol : Molecule ℝ) : (mol.map lift).num_atoms = mol.num_atoms := by
  simp [Molecule.map, Molecule.num_atoms]

/-- A bond read inside the bond sequence is one of the bonds. -/
theorem bond_mem (mol : Molecule ℝ) (b : Nat) (hb : b < mol.num_bonds) :
    mol.bond b ∈ mol.bonds := by
  unfold Molecule.bond
  have hb2 : b < mol.bonds.length := hb
  rw [List.getD_eq_getElem?_getD, List.getElem?_eq_getElem hb2]
  exact List.getElem_mem hb2

end checked_vectors

section checked_rows

variable {F G : Type} (f : F → G) (p : UFFAtomType F)

theorem map_r1 : (p.map f).r1 = f p.r1 := rfl
theorem map_theta0 : (p.map f).theta0 = f p.theta0 := rfl
theorem map_x1 : (p.map f).x1 = f p.x1 := rfl
theorem map_D1 : (p.map f).D1 = f p.D1 := rfl
theorem map_Z1 : (p.map f).Z1 = f p.Z1 := rfl
theorem map_Vi : (p.map f).Vi = f p.Vi := rfl
theorem map_Uj : (p.map f).Uj = f p.Uj := rfl
theorem map_Xi : (p.map f).Xi = f p.Xi := rfl

end checked_rows

section checked_bond

open Checked

variable (P : String → UFFAtomType ℝ) (ff : UFFForceField) (mol : Molecule ℝ)

theorem lift_uff_bond_length (b : Nat)
    (hi : RowDefined (P (ff.atom_type (mol.bond b).atom_i)))
    (hj : RowDefined (P (ff.atom_type (mol.bond b).atom_j)))
    (ho : 1 ≤ (mol.bond b).order) :
    uff_bond_length (fun l => (P l).map lift) ff b (mol.map lift) =
      lift (uff_bond_length P ff b mol) := by
  obtain ⟨hr1, hX1, _⟩ := hi
  obtain ⟨hr2, hX2, _⟩ := hj
  have hord : (0 : ℝ) < Arith.ofInt (mol.bond b).order := by
    have : (1 : ℝ) ≤ ((mol.bond b).order : ℝ) := by exact_mod_cast ho
    show (0 : ℝ) < ((mol.bond b).order : ℝ)
    linarith
  have hden : (P (ff.atom_type (mol.bond b).atom_i)).Xi * (P (ff.atom_type (mol.bond b).atom_i)).r1 +
      (P (ff.atom_type (mol.bond b).atom_j)).Xi * (P (ff.atom_type (mol.bond b).atom_j)).r1 ≠ 0 := by
    have h1 := mul_pos hX1 hr1
    have h2 := mul_pos hX2 hr2
    linarith
  unfold uff_bond_length
  simp only [lift_bond, map_r1, map_Xi, lift_consts.2.2, lift_field.1, lift_field.2.1, lift_field.2.2.1, lift_field.2.2.2.1,
    lift_consts.2.1, lift_funs.2.2.2.2.1 _ hord, lift_funs.2.2.2.1 _ hX1.le, lift_funs.2.2.2.1 _ hX2.le, lift_field.2.2.2.2 _ _ hden]

end checked_bond

section checked_folds

open Checked

theorem modify_map_lift (f2 : Checked → Checked) (f : ℝ → ℝ) (h : ∀ x, f2 (lift x) = lift (f x))
    (g : List ℝ) (n : Nat) : (g.map lift).modify f2 n = (g.modify f n).map lift := by
  apply List.ext_getElem?
  intro i
  simp only [List.getElem?_modify, List.getElem?_map]
  by_cases hn : n = i
  · simp only [hn, if_true]
    cases g[i]? with
    | none => rfl
    | some x => simp [h]
  · simp only [hn, if_false]
    cases g[i]? with
    | none => rfl
    | some x => simp

theorem lift_segment_add (g : List ℝ) (i : Nat) (v : Vec3 ℝ) :
    segment_add (g.map lift) i (v.map lift) = (segment_add g i v).map lift := by
  unfold segment_add
  rw [modify_map_lift (fun g => g + (v.map lift).x) (fun g => g + v.x) (fun x => rfl),
    modify_map_lift (fun g => g + (v.map lift).y) (fun g => g + v.y) (fun x => rfl),
    modify_map_lift (fun g => g + (v.map lift).z) (fun g => g + v.z) (fun x => rfl)]

theorem lift_segment_sub (g : List ℝ) (i : Nat) (v : Vec3 ℝ) :
    segment_sub (g.map lift) i (v.map lift) = (segment_sub g i v).map lift := by
  unfold segment_sub
  rw [modify_map_lift (fun g => g - (v.map lift).x) (fun g => g - v.x) (fun x => rfl),
    modify_map_lift (fun g => g - (v.map lift).y) (fun g => g - v.y) (fun x => rfl),
    modify_map_lift (fun g => g - (v.map lift).z) (fun g => g - v.z) (fun x => rfl)]

/-- A loop that adds up terms, in both arithmetics. -/
theorem foldl_lift {α : Type} (step2 : Checked → α → Checked) (step : ℝ → α → ℝ) :
    ∀ (l : List α) (E : ℝ), (∀ x ∈ l, ∀ E, step2 (lift E) x = lift (step E x)) →
      l.foldl step2 (lift E) = lift (l.foldl step E) := by
  intro l
  induction l with
  | nil => intro E _; rfl
  | cons x l ih =>
    intro E h
    rw [List.foldl_cons, List.foldl_cons, h x (List.mem_cons_self _ _)]
    exact ih _ (fun y hy => h y (List.mem_cons_of_mem _ hy))

/-- A loop that updates the gradient, in both arithmetics. -/
theorem foldl_lift_list {α : Type} (step2 : List Checked → α → List Checked)
    (step : List ℝ → α → List ℝ) :
    ∀ (l : List α) (g : List ℝ), (∀ x ∈ l, ∀ g, step2 (g.map lift) x = (step g x).map lift) →
      l.foldl step2 (g.map lift) = (l.foldl step g).map lift := by
  intro l
  induction l with
  | nil => intro g _; rfl
  | cons x l ih =>
    intro g h
    rw [List.foldl_cons, List.foldl_cons, h x (List.mem_cons_self _ _)]
    exact ih _ (fun y hy => h y (List.mem_cons_of_mem _ hy))

end checked_folds

section checked_bond_terms

open Checked

variable (P : String → UFFAtomType ℝ) (ff : UFFForceField) (mol : Molecule ℝ)

theorem lift_uff_bond_force_constant (b : Nat)
    (hi : RowDefined (P (ff.atom_type (mol.bond b).atom_i)))
    (hj : RowDefined (P (ff.atom_type (mol.bond b).atom_j)))
    (ho : 1 ≤ (mol.bond b).order) (hr0 : uff_bond_length P ff b mol ≠ 0) :
    uff_bond_force_constant (fun l => (P l).map lift) ff b (mol.map lift) =
      lift (uff_bond_force_constant P ff b mol) := by
  have hden : uff_bond_length P ff b mol * uff_bond_length P ff b mol *
      uff_bond_length P ff b mol ≠ 0 := mul_ne_zero (mul_ne_zero hr0 hr0) hr0
  unfold uff_bond_force_constant
  simp only [lift_uff_bond_length P ff mol b hi hj ho, lift_bond, map_Z1, lift_consts.2.2,
    lift_field.2.2.1, lift_field.2.2.2.2 _ _ hden]

theorem lift_bond_stretch_energy_step (E : ℝ) (b : Nat) (hb : b < mol.num_bonds)
    (hidx : IndicesValid ff mol) (hrows : ∀ i, RowDefined (P (ff.atom_type i)))
    (horder : ∀ b ∈ mol.bonds, 1 ≤ b.order) (hr0 : uff_bond_length P ff b mol ≠ 0) :
    bond_stretch_energy_step (fun l => (P l).map lift) ff (mol.map lift) (lift E) b =
      lift (bond_stretch_energy_step P ff mol E b) := by
  have hmem := bond_mem mol b hb
  obtain ⟨hi, hj⟩ := hidx.1 _ hmem
  unfold bond_stretch_energy_step
  simp only [lift_uff_bond_length P ff mol b (hrows _) (hrows _) (horder _ hmem),
    lift_uff_bond_force_constant P ff mol b (hrows _) (hrows _) (horder _ hmem) hr0,
    lift_bond, lift_atom_position mol _ hi, lift_atom_position mol _ hj, liftV_ops.1, liftV_products.2.2.2,
    lift_consts.2.2, lift_field.1, lift_field.2.1, lift_field.2.2.1]

theorem lift_bond_stretch_gradient_step (g : List ℝ) (b : Nat) (hb : b < mol.num_bonds)
    (hidx : IndicesValid ff mol) (hrows : ∀ i, RowDefined (P (ff.atom_type i)))
    (horder : ∀ b ∈ mol.bonds, 1 ≤ b.order) (hr0 : uff_bond_length P ff b mol ≠ 0) :
    bond_stretch_gradient_step (fun l => (P l).map lift) ff (mol.map lift) (g.map lift) b =
      (bond_stretch_gradient_step P ff mol g b).map lift := by
  have hmem := bond_mem mol b hb
  obtain ⟨hi, hj⟩ := hidx.1 _ hmem
  unfold bond_stretch_gradient_step
  simp only [lift_bond, lift_atom_position mol _ hi, lift_atom_position mol _ hj, liftV_ops.1,
    liftV_products.2.2.2, lift_consts.2.2, lift_order.1]
  by_cases hr : ((mol.atom (mol.bond b).atom_i).position.sub
      (mol.atom (mol.bond b).atom_j).position).norm < 1e-10
  · rw [if_pos hr, if_pos hr]
  · rw [if_neg hr, if_neg hr]
    have hpos : ((mol.atom (mol.bond b).atom_i).position.sub
        (mol.atom (mol.bond b).atom_j).position).norm ≠ 0 := by
      intro h0
      apply hr
      rw [h0]
      norm_num
    simp only [lift_uff_bond_length P ff mol b (hrows _) (hrows _) (horder _ hmem),
      lift_uff_bond_force_constant P ff mol b (hrows _) (hrows _) (horder _ hmem) hr0,
      lift_field.2.1, lift_field.2.2.1, liftV_ops.2.2.1, liftV_ops.2.2.2 _ _ hpos, lift_segment_add, lift_segment_sub]

end checked_bond_terms

section checked_small

open Checked

/-- A value that is not below the threshold `1e-10`, or `1e-20`, is not zero. -/
theorem not_small_ne_zero :
    (∀ x : ℝ, ¬ x < 1e-10 → x ≠ 0) ∧ (∀ x : ℝ, ¬ x < 1e-20 → x ≠ 0) := by
  constructor
  · intro x h h0
    apply h
    rw [h0]
    norm_num
  · intro x h h0
    apply h
    rw [h0]
    norm_num

/-- The clamped cosine is in the domain of the arc cosine. -/
theorem clamp_bounds (c : ℝ) : -1 ≤ fmax (-1.0) (fmin 1.0 c) ∧ fmax (-1.0) (fmin 1.0 c) ≤ 1 := by
  unfold fmax fmin
  split_ifs <;> constructor <;> norm_num at * <;> linarith

theorem lift_DEG2RAD : (DEG2RAD : Checked) = lift DEG2RAD := by
  unfold DEG2RAD
  rw [lift_consts.1, lift_consts.2.2, lift_field.2.2.2.2 _ _ (by norm_num)]

theorem lift_clamped_cos_angle (pi pj pk : Vec3 ℝ) (h1 : (pi.sub pj).norm ≠ 0)
    (h2 : (pk.sub pj).norm ≠ 0) :
    clamped_cos_angle (pi.map lift) (pj.map lift) (pk.map lift) =
      lift (clamped_cos_angle pi pj pk) := by
  unfold clamped_cos_angle
  simp only [liftV_ops.1, liftV_products.2.2.2, liftV_products.1, lift_field.2.2.1, lift_field.2.2.2.2 _ _ (mul_ne_zero h1 h2),
    lift_consts.2.2, lift_field.2.2.2.1, lift_order.2.1, lift_order.2.2]

theorem lift_angle_force_constant (pi pj pk : UFFAtomType ℝ) :
    angle_force_constant (pi.map lift) (pj.map lift) (pk.map lift) =
      lift (angle_force_constant pi pj pk) := by
  have fmax_floor : ∀ x : ℝ, 0.01 ≤ fmax x 0.01 := by
    intro x
    unfold fmax
    split_ifs with h
    · exact le_refl _
    · exact not_lt.1 h
  have hroot : ∀ x : ℝ, Arith.sqrt (fmax x 0.01) ≠ 0 := by
    intro x
    have h1 := fmax_floor x
    have h2 : (0 : ℝ) < fmax x 0.01 := by
      have : (0 : ℝ) < 0.01 := by norm_num
      linarith
    show Real.sqrt (fmax x 0.01) ≠ 0
    exact ne_of_gt (Real.sqrt_pos.2 h2)
  have hnn : ∀ x : ℝ, 0 ≤ fmax x 0.01 := by
    intro x
    have h1 := fmax_floor x
    have : (0 : ℝ) < 0.01 := by norm_num
    linarith
  unfold angle_force_constant
  simp only [map_r1, map_theta0, map_Z1, lift_DEG2RAD, lift_field.2.2.1, lift_field.1, lift_field.2.1, lift_funs.1,
    lift_consts.2.2, lift_order.2.2, lift_funs.2.2.2.1 _ (hnn _)]
  rw [lift_field.2.2.2.2 _ _ (by
    have h := hroot ((pi.r1 + pj.r1) * (pi.r1 + pj.r1) + (pj.r1 + pk.r1) * (pj.r1 + pk.r1) -
      2.0 * (pi.r1 + pj.r1) * (pj.r1 + pk.r1) * Arith.cos (pj.theta0 * DEG2RAD))
    exact mul_ne_zero (mul_ne_zero (mul_ne_zero (mul_ne_zero h h) h) h) h)]
  simp only [lift_field.2.2.1, lift_field.2.1]

end checked_small

section checked_angle

open Checked

variable (P : String → UFFAtomType ℝ) (ff : UFFForceField) (mol : Molecule ℝ)

/-- The natural angle of a defined row, when the linear case does not apply, has
a sine that is not zero. -/
theorem sin_theta0_ne_zero (p : UFFAtomType ℝ) (hp : RowDefined p)
    (hlin : ¬ Arith.abs (p.theta0 * DEG2RAD - Arith.pi) < 0.01) :
    Arith.sin (p.theta0 * DEG2RAD) ≠ 0 := by
  obtain ⟨_, _, _, _, h0, h180⟩ := hp
  have hD : (DEG2RAD : ℝ) = Real.pi / 180 := by
    unfold DEG2RAD
    norm_num
  have hpi := Real.pi_pos
  have hpos : 0 < p.theta0 * DEG2RAD := by
    rw [hD]
    positivity
  have hle : p.theta0 * DEG2RAD ≤ Real.pi := by
    rw [hD]
    have : p.theta0 * (Real.pi / 180) = Real.pi * (p.theta0 / 180) := by ring
    rw [this]
    have h1 : p.theta0 / 180 ≤ 1 := by
      rw [div_le_one (by norm_num)]
      exact h180
    nlinarith
  have hlt : p.theta0 * DEG2RAD < Real.pi := by
    rcases lt_or_eq_of_le hle with h | h
    · exact h
    · exfalso
      apply hlin
      show |p.theta0 * DEG2RAD - Real.pi| < 0.01
      rw [h, sub_self, abs_zero]
      norm_num
  show Real.sin (p.theta0 * DEG2RAD) ≠ 0
  exact ne_of_gt (Real.sin_pos_of_pos_of_lt_pi hpos hlt)

theorem lift_angle_bend_energy_step (E : ℝ) (a : AngleInfo) (ha : a ∈ ff.angles_)
    (hidx : IndicesValid ff mol) (hrows : ∀ i, RowDefined (P (ff.atom_type i))) :
    angle_bend_energy_step (fun l => (P l).map lift) ff (mol.map lift) (lift E) a =
      lift (angle_bend_energy_step P ff mol E a) := by
  obtain ⟨hi, hj, hk⟩ := hidx.2.1 a ha
  rw [angle_bend_energy_step_eq, angle_bend_energy_step_eq]
  simp only [lift_atom_position mol _ hi, lift_atom_position mol _ hj,
    lift_atom_position mol _ hk, liftV_ops.1, liftV_products.2.2.2, lift_consts.2.2, lift_order.1,
    lift_angle_force_constant, lift_funs.2.2.1, map_theta0, lift_DEG2RAD, lift_field.2.2.1, lift_consts.1, lift_field.2.1]
  by_cases hg : ((mol.atom a.i).position.sub (mol.atom a.j).position).norm < 1e-10 ∨
      ((mol.atom a.k).position.sub (mol.atom a.j).position).norm < 1e-10
  · rw [if_pos hg, if_pos hg]
  · rw [if_neg hg, if_neg hg]
    rw [not_or] at hg
    by_cases hK : Arith.abs (angle_force_constant (P (ff.atom_type a.i)) (P (ff.atom_type a.j))
        (P (ff.atom_type a.k))) < 1e-10
    · rw [if_pos hK, if_pos hK]
    · rw [if_neg hK, if_neg hK]
      have hc := lift_clamped_cos_angle (mol.atom a.i).position (mol.atom a.j).position
        (mol.atom a.k).position (not_small_ne_zero.1 _ hg.1) (not_small_ne_zero.1 _ hg.2)
      have hb := clamp_bounds (((mol.atom a.i).position.sub (mol.atom a.j).position).dot
        ((mol.atom a.k).position.sub (mol.atom a.j).position) /
        (((mol.atom a.i).position.sub (mol.atom a.j).position).norm *
          ((mol.atom a.k).position.sub (mol.atom a.j).position).norm))
      have hb2 : -1 ≤ clamped_cos_angle (mol.atom a.i).position (mol.atom a.j).position
          (mol.atom a.k).position ∧
          clamped_cos_angle (mol.atom a.i).position (mol.atom a.j).position
            (mol.atom a.k).position ≤ 1 := hb
      by_cases hlin : Arith.abs ((P (ff.atom_type a.j)).theta0 * DEG2RAD - Arith.pi) < 0.01
      · rw [if_pos hlin, if_pos hlin]
        simp only [hc, lift_field.1, lift_field.2.2.1]
      · rw [if_neg hlin, if_neg hlin]
        have hs := sin_theta0_ne_zero _ (hrows a.j) hlin
        have hden : 4.0 * Arith.sin ((P (ff.atom_type a.j)).theta0 * DEG2RAD) *
            Arith.sin ((P (ff.atom_type a.j)).theta0 * DEG2RAD) ≠ 0 :=
          mul_ne_zero (mul_ne_zero (by norm_num) hs) hs
        simp only [hc, lift_funs.2.1, lift_funs.1, lift_field.2.2.1, lift_field.2.2.2.2 _ _ hden, lift_field.1, lift_field.2.2.2.1,
          lift_funs.2.2.2.2.2 _ hb2.1 hb2.2]

theorem lift_angle_bend_gradient_step (g : List ℝ) (a : AngleInfo) (ha : a ∈ ff.angles_)
    (hidx : IndicesValid ff mol) (hrows : ∀ i, RowDefined (P (ff.atom_type i))) :
    angle_bend_gradient_step (fun l => (P l).map lift) ff (mol.map lift) (g.map lift) a =
      (angle_bend_gradient_step P ff mol g a).map lift := by
  obtain ⟨hi, hj, hk⟩ := hidx.2.1 a ha
  rw [angle_bend_gradient_step_eq, angle_bend_gradient_step_eq]
  simp only [lift_atom_position mol _ hi, lift_atom_position mol _ hj,
    lift_atom_position mol _ hk, liftV_ops.1, liftV_products.2.2.2, lift_consts.2.2, lift_order.1,
    lift_angle_force_constant, lift_funs.2.2.1, map_theta0, lift_DEG2RAD, lift_field.2.2.1, lift_consts.1, lift_field.2.1]
  by_cases hg : ((mol.atom a.i).position.sub (mol.atom a.j).position).norm < 1e-10 ∨
      ((mol.atom a.k).position.sub (mol.atom a.j).position).norm < 1e-10
  · rw [if_pos hg, if_pos hg]
  · rw [if_neg hg, if_neg hg]
    rw [not_or] at hg
    by_cases hK : Arith.abs (angle_force_constant (P (ff.atom_type a.i)) (P (ff.atom_type a.j))
        (P (ff.atom_type a.k))) < 1e-10
    · rw [if_pos hK, if_pos hK]
    · rw [if_neg hK, if_neg hK]
      have hdji := not_small_ne_zero.1 _ hg.1
      have hdjk := not_small_ne_zero.1 _ hg.2
      have hc := lift_clamped_cos_angle (mol.atom a.i).position (mol.atom a.j).position
        (mol.atom a.k).position hdji hdjk
      have hb : -1 ≤ clamped_cos_angle (mol.atom a.i).position (mol.atom a.j).position
          (mol.atom a.k).position ∧
          clamped_cos_angle (mol.atom a.i).position (mol.atom a.j).position
            (mol.atom a.k).position ≤ 1 :=
        clamp_bounds (((mol.atom a.i).position.sub (mol.atom a.j).position).dot
          ((mol.atom a.k).position.sub (mol.atom a.j).position) /
          (((mol.atom a.i).position.sub (mol.atom a.j).position).norm *
            ((mol.atom a.k).position.sub (mol.atom a.j).position).norm))
      -- the floored sine
      have hfloor : ∀ s : ℝ, (if Arith.abs s < 1e-10 then (1e-10 : ℝ) else s) ≠ 0 := by
        intro s
        split_ifs with h
        · exact ne_of_gt (by norm_num : (0 : ℝ) < 1e-10)
        · intro h0
          apply h
          show |s| < 1e-10
          rw [h0, abs_zero]
          exact (by norm_num : (0 : ℝ) < 1e-10)
      have hfl : ∀ s : ℝ, (if lift (Arith.abs s) < lift 1e-10 then lift 1e-10 else lift s) =
          lift (if Arith.abs s < 1e-10 then (1e-10 : ℝ) else s) := by
        intro s
        simp only [lift_order.1]
        split_ifs <;> rfl
      simp only [hc, lift_funs.2.2.2.2.2 _ hb.1 hb.2, lift_funs.2.1, lift_funs.2.2.1, hfl, lift_funs.1]
      have hsdji := liftV_ops.2.2.2 ((mol.atom a.i).position.sub (mol.atom a.j).position) _ hdji
      have hsdjk := liftV_ops.2.2.2 ((mol.atom a.k).position.sub (mol.atom a.j).position) _ hdjk
      simp only [hsdji, hsdjk, liftV_ops.2.2.1, liftV_ops.1, liftV_ops.2.1, lift_field.2.2.1,
        liftV_ops.2.2.2 _ _ (mul_ne_zero hdji (hfloor _)), liftV_ops.2.2.2 _ _ (mul_ne_zero hdjk (hfloor _))]
      by_cases hlin : Arith.abs ((P (ff.atom_type a.j)).theta0 * DEG2RAD - Arith.pi) < 0.01
      · rw [if_pos hlin, if_pos hlin]
        simp only [lift_field.2.2.2.1, lift_field.2.2.1, liftV_ops.2.2.1, lift_segment_add]
      · rw [if_neg hlin, if_neg hlin]
        have hs := sin_theta0_ne_zero _ (hrows a.j) hlin
        have hden : 4.0 * Arith.sin ((P (ff.atom_type a.j)).theta0 * DEG2RAD) *
            Arith.sin ((P (ff.atom_type a.j)).theta0 * DEG2RAD) ≠ 0 :=
          mul_ne_zero (mul_ne_zero (by norm_num) hs) hs
        simp only [lift_field.2.2.1, lift_field.2.2.2.2 _ _ hden, lift_field.2.2.2.1, lift_funs.2.1, lift_field.2.1, liftV_ops.2.2.1,
          lift_segment_add]

end checked_angle

section checked_torsion

open Checked

variable (P : String → UFFAtomType ℝ) (ff : UFFForceField) (mol : Molecule ℝ)

theorem lift_compute_dihedral (p1 p2 p3 p4 : Vec3 ℝ) :
    compute_dihedral (p1.map lift) (p2.map lift) (p3.map lift) (p4.map lift) =
      lift (compute_dihedral p1 p2 p3 p4) := by
  unfold compute_dihedral
  simp only [liftV_ops.1, liftV_products.2.1, liftV_products.2.2.2, lift_consts.2.2, lift_order.1]
  by_cases hg : ((p2.sub p1).cross (p3.sub p2)).norm < 1e-10 ∨
      ((p3.sub p2).cross (p4.sub p3)).norm < 1e-10
  · rw [if_pos hg, if_pos hg]
  · rw [if_neg hg, if_neg hg]
    rw [not_or] at hg
    have h1 := not_small_ne_zero.1 _ hg.1
    have h2 := not_small_ne_zero.1 _ hg.2
    simp only [liftV_ops.2.2.2 _ _ h1, liftV_ops.2.2.2 _ _ h2, liftV_products.1, lift_field.2.2.2.1, lift_order.2.1, lift_order.2.2,
      lift_order.1]
    have hb := clamp_bounds ((((p2.sub p1).cross (p3.sub p2)).sdiv
      ((p2.sub p1).cross (p3.sub p2)).norm).dot
      (((p3.sub p2).cross (p4.sub p3)).sdiv ((p3.sub p2).cross (p4.sub p3)).norm))
    rw [lift_funs.2.2.2.2.2 _ hb.1 hb.2]
    split_ifs <;> rfl

theorem lift_torsion_choice (pj pk : UFFAtomType ℝ) :
    torsion_choice (pj.map lift) (pk.map lift) =
      ((torsion_choice pj pk).1, lift (torsion_choice pj pk).2.1,
        lift (torsion_choice pj pk).2.2) := by
  have hnn : ∀ x : ℝ, (0 : ℝ) ≤ Arith.abs x := fun x => abs_nonneg x
  unfold torsion_choice
  simp only [map_theta0, map_Vi, map_Uj, lift_consts.2.2, lift_field.2.1, lift_funs.2.2.1, lift_order.1, lift_field.2.2.1,
    lift_consts.1, lift_funs.2.2.2.1 _ (hnn _)]
  split_ifs <;> rfl

theorem lift_torsion_energy_step (E : ℝ) (t : TorsionInfo) (ht : t ∈ ff.torsions_)
    (hidx : IndicesValid ff mol) :
    torsion_energy_step (fun l => (P l).map lift) ff (mol.map lift) (lift E) t =
      lift (torsion_energy_step P ff mol E t) := by
  obtain ⟨hi, hj, hk, hl⟩ := hidx.2.2.1 t ht
  rw [torsion_energy_step_eq, torsion_energy_step_eq]
  simp only [lift_torsion_choice, lift_atom_position mol _ hi, lift_atom_position mol _ hj,
    lift_atom_position mol _ hk, lift_atom_position mol _ hl, lift_compute_dihedral, lift_consts.2.2,
    lift_order.1, lift_consts.2.1, lift_field.2.2.1, lift_funs.1, lift_field.2.1, lift_field.1]
  split_ifs <;> rfl

theorem lift_torsion_gradient_step (g : List ℝ) (t : TorsionInfo) (ht : t ∈ ff.torsions_)
    (hidx : IndicesValid ff mol) :
    torsion_gradient_step (fun l => (P l).map lift) ff (mol.map lift) (g.map lift) t =
      (torsion_gradient_step P ff mol g t).map lift := by
  obtain ⟨hi, hj, hk, hl⟩ := hidx.2.2.1 t ht
  rw [torsion_gradient_step_eq, torsion_gradient_step_eq]
  simp only [lift_torsion_choice, lift_atom_position mol _ hi, lift_atom_position mol _ hj,
    lift_atom_position mol _ hk, lift_atom_position mol _ hl, lift_compute_dihedral, lift_consts.2.2,
    lift_order.1, liftV_ops.1, liftV_products.2.1, liftV_products.2.2.1, liftV_products.2.2.2]
  by_cases h1 : (((mol.atom t.j).position.sub (mol.atom t.i).position).cross
      ((mol.atom t.k).position.sub (mol.atom t.j).position)).squaredNorm < 1e-20 ∨
      (((mol.atom t.k).position.sub (mol.atom t.j).position).cross
      ((mol.atom t.l).position.sub (mol.atom t.k).position)).squaredNorm < 1e-20
  · rw [if_pos h1, if_pos h1]
  · rw [if_neg h1, if_neg h1]
    rw [not_or] at h1
    by_cases h2 : ((mol.atom t.k).position.sub (mol.atom t.j).position).norm < 1e-10
    · rw [if_pos h2, if_pos h2]
    · rw [if_neg h2, if_neg h2]
      by_cases h3 : (torsion_choice (P (ff.atom_type t.j)) (P (ff.atom_type t.k))).2.2 < 1e-10
      · rw [if_pos h3, if_pos h3]
      · rw [if_neg h3, if_neg h3]
        have hn1 := not_small_ne_zero.2 _ h1.1
        have hn2 := not_small_ne_zero.2 _ h1.2
        have hb2 := not_small_ne_zero.1 _ h2
        simp only [lift_consts.2.1, lift_field.2.2.1, lift_funs.1, lift_funs.2.1, lift_field.2.2.2.2 _ _ hn1, lift_field.2.2.2.2 _ _ hn2,
          lift_field.2.2.2.2 _ _ (mul_ne_zero hb2 hb2), lift_field.2.2.2.1, liftV_ops.2.2.1, liftV_products.1, lift_field.2.1, liftV_ops.1,
          lift_segment_add]

end checked_torsion

section checked_vdw

open Checked

variable (P : String → UFFAtomType ℝ) (ff : UFFForceField) (mol : Molecule ℝ)

theorem lift_vdw_energy_step (E : ℝ) (p : Nat × Nat) (hp : p ∈ ff.nonbonded_pairs_)
    (hidx : IndicesValid ff mol) (hrows : ∀ i, RowDefined (P (ff.atom_type i))) :
    vdw_energy_step (fun l => (P l).map lift) ff (mol.map lift) (lift E) p =
      lift (vdw_energy_step P ff mol E p) := by
  obtain ⟨hi, hj⟩ := hidx.2.2.2 p hp
  have hx : 0 ≤ (P (ff.atom_type p.1)).x1 * (P (ff.atom_type p.2)).x1 :=
    mul_nonneg (hrows p.1).2.2.1 (hrows p.2).2.2.1
  have hD : 0 ≤ (P (ff.atom_type p.1)).D1 * (P (ff.atom_type p.2)).D1 :=
    mul_nonneg (hrows p.1).2.2.2.1 (hrows p.2).2.2.2.1
  unfold vdw_energy_step
  simp only [map_x1, map_D1, lift_field.2.2.1, lift_funs.2.2.2.1 _ hx, lift_funs.2.2.2.1 _ hD,
    lift_atom_position mol _ hi, lift_atom_position mol _ hj, liftV_ops.1, liftV_products.2.2.2, lift_consts.2.2,
    lift_order.1]
  by_cases hr : ((mol.atom p.1).position.sub (mol.atom p.2).position).norm < 1e-10
  · rw [if_pos hr, if_pos hr]
  · rw [if_neg hr, if_neg hr]
    simp only [lift_field.2.2.2.2 _ _ (not_small_ne_zero.1 _ hr), lift_field.2.2.1, lift_field.2.1, lift_field.1]

theorem lift_vdw_gradient_step (g : List ℝ) (p : Nat × Nat) (hp : p ∈ ff.nonbonded_pairs_)
    (hidx : IndicesValid ff mol) (hrows : ∀ i, RowDefined (P (ff.atom_type i))) :
    vdw_gradient_step (fun l => (P l).map lift) ff (mol.map lift) (g.map lift) p =
      (vdw_gradient_step P ff mol g p).map lift := by
  obtain ⟨hi, hj⟩ := hidx.2.2.2 p hp
  have hx : 0 ≤ (P (ff.atom_type p.1)).x1 * (P (ff.atom_type p.2)).x1 :=
    mul_nonneg (hrows p.1).2.2.1 (hrows p.2).2.2.1
  have hD : 0 ≤ (P (ff.atom_type p.1)).D1 * (P (ff.atom_type p.2)).D1 :=
    mul_nonneg (hrows p.1).2.2.2.1 (hrows p.2).2.2.2.1
  unfold vdw_gradient_step
  simp only [map_x1, map_D1, lift_field.2.2.1, lift_funs.2.2.2.1 _ hx, lift_funs.2.2.2.1 _ hD,
    lift_atom_position mol _ hi, lift_atom_position mol _ hj, liftV_ops.1, liftV_products.2.2.2, lift_consts.2.2,
    lift_order.1]
  by_cases hr : ((mol.atom p.1).position.sub (mol.atom p.2).position).norm < 1e-10
  · rw [if_pos hr, if_pos hr]
  · rw [if_neg hr, if_neg hr]
    have hr0 := not_small_ne_zero.1 _ hr
    simp only [lift_field.2.2.2.2 _ _ hr0, lift_field.2.2.1, lift_field.2.2.2.1, lift_field.1, liftV_ops.2.2.1, liftV_ops.2.2.2 _ _ hr0,
      lift_segment_add, lift_segment_sub]

end checked_vdw

section checked_totals

open Checked

variable (P : String → UFFAtomType ℝ) (ff : UFFForceField) (mol : Molecule ℝ)

/-- The natural length of a single bond between defined rows is positive. -/
theorem bond_length_single_pos (b : Nat)
    (hi : RowDefined (P (ff.atom_type (mol.bond b).atom_i)))
    (hj : RowDefined (P (ff.atom_type (mol.bond b).atom_j)))
    (ho : (mol.bond b).order = 1) : 0 < uff_bond_length P ff b mol := by
  obtain ⟨hr1, hX1, _⟩ := hi
  obtain ⟨hr2, hX2, _⟩ := hj
  unfold uff_bond_length
  simp only [ho, arith_log_real, arith_ofInt_real, arith_sqrt_real, Int.cast_one, Real.log_one,
    mul_zero, add_zero]
  generalize (P (ff.atom_type (mol.bond b).atom_i)).r1 = ri at hr1 ⊢
  generalize (P (ff.atom_type (mol.bond b).atom_j)).r1 = rj at hr2 ⊢
  generalize (P (ff.atom_type (mol.bond b).atom_i)).Xi = Xi at hX1 ⊢
  generalize (P (ff.atom_type (mol.bond b).atom_j)).Xi = Xj at hX2 ⊢
  have ha := Real.sqrt_pos.2 hX1
  have hb := Real.sqrt_pos.2 hX2
  have ha2 : √Xi * √Xi = Xi := Real.mul_self_sqrt hX1.le
  have hb2 : √Xj * √Xj = Xj := Real.mul_self_sqrt hX2.le
  have hden : 0 < Xi * ri + Xj * rj := by
    have h1 := mul_pos hX1 hr1
    have h2 := mul_pos hX2 hr2
    linarith
  have hkey : ri * rj * (√Xi - √Xj) * (√Xi - √Xj) < (ri + rj) * (Xi * ri + Xj * rj) := by
    have hsq : 0 < (√Xi * ri + √Xj * rj) * (√Xi * ri + √Xj * rj) := by
      have : 0 < √Xi * ri + √Xj * rj := by
        have h1 := mul_pos ha hr1
        have h2 := mul_pos hb hr2
        linarith
      exact mul_pos this this
    have e : (ri + rj) * (Xi * ri + Xj * rj) - ri * rj * (√Xi - √Xj) * (√Xi - √Xj) =
        (√Xi * ri + √Xj * rj) * (√Xi * ri + √Xj * rj) := by
      linear_combination (-(ri * ri + ri * rj)) * ha2 + (-(rj * rj + ri * rj)) * hb2
    linarith
  have hlt : ri * rj * (√Xi - √Xj) * (√Xi - √Xj) / (Xi * ri + Xj * rj) < ri + rj := by
    rw [div_lt_iff₀ hden]
    exact hkey
  linarith

end checked_totals

section gradient_length

variable {F : Type} [Arith F] [Inhabited F]
variable (P : String → UFFAtomType F) (ff : UFFForceField) (mol : Molecule F)

theorem length_bond_stretch_gradient_step (g : List F) (b : Nat) :
    (bond_stretch_gradient_step P ff mol g b).length = g.length := by
  unfold bond_stretch_gradient_step
  simp only []
  split_ifs <;> simp

theorem length_angle_bend_gradient_step (g : List F) (a : AngleInfo) :
    (angle_bend_gradient_step P ff mol g a).length = g.length := by
  rw [angle_bend_gradient_step_eq]
  simp only []
  split_ifs <;> simp

theorem length_torsion_gradient_step (g : List F) (t : TorsionInfo) :
    (torsion_gradient_step P ff mol g t).length = g.length := by
  rw [torsion_gradient_step_eq]
  simp only []
  split_ifs <;> simp

theorem length_vdw_gradient_step (g : List F) (p : Nat × Nat) :
    (vdw_gradient_step P ff mol g p).length = g.length := by
  unfold vdw_gradient_step
  simp only []
  split_ifs <;> simp

theorem length_foldl_step {α β : Type} (step : List β → α → List β)
    (h : ∀ g x, (step g x).length = g.length) :
    ∀ (l : List α) (g : List β), (l.foldl step g).length = g.length := by
  intro l
  induction l with
  | nil => intro g; rfl
  | cons x l ih => intro g; rw [List.foldl_cons, ih, h]

/-- The gradient has three entries per atom. -/
theorem calculate_gradient_length : (calculate_gradient P ff mol).length = 3 * mol.num_atoms := by
  unfold calculate_gradient vdw_gradient torsion_gradient angle_bend_gradient
    bond_stretch_gradient
  simp only []
  rw [length_foldl_step _ (length_vdw_gradient_step P ff mol),
    length_foldl_step _ (length_torsion_gradient_step P ff mol),
    length_foldl_step _ (length_angle_bend_gradient_step P ff mol),
    length_foldl_step _ (length_bond_stretch_gradient_step P ff mol), List.length_replicate]
  omega

end gradient_length

section checked_totals

open Checked

variable (P : String → UFFAtomType ℝ) (ff : UFFForceField) (mol : Molecule ℝ)

/-- When every parameter row read has a positive radius and electronegativity,
van der Waals parameters that are not negative and a natural angle in
`(0, 180]`, every bond has an order of at least 1 and a natural length that is
not zero, and every index held is an index of the molecule, then
`calculate_energy` and `calculate_gradient` meet no division by zero and no
operation outside its domain, whatever the positions: in checked arithmetic the
energy and each of the `3 * num_atoms` gradient entries is the real number
that exact arithmetic gives. A gradient term whose guard on a distance or on a
normal triggers is skipped. -/
theorem uff_evaluation_defined (hrows : ∀ i, RowDefined (P (ff.atom_type i)))
    (horder : ∀ b ∈ mol.bonds, 1 ≤ b.order)
    (hr0 : ∀ b, b < mol.num_bonds → uff_bond_length P ff b mol ≠ 0)
    (hidx : IndicesValid ff mol) :
    calculate_energy (fun l => (P l).map lift) ff (mol.map lift) =
      lift (calculate_energy P ff mol) ∧
    calculate_gradient (fun l => (P l).map lift) ff (mol.map lift) =
      (calculate_gradient P ff mol).map lift ∧
    (calculate_gradient P ff mol).length = 3 * mol.num_atoms ∧
    (∀ g b, ((mol.atom (mol.bond b).atom_i).position.sub
        (mol.atom (mol.bond b).atom_j).position).norm < 1e-10 →
      bond_stretch_gradient_step P ff mol g b = g) ∧
    (∀ g (a : AngleInfo), (((mol.atom a.i).position.sub (mol.atom a.j).position).norm < 1e-10 ∨
        ((mol.atom a.k).position.sub (mol.atom a.j).position).norm < 1e-10) →
      angle_bend_gradient_step P ff mol g a = g) ∧
    (∀ g (t : TorsionInfo),
      ((((mol.atom t.j).position.sub (mol.atom t.i).position).cross
          ((mol.atom t.k).position.sub (mol.atom t.j).position)).squaredNorm < 1e-20 ∨
        (((mol.atom t.k).position.sub (mol.atom t.j).position).cross
          ((mol.atom t.l).position.sub (mol.atom t.k).position)).squaredNorm < 1e-20 ∨
        ((mol.atom t.k).position.sub (mol.atom t.j).position).norm < 1e-10) →
      torsion_gradient_step P ff mol g t = g) ∧
    (∀ g (p : Nat × Nat),
      ((mol.atom p.1).position.sub (mol.atom p.2).position).norm < 1e-10 →
      vdw_gradient_step P ff mol g p = g) := by
  have hbondE : bond_stretch_energy (fun l => (P l).map lift) ff (mol.map lift) =
      lift (bond_stretch_energy P ff mol) := by
    unfold bond_stretch_energy
    rw [lift_num_bonds, lift_consts.2.2]
    apply foldl_lift
    intro b hb E
    have hb2 := List.mem_range.1 hb
    exact lift_bond_stretch_energy_step P ff mol E b hb2 hidx hrows horder (hr0 b hb2)
  have hangE : angle_bend_energy (fun l => (P l).map lift) ff (mol.map lift) =
      lift (angle_bend_energy P ff mol) := by
    unfold angle_bend_energy
    rw [lift_consts.2.2]
    apply foldl_lift
    intro a ha E
    exact lift_angle_bend_energy_step P ff mol E a ha hidx hrows
  have htorE : torsion_energy (fun l => (P l).map lift) ff (mol.map lift) =
      lift (torsion_energy P ff mol) := by
    unfold torsion_energy
    rw [lift_consts.2.2]
    apply foldl_lift
    intro t ht E
    exact lift_torsion_energy_step P ff mol E t ht hidx
  have hvdwE : vdw_energy (fun l => (P l).map lift) ff (mol.map lift) =
      lift (vdw_energy P ff mol) := by
    unfold vdw_energy
    rw [lift_consts.2.2]
    apply foldl_lift
    intro p hp E
    exact lift_vdw_energy_step P ff mol E p hp hidx hrows
  refine ⟨?_, ?_, calculate_gradient_length P ff mol, ?_, ?_, ?_, ?_⟩
  · unfold calculate_energy
    rw [hbondE, hangE, htorE, hvdwE]
    rfl
  · unfold calculate_gradient vdw_gradient torsion_gradient angle_bend_gradient
      bond_stretch_gradient
    simp only []
    rw [lift_num_atoms, lift_num_bonds, lift_consts.2.2,
      show List.replicate (mol.num_atoms * 3) (lift 0.0) =
        (List.replicate (mol.num_atoms * 3) (0.0 : ℝ)).map lift from
        (List.map_replicate).symm,
      foldl_lift_list _ (bond_stretch_gradient_step P ff mol) _ _ (fun b hb g =>
        lift_bond_stretch_gradient_step P ff mol g b (List.mem_range.1 hb) hidx hrows horder
          (hr0 b (List.mem_range.1 hb))),
      foldl_lift_list _ (angle_bend_gradient_step P ff mol) _ _ (fun a ha g =>
        lift_angle_bend_gradient_step P ff mol g a ha hidx hrows),
      foldl_lift_list _ (torsion_gradient_step P ff mol) _ _ (fun t ht g =>
        lift_torsion_gradient_step P ff mol g t ht hidx),
      foldl_lift_list _ (vdw_gradient_step P ff mol) _ _ (fun p hp g =>
        lift_vdw_gradient_step P ff mol g p hp hidx hrows)]
  · intro g b h
    unfold bond_stretch_gradient_step
    simp only []
    rw [if_pos h]
  · intro g a h
    rw [angle_bend_gradient_step_eq, if_pos h]
  · intro g t h
    rw [torsion_gradient_step_eq]
    simp only []
    rcases h with h | h | h
    · rw [if_pos (Or.inl h)]
    · rw [if_pos (Or.inr h)]
    · split_ifs <;> rfl
  · intro g p h
    unfold vdw_gradient_step
    simp only []
    rw [if_pos h]

end checked_totals

section checked_exhibits

open Checked

theorem sample_rows_defined (label : String) : RowDefined (sample_uff_params label) := by
  unfold sample_uff_params RowDefined
  split_ifs <;> norm_num

theorem peroxide_orders : ∀ b ∈ (peroxide 0).bonds, (1 : Int) ≤ b.order := by
  intro b hb
  simp only [peroxide, List.mem_cons, List.mem_singleton, List.not_mem_nil, or_false] at hb
  rcases hb with rfl | rfl | rfl <;> decide

theorem peroxide_bond_lengths :
    ∀ b, b < (peroxide 0).num_bonds → uff_bond_length sample_uff_params peroxide_ff b (peroxide 0) ≠ 0 := by
  intro b hb
  have h3 : b < 3 := hb
  apply ne_of_gt
  apply bond_length_single_pos sample_uff_params peroxide_ff (peroxide 0) b
    (sample_rows_defined _) (sample_rows_defined _)
  interval_cases b <;> rfl

theorem peroxide_indices : IndicesValid peroxide_ff (peroxide 0) := by
  refine ⟨?_, ?_, ?_, ?_⟩
  · intro b hb
    simp only [peroxide, List.mem_cons, List.mem_singleton, List.not_mem_nil, or_false] at hb
    rcases hb with rfl | rfl | rfl <;> exact ⟨by decide, by decide⟩
  · intro a ha
    rw [peroxide_angles] at ha
    simp only [List.mem_cons, List.mem_singleton, List.not_mem_nil, or_false] at ha
    rcases ha with rfl | rfl <;> exact ⟨by decide, by decide, by decide⟩
  · intro t ht
    rw [peroxide_torsions] at ht
    simp only [List.mem_cons, List.mem_singleton, List.not_mem_nil, or_false] at ht
    rw [ht]
    exact ⟨by decide, by decide, by decide, by decide⟩
  · intro p hp
    rw [peroxide_nonbonded] at hp
    simp only [List.mem_cons, List.mem_singleton, List.not_mem_nil, or_false] at hp
    rw [hp]
    exact ⟨by decide, by decide⟩

theorem uff_evaluation_defined_witness :
    ((∀ i, RowDefined (sample_uff_params (peroxide_ff.atom_type i))) ∧
      (∀ b ∈ (peroxide 0).bonds, 1 ≤ b.order) ∧
      (∀ b, b < (peroxide 0).num_bonds →
        uff_bond_length sample_uff_params peroxide_ff b (peroxide 0) ≠ 0) ∧
      IndicesValid peroxide_ff (peroxide 0)) ∧
    calculate_energy (fun l => (sample_uff_params l).map lift) peroxide_ff
        ((peroxide 0).map lift) =
      lift (calculate_energy sample_uff_params peroxide_ff (peroxide 0)) ∧
    calculate_gradient (fun l => (sample_uff_params l).map lift) peroxide_ff
        ((peroxide 0).map lift) =
      (calculate_gradient sample_uff_params peroxide_ff (peroxide 0)).map lift :=
  ⟨⟨fun _ => sample_rows_defined _, peroxide_orders, peroxide_bond_lengths, peroxide_indices⟩,
    (uff_evaluation_defined sample_uff_params peroxide_ff (peroxide 0)
      (fun _ => sample_rows_defined _) peroxide_orders peroxide_bond_lengths peroxide_indices).1,
    (uff_evaluation_defined sample_uff_params peroxide_ff (peroxide 0)
      (fun _ => sample_rows_defined _) peroxide_orders peroxide_bond_lengths
      peroxide_indices).2.1⟩

/-- C26 fails on a straight chain H - O - O - H with bonds of length 1. Every
atom is typed and every bond is 1 long; no operation of `calculate_energy` and
of `calculate_gradient` is outside its domain (the checked evaluation is the
real one); but both plane normals of the torsion are zero, the guard of the
dihedral triggers, `torsion_gradient` skips the term, and `torsion_energy` still
adds 0.018 to the energy, where the claim requires a term whose guard triggers
to contribute zero. -/
theorem guarded_torsion_term_contributes :
    (∀ has_uff_type : String → Bool,
      setup has_uff_type straight_peroxide = .ok peroxide_ff) ∧
    (∀ b, b < straight_peroxide.num_bonds →
      ((straight_peroxide.atom (straight_peroxide.bond b).atom_i).position.sub
        (straight_peroxide.atom (straight_peroxide.bond b).atom_j).position).norm = 1) ∧
    calculate_energy (fun l => (sample_uff_params l).map lift) peroxide_ff
        (straight_peroxide.map lift) =
      lift (calculate_energy sample_uff_params peroxide_ff straight_peroxide) ∧
    calculate_gradient (fun l => (sample_uff_params l).map lift) peroxide_ff
        (straight_peroxide.map lift) =
      (calculate_gradient sample_uff_params peroxide_ff straight_peroxide).map lift ∧
    (((straight_peroxide.atom 1).position.sub (straight_peroxide.atom 0).position).cross
        ((straight_peroxide.atom 2).position.sub (straight_peroxide.atom 1).position)).norm
      < 1e-10 ∧
    (((straight_peroxide.atom 2).position.sub (straight_peroxide.atom 1).position).cross
        ((straight_peroxide.atom 3).position.sub (straight_peroxide.atom 2).position)).norm
      < 1e-10 ∧
    (∀ g : List ℝ, torsion_gradient_step sample_uff_params peroxide_ff straight_peroxide g
      ⟨0, 1, 2, 3⟩ = g) ∧
    (∀ E : ℝ, torsion_energy_step sample_uff_params peroxide_ff straight_peroxide E
      ⟨0, 1, 2, 3⟩ = E + 0.018) := by
  have h0 : (straight_peroxide.atom 0).position = ⟨-1, 0, 0⟩ := rfl
  have h1 : (straight_peroxide.atom 1).position = ⟨0, 0, 0⟩ := rfl
  have h2 : (straight_peroxide.atom 2).position = ⟨1, 0, 0⟩ := rfl
  have h3 : (straight_peroxide.atom 3).position = ⟨2, 0, 0⟩ := rfl
  have horder : ∀ b ∈ straight_peroxide.bonds, (1 : Int) ≤ b.order := by
    intro b hb
    simp only [straight_peroxide, List.mem_cons, List.mem_singleton, List.not_mem_nil,
      or_false] at hb
    rcases hb with rfl | rfl | rfl <;> decide
  have hr0 : ∀ b, b < straight_peroxide.num_bonds →
      uff_bond_length sample_uff_params peroxide_ff b straight_peroxide ≠ 0 := by
    intro b hb
    have h3 : b < 3 := hb
    apply ne_of_gt
    apply bond_length_single_pos sample_uff_params peroxide_ff straight_peroxide b
      (sample_rows_defined _) (sample_rows_defined _)
    interval_cases b <;> rfl
  have hidx : IndicesValid peroxide_ff straight_peroxide := by
    refine ⟨?_, ?_, ?_, ?_⟩
    · intro b hb
      simp only [straight_peroxide, List.mem_cons, List.mem_singleton, List.not_mem_nil,
        or_false] at hb
      rcases hb with rfl | rfl | rfl <;> exact ⟨by decide, by decide⟩
    · intro a ha
      rw [peroxide_angles] at ha
      simp only [List.mem_cons, List.mem_singleton, List.not_mem_nil, or_false] at ha
      rcases ha with rfl | rfl <;> exact ⟨by decide, by decide, by decide⟩
    · intro t ht
      rw [peroxide_torsions] at ht
      simp only [List.mem_cons, List.mem_singleton, List.not_mem_nil, or_false] at ht
      rw [ht]
      exact ⟨by decide, by decide, by decide, by decide⟩
    · intro p hp
      rw [peroxide_nonbonded] at hp
      simp only [List.mem_cons, List.mem_singleton, List.not_mem_nil, or_false] at hp
      rw [hp]
      exact ⟨by decide, by decide⟩
  have hdef := uff_evaluation_defined sample_uff_params peroxide_ff straight_peroxide
    (fun _ => sample_rows_defined _) horder hr0 hidx
  refine ⟨fun _ => rfl, ?_, hdef.1, hdef.2.1, ?_, ?_, ?_, ?_⟩
  · intro b hb
    have hb3 : b < 3 := hb
    interval_cases b
    · rw [show straight_peroxide.bond 0 = ⟨0, 1, 1⟩ from rfl]
      simp only [h0, h1, Vec3.sub, Vec3.norm, Vec3.squaredNorm, arith_sqrt_real]
      norm_num
    · rw [show straight_peroxide.bond 1 = ⟨1, 2, 1⟩ from rfl]
      simp only [h1, h2, Vec3.sub, Vec3.norm, Vec3.squaredNorm, arith_sqrt_real]
      norm_num
    · rw [show straight_peroxide.bond 2 = ⟨2, 3, 1⟩ from rfl]
      simp only [h2, h3, Vec3.sub, Vec3.norm, Vec3.squaredNorm, arith_sqrt_real]
      norm_num
  · rw [h0, h1, h2]
    simp only [Vec3.sub, Vec3.cross, Vec3.norm, Vec3.squaredNorm, arith_sqrt_real]
    norm_num
  · rw [h1, h2, h3]
    simp only [Vec3.sub, Vec3.cross, Vec3.norm, Vec3.squaredNorm, arith_sqrt_real]
    norm_num
  · intro g
    apply hdef.2.2.2.2.2.1 g ⟨0, 1, 2, 3⟩
    left
    simp only [h0, h1, h2, Vec3.sub, Vec3.cross, Vec3.squaredNorm]
    norm_num
  · intro E
    rw [torsion_energy_step_eq]
    have ht1 : peroxide_ff.atom_type 1 = "O_3" := rfl
    have ht2 : peroxide_ff.atom_type 2 = "O_3" := rfl
    have hO : sample_uff_params "O_3" =
        ⟨"O_3", 0.658, 104.51, 3.5, 0.06, 14.085, 2.3, 0.018, 2.0, 8.741, 6.682, 0.684⟩ := by
      unfold sample_uff_params
      rw [if_pos rfl]
    have hch := torsion_choice_sp3 (sample_uff_params "O_3") (by rw [hO]; norm_num [abs_lt])
    have hphi : compute_dihedral (straight_peroxide.atom 0).position
        (straight_peroxide.atom 1).position (straight_peroxide.atom 2).position
        (straight_peroxide.atom 3).position = 0.0 := by
      rw [h0, h1, h2, h3]
      unfold compute_dihedral
      simp only [Vec3.sub, Vec3.cross, Vec3.norm, Vec3.squaredNorm, arith_sqrt_real]
      rw [if_pos (by left; norm_num)]
    show (if (torsion_choice (sample_uff_params (peroxide_ff.atom_type 1))
        (sample_uff_params (peroxide_ff.atom_type 2))).2.2 < 1e-10 then E else _) = _
    rw [ht1, ht2, hch, hphi]
    simp only [hO, arith_cos_real, arith_ofInt_real]
    rw [if_neg (by norm_num [abs_of_pos])]
    have hc : Real.cos (((3 : Int) : ℝ) * Real.pi) = -1 := by
      have : (((3 : Int) : ℝ)) = 3 := by norm_num
      rw [this]
      exact cos_three_pi
    rw [hc]
    norm_num [abs_of_pos]

end checked_exhibits

/-! ## Element lookup by atomic number -/

section element_lookup

variable {F : Type} [Arith F]

theorem element_table_numbers :
    ∀ n : Nat, n < 55 →
      ((ELEMENT_TABLE (F := F)).getD n ⟨0, "X", "Dummy", 0.000, 0.00, 0.00⟩).atomic_number =
        (n : Int) := by
  intro n hn
  interval_cases n <;> rfl

/-- C31: `element_by_number z` returns the row of atomic number `z` for
`0 ≤ z ≤ 54` (the 55 rows of the table, the placeholder row 0 included); for
every other `z`, in particular for each `z` from 55 to `MAX_ATOMIC_NUMBER = 118`,
it fails with the out-of-range error. -/
theorem element_by_number_range (z : Int) :
    (0 ≤ z ∧ z ≤ 54 →
      ∃ e : ElementInfo F, element_by_number (F := F) z = .ok e ∧ e.atomic_number = z) ∧
    (z < 0 ∨ 55 ≤ z →
      element_by_number (F := F) z =
        .error ("Atomic number " ++ toString z ++ " out of range")) ∧
    (55 ≤ z ∧ z ≤ 118 → ∀ e : ElementInfo F, element_by_number (F := F) z ≠ .ok e) := by
  refine ⟨?_, ?_, ?_⟩
  · rintro ⟨h0, h1⟩
    unfold element_by_number NUM_ELEMENTS
    rw [if_neg (by push_cast; omega)]
    refine ⟨_, rfl, ?_⟩
    rw [element_table_numbers z.toNat (by omega)]
    omega
  · intro h
    unfold element_by_number NUM_ELEMENTS
    rw [if_pos (by push_cast; omega)]
  · rintro ⟨h0, h1⟩ e
    unfold element_by_number NUM_ELEMENTS
    rw [if_pos (by push_cast; omega)]
    exact fun h => (nomatch h)

end element_lookup

/-- Gold (atomic number 79, inside the documented range 1-118) is refused, and
the lookup of 54 succeeds. -/
theorem element_by_number_range_witness :
    (∀ e : ElementInfo ℝ, element_by_number (F := ℝ) 79 ≠ .ok e) ∧
    (∃ e : ElementInfo ℝ, element_by_number (F := ℝ) 54 = .ok e ∧ e.atomic_number = 54) :=
  ⟨(element_by_number_range 79).2.2 ⟨by decide, by decide⟩,
    (element_by_number_range 54).1 ⟨by decide, by decide⟩⟩

/-! ## Angle term: force constant, Fourier form and slope -/

section sample_rows

/-- The rows of the sample table; the "O_3" row passes the sp3 test and has a
torsion barrier of at least `1e-10`. -/
theorem sample_row_facts :
    sample_uff_params "O_3" =
      ⟨"O_3", 0.658, 104.51, 3.5, 0.06, 14.085, 2.3, 0.018, 2.0, 8.741, 6.682, 0.684⟩ ∧
    sample_uff_params "H_" =
      ⟨"H_", 0.354, 180.0, 2.886, 0.044, 12.0, 0.712, 0.0, 0.0, 4.528, 6.9452, 0.371⟩ ∧
    |(sample_uff_params "O_3").theta0 - 109.47| < 5 ∧
    (1e-10 : ℝ) ≤ |(sample_uff_params "O_3").Vi| := by
  have hO : sample_uff_params "O_3" =
      ⟨"O_3", 0.658, 104.51, 3.5, 0.06, 14.085, 2.3, 0.018, 2.0, 8.741, 6.682, 0.684⟩ := by
    unfold sample_uff_params
    rw [if_pos rfl]
  have hH : sample_uff_params "H_" =
      ⟨"H_", 0.354, 180.0, 2.886, 0.044, 12.0, 0.712, 0.0, 0.0, 4.528, 6.9452, 0.371⟩ := by
    unfold sample_uff_params
    rw [if_neg (by decide)]
  refine ⟨hO, hH, ?_, ?_⟩
  · rw [hO, abs_lt]
    constructor <;> norm_num
  · rw [hO, abs_of_pos (by norm_num)]
    norm_num

end sample_rows

section angle_shapes

variable {F : Type} [Arith F] [Inhabited F]

/-- The energy routine, read through the force constant and the angle term. -/
theorem angle_bend_energy_step_term (P : String → UFFAtomType F) (ff : UFFForceField)
    (mol : Molecule F) (E : F) (a : AngleInfo) :
    angle_bend_energy_step P ff mol E a =
      if ((mol.atom a.i).position.sub (mol.atom a.j).position).norm < 1e-10 ∨
          ((mol.atom a.k).position.sub (mol.atom a.j).position).norm < 1e-10 then E
      else if Arith.abs (angle_force_constant (P (ff.atom_type a.i)) (P (ff.atom_type a.j))
          (P (ff.atom_type a.k))) < 1e-10 then E
      else
        E + angle_term
          (angle_force_constant (P (ff.atom_type a.i)) (P (ff.atom_type a.j))
            (P (ff.atom_type a.k)))
          ((P (ff.atom_type a.j)).theta0 * DEG2RAD)
          (clamped_cos_angle (mol.atom a.i).position (mol.atom a.j).position
            (mol.atom a.k).position) := by
  unfold angle_bend_energy_step angle_force_constant clamped_cos_angle angle_term
  simp only []
  split_ifs <;> rfl

/-- The gradient routine, read through the force constant, the floored sine
and the slope. -/
theorem angle_bend_gradient_step_slope (P : String → UFFAtomType F) (ff : UFFForceField)
    (mol : Molecule F) (grad : List F) (a : AngleInfo) :
    angle_bend_gradient_step P ff mol grad a =
      if ((mol.atom a.i).position.sub (mol.atom a.j).position).norm < 1e-10 ∨
          ((mol.atom a.k).position.sub (mol.atom a.j).position).norm < 1e-10 then grad
      else if Arith.abs (angle_force_constant (P (ff.atom_type a.i)) (P (ff.atom_type a.j))
          (P (ff.atom_type a.k))) < 1e-10 then grad
      else
        let rji := (mol.atom a.i).position.sub (mol.atom a.j).position
        let rjk := (mol.atom a.k).position.sub (mol.atom a.j).position
        let dji := rji.norm
        let djk := rjk.norm
        let cos_theta := clamped_cos_angle (mol.atom a.i).position (mol.atom a.j).position
          (mol.atom a.k).position
        let sin_theta := floored_sin cos_theta
        let dE_dtheta := angle_slope
          (angle_force_constant (P (ff.atom_type a.i)) (P (ff.atom_type a.j))
            (P (ff.atom_type a.k)))
          ((P (ff.atom_type a.j)).theta0 * DEG2RAD) cos_theta
        let uji := rji.sdiv dji
        let ujk := rjk.sdiv djk
        let dthetadri := ((ujk.sub (Vec3.smul cos_theta uji)).neg).sdiv (dji * sin_theta)
        let dthetadrk := ((uji.sub (Vec3.smul cos_theta ujk)).neg).sdiv (djk * sin_theta)
        let dthetadrj := dthetadri.neg.sub dthetadrk
        segment_add (segment_add (segment_add grad a.i (Vec3.smul dE_dtheta dthetadri))
          a.j (Vec3.smul dE_dtheta dthetadrj)) a.k (Vec3.smul dE_dtheta dthetadrk) := by
  unfold angle_bend_gradient_step angle_force_constant clamped_cos_angle angle_slope floored_sin
  simp only []

end angle_shapes

section constants_agree

open Real

/-- The force constant of the angle routines and the stated force constant,
written out over the reals. -/
theorem force_constant_values (pi pj pk : UFFAtomType ℝ) :
    angle_force_constant pi pj pk =
      664.12 * pi.Z1 * pk.Z1 * (pi.r1 + pj.r1) * (pj.r1 + pk.r1) /
          (√(fmax ((pi.r1 + pj.r1) * (pi.r1 + pj.r1) + (pj.r1 + pk.r1) * (pj.r1 + pk.r1) -
            2 * (pi.r1 + pj.r1) * (pj.r1 + pk.r1) * cos (pj.theta0 * DEG2RAD)) 0.01)) ^ 5 *
        (3 * (pi.r1 + pj.r1) * (pj.r1 + pk.r1) * (1 - cos (pj.theta0 * DEG2RAD) ^ 2) -
          ((pi.r1 + pj.r1) * (pi.r1 + pj.r1) + (pj.r1 + pk.r1) * (pj.r1 + pk.r1) -
            2 * (pi.r1 + pj.r1) * (pj.r1 + pk.r1) * cos (pj.theta0 * DEG2RAD)) *
            cos (pj.theta0 * DEG2RAD)) ∧
    stated_angle_force_constant pi pj pk =
      664.12 * pi.Z1 * pk.Z1 * (pi.r1 + pj.r1) * (pj.r1 + pk.r1) /
          (√((pi.r1 + pj.r1) * (pi.r1 + pj.r1) + (pj.r1 + pk.r1) * (pj.r1 + pk.r1) -
            2 * (pi.r1 + pj.r1) * (pj.r1 + pk.r1) * cos (pj.theta0 * DEG2RAD))) ^ 5 *
        (3 * (pi.r1 + pj.r1) * (pj.r1 + pk.r1) * (1 - cos (pj.theta0 * DEG2RAD) ^ 2) -
          ((pi.r1 + pj.r1) * (pi.r1 + pj.r1) + (pj.r1 + pk.r1) * (pj.r1 + pk.r1) -
            2 * (pi.r1 + pj.r1) * (pj.r1 + pk.r1) * cos (pj.theta0 * DEG2RAD)) *
            cos (pj.theta0 * DEG2RAD)) := by
  constructor
  · unfold angle_force_constant
    simp only [arith_cos_real, arith_sqrt_real]
    norm_num
    ring
  · unfold stated_angle_force_constant
    simp only [arith_cos_real, arith_sqrt_real]
    norm_num
    ring

end constants_agree

section constants_agree_claim

open Real

/-- C38: the angle energy and the angle gradient are skipped under the same
conditions and use the same force constant `K`; `K` is the stated expression
with `r_ik^5` taken from `r_ik = sqrt (max (r_ik^2, 0.01))`, hence the stated
expression itself whenever `r_ik^2 ≥ 0.01`; and the torsion energy and the
torsion gradient use the same `(n, phi0, V)`. -/
theorem angle_torsion_constants_agree (P : String → UFFAtomType ℝ) (ff : UFFForceField)
    (mol : Molecule ℝ) (E : ℝ) (g : List ℝ) (a : AngleInfo) (tor : TorsionInfo) :
    (angle_bend_energy_step P ff mol E a =
      if ((mol.atom a.i).position.sub (mol.atom a.j).position).norm < 1e-10 ∨
          ((mol.atom a.k).position.sub (mol.atom a.j).position).norm < 1e-10 then E
      else if Arith.abs (angle_force_constant (P (ff.atom_type a.i)) (P (ff.atom_type a.j))
          (P (ff.atom_type a.k))) < 1e-10 then E
      else
        E + angle_term
          (angle_force_constant (P (ff.atom_type a.i)) (P (ff.atom_type a.j))
            (P (ff.atom_type a.k)))
          ((P (ff.atom_type a.j)).theta0 * DEG2RAD)
          (clamped_cos_angle (mol.atom a.i).position (mol.atom a.j).position
            (mol.atom a.k).position)) ∧
    (angle_bend_gradient_step P ff mol g a =
      if ((mol.atom a.i).position.sub (mol.atom a.j).position).norm < 1e-10 ∨
          ((mol.atom a.k).position.sub (mol.atom a.j).position).norm < 1e-10 then g
      else if Arith.abs (angle_force_constant (P (ff.atom_type a.i)) (P (ff.atom_type a.j))
          (P (ff.atom_type a.k))) < 1e-10 then g
      else
        let rji := (mol.atom a.i).position.sub (mol.atom a.j).position
        let rjk := (mol.atom a.k).position.sub (mol.atom a.j).position
        let dji := rji.norm
        let djk := rjk.norm
        let cos_theta := clamped_cos_angle (mol.atom a.i).position (mol.atom a.j).position
          (mol.atom a.k).position
        let sin_theta := floored_sin cos_theta
        let dE_dtheta := angle_slope
          (angle_force_constant (P (ff.atom_type a.i)) (P (ff.atom_type a.j))
            (P (ff.atom_type a.k)))
          ((P (ff.atom_type a.j)).theta0 * DEG2RAD) cos_theta
        let uji := rji.sdiv dji
        let ujk := rjk.sdiv djk
        let dthetadri := ((ujk.sub (Vec3.smul cos_theta uji)).neg).sdiv (dji * sin_theta)
        let dthetadrk := ((uji.sub (Vec3.smul cos_theta ujk)).neg).sdiv (djk * sin_theta)
        let dthetadrj := dthetadri.neg.sub dthetadrk
        segment_add (segment_add (segment_add g a.i (Vec3.smul dE_dtheta dthetadri))
          a.j (Vec3.smul dE_dtheta dthetadrj)) a.k (Vec3.smul dE_dtheta dthetadrk)) ∧
    (∀ pi pj pk : UFFAtomType ℝ,
      angle_force_constant pi pj pk =
        664.12 * pi.Z1 * pk.Z1 * (pi.r1 + pj.r1) * (pj.r1 + pk.r1) /
            (√(fmax ((pi.r1 + pj.r1) * (pi.r1 + pj.r1) + (pj.r1 + pk.r1) * (pj.r1 + pk.r1) -
              2 * (pi.r1 + pj.r1) * (pj.r1 + pk.r1) * cos (pj.theta0 * DEG2RAD)) 0.01)) ^ 5 *
          (3 * (pi.r1 + pj.r1) * (pj.r1 + pk.r1) * (1 - cos (pj.theta0 * DEG2RAD) ^ 2) -
            ((pi.r1 + pj.r1) * (pi.r1 + pj.r1) + (pj.r1 + pk.r1) * (pj.r1 + pk.r1) -
              2 * (pi.r1 + pj.r1) * (pj.r1 + pk.r1) * cos (pj.theta0 * DEG2RAD)) *
              cos (pj.theta0 * DEG2RAD))) ∧
    (∀ pi pj pk : UFFAtomType ℝ,
      0.01 ≤ (pi.r1 + pj.r1) * (pi.r1 + pj.r1) + (pj.r1 + pk.r1) * (pj.r1 + pk.r1) -
          2 * (pi.r1 + pj.r1) * (pj.r1 + pk.r1) * cos (pj.theta0 * DEG2RAD) →
        angle_force_constant pi pj pk = stated_angle_force_constant pi pj pk) ∧
    (torsion_energy_step P ff mol E tor =
      if (torsion_choice (P (ff.atom_type tor.j)) (P (ff.atom_type tor.k))).2.2 < 1e-10 then E
      else
        E + 0.5 * (torsion_choice (P (ff.atom_type tor.j)) (P (ff.atom_type tor.k))).2.2 *
          (1.0 - Arith.cos
              (Arith.ofInt (torsion_choice (P (ff.atom_type tor.j)) (P (ff.atom_type tor.k))).1 *
                (torsion_choice (P (ff.atom_type tor.j)) (P (ff.atom_type tor.k))).2.1) *
            Arith.cos
              (Arith.ofInt (torsion_choice (P (ff.atom_type tor.j)) (P (ff.atom_type tor.k))).1 *
                compute_dihedral (mol.atom tor.i).position (mol.atom tor.j).position
                  (mol.atom tor.k).position (mol.atom tor.l).position))) ∧
    (torsion_gradient_step P ff mol g tor =
      let p1 := (mol.atom tor.i).position
      let p2 := (mol.atom tor.j).position
      let p3 := (mol.atom tor.k).position
      let p4 := (mol.atom tor.l).position
      let b1 := p2.sub p1
      let b2 := p3.sub p2
      let b3 := p4.sub p3
      let n1 := b1.cross b2
      let n2 := b2.cross b3
      let n1_sq := n1.squaredNorm
      let n2_sq := n2.squaredNorm
      if n1_sq < 1e-20 ∨ n2_sq < 1e-20 then g
      else if b2.norm < 1e-10 then g
      else if (torsion_choice (P (ff.atom_type tor.j)) (P (ff.atom_type tor.k))).2.2 < 1e-10
        then g
      else
        let b2_norm := b2.norm
        let phi := compute_dihedral p1 p2 p3 p4
        let n := (torsion_choice (P (ff.atom_type tor.j)) (P (ff.atom_type tor.k))).1
        let phi0 := (torsion_choice (P (ff.atom_type tor.j)) (P (ff.atom_type tor.k))).2.1
        let V := (torsion_choice (P (ff.atom_type tor.j)) (P (ff.atom_type tor.k))).2.2
        let dE_dphi := 0.5 * V * Arith.ofInt n * Arith.cos (Arith.ofInt n * phi0) *
          Arith.sin (Arith.ofInt n * phi)
        let dphi_dp1 := Vec3.smul (-(b2_norm / n1_sq)) n1
        let dphi_dp4 := Vec3.smul (b2_norm / n2_sq) n2
        let dot_b1_b2 := b1.dot b2 / (b2_norm * b2_norm)
        let dot_b3_b2 := b3.dot b2 / (b2_norm * b2_norm)
        let dphi_dp2 := (Vec3.smul (dot_b1_b2 - 1.0) dphi_dp1).sub (Vec3.smul dot_b3_b2 dphi_dp4)
        let dphi_dp3 := (Vec3.smul (dot_b3_b2 - 1.0) dphi_dp4).sub (Vec3.smul dot_b1_b2 dphi_dp1)
        segment_add (segment_add (segment_add (segment_add g tor.i
          (Vec3.smul dE_dphi dphi_dp1)) tor.j (Vec3.smul dE_dphi dphi_dp2))
          tor.k (Vec3.smul dE_dphi dphi_dp3)) tor.l (Vec3.smul dE_dphi dphi_dp4)) := by
  refine ⟨angle_bend_energy_step_term P ff mol E a, angle_bend_gradient_step_slope P ff mol g a,
    fun pi pj pk => (force_constant_values pi pj pk).1, ?_, torsion_energy_step_eq P ff mol E tor,
    torsion_gradient_step_eq P ff mol g tor⟩
  intro pi pj pk h
  rw [(force_constant_values pi pj pk).1, (force_constant_values pi pj pk).2]
  have hmax : fmax ((pi.r1 + pj.r1) * (pi.r1 + pj.r1) + (pj.r1 + pk.r1) * (pj.r1 + pk.r1) -
      2 * (pi.r1 + pj.r1) * (pj.r1 + pk.r1) * cos (pj.theta0 * DEG2RAD)) 0.01 =
      (pi.r1 + pj.r1) * (pi.r1 + pj.r1) + (pj.r1 + pk.r1) * (pj.r1 + pk.r1) -
      2 * (pi.r1 + pj.r1) * (pj.r1 + pk.r1) * cos (pj.theta0 * DEG2RAD) := by
    unfold fmax
    rw [if_neg (not_lt.mpr h)]
  rw [hmax]

/-- On the rows H_, O_3, O_3 of the sample table the floor is not reached and
the force constant is the stated expression. -/
theorem angle_torsion_constants_agree_witness :
    angle_force_constant (sample_uff_params "H_") (sample_uff_params "O_3")
        (sample_uff_params "O_3") =
      stated_angle_force_constant (sample_uff_params "H_") (sample_uff_params "O_3")
        (sample_uff_params "O_3") := by
  refine (angle_torsion_constants_agree sample_uff_params peroxide_ff (peroxide 0) 0 [] ⟨0, 1, 2⟩
    ⟨0, 1, 2, 3⟩).2.2.2.1 _ _ _ ?_
  rw [sample_row_facts.1, sample_row_facts.2.1]
  simp only []
  have hc := Real.cos_le_one ((104.51 : ℝ) * DEG2RAD)
  nlinarith [hc]

end constants_agree_claim

section fourier_angle

open Real

/-- The Fourier form of the angle term over the reals: its closed form, its
derivative along the angle, and the value of the slope of the gradient routine
with and without the floor on the sine. -/
theorem fourier_term_facts (K th0 : ℝ) (hlin : ¬ |th0 - π| < 0.01) (hs : sin th0 ≠ 0) :
    (∀ x : ℝ, -1 ≤ x → x ≤ 1 →
      angle_term K th0 x = K * (x - cos th0) ^ 2 / (2 * sin th0 ^ 2)) ∧
    (∀ th : ℝ, HasDerivAt (fun u => angle_term K th0 (cos u))
      (K * (-(-4.0 * (1.0 / (4.0 * sin th0 * sin th0)) * cos th0) * sin th -
        2.0 * (1.0 / (4.0 * sin th0 * sin th0)) * sin (2.0 * th))) th) ∧
    (∀ x : ℝ, (1e-10 : ℝ) ≤ |sin (arccos x)| →
      angle_slope K th0 x =
        K * (-(-4.0 * (1.0 / (4.0 * sin th0 * sin th0)) * cos th0) * sin (arccos x) -
          2.0 * (1.0 / (4.0 * sin th0 * sin th0)) * sin (2.0 * arccos x))) ∧
    (∀ x : ℝ, |sin (arccos x)| < (1e-10 : ℝ) →
      angle_slope K th0 x =
        K * (-(-4.0 * (1.0 / (4.0 * sin th0 * sin th0)) * cos th0) * 1e-10 -
          2.0 * (1.0 / (4.0 * sin th0 * sin th0)) * sin (2.0 * arccos x))) := by
  have hterm : ∀ x : ℝ, -1 ≤ x → x ≤ 1 →
      angle_term K th0 x = K * (x - cos th0) ^ 2 / (2 * sin th0 ^ 2) := by
    intro x h0 h1
    have key : K * (1.0 / (4.0 * sin th0 * sin th0) * (2.0 * cos th0 * cos th0 + 1.0) +
        -4.0 * (1.0 / (4.0 * sin th0 * sin th0)) * cos th0 * x +
        1.0 / (4.0 * sin th0 * sin th0) * cos (2.0 * arccos x)) =
        K * (x - cos th0) ^ 2 / (2 * sin th0 ^ 2) := by
      rw [show (2.0 : ℝ) = 2 by norm_num, Real.cos_two_mul, Real.cos_arccos h0 h1]
      field_simp
      ring
    unfold angle_term
    simp only [arith_abs_real, arith_pi_real, arith_cos_real, arith_sin_real, arith_acos_real]
    rw [if_neg hlin]
    split_ifs
    · exact key
    · exact key
  refine ⟨hterm, ?_, ?_, ?_⟩
  · intro th
    have hfun : (fun u => angle_term K th0 (cos u)) =
        fun u => K * (cos u - cos th0) ^ 2 / (2 * sin th0 ^ 2) := by
      funext u
      exact hterm (cos u) (Real.neg_one_le_cos u) (Real.cos_le_one u)
    rw [hfun]
    have h1 : HasDerivAt (fun u => cos u - cos th0) (-sin th) th :=
      (Real.hasDerivAt_cos th).sub_const _
    have h2 := ((h1.pow 2).const_mul K).div_const (2 * sin th0 ^ 2)
    convert h2 using 1
    rw [show (2.0 : ℝ) = 2 by norm_num, Real.sin_two_mul]
    field_simp
    ring
  · intro x h
    unfold angle_slope
    simp only [arith_abs_real, arith_pi_real, arith_cos_real, arith_sin_real, arith_acos_real]
    rw [if_neg hlin, if_neg (not_lt.mpr h)]
  · intro x h
    unfold angle_slope
    simp only [arith_abs_real, arith_pi_real, arith_cos_real, arith_sin_real, arith_acos_real]
    rw [if_neg hlin, if_pos h]

end fourier_angle

section fourier_angle_claim2

open Real

/-- C39: for an angle whose natural angle `theta0` is not within 0.01 rad of
`pi` (and has a nonzero sine) the energy term `K (C0 + C1 cos theta + C2 cos 2 theta)`
equals `K (cos theta - cos theta0)^2 / (2 sin^2 theta0)`, is zero at `theta0`
and nonnegative for `K ≥ 0`; the `dE_dtheta` of the gradient routine is
`K (-C1 sin theta - 2 C2 sin 2 theta)` and the exact derivative of the energy
term at every angle in `[0, pi]` whose sine is at least `1e-10` in magnitude,
and it vanishes at `theta0` when the sine of `theta0` is. -/
theorem fourier_angle_energy (P : String → UFFAtomType ℝ) (ff : UFFForceField)
    (mol : Molecule ℝ) (E : ℝ) (a : AngleInfo)
    (hlin : ¬ |(P (ff.atom_type a.j)).theta0 * DEG2RAD - π| < 0.01)
    (hs : sin ((P (ff.atom_type a.j)).theta0 * DEG2RAD) ≠ 0) :
    (angle_bend_energy_step P ff mol E a =
      if ((mol.atom a.i).position.sub (mol.atom a.j).position).norm < 1e-10 ∨
          ((mol.atom a.k).position.sub (mol.atom a.j).position).norm < 1e-10 then E
      else if |angle_force_constant (P (ff.atom_type a.i)) (P (ff.atom_type a.j))
          (P (ff.atom_type a.k))| < 1e-10 then E
      else
        E + angle_force_constant (P (ff.atom_type a.i)) (P (ff.atom_type a.j))
            (P (ff.atom_type a.k)) *
          (clamped_cos_angle (mol.atom a.i).position (mol.atom a.j).position
              (mol.atom a.k).position - cos ((P (ff.atom_type a.j)).theta0 * DEG2RAD)) ^ 2 /
          (2 * sin ((P (ff.atom_type a.j)).theta0 * DEG2RAD) ^ 2)) ∧
    (∀ K x : ℝ, -1 ≤ x → x ≤ 1 →
      angle_term K ((P (ff.atom_type a.j)).theta0 * DEG2RAD) x =
        K * (x - cos ((P (ff.atom_type a.j)).theta0 * DEG2RAD)) ^ 2 /
          (2 * sin ((P (ff.atom_type a.j)).theta0 * DEG2RAD) ^ 2)) ∧
    (∀ K : ℝ, angle_term K ((P (ff.atom_type a.j)).theta0 * DEG2RAD)
      (cos ((P (ff.atom_type a.j)).theta0 * DEG2RAD)) = 0) ∧
    (∀ K x : ℝ, 0 ≤ K → -1 ≤ x → x ≤ 1 →
      0 ≤ angle_term K ((P (ff.atom_type a.j)).theta0 * DEG2RAD) x) ∧
    (∀ K th : ℝ, 0 ≤ th → th ≤ π → 1e-10 ≤ |sin th| →
      angle_slope K ((P (ff.atom_type a.j)).theta0 * DEG2RAD) (cos th) =
        K * (-(-4.0 * (1.0 / (4.0 * sin ((P (ff.atom_type a.j)).theta0 * DEG2RAD) *
            sin ((P (ff.atom_type a.j)).theta0 * DEG2RAD))) *
            cos ((P (ff.atom_type a.j)).theta0 * DEG2RAD)) * sin th -
          2.0 * (1.0 / (4.0 * sin ((P (ff.atom_type a.j)).theta0 * DEG2RAD) *
            sin ((P (ff.atom_type a.j)).theta0 * DEG2RAD))) * sin (2.0 * th)) ∧
      HasDerivAt (fun u => angle_term K ((P (ff.atom_type a.j)).theta0 * DEG2RAD) (cos u))
        (angle_slope K ((P (ff.atom_type a.j)).theta0 * DEG2RAD) (cos th)) th) ∧
    (0 ≤ (P (ff.atom_type a.j)).theta0 * DEG2RAD → (P (ff.atom_type a.j)).theta0 * DEG2RAD ≤ π →
      1e-10 ≤ |sin ((P (ff.atom_type a.j)).theta0 * DEG2RAD)| →
      ∀ K : ℝ, angle_slope K ((P (ff.atom_type a.j)).theta0 * DEG2RAD)
        (cos ((P (ff.atom_type a.j)).theta0 * DEG2RAD)) = 0) := by
  generalize hth0 : (P (ff.atom_type a.j)).theta0 * DEG2RAD = th0 at hlin hs ⊢
  have hslope : ∀ K th : ℝ, 0 ≤ th → th ≤ π → 1e-10 ≤ |sin th| →
      angle_slope K th0 (cos th) =
        K * (-(-4.0 * (1.0 / (4.0 * sin th0 * sin th0)) * cos th0) * sin th -
          2.0 * (1.0 / (4.0 * sin th0 * sin th0)) * sin (2.0 * th)) := by
    intro K th h0 h1 hfl
    have harc : arccos (cos th) = th := Real.arccos_cos h0 h1
    have h := (fourier_term_facts K th0 hlin hs).2.2.1 (cos th) (by rw [harc]; exact hfl)
    rw [harc] at h
    exact h
  refine ⟨?_, ?_, ?_, ?_, ?_, ?_⟩
  · rw [angle_bend_energy_step_term, hth0]
    have hb := clamp_bounds
      ((((mol.atom a.i).position.sub (mol.atom a.j).position).dot
          ((mol.atom a.k).position.sub (mol.atom a.j).position)) /
        (((mol.atom a.i).position.sub (mol.atom a.j).position).norm *
          ((mol.atom a.k).position.sub (mol.atom a.j).position).norm))
    have hx := (fourier_term_facts
      (angle_force_constant (P (ff.atom_type a.i)) (P (ff.atom_type a.j)) (P (ff.atom_type a.k)))
      th0 hlin hs).1 (clamped_cos_angle (mol.atom a.i).position (mol.atom a.j).position
        (mol.atom a.k).position) hb.1 hb.2
    rw [hx]
    rfl
  · intro K x h0 h1
    exact (fourier_term_facts K th0 hlin hs).1 x h0 h1
  · intro K
    rw [(fourier_term_facts K th0 hlin hs).1 (cos th0) (Real.neg_one_le_cos _)
      (Real.cos_le_one _)]
    simp
  · intro K x hK h0 h1
    rw [(fourier_term_facts K th0 hlin hs).1 x h0 h1]
    exact div_nonneg (mul_nonneg hK (sq_nonneg _)) (by positivity)
  · intro K th h0 h1 hfl
    refine ⟨hslope K th h0 h1 hfl, ?_⟩
    rw [hslope K th h0 h1 hfl]
    exact (fourier_term_facts K th0 hlin hs).2.1 th
  · intro h0 h1 hfl K
    rw [hslope K th0 h0 h1 hfl, show (2.0 : ℝ) = 2 by norm_num, Real.sin_two_mul]
    field_simp
    ring

end fourier_angle_claim2

section fourier_angle_claim3

open Real

/-- The angle H - O - O of the sample table: the natural angle of the "O_3" row
is 104.51 degrees, and the slope vanishes there. -/
theorem fourier_angle_energy_witness :
    (¬ |(sample_uff_params "O_3").theta0 * DEG2RAD - π| < 0.01) ∧
    sin ((sample_uff_params "O_3").theta0 * DEG2RAD) ≠ 0 ∧
    (∀ K : ℝ, angle_slope K ((sample_uff_params "O_3").theta0 * DEG2RAD)
      (cos ((sample_uff_params "O_3").theta0 * DEG2RAD)) = 0) := by
  have hO := sample_row_facts.1
  have hang : (sample_uff_params "O_3").theta0 * DEG2RAD = 104.51 * (π / 180) := by
    rw [hO]
    unfold DEG2RAD
    simp only [arith_pi_real]
    norm_num
  have hp3 := Real.pi_gt_three
  have hp := Real.pi_pos
  have hb : π / 2 < (sample_uff_params "O_3").theta0 * DEG2RAD ∧
      (sample_uff_params "O_3").theta0 * DEG2RAD < π - 0.01 := by
    rw [hang]
    constructor <;> linarith
  have hlin : ¬ |(sample_uff_params "O_3").theta0 * DEG2RAD - π| < 0.01 := by
    rw [abs_lt]
    intro hc
    linarith [hc.1, hb.2]
  have hsin : 0 < sin ((sample_uff_params "O_3").theta0 * DEG2RAD) :=
    Real.sin_pos_of_pos_of_lt_pi (by linarith [hb.1]) (by linarith [hb.2])
  have hlarge : (1e-10 : ℝ) ≤ |sin ((sample_uff_params "O_3").theta0 * DEG2RAD)| := by
    have h1 := Real.mul_le_sin (x := π - (sample_uff_params "O_3").theta0 * DEG2RAD)
      (by linarith [hb.2]) (by linarith [hb.1])
    rw [Real.sin_pi_sub] at h1
    rw [abs_of_pos hsin]
    have h3 : (0.01 : ℝ) ≤ π - (sample_uff_params "O_3").theta0 * DEG2RAD := by linarith [hb.2]
    have h4 : (1 / 2 : ℝ) ≤ 2 / π := by
      rw [le_div_iff₀ hp]
      linarith [Real.pi_le_four]
    have h2 : (1e-10 : ℝ) ≤ 2 / π * (π - (sample_uff_params "O_3").theta0 * DEG2RAD) :=
      calc (1e-10 : ℝ) ≤ 1 / 2 * 0.01 := by norm_num
        _ ≤ 2 / π * (π - (sample_uff_params "O_3").theta0 * DEG2RAD) :=
          mul_le_mul h4 h3 (by norm_num) (by positivity)
    linarith
  have h0 : 0 ≤ (sample_uff_params "O_3").theta0 * DEG2RAD := by
    linarith [hb.1, Real.pi_pos]
  have h1 : (sample_uff_params "O_3").theta0 * DEG2RAD ≤ π := by
    linarith [hb.2]
  exact ⟨hlin, ne_of_gt hsin,
    (fourier_angle_energy sample_uff_params peroxide_ff (peroxide 0) 0 ⟨0, 1, 2⟩
      hlin (ne_of_gt hsin)).2.2.2.2.2 h0 h1 hlarge⟩

/-- On the straight chain H - O - O (angle of 180 degrees at the first oxygen)
the gradient routine passes its guards, replaces the sine 0 by `1e-10` and
computes a negative `dE_dtheta`, while the derivative of the energy term at
that angle is 0. -/
theorem floored_slope_not_derivative :
    ¬ (((straight_peroxide.atom 0).position.sub (straight_peroxide.atom 1).position).norm < 1e-10 ∨
      ((straight_peroxide.atom 2).position.sub (straight_peroxide.atom 1).position).norm < 1e-10) ∧
    ¬ |angle_force_constant (sample_uff_params (peroxide_ff.atom_type 0))
        (sample_uff_params (peroxide_ff.atom_type 1))
        (sample_uff_params (peroxide_ff.atom_type 2))| < 1e-10 ∧
    ¬ |(sample_uff_params (peroxide_ff.atom_type 1)).theta0 * DEG2RAD - π| < 0.01 ∧
    clamped_cos_angle (straight_peroxide.atom 0).position (straight_peroxide.atom 1).position
      (straight_peroxide.atom 2).position = -1 ∧
    arccos (-1) = π ∧
    angle_slope
      (angle_force_constant (sample_uff_params (peroxide_ff.atom_type 0))
        (sample_uff_params (peroxide_ff.atom_type 1))
        (sample_uff_params (peroxide_ff.atom_type 2)))
      ((sample_uff_params (peroxide_ff.atom_type 1)).theta0 * DEG2RAD) (-1) < 0 ∧
    HasDerivAt
      (fun u => angle_term
        (angle_force_constant (sample_uff_params (peroxide_ff.atom_type 0))
          (sample_uff_params (peroxide_ff.atom_type 1))
          (sample_uff_params (peroxide_ff.atom_type 2)))
        ((sample_uff_params (peroxide_ff.atom_type 1)).theta0 * DEG2RAD) (cos u)) 0 π := by
  have hKgen : ∀ c : ℝ, c < 0 → -1 ≤ c →
      1 ≤ 664.12 * 0.712 * 2.3 * (0.354 + 0.658) * (0.658 + 0.658) /
          (√(fmax ((0.354 + 0.658) * (0.354 + 0.658) + (0.658 + 0.658) * (0.658 + 0.658) -
            2 * (0.354 + 0.658) * (0.658 + 0.658) * c) 0.01)) ^ 5 *
        (3 * (0.354 + 0.658) * (0.658 + 0.658) * (1 - c ^ 2) -
          ((0.354 + 0.658) * (0.354 + 0.658) + (0.658 + 0.658) * (0.658 + 0.658) -
            2 * (0.354 + 0.658) * (0.658 + 0.658) * c) * c) := by
    intro c hc hc1
    have hsq : (0.354 + 0.658) * (0.354 + 0.658) + (0.658 + 0.658) * (0.658 + 0.658) -
        2 * (0.354 + 0.658) * (0.658 + 0.658) * c ≤ (2.328 : ℝ) * 2.328 := by nlinarith
    have hsq0 : (2 : ℝ) ≤ (0.354 + 0.658) * (0.354 + 0.658) + (0.658 + 0.658) * (0.658 + 0.658) -
        2 * (0.354 + 0.658) * (0.658 + 0.658) * c := by nlinarith
    have hmax : fmax ((0.354 + 0.658) * (0.354 + 0.658) + (0.658 + 0.658) * (0.658 + 0.658) -
        2 * (0.354 + 0.658) * (0.658 + 0.658) * c) 0.01 =
        (0.354 + 0.658) * (0.354 + 0.658) + (0.658 + 0.658) * (0.658 + 0.658) -
        2 * (0.354 + 0.658) * (0.658 + 0.658) * c := by
      unfold fmax
      rw [if_neg (by linarith)]
    rw [hmax]
    set q := (0.354 + 0.658) * (0.354 + 0.658) + (0.658 + 0.658) * (0.658 + 0.658) -
        2 * (0.354 + 0.658) * (0.658 + 0.658) * c with hq
    have hR : √q ≤ 2.328 := by
      rw [show (2.328 : ℝ) = √(2.328 * 2.328) by rw [Real.sqrt_mul_self (by norm_num)]]
      exact Real.sqrt_le_sqrt hsq
    have hR0 : 0 < √q := Real.sqrt_pos.mpr (by linarith)
    have hR5 : √q ^ 5 ≤ 2.328 ^ 5 := pow_le_pow_left₀ hR0.le hR 5
    have hB : 2 ≤ 3 * (0.354 + 0.658) * (0.658 + 0.658) * (1 - c ^ 2) - q * c := by
      rw [hq]
      nlinarith [mul_nonneg (neg_nonneg.mpr hc.le) (neg_nonneg.mpr hc.le),
        mul_nonneg (neg_nonneg.mpr hc.le) (by linarith : (0:ℝ) ≤ 1 + c)]
    have hpos : 0 < √q ^ 5 := pow_pos hR0 5
    rw [div_mul_eq_mul_div, le_div_iff₀ hpos]
    have h5 : (2.328 : ℝ) ^ 5 ≤ 69 := by norm_num
    have hN : (1000 : ℝ) ≤ 664.12 * 0.712 * 2.3 * (0.354 + 0.658) * (0.658 + 0.658) := by norm_num
    generalize (664.12 : ℝ) * 0.712 * 2.3 * (0.354 + 0.658) * (0.658 + 0.658) = N at hN
    generalize 3 * (0.354 + 0.658) * (0.658 + 0.658) * (1 - c ^ 2) - q * c = B at hB
    nlinarith
  have ht0 : peroxide_ff.atom_type 0 = "H_" := rfl
  have ht1 : peroxide_ff.atom_type 1 = "O_3" := rfl
  have ht2 : peroxide_ff.atom_type 2 = "O_3" := rfl
  have h0 : (straight_peroxide.atom 0).position = ⟨-1, 0, 0⟩ := rfl
  have h1 : (straight_peroxide.atom 1).position = ⟨0, 0, 0⟩ := rfl
  have h2 : (straight_peroxide.atom 2).position = ⟨1, 0, 0⟩ := rfl
  have hO := sample_row_facts.1
  have hang : (sample_uff_params "O_3").theta0 * DEG2RAD = 104.51 * (π / 180) := by
    rw [hO]
    unfold DEG2RAD
    simp only [arith_pi_real]
    norm_num
  have hp3 := Real.pi_gt_three
  have hp := Real.pi_pos
  have hb : π / 2 < (sample_uff_params "O_3").theta0 * DEG2RAD ∧
      (sample_uff_params "O_3").theta0 * DEG2RAD < π - 0.01 := by
    rw [hang]
    constructor <;> linarith
  have hlin : ¬ |(sample_uff_params "O_3").theta0 * DEG2RAD - π| < 0.01 := by
    rw [abs_lt]
    intro hc
    linarith [hc.1, hb.2]
  have hsin : 0 < sin ((sample_uff_params "O_3").theta0 * DEG2RAD) :=
    Real.sin_pos_of_pos_of_lt_pi (by linarith [hb.1]) (by linarith [hb.2])
  have hH := sample_row_facts.2.1
  have hs := hsin
  have hcos : cos ((sample_uff_params "O_3").theta0 * DEG2RAD) < 0 :=
    Real.cos_neg_of_pi_div_two_lt_of_lt hb.1 (by linarith [hb.2])
  have hK : 1 ≤ angle_force_constant (sample_uff_params "H_") (sample_uff_params "O_3")
      (sample_uff_params "O_3") := by
    rw [(force_constant_values _ _ _).1]
    have h := hKgen _ hcos (Real.neg_one_le_cos ((sample_uff_params "O_3").theta0 * DEG2RAD))
    rw [hO] at h
    rw [hO, hH]
    exact h
  have hc := hcos
  rw [ht0, ht1, ht2, h0, h1, h2]
  refine ⟨?_, ?_, hlin, ?_, Real.arccos_neg_one, ?_, ?_⟩
  · simp only [Vec3.sub, Vec3.norm, Vec3.squaredNorm, arith_sqrt_real]
    norm_num
  · rw [abs_of_pos (by linarith)]
    norm_num
    linarith
  · unfold clamped_cos_angle
    simp only [Vec3.sub, Vec3.norm, Vec3.squaredNorm, Vec3.dot, arith_sqrt_real]
    unfold fmax fmin
    norm_num
  · rw [(fourier_term_facts _ _ hlin (ne_of_gt hs)).2.2.2 (-1)
      (by rw [Real.arccos_neg_one, Real.sin_pi]; norm_num)]
    rw [Real.arccos_neg_one, show (2.0 : ℝ) * π = 2 * π by norm_num, Real.sin_two_pi]
    have hC : 0 < 1.0 / (4.0 * sin ((sample_uff_params "O_3").theta0 * DEG2RAD) *
        sin ((sample_uff_params "O_3").theta0 * DEG2RAD)) := by positivity
    generalize 1.0 / (4.0 * sin ((sample_uff_params "O_3").theta0 * DEG2RAD) *
        sin ((sample_uff_params "O_3").theta0 * DEG2RAD)) = C at hC
    generalize cos ((sample_uff_params "O_3").theta0 * DEG2RAD) = c at hc
    generalize angle_force_constant (sample_uff_params "H_") (sample_uff_params "O_3")
      (sample_uff_params "O_3") = K at hK
    have hKC : 0 < K * C := mul_pos (by linarith) hC
    norm_num
    nlinarith
  · have h := (fourier_term_facts
      (angle_force_constant (sample_uff_params "H_") (sample_uff_params "O_3")
        (sample_uff_params "O_3"))
      ((sample_uff_params "O_3").theta0 * DEG2RAD) hlin (ne_of_gt hs)).2.1 π
    rw [show (2.0 : ℝ) * π = 2 * π by norm_num, Real.sin_two_pi, Real.sin_pi] at h
    simpa using h

end fourier_angle_claim3

/-! ## Van der Waals term -/

section vdw_bound

open Real

theorem modify_fixed {α : Type} (f : α → α) (hf : ∀ x, f x = x) :
    ∀ (l : List α) (n : Nat), l.modify f n = l := by
  intro l
  induction l with
  | nil => intro n; cases n <;> rfl
  | cons x xs ih =>
    intro n
    cases n with
    | zero => rw [List.modify_zero_cons, hf]
    | succ m => rw [List.modify_succ_cons, ih m]

/-- C40: for a nonbonded pair at a distance `r ≥ 1e-10` the van der Waals term
`D_ij ((x_ij / r)^12 - 2 (x_ij / r)^6)` is at least `-D_ij`; at `r = x_ij` it
equals `-D_ij` and the gradient routine leaves the gradient unchanged. -/
theorem vdw_term_bounded (P : String → UFFAtomType ℝ) (ff : UFFForceField)
    (mol : Molecule ℝ) (E : ℝ) (g : List ℝ) (p : Nat × Nat)
    (hr : ¬ ((mol.atom p.1).position.sub (mol.atom p.2).position).norm < 1e-10) :
    vdw_energy_step P ff mol E p =
      E + √((P (ff.atom_type p.1)).D1 * (P (ff.atom_type p.2)).D1) *
        ((√((P (ff.atom_type p.1)).x1 * (P (ff.atom_type p.2)).x1) /
            ((mol.atom p.1).position.sub (mol.atom p.2).position).norm) ^ 12 -
          2 * (√((P (ff.atom_type p.1)).x1 * (P (ff.atom_type p.2)).x1) /
            ((mol.atom p.1).position.sub (mol.atom p.2).position).norm) ^ 6) ∧
    E - √((P (ff.atom_type p.1)).D1 * (P (ff.atom_type p.2)).D1) ≤ vdw_energy_step P ff mol E p ∧
    (((mol.atom p.1).position.sub (mol.atom p.2).position).norm =
        √((P (ff.atom_type p.1)).x1 * (P (ff.atom_type p.2)).x1) →
      vdw_energy_step P ff mol E p =
        E - √((P (ff.atom_type p.1)).D1 * (P (ff.atom_type p.2)).D1) ∧
      vdw_gradient_step P ff mol g p = g) := by
  have hE : vdw_energy_step P ff mol E p =
      E + √((P (ff.atom_type p.1)).D1 * (P (ff.atom_type p.2)).D1) *
        ((√((P (ff.atom_type p.1)).x1 * (P (ff.atom_type p.2)).x1) /
            ((mol.atom p.1).position.sub (mol.atom p.2).position).norm) ^ 12 -
          2 * (√((P (ff.atom_type p.1)).x1 * (P (ff.atom_type p.2)).x1) /
            ((mol.atom p.1).position.sub (mol.atom p.2).position).norm) ^ 6) := by
    unfold vdw_energy_step
    simp only [arith_sqrt_real]
    rw [if_neg hr]
    norm_num
    left
    ring
  have hadd : ∀ (g2 : List ℝ) (i : Nat), segment_add g2 i ⟨0, 0, 0⟩ = g2 := by
    intro g2 i
    unfold segment_add
    simp only [add_zero]
    rw [modify_fixed _ (fun _ => rfl), modify_fixed _ (fun _ => rfl),
      modify_fixed _ (fun _ => rfl)]
  have hsub : ∀ (g2 : List ℝ) (i : Nat), segment_sub g2 i ⟨0, 0, 0⟩ = g2 := by
    intro g2 i
    unfold segment_sub
    simp only [sub_zero]
    rw [modify_fixed _ (fun _ => rfl), modify_fixed _ (fun _ => rfl),
      modify_fixed _ (fun _ => rfl)]
  have hD := Real.sqrt_nonneg ((P (ff.atom_type p.1)).D1 * (P (ff.atom_type p.2)).D1)
  have hne : ((mol.atom p.1).position.sub (mol.atom p.2).position).norm ≠ 0 :=
    not_small_ne_zero.1 _ hr
  refine ⟨hE, ?_, ?_⟩
  · rw [hE]
    have hb : ∀ x : ℝ, -1 ≤ x ^ 12 - 2 * x ^ 6 := fun x => by nlinarith [sq_nonneg (x ^ 6 - 1)]
    have hb2 := hb (√((P (ff.atom_type p.1)).x1 * (P (ff.atom_type p.2)).x1) /
      ((mol.atom p.1).position.sub (mol.atom p.2).position).norm)
    nlinarith
  · intro heq
    constructor
    · rw [hE, ← heq, div_self hne]
      ring
    · unfold vdw_gradient_step
      simp only [arith_sqrt_real]
      rw [if_neg hr, ← heq, div_self hne]
      have hz : (Vec3.smul
          (√((P (ff.atom_type p.1)).D1 * (P (ff.atom_type p.2)).D1) * 12.0 *
            (-(1 * 1 * 1 * 1 * 1 * 1 * (1 * 1 * 1 * 1 * 1 * 1)) + 1 * 1 * 1 * 1 * 1 * 1) /
            ((mol.atom p.1).position.sub (mol.atom p.2).position).norm)
          ((mol.atom p.1).position.sub (mol.atom p.2).position)).sdiv
          ((mol.atom p.1).position.sub (mol.atom p.2).position).norm = ⟨0, 0, 0⟩ := by
        simp [Vec3.smul, Vec3.sdiv]
      rw [hz, hadd, hsub]

/-- The end atoms of the straight chain are 3 apart: the term is bounded below. -/
theorem vdw_term_bounded_witness :
    ¬ ((straight_peroxide.atom 0).position.sub (straight_peroxide.atom 3).position).norm < 1e-10 ∧
    0 - √((sample_uff_params (peroxide_ff.atom_type 0)).D1 *
        (sample_uff_params (peroxide_ff.atom_type 3)).D1) ≤
      vdw_energy_step sample_uff_params peroxide_ff straight_peroxide 0 (0, 3) := by
  have hr : ¬ ((straight_peroxide.atom 0).position.sub
      (straight_peroxide.atom 3).position).norm < 1e-10 := by
    have h0 : (straight_peroxide.atom 0).position = ⟨-1, 0, 0⟩ := rfl
    have h3 : (straight_peroxide.atom 3).position = ⟨2, 0, 0⟩ := rfl
    rw [h0, h3]
    simp only [Vec3.sub, Vec3.norm, Vec3.squaredNorm, arith_sqrt_real]
    rw [show ((-1 - 2) * (-1 - 2) + (0 - 0) * (0 - 0) + (0 - 0) * (0 - 0) : ℝ) = 3 * 3 by norm_num,
      Real.sqrt_mul_self (by norm_num)]
    norm_num
  exact ⟨hr, (vdw_term_bounded sample_uff_params peroxide_ff straight_peroxide 0 [] (0, 3) hr).2.1⟩

end vdw_bound

/-! ## Torsion parameters of mixed pairs -/

section mixed_torsion

open Real

/-- The torsion parameters of a pair of rows that do not both pass the sp3
test: `(2, pi, 5 sqrt |Uj Uk|)` when both pass the sp2 test; otherwise
`(6, 0, 1.0)` when one passes the sp3 test and the other the sp2 test, and
periodicity 3 when not. -/
theorem torsion_choice_cases (pj pk : UFFAtomType ℝ)
    (hnot3 : ¬ (|pj.theta0 - 109.47| < 5 ∧ |pk.theta0 - 109.47| < 5)) :
    ((|pj.theta0 - 120| < 5 ∨ |pj.theta0 - 111.2| < 5) ∧
        (|pk.theta0 - 120| < 5 ∨ |pk.theta0 - 111.2| < 5) →
      torsion_choice pj pk = (2, π, 5 * √|pj.Uj * pk.Uj|)) ∧
    (¬ ((|pj.theta0 - 120| < 5 ∨ |pj.theta0 - 111.2| < 5) ∧
        (|pk.theta0 - 120| < 5 ∨ |pk.theta0 - 111.2| < 5)) →
      ((|pj.theta0 - 109.47| < 5 ∧ (|pk.theta0 - 120| < 5 ∨ |pk.theta0 - 111.2| < 5)) ∨
        ((|pj.theta0 - 120| < 5 ∨ |pj.theta0 - 111.2| < 5) ∧ |pk.theta0 - 109.47| < 5)) →
      torsion_choice pj pk = (6, 0.0, 1.0)) ∧
    (¬ ((|pj.theta0 - 120| < 5 ∨ |pj.theta0 - 111.2| < 5) ∧
        (|pk.theta0 - 120| < 5 ∨ |pk.theta0 - 111.2| < 5)) →
      ¬ ((|pj.theta0 - 109.47| < 5 ∧ (|pk.theta0 - 120| < 5 ∨ |pk.theta0 - 111.2| < 5)) ∨
        ((|pj.theta0 - 120| < 5 ∨ |pj.theta0 - 111.2| < 5) ∧ |pk.theta0 - 109.47| < 5)) →
      (torsion_choice pj pk).1 = 3) := by
  have e3 : (decide (|pj.theta0 - 109.47| < 5) && decide (|pk.theta0 - 109.47| < 5)) = false := by
    simpa using hnot3
  refine ⟨?_, ?_, ?_⟩
  · intro h2
    unfold torsion_choice
    simp only [arith_abs_real, show (5.0 : ℝ) = 5 by norm_num, show (120.0 : ℝ) = 120 by norm_num]
    have e2 : ((decide (|pj.theta0 - 120| < 5) || decide (|pj.theta0 - 111.2| < 5)) &&
        (decide (|pk.theta0 - 120| < 5) || decide (|pk.theta0 - 111.2| < 5))) = true := by
      simpa using h2
    rw [e3, e2]
    rfl
  · intro hnot2 hmix
    unfold torsion_choice
    simp only [arith_abs_real, show (5.0 : ℝ) = 5 by norm_num, show (120.0 : ℝ) = 120 by norm_num]
    have e2 : ((decide (|pj.theta0 - 120| < 5) || decide (|pj.theta0 - 111.2| < 5)) &&
        (decide (|pk.theta0 - 120| < 5) || decide (|pk.theta0 - 111.2| < 5))) = false := by
      rw [Bool.eq_false_iff]
      intro h
      apply hnot2
      simpa using h
    have em : ((decide (|pj.theta0 - 109.47| < 5) &&
          (decide (|pk.theta0 - 120| < 5) || decide (|pk.theta0 - 111.2| < 5))) ||
        ((decide (|pj.theta0 - 120| < 5) || decide (|pj.theta0 - 111.2| < 5)) &&
          decide (|pk.theta0 - 109.47| < 5))) = true := by
      simpa using hmix
    rw [e3, e2, em]
    rfl
  · intro hnot2 hmix
    unfold torsion_choice
    simp only [arith_abs_real, show (5.0 : ℝ) = 5 by norm_num, show (120.0 : ℝ) = 120 by norm_num]
    have e2 : ((decide (|pj.theta0 - 120| < 5) || decide (|pj.theta0 - 111.2| < 5)) &&
        (decide (|pk.theta0 - 120| < 5) || decide (|pk.theta0 - 111.2| < 5))) = false := by
      rw [Bool.eq_false_iff]
      intro h
      apply hnot2
      simpa using h
    have em : ((decide (|pj.theta0 - 109.47| < 5) &&
          (decide (|pk.theta0 - 120| < 5) || decide (|pk.theta0 - 111.2| < 5))) ||
        ((decide (|pj.theta0 - 120| < 5) || decide (|pj.theta0 - 111.2| < 5)) &&
          decide (|pk.theta0 - 109.47| < 5))) = false := by
      rw [Bool.eq_false_iff]
      intro h
      apply hmix
      simpa using h
    rw [e3, e2, em]
    rfl

end mixed_torsion

section mixed_torsion_claim

open Real

/-- C36: when the central atoms are not both sp3 and not both sp2, and one
passes the sp3 test while the other passes the sp2 test, `torsion_energy` and
`torsion_gradient` use `n = 6`, `phi0 = 0`, `V = 1.0`; and `n = 6` is selected
in no other case. -/
theorem mixed_torsion_parameters (P : String → UFFAtomType ℝ) (ff : UFFForceField)
    (mol : Molecule ℝ) (E : ℝ) (g : List ℝ) (tor : TorsionInfo)
    (hnot3 : ¬ (|(P (ff.atom_type tor.j)).theta0 - 109.47| < 5 ∧
      |(P (ff.atom_type tor.k)).theta0 - 109.47| < 5))
    (hnot2 : ¬ ((|(P (ff.atom_type tor.j)).theta0 - 120| < 5 ∨
        |(P (ff.atom_type tor.j)).theta0 - 111.2| < 5) ∧
      (|(P (ff.atom_type tor.k)).theta0 - 120| < 5 ∨
        |(P (ff.atom_type tor.k)).theta0 - 111.2| < 5)))
    (hmix : (|(P (ff.atom_type tor.j)).theta0 - 109.47| < 5 ∧
        (|(P (ff.atom_type tor.k)).theta0 - 120| < 5 ∨
          |(P (ff.atom_type tor.k)).theta0 - 111.2| < 5)) ∨
      ((|(P (ff.atom_type tor.j)).theta0 - 120| < 5 ∨
          |(P (ff.atom_type tor.j)).theta0 - 111.2| < 5) ∧
        |(P (ff.atom_type tor.k)).theta0 - 109.47| < 5)) :
    torsion_choice (P (ff.atom_type tor.j)) (P (ff.atom_type tor.k)) = (6, 0.0, 1.0) ∧
    torsion_energy_step P ff mol E tor =
      E + 0.5 * 1.0 * (1.0 - cos (6 * 0.0) *
        cos (6 * compute_dihedral (mol.atom tor.i).position (mol.atom tor.j).position
          (mol.atom tor.k).position (mol.atom tor.l).position)) ∧
    torsion_gradient_step P ff mol g tor =
      (let p1 := (mol.atom tor.i).position
      let p2 := (mol.atom tor.j).position
      let p3 := (mol.atom tor.k).position
      let p4 := (mol.atom tor.l).position
      let b1 := p2.sub p1
      let b2 := p3.sub p2
      let b3 := p4.sub p3
      let n1 := b1.cross b2
      let n2 := b2.cross b3
      let n1_sq := n1.squaredNorm
      let n2_sq := n2.squaredNorm
      if n1_sq < 1e-20 ∨ n2_sq < 1e-20 then g
      else if b2.norm < 1e-10 then g
      else
        let b2_norm := b2.norm
        let phi := compute_dihedral p1 p2 p3 p4
        let dE_dphi := 0.5 * 1.0 * 6 * cos (6 * 0.0) * sin (6 * phi)
        let dphi_dp1 := Vec3.smul (-(b2_norm / n1_sq)) n1
        let dphi_dp4 := Vec3.smul (b2_norm / n2_sq) n2
        let dot_b1_b2 := b1.dot b2 / (b2_norm * b2_norm)
        let dot_b3_b2 := b3.dot b2 / (b2_norm * b2_norm)
        let dphi_dp2 := (Vec3.smul (dot_b1_b2 - 1.0) dphi_dp1).sub (Vec3.smul dot_b3_b2 dphi_dp4)
        let dphi_dp3 := (Vec3.smul (dot_b3_b2 - 1.0) dphi_dp4).sub (Vec3.smul dot_b1_b2 dphi_dp1)
        segment_add (segment_add (segment_add (segment_add g tor.i
          (Vec3.smul dE_dphi dphi_dp1)) tor.j (Vec3.smul dE_dphi dphi_dp2))
          tor.k (Vec3.smul dE_dphi dphi_dp3)) tor.l (Vec3.smul dE_dphi dphi_dp4)) ∧
    (∀ qj qk : UFFAtomType ℝ, (torsion_choice qj qk).1 = 6 ↔
      ¬ (|qj.theta0 - 109.47| < 5 ∧ |qk.theta0 - 109.47| < 5) ∧
      ¬ ((|qj.theta0 - 120| < 5 ∨ |qj.theta0 - 111.2| < 5) ∧
        (|qk.theta0 - 120| < 5 ∨ |qk.theta0 - 111.2| < 5)) ∧
      ((|qj.theta0 - 109.47| < 5 ∧ (|qk.theta0 - 120| < 5 ∨ |qk.theta0 - 111.2| < 5)) ∨
        ((|qj.theta0 - 120| < 5 ∨ |qj.theta0 - 111.2| < 5) ∧ |qk.theta0 - 109.47| < 5))) := by
  have hch := (torsion_choice_cases _ _ hnot3).2.1 hnot2 hmix
  have hV : ¬ ((1.0 : ℝ) < 1e-10) := by norm_num
  refine ⟨hch, ?_, ?_, ?_⟩
  · rw [torsion_energy_step_eq, hch]
    simp only [arith_cos_real, arith_ofInt_real]
    rw [if_neg hV]
    norm_num
  · rw [torsion_gradient_step_eq, hch]
    simp only [arith_cos_real, arith_sin_real, arith_ofInt_real, hV, if_false]
    norm_num
  · intro qj qk
    constructor
    · intro h6
      by_cases h3 : |qj.theta0 - 109.47| < 5 ∧ |qk.theta0 - 109.47| < 5
      · have e3 : (torsion_choice qj qk).1 = 3 := by
          unfold torsion_choice
          simp only [arith_abs_real, show (5.0 : ℝ) = 5 by norm_num]
          have e : (decide (|qj.theta0 - 109.47| < 5) && decide (|qk.theta0 - 109.47| < 5)) =
              true := by simpa using h3
          rw [e]
          rfl
        rw [e3] at h6
        exact absurd h6 (by decide)
      · by_cases h2 : (|qj.theta0 - 120| < 5 ∨ |qj.theta0 - 111.2| < 5) ∧
            (|qk.theta0 - 120| < 5 ∨ |qk.theta0 - 111.2| < 5)
        · rw [(torsion_choice_cases qj qk h3).1 h2] at h6
          have h26 : (2 : Int) = 6 := h6
          omega
        · by_cases hm : (|qj.theta0 - 109.47| < 5 ∧
              (|qk.theta0 - 120| < 5 ∨ |qk.theta0 - 111.2| < 5)) ∨
              ((|qj.theta0 - 120| < 5 ∨ |qj.theta0 - 111.2| < 5) ∧ |qk.theta0 - 109.47| < 5)
          · exact ⟨h3, h2, hm⟩
          · have ed : (torsion_choice qj qk).1 = 3 := (torsion_choice_cases qj qk h3).2.2 h2 hm
            rw [ed] at h6
            exact absurd h6 (by decide)
    · rintro ⟨h3, h2, hm⟩
      rw [(torsion_choice_cases qj qk h3).2.1 h2 hm]

end mixed_torsion_claim

section mixed_torsion_exhibits

open Real

/-- An "O_3" atom (natural angle 104.51) next to a "C_2" atom (natural angle
120): only the first passes the sp3 test, only the second the sp2 test, and the
torsion uses `(6, 0, 1.0)`. -/
theorem mixed_torsion_parameters_witness :
    torsion_choice (carbon_uff_params (enol_chain_ff.atom_type 1))
      (carbon_uff_params (enol_chain_ff.atom_type 2)) = (6, 0.0, 1.0) := by
  have hj : (carbon_uff_params (enol_chain_ff.atom_type 1)).theta0 = 104.51 := by
    have h : carbon_uff_params (enol_chain_ff.atom_type 1) = sample_uff_params "O_3" := by
      unfold carbon_uff_params
      rw [if_neg (by decide), if_neg (by decide)]
      rfl
    rw [h, sample_row_facts.1]
  have hk : (carbon_uff_params (enol_chain_ff.atom_type 2)).theta0 = 120.0 := by
    unfold carbon_uff_params
    rw [if_neg (by decide), if_pos (by decide)]
  refine (mixed_torsion_parameters carbon_uff_params enol_chain_ff (peroxide 0) 0 []
    ⟨0, 1, 2, 3⟩ ?_ ?_ ?_).1
  · show ¬ (|(carbon_uff_params (enol_chain_ff.atom_type 1)).theta0 - 109.47| < 5 ∧
      |(carbon_uff_params (enol_chain_ff.atom_type 2)).theta0 - 109.47| < 5)
    rw [hj, hk]
    norm_num [abs_lt]
  · show ¬ ((|(carbon_uff_params (enol_chain_ff.atom_type 1)).theta0 - 120| < 5 ∨
        |(carbon_uff_params (enol_chain_ff.atom_type 1)).theta0 - 111.2| < 5) ∧
      (|(carbon_uff_params (enol_chain_ff.atom_type 2)).theta0 - 120| < 5 ∨
        |(carbon_uff_params (enol_chain_ff.atom_type 2)).theta0 - 111.2| < 5))
    rw [hj, hk]
    norm_num [abs_lt]
  · show (|(carbon_uff_params (enol_chain_ff.atom_type 1)).theta0 - 109.47| < 5 ∧
        (|(carbon_uff_params (enol_chain_ff.atom_type 2)).theta0 - 120| < 5 ∨
          |(carbon_uff_params (enol_chain_ff.atom_type 2)).theta0 - 111.2| < 5)) ∨
      ((|(carbon_uff_params (enol_chain_ff.atom_type 1)).theta0 - 120| < 5 ∨
          |(carbon_uff_params (enol_chain_ff.atom_type 1)).theta0 - 111.2| < 5) ∧
        |(carbon_uff_params (enol_chain_ff.atom_type 2)).theta0 - 109.47| < 5)
    rw [hj, hk]
    left
    norm_num [abs_lt]

/-- A "C_3" atom (natural angle 109.47) next to a "C_2" atom (natural angle
120): the first passes the sp3 test, the second the sp2 test and not the sp3
test, yet the first also passes the sp2 test (it is within 5 of 111.2), the
both-sp2 branch is taken first and the torsion uses `(2, pi, 10)`, not
`(6, 0, 1.0)`: the energy term is `0.5 * 10 * (1 - cos (2 pi) cos (2 phi))`. -/
theorem mixed_pair_gets_sp2_parameters :
    |(carbon_uff_params (propene_chain_ff.atom_type 1)).theta0 - 109.47| < 5 ∧
    |(carbon_uff_params (propene_chain_ff.atom_type 2)).theta0 - 120| < 5 ∧
    ¬ |(carbon_uff_params (propene_chain_ff.atom_type 2)).theta0 - 109.47| < 5 ∧
    torsion_choice (carbon_uff_params (propene_chain_ff.atom_type 1))
      (carbon_uff_params (propene_chain_ff.atom_type 2)) = (2, π, 10) ∧
    torsion_choice (carbon_uff_params (propene_chain_ff.atom_type 1))
      (carbon_uff_params (propene_chain_ff.atom_type 2)) ≠ (6, 0.0, 1.0) ∧
    torsion_energy_step carbon_uff_params propene_chain_ff (peroxide 0) 0 ⟨0, 1, 2, 3⟩ =
      0 + 0.5 * 10 * (1 - cos (2 * π) *
        cos (2 * compute_dihedral ((peroxide 0).atom 0).position ((peroxide 0).atom 1).position
          ((peroxide 0).atom 2).position ((peroxide 0).atom 3).position)) := by
  have ht1 : propene_chain_ff.atom_type 1 = "C_3" := rfl
  have ht2 : propene_chain_ff.atom_type 2 = "C_2" := rfl
  have hC3 : carbon_uff_params "C_3" =
      ⟨"C_3", 0.757, 109.47, 3.851, 0.105, 12.73, 1.912, 2.119, 2.0, 5.343, 5.063, 0.759⟩ := by
    unfold carbon_uff_params
    rw [if_pos rfl]
  have hC2 : carbon_uff_params "C_2" =
      ⟨"C_2", 0.732, 120.0, 3.851, 0.105, 12.73, 1.912, 0.0, 2.0, 5.343, 5.063, 0.759⟩ := by
    unfold carbon_uff_params
    rw [if_neg (by decide), if_pos rfl]
  have hj : (carbon_uff_params "C_3").theta0 = 109.47 := by rw [hC3]
  have hk : (carbon_uff_params "C_2").theta0 = 120.0 := by rw [hC2]
  have hUj : (carbon_uff_params "C_3").Uj = 2.0 := by rw [hC3]
  have hUk : (carbon_uff_params "C_2").Uj = 2.0 := by rw [hC2]
  have hch : torsion_choice (carbon_uff_params "C_3") (carbon_uff_params "C_2") = (2, π, 10) := by
    rw [(torsion_choice_cases _ _ (by rw [hj, hk]; norm_num [abs_lt])).1
      (by rw [hj, hk]; norm_num [abs_lt]), hUj, hUk]
    rw [show |(2.0 : ℝ) * 2.0| = 2 * 2 by norm_num [abs_of_pos],
      Real.sqrt_mul_self (by norm_num)]
    norm_num
  rw [ht1, ht2]
  refine ⟨by rw [hj]; norm_num [abs_lt], by rw [hk]; norm_num [abs_lt],
    by rw [hk]; norm_num [abs_lt], hch, ?_, ?_⟩
  · rw [hch]
    intro h
    have h1 := congrArg Prod.fst h
    have h26 : (2 : Int) = 6 := h1
    omega
  · rw [torsion_energy_step_eq]
    show (if (torsion_choice (carbon_uff_params (propene_chain_ff.atom_type 1))
        (carbon_uff_params (propene_chain_ff.atom_type 2))).2.2 < 1e-10 then (0 : ℝ) else _) = _
    rw [ht1, ht2, hch]
    simp only [arith_cos_real, arith_ofInt_real]
    rw [if_neg (by norm_num)]
    norm_num

end mixed_torsion_exhibits

/-! ## Order of the ends of an angle -/

section angle_order

theorem ordered_pairs_of_pairwise {α : Type} (R : α → α → Prop) :
    ∀ (l : List α), l.Pairwise R → ∀ p ∈ ordered_pairs l, R p.1 p.2 := by
  intro l
  induction l with
  | nil => intro _ p hp; simp [ordered_pairs] at hp
  | cons x xs ih =>
    intro h p hp
    rw [List.pairwise_cons] at h
    simp only [ordered_pairs, List.mem_append, List.mem_map] at hp
    rcases hp with ⟨y, hy, rfl⟩ | hp
    · exact h.1 y hy
    · exact ih h.2 p hp

/-- When every bond is stored with `atom_i < atom_j` and the bonds are stored
in increasing lexicographic order, every adjacency row is strictly increasing. -/
theorem neighbor_row_sorted (j : Nat) :
    ∀ (bonds : List Bond), (∀ b ∈ bonds, b.atom_i < b.atom_j) →
      bonds.Pairwise
        (fun b c => b.atom_i < c.atom_i ∨ (b.atom_i = c.atom_i ∧ b.atom_j < c.atom_j)) →
      (neighbor_row bonds j).Pairwise (fun x y => x < y) := by
  intro bonds
  induction bonds with
  | nil => intro _ _; simp [neighbor_row]
  | cons b bs ih =>
    intro hord hsorted
    rw [List.pairwise_cons] at hsorted
    have hb := hord b (List.mem_cons_self _ _)
    have hrow : neighbor_row (b :: bs) j =
        ((if b.atom_i = j then [b.atom_j] else []) ++ (if b.atom_j = j then [b.atom_i] else [])) ++
          neighbor_row bs j := by
      unfold neighbor_row
      rw [List.flatMap_cons]
    rw [hrow, List.pairwise_append]
    refine ⟨?_, ih (fun c hc => hord c (List.mem_cons_of_mem _ hc)) hsorted.2, ?_⟩
    · by_cases hi : b.atom_i = j
      · have hj : ¬ b.atom_j = j := by omega
        rw [if_pos hi, if_neg hj]
        simp
      · rw [if_neg hi]
        by_cases hj : b.atom_j = j
        · rw [if_pos hj]
          simp
        · rw [if_neg hj]
          simp
    · intro x hx y hy
      rw [mem_neighbor_row] at hy
      obtain ⟨c, hc, hcy⟩ := hy
      have hcord := hord c (List.mem_cons_of_mem _ hc)
      have hlex := hsorted.1 c hc
      rw [List.mem_append] at hx
      rcases hx with hx | hx
      · by_cases hi : b.atom_i = j
        · rw [if_pos hi] at hx
          have hxe : x = b.atom_j := by simpa using hx
          rcases hcy with ⟨h1, h2⟩ | ⟨h1, h2⟩ <;> omega
        · rw [if_neg hi] at hx
          simp at hx
      · by_cases hj : b.atom_j = j
        · rw [if_pos hj] at hx
          have hxe : x = b.atom_i := by simpa using hx
          rcases hcy with ⟨h1, h2⟩ | ⟨h1, h2⟩ <;> omega
        · rw [if_neg hj] at hx
          simp at hx

end angle_order

section angle_order_claim

variable {F : Type} [Inhabited F]

/-- C37: when every bond is stored with `atom_i < atom_j` and the bonds are
stored in increasing lexicographic order (as `perceive_bonds` stores them),
every angle triple `(i, j, k)` that `setup` stores has `i < k`. -/
theorem angle_ends_ordered (has_uff_type : String → Bool) (mol : Molecule F)
    (ff : UFFForceField) (hok : setup has_uff_type mol = .ok ff)
    (hord : ∀ b ∈ mol.bonds, b.atom_i < b.atom_j)
    (hsorted : mol.bonds.Pairwise
      (fun b c => b.atom_i < c.atom_i ∨ (b.atom_i = c.atom_i ∧ b.atom_j < c.atom_j))) :
    ∀ a ∈ ff.angles_, a.i < a.k := by
  intro a ha
  rw [(setup_ok has_uff_type mol ff hok).2.1, mem_build_angles] at ha
  exact ordered_pairs_of_pairwise (fun x y => x < y) _
    (neighbor_row_sorted a.j mol.bonds hord hsorted) (a.i, a.k) ha.2

end angle_order_claim

/-- Every angle of ethene, whose bonds are stored in increasing order, has `i < k`. -/
theorem angle_ends_ordered_witness :
    setup no_uff_type ethene = .ok ethene_ff ∧
    (∀ b ∈ ethene.bonds, b.atom_i < b.atom_j) ∧
    ethene.bonds.Pairwise
      (fun b c => b.atom_i < c.atom_i ∨ (b.atom_i = c.atom_i ∧ b.atom_j < c.atom_j)) ∧
    ∀ a ∈ ethene_ff.angles_, a.i < a.k :=
  ⟨by rfl, by decide, by decide,
    angle_ends_ordered no_uff_type ethene ethene_ff (by rfl) (by decide) (by decide)⟩

/-- A chain 0 - 1 - 2 whose bonds are stored as (1, 2), (0, 1): `setup`
succeeds and stores the single angle as `(2, 1, 0)`. -/
theorem angle_ends_follow_bond_order :
    setup no_uff_type chain_stored_backwards =
      .ok ⟨["H_", "O_3", "H_"], [⟨2, 1, 0⟩], [], []⟩ ∧
    ∃ a ∈ [(⟨2, 1, 0⟩ : AngleInfo)], ¬ a.i < a.k :=
  ⟨by rfl, ⟨2, 1, 0⟩, by simp, by decide⟩

/-! ## Torsion gradient: central atoms and degenerate planes -/

section torsion_central_atoms

open Real

/-- C32 fails on hydrogen peroxide: along the second coordinate of the first
oxygen the dihedral has derivative `-3/4` and the torsion energy has derivative
`9/8 * |Vi|`, while `torsion_gradient` adds `-(9/8 * |Vi|)` to that entry: the
vector of a central atom is not `dE/dphi` times the derivative of
`compute_dihedral`. -/
theorem torsion_gradient_central_atom (P : String → UFFAtomType ℝ)
    (hsp3 : |(P "O_3").theta0 - 109.47| < 5) (hV : (1e-10 : ℝ) ≤ |(P "O_3").Vi|) :
    HasDerivAt (fun t : ℝ =>
      compute_dihedral ((peroxide t).atom 0).position ((peroxide t).atom 1).position
        ((peroxide t).atom 2).position ((peroxide t).atom 3).position) (-(3 / 4)) 0 ∧
    HasDerivAt (fun t => torsion_energy P peroxide_ff (peroxide t)) (9 / 8 * |(P "O_3").Vi|) 0 ∧
    (torsion_gradient P peroxide_ff (peroxide 0) (List.replicate 12 0)).getD 4 0 =
      -(9 / 8 * |(P "O_3").Vi|) ∧
    ¬ HasDerivAt (fun t => torsion_energy P peroxide_ff (peroxide t))
      ((torsion_gradient P peroxide_ff (peroxide 0) (List.replicate 12 0)).getD 4 0) 0 := by
  have hE := torsion_energy_deriv P hsp3 hV
  have hg := (torsion_gradient_entry P hsp3 hV (List.replicate 12 0) (by simp)).2
  have hg0 : (torsion_gradient P peroxide_ff (peroxide 0) (List.replicate 12 0)).getD 4 0 =
      -(9 / 8 * |(P "O_3").Vi|) := by
    rw [hg]
    simp
  refine ⟨dihedral_deriv.1, hE, hg0, ?_⟩
  intro h
  rw [hg0] at h
  have huniq := h.unique hE
  have hpos : (0 : ℝ) < |(P "O_3").Vi| := lt_of_lt_of_le (by norm_num) hV
  linarith

/-- With the published "O_3" row the entry is not the derivative of the torsion energy. -/
theorem torsion_gradient_central_atom_witness :
    |(sample_uff_params "O_3").theta0 - 109.47| < 5 ∧
    (1e-10 : ℝ) ≤ |(sample_uff_params "O_3").Vi| ∧
    ¬ HasDerivAt (fun t => torsion_energy sample_uff_params peroxide_ff (peroxide t))
      ((torsion_gradient sample_uff_params peroxide_ff (peroxide 0)
        (List.replicate 12 0)).getD 4 0) 0 :=
  ⟨sample_row_facts.2.2.1, sample_row_facts.2.2.2,
    (torsion_gradient_central_atom sample_uff_params sample_row_facts.2.2.1
      sample_row_facts.2.2.2).2.2.2⟩

end torsion_central_atoms

section degenerate_torsion

open Real

/-- C35 fails on a straight chain H - O - O - H: both normals of the torsion are
zero, `torsion_gradient` returns the gradient unchanged, and `torsion_energy`
still adds `0.5 V (1 - cos (n phi0) cos (n 0))`, which is 0.018 for the
published "O_3" row. -/
theorem degenerate_torsion_energy_not_skipped :
    (((straight_peroxide.atom 1).position.sub (straight_peroxide.atom 0).position).cross
        ((straight_peroxide.atom 2).position.sub (straight_peroxide.atom 1).position)).norm
      < 1e-10 ∧
    (((straight_peroxide.atom 2).position.sub (straight_peroxide.atom 1).position).cross
        ((straight_peroxide.atom 3).position.sub (straight_peroxide.atom 2).position)).norm
      < 1e-10 ∧
    (∀ g : List ℝ, torsion_gradient sample_uff_params peroxide_ff straight_peroxide g = g) ∧
    torsion_energy sample_uff_params peroxide_ff straight_peroxide = 0.018 := by
  have h0 : (straight_peroxide.atom 0).position = ⟨-1, 0, 0⟩ := rfl
  have h1 : (straight_peroxide.atom 1).position = ⟨0, 0, 0⟩ := rfl
  have h2 : (straight_peroxide.atom 2).position = ⟨1, 0, 0⟩ := rfl
  have h3 : (straight_peroxide.atom 3).position = ⟨2, 0, 0⟩ := rfl
  refine ⟨?_, ?_, ?_, ?_⟩
  · rw [h0, h1, h2]
    simp only [Vec3.sub, Vec3.cross, Vec3.norm, Vec3.squaredNorm, arith_sqrt_real]
    norm_num
  · rw [h1, h2, h3]
    simp only [Vec3.sub, Vec3.cross, Vec3.norm, Vec3.squaredNorm, arith_sqrt_real]
    norm_num
  · intro g
    unfold torsion_gradient
    rw [peroxide_torsions, List.foldl_cons, List.foldl_nil]
    unfold torsion_gradient_step
    simp only [h0, h1, h2, h3, Vec3.sub, Vec3.cross, Vec3.squaredNorm]
    rw [if_pos (by left; norm_num)]
  · unfold torsion_energy
    rw [peroxide_torsions, List.foldl_cons, List.foldl_nil, torsion_energy_step_eq]
    have hch := torsion_choice_sp3 (sample_uff_params "O_3") sample_row_facts.2.2.1
    have hphi : compute_dihedral (straight_peroxide.atom 0).position
        (straight_peroxide.atom 1).position (straight_peroxide.atom 2).position
        (straight_peroxide.atom 3).position = 0.0 := by
      rw [h0, h1, h2, h3]
      unfold compute_dihedral
      simp only [Vec3.sub, Vec3.cross, Vec3.norm, Vec3.squaredNorm, arith_sqrt_real]
      rw [if_pos (by left; norm_num)]
    show (if (torsion_choice (sample_uff_params (peroxide_ff.atom_type 1))
        (sample_uff_params (peroxide_ff.atom_type 2))).2.2 < 1e-10 then (0.0 : ℝ) else _) = _
    rw [peroxide_type1, peroxide_type2, hch, hphi]
    simp only [sample_row_facts.1, arith_cos_real, arith_ofInt_real]
    rw [if_neg (by norm_num [abs_of_pos])]
    have hc : Real.cos (((3 : Int) : ℝ) * Real.pi) = -1 := by
      have : (((3 : Int) : ℝ)) = 3 := by norm_num
      rw [this]
      exact cos_three_pi
    rw [hc]
    norm_num [abs_of_pos]

end degenerate_torsion

/-! ## Net force and net torque of the gradient -/

section net_sums

theorem vec3_eq {F : Type} (a b : Vec3 F) (hx : a.x = b.x) (hy : a.y = b.y) (hz : a.z = b.z) :
    a = b := by
  cases a
  cases b
  simp only [Vec3.mk.injEq]
  exact ⟨hx, hy, hz⟩

theorem foldl_preserves {α β γ : Type} (step : List γ → α → List γ) (Q : List γ → β) (m : Nat)
    (l : List α) (hlen : ∀ g x, (step g x).length = g.length)
    (hQ : ∀ x ∈ l, ∀ g : List γ, g.length = m → Q (step g x) = Q g) :
    ∀ g : List γ, g.length = m → Q (l.foldl step g) = Q g := by
  induction l with
  | nil => intro g _; rfl
  | cons x xs ih =>
    intro g hg
    rw [List.foldl_cons, ih (fun y hy => hQ y (List.mem_cons_of_mem _ hy)) (step g x)
      (by rw [hlen, hg]), hQ x (List.mem_cons_self _ _) g hg]

open Real

/-- Net force and net torque of a gradient: adding a vector to the gradient of
atom `i` adds it to the net force and adds its moment to the net torque; the
zero gradient has neither; subtracting a vector is adding its opposite. -/
theorem net_sum_facts (pos : Nat → Vec3 ℝ) :
    (∀ (g : List ℝ) (n i : Nat) (v : Vec3 ℝ), g.length = 3 * n → i < n →
      net_force (segment_add g i v) n = (net_force g n).add v ∧
      net_torque pos (segment_add g i v) n = (net_torque pos g n).add ((pos i).cross v)) ∧
    (∀ n : Nat, net_force (List.replicate (n * 3) (0.0 : ℝ)) n = ⟨0, 0, 0⟩ ∧
      net_torque pos (List.replicate (n * 3) (0.0 : ℝ)) n = ⟨0, 0, 0⟩) ∧
    (∀ (g : List ℝ) (j : Nat) (v : Vec3 ℝ), segment_sub g j v = segment_add g j v.neg) := by
  have hfold : ∀ (f : Nat → Vec3 ℝ) (n : Nat),
      (List.range n).foldl (fun (s : Vec3 ℝ) a => s.add (f a)) (⟨0.0, 0.0, 0.0⟩ : Vec3 ℝ) =
        (⟨∑ a ∈ Finset.range n, (f a).x, ∑ a ∈ Finset.range n, (f a).y,
          ∑ a ∈ Finset.range n, (f a).z⟩ : Vec3 ℝ) := by
    intro f n
    induction n with
    | zero =>
      simp only [List.range_zero, List.foldl_nil, Finset.range_zero, Finset.sum_empty]
      norm_num
    | succ n ih =>
      rw [List.range_succ, List.foldl_append, ih]
      simp only [List.foldl_cons, List.foldl_nil, Vec3.add, Finset.sum_range_succ]
  have hpert : ∀ (T : Nat → Vec3 ℝ → ℝ), (∀ a u v, T a (u.add v) = T a u + T a v) →
      ∀ (G G2 : Nat → Vec3 ℝ) (i n : Nat), i < n → ∀ v : Vec3 ℝ,
      (∀ a, a < n → G2 a = if a = i then (G a).add v else G a) →
      ∑ a ∈ Finset.range n, T a (G2 a) = ∑ a ∈ Finset.range n, T a (G a) + T i v := by
    intro T hT G G2 i n hi v hG
    have h1 : ∀ a ∈ Finset.range n, T a (G2 a) = T a (G a) + if a = i then T i v else 0 := by
      intro a ha
      rw [hG a (Finset.mem_range.mp ha)]
      by_cases h : a = i
      · rw [if_pos h, if_pos h, hT, h]
      · rw [if_neg h, if_neg h, add_zero]
    rw [Finset.sum_congr rfl h1, Finset.sum_add_distrib, Finset.sum_ite_eq',
      if_pos (Finset.mem_range.mpr hi)]
  have hatom : ∀ (g : List ℝ) (a : Nat),
      gradient_of_atom g a = ⟨g.getD (3 * a) 0, g.getD (3 * a + 1) 0, g.getD (3 * a + 2) 0⟩ := by
    intro g a
    unfold gradient_of_atom
    norm_num
  have hseg : ∀ (g : List ℝ) (i a : Nat) (v : Vec3 ℝ), 3 * a + 2 < g.length →
      gradient_of_atom (segment_add g i v) a =
        if a = i then (gradient_of_atom g a).add v else gradient_of_atom g a := by
    intro g i a v ha
    rw [hatom, hatom, getD_segment_add _ _ _ _ (by omega),
      getD_segment_add _ _ _ _ (by omega), getD_segment_add _ _ _ _ ha]
    by_cases h : a = i
    · subst h
      rw [if_pos rfl]
      simp [Vec3.add]
    · rw [if_neg h]
      have e1 : ¬ 3 * i = 3 * a := by omega
      have e2 : ¬ 3 * i + 1 = 3 * a := by omega
      have e3 : ¬ 3 * i + 2 = 3 * a := by omega
      have e4 : ¬ 3 * i = 3 * a + 1 := by omega
      have e5 : ¬ 3 * i + 1 = 3 * a + 1 := by omega
      have e6 : ¬ 3 * i + 2 = 3 * a + 1 := by omega
      have e7 : ¬ 3 * i = 3 * a + 2 := by omega
      have e8 : ¬ 3 * i + 1 = 3 * a + 2 := by omega
      have e9 : ¬ 3 * i + 2 = 3 * a + 2 := by omega
      simp only [e1, e2, e3, e4, e5, e6, e7, e8, e9, if_false, add_zero]
  refine ⟨?_, ?_, ?_⟩
  · intro g n i v hg hi
    have hG : ∀ a, a < n → gradient_of_atom (segment_add g i v) a =
        if a = i then (gradient_of_atom g a).add v else gradient_of_atom g a :=
      fun a ha => hseg g i a v (by omega)
    constructor
    · unfold net_force
      rw [hfold, hfold]
      apply vec3_eq
      · exact hpert (fun _ u => u.x) (fun _ _ _ => rfl) _ _ i n hi v hG
      · exact hpert (fun _ u => u.y) (fun _ _ _ => rfl) _ _ i n hi v hG
      · exact hpert (fun _ u => u.z) (fun _ _ _ => rfl) _ _ i n hi v hG
    · unfold net_torque
      rw [hfold, hfold]
      apply vec3_eq
      · exact hpert (fun a u => ((pos a).cross u).x)
          (fun a u w => by simp only [Vec3.cross, Vec3.add]; ring) _ _ i n hi v hG
      · exact hpert (fun a u => ((pos a).cross u).y)
          (fun a u w => by simp only [Vec3.cross, Vec3.add]; ring) _ _ i n hi v hG
      · exact hpert (fun a u => ((pos a).cross u).z)
          (fun a u w => by simp only [Vec3.cross, Vec3.add]; ring) _ _ i n hi v hG
  · intro n
    have h : ∀ a, gradient_of_atom (List.replicate (n * 3) (0.0 : ℝ)) a = ⟨0, 0, 0⟩ := by
      intro a
      rw [hatom]
      have hk : ∀ k, (List.replicate (n * 3) (0.0 : ℝ)).getD k 0 = 0 := by
        intro k
        rw [List.getD_eq_getElem?_getD, List.getElem?_replicate]
        split_ifs <;> norm_num
      rw [hk, hk, hk]
    constructor
    · unfold net_force
      rw [hfold]
      simp only [h, Finset.sum_const_zero]
    · unfold net_torque
      rw [hfold]
      simp only [h, Vec3.cross, mul_zero, sub_zero, Finset.sum_const_zero]
  · intro g j v
    unfold segment_sub segment_add Vec3.neg
    simp only [sub_eq_add_neg]

variable (P : String → UFFAtomType ℝ) (ff : UFFForceField) (mol : Molecule ℝ)

/-- On a gradient of length 3N every routine leaves the net force unchanged,
and the bond, angle and van der Waals routines leave the net torque unchanged,
when every index stored is an atom of the molecule. -/
theorem gradient_terms_balance (hidx : IndicesValid ff mol) (g : List ℝ)
    (hg : g.length = 3 * mol.num_atoms) :
    (net_force (bond_stretch_gradient P ff mol g) mol.num_atoms = net_force g mol.num_atoms ∧
      net_force (angle_bend_gradient P ff mol g) mol.num_atoms = net_force g mol.num_atoms ∧
      net_force (torsion_gradient P ff mol g) mol.num_atoms = net_force g mol.num_atoms ∧
      net_force (vdw_gradient P ff mol g) mol.num_atoms = net_force g mol.num_atoms) ∧
    (net_torque (fun a => (mol.atom a).position) (bond_stretch_gradient P ff mol g)
        mol.num_atoms =
      net_torque (fun a => (mol.atom a).position) g mol.num_atoms ∧
    net_torque (fun a => (mol.atom a).position) (angle_bend_gradient P ff mol g)
        mol.num_atoms =
      net_torque (fun a => (mol.atom a).position) g mol.num_atoms ∧
    net_torque (fun a => (mol.atom a).position) (vdw_gradient P ff mol g) mol.num_atoms =
      net_torque (fun a => (mol.atom a).position) g mol.num_atoms) := by
  obtain ⟨hb, ha, ht, hp⟩ := hidx
  obtain ⟨hadd, -, hsub⟩ := net_sum_facts (fun a => (mol.atom a).position)
  have hF := fun g2 i v hg2 hi => (hadd g2 mol.num_atoms i v hg2 hi).1
  have hT := fun g2 i v hg2 hi => (hadd g2 mol.num_atoms i v hg2 hi).2
  -- a pair of opposite contributions along the line through the two atoms
  have hpairF : ∀ (g2 : List ℝ) (i j : Nat) (v : Vec3 ℝ), g2.length = 3 * mol.num_atoms →
      i < mol.num_atoms → j < mol.num_atoms →
      net_force (segment_sub (segment_add g2 i v) j v) mol.num_atoms =
        net_force g2 mol.num_atoms := by
    intro g2 i j v hg2 hi hj
    rw [hsub, hF _ _ _ (by rw [length_segment_add]; exact hg2) hj, hF _ _ _ hg2 hi]
    apply vec3_eq <;> simp [Vec3.add, Vec3.neg]
  have hpairT : ∀ (g2 : List ℝ) (i j : Nat) (c r : ℝ), g2.length = 3 * mol.num_atoms →
      i < mol.num_atoms → j < mol.num_atoms →
      net_torque (fun a => (mol.atom a).position)
        (segment_sub (segment_add g2 i
          ((Vec3.smul c ((mol.atom i).position.sub (mol.atom j).position)).sdiv r))
          j ((Vec3.smul c ((mol.atom i).position.sub (mol.atom j).position)).sdiv r))
        mol.num_atoms =
        net_torque (fun a => (mol.atom a).position) g2 mol.num_atoms := by
    intro g2 i j c r hg2 hi hj
    rw [hsub, hT _ _ _ (by rw [length_segment_add]; exact hg2) hj, hT _ _ _ hg2 hi]
    apply vec3_eq <;>
      simp only [Vec3.add, Vec3.smul, Vec3.neg, Vec3.sub, Vec3.sdiv, Vec3.cross] <;> ring
  -- the three contributions of an angle
  have hthreeF : ∀ (g2 : List ℝ) (i j k : Nat) (s : ℝ) (a c : Vec3 ℝ),
      g2.length = 3 * mol.num_atoms → i < mol.num_atoms → j < mol.num_atoms →
      k < mol.num_atoms →
      net_force (segment_add (segment_add (segment_add g2 i (Vec3.smul s a))
        j (Vec3.smul s (a.neg.sub c))) k (Vec3.smul s c)) mol.num_atoms =
        net_force g2 mol.num_atoms := by
    intro g2 i j k s a c hg2 hi hj hk
    rw [hF _ _ _ (by simp [hg2]) hk, hF _ _ _ (by simp [hg2]) hj, hF _ _ _ hg2 hi]
    apply vec3_eq <;> simp only [Vec3.add, Vec3.smul, Vec3.neg, Vec3.sub] <;> ring
  have hthreeT : ∀ (g2 : List ℝ) (i j k : Nat) (s c sn dji djk : ℝ),
      g2.length = 3 * mol.num_atoms → i < mol.num_atoms → j < mol.num_atoms →
      k < mol.num_atoms →
      net_torque (fun a => (mol.atom a).position)
        (segment_add (segment_add (segment_add g2 i
          (Vec3.smul s
            ((((((mol.atom k).position.sub (mol.atom j).position).sdiv djk).sub
              (Vec3.smul c (((mol.atom i).position.sub (mol.atom j).position).sdiv dji))).neg).sdiv
                (dji * sn))))
        j (Vec3.smul s
            (((((((mol.atom k).position.sub (mol.atom j).position).sdiv djk).sub
              (Vec3.smul c
                (((mol.atom i).position.sub (mol.atom j).position).sdiv dji))).neg).sdiv
                  (dji * sn)).neg.sub
              ((((((mol.atom i).position.sub (mol.atom j).position).sdiv dji).sub
                (Vec3.smul c
                  (((mol.atom k).position.sub (mol.atom j).position).sdiv djk))).neg).sdiv
                    (djk * sn)))))
        k (Vec3.smul s
            ((((((mol.atom i).position.sub (mol.atom j).position).sdiv dji).sub
              (Vec3.smul c (((mol.atom k).position.sub (mol.atom j).position).sdiv djk))).neg).sdiv
                (djk * sn)))) mol.num_atoms =
        net_torque (fun a => (mol.atom a).position) g2 mol.num_atoms := by
    intro g2 i j k s c sn dji djk hg2 hi hj hk
    rw [hT _ _ _ (by simp [hg2]) hk, hT _ _ _ (by simp [hg2]) hj, hT _ _ _ hg2 hi]
    apply vec3_eq <;>
      simp only [Vec3.add, Vec3.smul, Vec3.neg, Vec3.sub, Vec3.sdiv, Vec3.cross] <;> ring
  -- the four contributions of a torsion
  have hfourF : ∀ (g2 : List ℝ) (i j k l : Nat) (s u w : ℝ) (d1 d4 : Vec3 ℝ),
      g2.length = 3 * mol.num_atoms → i < mol.num_atoms → j < mol.num_atoms →
      k < mol.num_atoms → l < mol.num_atoms →
      net_force (segment_add (segment_add (segment_add (segment_add g2 i (Vec3.smul s d1))
        j (Vec3.smul s ((Vec3.smul (u - 1.0) d1).sub (Vec3.smul w d4))))
        k (Vec3.smul s ((Vec3.smul (w - 1.0) d4).sub (Vec3.smul u d1)))) l (Vec3.smul s d4))
        mol.num_atoms = net_force g2 mol.num_atoms := by
    intro g2 i j k l s u w d1 d4 hg2 hi hj hk hl
    rw [hF _ _ _ (by simp [hg2]) hl, hF _ _ _ (by simp [hg2]) hk, hF _ _ _ (by simp [hg2]) hj,
      hF _ _ _ hg2 hi]
    apply vec3_eq <;> simp only [Vec3.add, Vec3.smul, Vec3.neg, Vec3.sub] <;> norm_num <;> ring
  refine ⟨⟨?_, ?_, ?_, ?_⟩, ?_, ?_, ?_⟩
  · unfold bond_stretch_gradient
    refine foldl_preserves _ (fun g => net_force g mol.num_atoms) (3 * mol.num_atoms) _
      (length_bond_stretch_gradient_step P ff mol) ?_ g hg
    intro b hbm g2 hg2
    have hmem := bond_mem mol b (List.mem_range.mp hbm)
    show net_force (bond_stretch_gradient_step P ff mol g2 b) mol.num_atoms = _
    unfold bond_stretch_gradient_step
    simp only []
    split_ifs
    · rfl
    · exact hpairF _ _ _ _ hg2 (hb _ hmem).1 (hb _ hmem).2
  · unfold angle_bend_gradient
    refine foldl_preserves _ (fun g => net_force g mol.num_atoms) (3 * mol.num_atoms) _
      (length_angle_bend_gradient_step P ff mol) ?_ g hg
    intro a ham g2 hg2
    show net_force (angle_bend_gradient_step P ff mol g2 a) mol.num_atoms = _
    rw [angle_bend_gradient_step_slope]
    simp only []
    split_ifs
    · rfl
    · rfl
    · exact hthreeF _ _ _ _ _ _ _ hg2 (ha a ham).1 (ha a ham).2.1 (ha a ham).2.2
  · unfold torsion_gradient
    refine foldl_preserves _ (fun g => net_force g mol.num_atoms) (3 * mol.num_atoms) _
      (length_torsion_gradient_step P ff mol) ?_ g hg
    intro t htm g2 hg2
    show net_force (torsion_gradient_step P ff mol g2 t) mol.num_atoms = _
    rw [torsion_gradient_step_eq]
    simp only []
    split_ifs
    · rfl
    · rfl
    · rfl
    · exact hfourF _ _ _ _ _ _ _ _ _ _ hg2 (ht t htm).1 (ht t htm).2.1 (ht t htm).2.2.1
        (ht t htm).2.2.2
  · unfold vdw_gradient
    refine foldl_preserves _ (fun g => net_force g mol.num_atoms) (3 * mol.num_atoms) _
      (length_vdw_gradient_step P ff mol) ?_ g hg
    intro p hpm g2 hg2
    show net_force (vdw_gradient_step P ff mol g2 p) mol.num_atoms = _
    unfold vdw_gradient_step
    simp only []
    split_ifs
    · rfl
    · exact hpairF _ _ _ _ hg2 (hp p hpm).1 (hp p hpm).2
  · unfold bond_stretch_gradient
    refine foldl_preserves _
      (fun g => net_torque (fun a => (mol.atom a).position) g mol.num_atoms)
      (3 * mol.num_atoms) _ (length_bond_stretch_gradient_step P ff mol) ?_ g hg
    intro b hbm g2 hg2
    have hmem := bond_mem mol b (List.mem_range.mp hbm)
    show net_torque _ (bond_stretch_gradient_step P ff mol g2 b) mol.num_atoms = _
    unfold bond_stretch_gradient_step
    simp only []
    split_ifs
    · rfl
    · exact hpairT _ _ _ _ _ hg2 (hb _ hmem).1 (hb _ hmem).2
  · unfold angle_bend_gradient
    refine foldl_preserves _
      (fun g => net_torque (fun a => (mol.atom a).position) g mol.num_atoms)
      (3 * mol.num_atoms) _ (length_angle_bend_gradient_step P ff mol) ?_ g hg
    intro a ham g2 hg2
    show net_torque _ (angle_bend_gradient_step P ff mol g2 a) mol.num_atoms = _
    rw [angle_bend_gradient_step_slope]
    simp only []
    split_ifs
    · rfl
    · rfl
    · exact hthreeT _ _ _ _ _ _ _ _ _ hg2 (ha a ham).1 (ha a ham).2.1 (ha a ham).2.2
  · unfold vdw_gradient
    refine foldl_preserves _
      (fun g => net_torque (fun a => (mol.atom a).position) g mol.num_atoms)
      (3 * mol.num_atoms) _ (length_vdw_gradient_step P ff mol) ?_ g hg
    intro p hpm g2 hg2
    show net_torque _ (vdw_gradient_step P ff mol g2 p) mol.num_atoms = _
    unfold vdw_gradient_step
    simp only []
    split_ifs
    · rfl
    · exact hpairT _ _ _ _ _ hg2 (hp p hpm).1 (hp p hpm).2

end net_sums

section indices_from_setup

variable {F : Type} [Inhabited F]

/-- After `setup` on a molecule whose bonds have valid endpoints, every index
stored in the evaluator is an atom of the molecule. -/
theorem setup_indices_valid (has_uff_type : String → Bool) (mol : Molecule F)
    (ff : UFFForceField) (hok : setup has_uff_type mol = .ok ff) (hv : ValidBonds mol) :
    IndicesValid ff mol := by
  obtain ⟨-, hang, htor, hnb⟩ := setup_ok has_uff_type mol ff hok
  have hrow : ∀ j n, n ∈ neighbor_row mol.bonds j → n < mol.num_atoms := by
    intro j n hn
    rw [mem_neighbor_row] at hn
    obtain ⟨b, hb, ⟨-, h2⟩ | ⟨h1, -⟩⟩ := hn
    · rw [← h2]; exact (hv b hb).2
    · rw [← h1]; exact (hv b hb).1
  refine ⟨hv, ?_, ?_, ?_⟩
  · intro a ha
    rw [hang, mem_build_angles] at ha
    have hp := mem_ordered_pairs _ _ ha.2
    exact ⟨hrow _ _ hp.1, ha.1, hrow _ _ hp.2⟩
  · intro t ht
    rw [htor, mem_build_torsions mol hv] at ht
    obtain ⟨⟨b, hb, hbi, hbj⟩, hi, -, hl, -, -⟩ := ht
    exact ⟨hrow _ _ hi, by rw [← hbi]; exact (hv b hb).1, by rw [← hbj]; exact (hv b hb).2,
      hrow _ _ hl⟩
  · intro p hp
    rw [hnb] at hp
    have h := (mem_build_nonbonded _ _ p.1 p.2).mp hp
    exact ⟨by omega, h.2.1⟩

end indices_from_setup

section net_force_claim

open Real

variable (P : String → UFFAtomType ℝ) (ff : UFFForceField) (mol : Molecule ℝ)

end net_force_claim

section net_torque_claim

open Real

set_option maxHeartbeats 1000000 in
/-- C33 fails on hydrogen peroxide: the bond, angle and van der Waals routines
leave the net torque of the gradient unchanged on every typed molecule, but the
four vectors `torsion_gradient` adds for the torsion H-O-O-H have the net
moment `(0, -9/4 |Vi|, 9/4 |Vi|)`, and so has the gradient returned by
`calculate_gradient`. -/
theorem torsion_exerts_net_torque (P : String → UFFAtomType ℝ) (has_uff_type : String → Bool)
    (hsp3 : |(P "O_3").theta0 - 109.47| < 5) (hV : (1e-10 : ℝ) ≤ |(P "O_3").Vi|) :
    setup has_uff_type (peroxide 0) = .ok peroxide_ff ∧
    (∀ (ff : UFFForceField) (mol : Molecule ℝ), setup has_uff_type mol = .ok ff →
      ValidBonds mol → ∀ g : List ℝ, g.length = 3 * mol.num_atoms →
        net_torque (fun a => (mol.atom a).position) (bond_stretch_gradient P ff mol g)
            mol.num_atoms =
          net_torque (fun a => (mol.atom a).position) g mol.num_atoms ∧
        net_torque (fun a => (mol.atom a).position) (angle_bend_gradient P ff mol g)
            mol.num_atoms =
          net_torque (fun a => (mol.atom a).position) g mol.num_atoms ∧
        net_torque (fun a => (mol.atom a).position) (vdw_gradient P ff mol g) mol.num_atoms =
          net_torque (fun a => (mol.atom a).position) g mol.num_atoms) ∧
    net_torque (fun a => ((peroxide 0).atom a).position)
        (torsion_gradient P peroxide_ff (peroxide 0) (List.replicate 12 0))
        (peroxide 0).num_atoms =
      ⟨0, -(9 / 4 * |(P "O_3").Vi|), 9 / 4 * |(P "O_3").Vi|⟩ ∧
    net_torque (fun a => ((peroxide 0).atom a).position)
        (calculate_gradient P peroxide_ff (peroxide 0)) (peroxide 0).num_atoms =
      ⟨0, -(9 / 4 * |(P "O_3").Vi|), 9 / 4 * |(P "O_3").Vi|⟩ ∧
    net_torque (fun a => ((peroxide 0).atom a).position)
        (calculate_gradient P peroxide_ff (peroxide 0)) (peroxide 0).num_atoms ≠ ⟨0, 0, 0⟩ := by
  have hphi : compute_dihedral (⟨-3/5, -4/5, 0⟩ : Vec3 ℝ) ⟨0, 0, 0⟩ ⟨1, 0, 0⟩ ⟨8/5, 0, 4/5⟩ =
      -(π / 2) := by
    have h16 : √(16 : ℝ) = 4 := by
      rw [show (16 : ℝ) = 4 * 4 by norm_num, Real.sqrt_mul_self (by norm_num)]
    have h25 : √(25 : ℝ) = 5 := by
      rw [show (25 : ℝ) = 5 * 5 by norm_num, Real.sqrt_mul_self (by norm_num)]
    have hcl : fmax (-1) (fmin 1 (0 : ℝ)) = 0 := by
      unfold fmax fmin
      norm_num
    unfold compute_dihedral
    simp only [Vec3.sub, Vec3.cross, Vec3.dot, Vec3.norm, Vec3.squaredNorm, Vec3.sdiv,
      arith_sqrt_real, arith_acos_real]
    norm_num
    rw [h16, h25, hcl, Real.arccos_zero, if_neg (by norm_num), if_pos (by norm_num)]
  have peroxide_torque : ∀ g : List ℝ, g.length = 3 * 4 →
      net_torque (fun a => ((peroxide 0).atom a).position)
          (torsion_gradient P peroxide_ff (peroxide 0) g) 4 =
        (net_torque (fun a => ((peroxide 0).atom a).position) g 4).add
          ⟨0, -(9 / 4 * |(P "O_3").Vi|), 9 / 4 * |(P "O_3").Vi|⟩ := by
    intro g hg
    unfold torsion_gradient
    rw [peroxide_torsions, List.foldl_cons, List.foldl_nil, torsion_gradient_step_eq]
    simp only [peroxide_type1, peroxide_type2, torsion_choice_sp3 _ hsp3, peroxide_positions.1,
      peroxide_positions.2.1, peroxide_positions.2.2.1, peroxide_positions.2.2.2, arith_cos_real, arith_sin_real,
      arith_ofInt_real, hphi]
    have e3 : (((3 : ℤ) : ℝ)) = 3 := by norm_num
    rw [e3, cos_three_pi, sin_neg_three_half_pi]
    simp only [Vec3.sub, Vec3.cross, Vec3.dot, Vec3.norm, Vec3.squaredNorm, Vec3.smul,
      arith_sqrt_real]
    have hb2 : √((1 - 0) * (1 - 0) + (0 - 0) * (0 - 0) + (0 - 0) * (0 - 0) : ℝ) = 1 := by
      rw [show ((1 - 0) * (1 - 0) + (0 - 0) * (0 - 0) + (0 - 0) * (0 - 0) : ℝ) = 1 by norm_num]
      exact Real.sqrt_one
    rw [hb2]
    have hg1 : ¬ ((((0 - -4 / 5) * (0 - 0) - (0 - 0) * (0 - 0)) *
        ((0 - -4 / 5) * (0 - 0) - (0 - 0) * (0 - 0)) +
        ((0 - 0) * (1 - 0) - (0 - -3 / 5) * (0 - 0)) * ((0 - 0) * (1 - 0) - (0 - -3 / 5) * (0 - 0)) +
        ((0 - -3 / 5) * (0 - 0) - (0 - -4 / 5) * (1 - 0)) *
          ((0 - -3 / 5) * (0 - 0) - (0 - -4 / 5) * (1 - 0)) < (1e-20 : ℝ)) ∨
        (((0 - 0) * (4 / 5 - 0) - (0 - 0) * (0 - 0)) * ((0 - 0) * (4 / 5 - 0) - (0 - 0) * (0 - 0)) +
        ((0 - 0) * (8 / 5 - 1) - (1 - 0) * (4 / 5 - 0)) * ((0 - 0) * (8 / 5 - 1) - (1 - 0) * (4 / 5 - 0)) +
        ((1 - 0) * (0 - 0) - (0 - 0) * (8 / 5 - 1)) * ((1 - 0) * (0 - 0) - (0 - 0) * (8 / 5 - 1)) <
          (1e-20 : ℝ))) := by
      norm_num
    have hg2 : ¬ ((1 : ℝ) < 1e-10) := by norm_num
    rw [if_neg hg1, if_neg hg2, if_neg (not_lt.2 hV)]
    have hT := fun g2 i v hg2 hi =>
      ((net_sum_facts (fun a => ((peroxide 0).atom a).position)).1 g2 4 i v hg2 hi).2
    rw [hT _ _ _ (by simp [hg]) (by norm_num), hT _ _ _ (by simp [hg]) (by norm_num),
      hT _ _ _ (by simp [hg]) (by norm_num), hT _ _ _ hg (by norm_num)]
    simp only [peroxide_positions.1, peroxide_positions.2.1, peroxide_positions.2.2.1, peroxide_positions.2.2.2]
    apply vec3_eq <;> simp only [Vec3.add, Vec3.cross] <;> norm_num <;> ring
  have hn : (peroxide 0).num_atoms = 4 := rfl
  have hidx : IndicesValid peroxide_ff (peroxide 0) := peroxide_indices
  have hz : net_torque (fun a => ((peroxide 0).atom a).position)
      (List.replicate ((peroxide 0).num_atoms * 3) (0.0 : ℝ)) (peroxide 0).num_atoms =
      ⟨0, 0, 0⟩ := ((net_sum_facts _).2.1 _).2
  have h0 : (List.replicate ((peroxide 0).num_atoms * 3) (0.0 : ℝ)).length =
      3 * (peroxide 0).num_atoms := by
    rw [List.length_replicate]
    omega
  have h1 : (bond_stretch_gradient P peroxide_ff (peroxide 0)
      (List.replicate ((peroxide 0).num_atoms * 3) (0.0 : ℝ))).length =
      3 * (peroxide 0).num_atoms := by
    unfold bond_stretch_gradient
    rw [length_foldl_step _ (length_bond_stretch_gradient_step P peroxide_ff (peroxide 0)), h0]
  have h2 : (angle_bend_gradient P peroxide_ff (peroxide 0)
      (bond_stretch_gradient P peroxide_ff (peroxide 0)
        (List.replicate ((peroxide 0).num_atoms * 3) (0.0 : ℝ)))).length =
      3 * (peroxide 0).num_atoms := by
    unfold angle_bend_gradient
    rw [length_foldl_step _ (length_angle_bend_gradient_step P peroxide_ff (peroxide 0)), h1]
  have h3 : (torsion_gradient P peroxide_ff (peroxide 0)
      (angle_bend_gradient P peroxide_ff (peroxide 0)
        (bond_stretch_gradient P peroxide_ff (peroxide 0)
          (List.replicate ((peroxide 0).num_atoms * 3) (0.0 : ℝ))))).length =
      3 * (peroxide 0).num_atoms := by
    unfold torsion_gradient
    rw [length_foldl_step _ (length_torsion_gradient_step P peroxide_ff (peroxide 0)), h2]
  have hpos : (0 : ℝ) < |(P "O_3").Vi| := lt_of_lt_of_le (by norm_num) hV
  have htor : net_torque (fun a => ((peroxide 0).atom a).position)
      (torsion_gradient P peroxide_ff (peroxide 0) (List.replicate 12 0))
      (peroxide 0).num_atoms =
      ⟨0, -(9 / 4 * |(P "O_3").Vi|), 9 / 4 * |(P "O_3").Vi|⟩ := by
    have hz2 : net_torque (fun a => ((peroxide 0).atom a).position)
        (List.replicate 12 (0 : ℝ)) 4 = ⟨0, 0, 0⟩ := by
      have h := ((net_sum_facts (fun a => ((peroxide 0).atom a).position)).2.1 4).2
      norm_num at h
      exact h
    rw [hn, peroxide_torque _ (by simp), hz2]
    apply vec3_eq <;> simp [Vec3.add]
  have hall : net_torque (fun a => ((peroxide 0).atom a).position)
      (calculate_gradient P peroxide_ff (peroxide 0)) (peroxide 0).num_atoms =
      ⟨0, -(9 / 4 * |(P "O_3").Vi|), 9 / 4 * |(P "O_3").Vi|⟩ := by
    unfold calculate_gradient
    simp only []
    rw [(gradient_terms_balance P peroxide_ff (peroxide 0) hidx _ h3).2.2.2]
    have ht : net_torque (fun a => ((peroxide 0).atom a).position)
        (torsion_gradient P peroxide_ff (peroxide 0)
          (angle_bend_gradient P peroxide_ff (peroxide 0)
            (bond_stretch_gradient P peroxide_ff (peroxide 0)
              (List.replicate ((peroxide 0).num_atoms * 3) (0.0 : ℝ)))))
        (peroxide 0).num_atoms =
        (net_torque (fun a => ((peroxide 0).atom a).position)
          (angle_bend_gradient P peroxide_ff (peroxide 0)
            (bond_stretch_gradient P peroxide_ff (peroxide 0)
              (List.replicate ((peroxide 0).num_atoms * 3) (0.0 : ℝ))))
          (peroxide 0).num_atoms).add
          ⟨0, -(9 / 4 * |(P "O_3").Vi|), 9 / 4 * |(P "O_3").Vi|⟩ :=
      peroxide_torque
        (angle_bend_gradient P peroxide_ff (peroxide 0)
          (bond_stretch_gradient P peroxide_ff (peroxide 0)
            (List.replicate ((peroxide 0).num_atoms * 3) (0.0 : ℝ)))) h2
    rw [(gradient_terms_balance P peroxide_ff (peroxide 0) hidx _ h1).2.2.1,
      (gradient_terms_balance P peroxide_ff (peroxide 0) hidx _ h0).2.1, hz] at ht
    rw [ht]
    apply vec3_eq <;> simp [Vec3.add]
  refine ⟨peroxide_setup has_uff_type 0, ?_, htor, hall, ?_⟩
  · intro ff mol hok hv g hg
    exact (gradient_terms_balance P ff mol (setup_indices_valid has_uff_type mol ff hok hv) g hg).2
  · rw [hall]
    intro h
    have hz3 := congrArg Vec3.z h
    simp only at hz3
    linarith

/-- With the published "O_3" row the gradient of hydrogen peroxide has a net torque. -/
theorem torsion_exerts_net_torque_witness :
    |(sample_uff_params "O_3").theta0 - 109.47| < 5 ∧
    (1e-10 : ℝ) ≤ |(sample_uff_params "O_3").Vi| ∧
    net_torque (fun a => ((peroxide 0).atom a).position)
        (calculate_gradient sample_uff_params peroxide_ff (peroxide 0))
        (peroxide 0).num_atoms ≠ ⟨0, 0, 0⟩ :=
  ⟨sample_row_facts.2.2.1, sample_row_facts.2.2.2,
    (torsion_exerts_net_torque sample_uff_params no_uff_type sample_row_facts.2.2.1
      sample_row_facts.2.2.2).2.2.2.2⟩

end net_torque_claim

end chemsim
